import Mathlib

/-!
# Certificate rotator

A shallow embedding of `pkg/rotator/rotator.go` (cert-controller, vendored in the
policy controller) together with theorems about its rotation logic.

Conventions of the embedding

* Byte slices are lists of naturals; a nil slice and an empty slice are both `[]`
  (the code only ever takes their length or passes them on).
* `time.Time` is an integer count of nanoseconds, `time.Duration` likewise.
* Everything the code reaches outside of its own file (the controller-runtime
  client, the clock, `crypto/rsa`, `crypto/x509`, `crypto/tls`, `encoding/pem`) is a
  field of the record `Env`; the functions of the rotator take such a record.  The
  external state (object store, random source, clock) is an arbitrary type `σ`.
* Stateful functions pass a state `St σ` explicitly.  Besides the external state it
  carries a trace of the observable actions (client calls, key and certificate
  generation, log lines, process exit, and each entry into `refreshCerts` with its
  flag), appended in program order.
-/

namespace Rotator

/-! ## Basic types -/

abbrev Bytes := List Nat

abbrev Time := Int

abbrev Duration := Int

def Millisecond : Duration := 1000000

def Second : Duration := 1000 * Millisecond

def Hour : Duration := 3600 * Second

abbrev certName : String := "tls.crt"

abbrev keyName : String := "tls.key"

abbrev caCertName : String := "ca.crt"

abbrev caKeyName : String := "ca.key"

def rotationCheckFrequency : Duration := 12 * Hour

def certValidityDuration : Duration := 10 * 365 * 24 * Hour

/-- Go error values: `errors.New`, `errors.Wrap`, and the errors handed back by the
API client (a not-found status, or any other status identified by a number). -/
inductive Err where
  | new (msg : String)
  | wrap (cause : Err) (msg : String)
  | notFound (name : String)
  | status (code : Nat)
  deriving DecidableEq

/-- The test `k8sErrors.IsNotFound`. -/
def Err.IsNotFound : Err → Bool
  | Err.notFound _ => true
  | _ => false

structure NamespacedName where
  Namespace : String
  Name : String
  deriving DecidableEq

/-- The part of `corev1.Secret` the rotator touches.  `Data` is a Go map and may be nil;
`DeletionTimestamp` is a pointer and may be nil. -/
structure Secret where
  Key : NamespacedName
  Data : Option (List (String × Bytes))
  DeletionTimestamp : Option Time := none
  deriving DecidableEq

/-- Map read with presence flag, `v, ok := m[k]`; a nil map has no key. -/
def mapLookup (d : Option (List (String × Bytes))) (k : String) : Option Bytes :=
  match d with
  | none => none
  | some m => m.lookup k

/-- Map read `m[k]`: the zero value (an empty slice) when the key is missing. -/
def mapIndex (d : Option (List (String × Bytes))) (k : String) : Bytes :=
  (mapLookup d k).getD []

/-- Map write `m[k] = v` on a non-nil map. -/
def mapSet (m : List (String × Bytes)) (k : String) (v : Bytes) : List (String × Bytes) :=
  (k, v) :: m.filter (fun p => p.1 != k)

inductive WebhookType where
  | Validating
  | Mutating
  | CRDConversion
  deriving DecidableEq

structure WebhookInfo where
  Name : String
  Typ : WebhookType
  deriving DecidableEq

/-! ## Library types -/

structure PublicKey where
  N : Nat
  deriving DecidableEq

structure PrivateKey where
  PublicKey : PublicKey
  D : Nat
  deriving DecidableEq

def PrivateKey.Public (k : PrivateKey) : Rotator.PublicKey := k.PublicKey

/-- The fields of `pkix.Name` the rotator fills. -/
structure Name where
  CommonName : String
  Organization : List String
  deriving DecidableEq

def KeyUsageDigitalSignature : Nat := 1

def KeyUsageKeyEncipherment : Nat := 4

def KeyUsageCertSign : Nat := 32

def ExtKeyUsageServerAuth : Nat := 1

/-- The fields of `x509.Certificate` that the rotator sets in its templates, the
public key, the raw encoding and the DNS name constraints (none in a template). -/
structure Certificate where
  SerialNumber : Int
  Subject : Name
  DNSNames : List String
  NotBefore : Time
  NotAfter : Time
  KeyUsage : Nat
  ExtKeyUsage : List Nat
  BasicConstraintsValid : Bool
  IsCA : Bool
  PublicKey : Option PublicKey
  Raw : Bytes
  PermittedDNSDomains : List String := []
  ExcludedDNSDomains : List String := []
  deriving DecidableEq

/-- Source (crypto/x509): the validity bounds of a certificate are written with whole
seconds; the part of an instant below the second is dropped. -/
def floorSecond (t : Time) : Time := t - t % Second

/-- Source (crypto/x509, `CheckSignatureFrom` and the issuer checks of `Verify`): the
conditions under which a certificate is taken as issuer of another: basic constraints
present with the CA flag, a key usage that is absent or allows certificate signing, and no
DNS name constraint. -/
def mayIssue (c : Certificate) : Bool :=
  c.BasicConstraintsValid && c.IsCA &&
    (c.KeyUsage == 0 || (c.KeyUsage &&& KeyUsageCertSign) != 0) &&
    c.PermittedDNSDomains.isEmpty && c.ExcludedDNSDomains.isEmpty

/-- A `pem.Block` (type and payload). -/
structure Block where
  Typ : String
  Bytes : Bytes
  deriving DecidableEq

structure VerifyOptions where
  DNSName : String
  Roots : List Certificate
  CurrentTime : Time
  deriving DecidableEq

/-- Source: `KeyPairArtifacts` stores cert artifacts. -/
structure KeyPairArtifacts where
  Cert : Certificate
  Key : PrivateKey
  CertPEM : Bytes
  KeyPEM : Bytes
  deriving DecidableEq

/-- The exported configuration fields of `CertRotator`. -/
structure CertRotator where
  SecretKey : NamespacedName
  CertDir : String
  CAName : String
  CAOrganization : String
  DNSName : String
  Webhooks : List WebhookInfo
  deriving DecidableEq

/-! ## The environment -/

/-- Everything the rotator calls outside of its own file.  Calls that touch the object
store, the random source or the clock transform the external state `σ`. -/
structure Env (σ : Type) where
  client_Get : NamespacedName → σ → Except Err Secret × σ
  client_Update : Secret → σ → Option Err × σ
  time_Now : σ → Time × σ
  rsa_GenerateKey : Nat → σ → Except Err PrivateKey × σ
  x509_CreateCertificate :
    Certificate → Certificate → PublicKey → PrivateKey → σ → Except Err Bytes × σ
  x509_MarshalPKCS1PrivateKey : PrivateKey → Bytes
  x509_ParsePKCS1PrivateKey : Bytes → Except Err PrivateKey
  x509_ParseCertificate : Bytes → Except Err Certificate
  x509_Verify : Certificate → VerifyOptions → Except Err Unit
  tls_X509KeyPair : Bytes → Bytes → Except Err Unit
  pem_Encode : Block → Except Err Bytes
  pem_Decode : Bytes → Option Block

/-- Observable actions, in program order. -/
inductive Event where
  | clientGet (key : NamespacedName)
  | clientUpdate (secret : Secret) (result : Option Err)
  | generateKey
  | createCertificate (template : Certificate)
  | refreshCerts (refreshCA : Bool)
  | info (msg : String)
  | error (err : Err) (msg : String)
  | osExit (code : Int)
  | spawn (name : String)
  | newTicker (d : Duration)
  | tickerStop
  deriving DecidableEq

structure St (σ : Type) where
  ext : σ
  trace : List Event

def emit {σ : Type} (e : Event) (st : St σ) : St σ :=
  { st with trace := st.trace ++ [e] }

def clientGet {σ : Type} (env : Env σ) (key : NamespacedName) (st : St σ) :
    Except Err Secret × St σ :=
  let r := env.client_Get key st.ext
  (r.1, { ext := r.2, trace := st.trace ++ [Event.clientGet key] })

def clientUpdate {σ : Type} (env : Env σ) (secret : Secret) (st : St σ) :
    Option Err × St σ :=
  let r := env.client_Update secret st.ext
  (r.1, { ext := r.2, trace := st.trace ++ [Event.clientUpdate secret r.1] })

def timeNow {σ : Type} (env : Env σ) (st : St σ) : Time × St σ :=
  let r := env.time_Now st.ext
  (r.1, { st with ext := r.2 })

def generateKey {σ : Type} (env : Env σ) (bits : Nat) (st : St σ) :
    Except Err PrivateKey × St σ :=
  let r := env.rsa_GenerateKey bits st.ext
  (r.1, { ext := r.2, trace := st.trace ++ [Event.generateKey] })

def createCertificate {σ : Type} (env : Env σ) (template parent : Certificate)
    (pub : PublicKey) (priv : PrivateKey) (st : St σ) : Except Err Bytes × St σ :=
  let r := env.x509_CreateCertificate template parent pub priv st.ext
  (r.1, { ext := r.2, trace := st.trace ++ [Event.createCertificate template] })

/-! ## The rotator -/

/-- Source: `pemEncode` takes a certificate and encodes it as PEM. -/
def pemEncode {σ : Type} (env : Env σ) (certificateDER : Bytes) (key : PrivateKey) :
    Except Err (Bytes × Bytes) :=
  match env.pem_Encode { Typ := "CERTIFICATE", Bytes := certificateDER } with
  | Except.error err => Except.error (Err.wrap err "encoding cert")
  | Except.ok certBuf =>
    match env.pem_Encode
        { Typ := "RSA PRIVATE KEY", Bytes := env.x509_MarshalPKCS1PrivateKey key } with
    | Except.error err => Except.error (Err.wrap err "encoding key")
    | Except.ok keyBuf => Except.ok (certBuf, keyBuf)

/-- The template that `createCACert` fills in at instant `now`. -/
def caTemplate (cr : CertRotator) (now : Time) : Certificate :=
  { SerialNumber := 0
    Subject := { CommonName := cr.CAName, Organization := [cr.CAOrganization] }
    DNSNames := [cr.CAName]
    NotBefore := now + (-1) * Hour
    NotAfter := now + certValidityDuration
    KeyUsage := KeyUsageDigitalSignature ||| KeyUsageKeyEncipherment ||| KeyUsageCertSign
    ExtKeyUsage := []
    BasicConstraintsValid := true
    IsCA := true
    PublicKey := none
    Raw := [] }

/-- Source: `createCACert` creates the self-signed CA cert and private key that will
be used to sign the server certificate. -/
def createCACert {σ : Type} (env : Env σ) (cr : CertRotator) (st : St σ) :
    Except Err KeyPairArtifacts × St σ :=
  let now := timeNow env st
  let templ := caTemplate cr now.1
  match generateKey env 2048 now.2 with
  | (Except.error err, st1) => (Except.error (Err.wrap err "generating key"), st1)
  | (Except.ok key, st1) =>
    match createCertificate env templ templ key.Public key st1 with
    | (Except.error err, st2) => (Except.error (Err.wrap err "creating certificate"), st2)
    | (Except.ok der, st2) =>
      match pemEncode env der key with
      | Except.error err => (Except.error (Err.wrap err "encoding PEM"), st2)
      | Except.ok (certPEM, keyPEM) =>
        match env.x509_ParseCertificate der with
        | Except.error err => (Except.error (Err.wrap err "parsing certificate"), st2)
        | Except.ok cert =>
          (Except.ok { Cert := cert, Key := key, CertPEM := certPEM, KeyPEM := keyPEM }, st2)

/-- The template that `createCertPEM` fills in at instant `now`. -/
def leafTemplate (cr : CertRotator) (now : Time) : Certificate :=
  { SerialNumber := 1
    Subject := { CommonName := cr.DNSName, Organization := [] }
    DNSNames := [cr.DNSName]
    NotBefore := now + (-1) * Hour
    NotAfter := now + certValidityDuration
    KeyUsage := KeyUsageDigitalSignature ||| KeyUsageKeyEncipherment
    ExtKeyUsage := [ExtKeyUsageServerAuth]
    BasicConstraintsValid := true
    IsCA := false
    PublicKey := none
    Raw := [] }

/-- Source: `createCertPEM` takes the results of `createCACert` and uses it to create
the PEM-encoded public certificate and private key, respectively. -/
def createCertPEM {σ : Type} (env : Env σ) (cr : CertRotator) (ca : KeyPairArtifacts)
    (st : St σ) : Except Err (Bytes × Bytes) × St σ :=
  let now := timeNow env st
  let templ := leafTemplate cr now.1
  match generateKey env 2048 now.2 with
  | (Except.error err, st1) => (Except.error (Err.wrap err "generating key"), st1)
  | (Except.ok key, st1) =>
    match createCertificate env templ ca.Cert key.Public ca.Key st1 with
    | (Except.error err, st2) => (Except.error (Err.wrap err "creating certificate"), st2)
    | (Except.ok der, st2) =>
      match pemEncode env der key with
      | Except.error err => (Except.error (Err.wrap err "encoding PEM"), st2)
      | Except.ok (certPEM, keyPEM) => (Except.ok (certPEM, keyPEM), st2)

/-- Source: `populateSecret`. -/
def populateSecret (cert key : Bytes) (caArtifacts : KeyPairArtifacts) (secret : Secret) :
    Secret :=
  let data : List (String × Bytes) :=
    match secret.Data with
    | none => []
    | some m => m
  { secret with
    Data := some (mapSet (mapSet (mapSet (mapSet data caCertName caArtifacts.CertPEM)
      caKeyName caArtifacts.KeyPEM) certName cert) keyName key) }

/-- Source: `buildArtifactsFromSecret`. -/
def buildArtifactsFromSecret {σ : Type} (env : Env σ) (secret : Secret) :
    Except Err KeyPairArtifacts :=
  match mapLookup secret.Data caCertName with
  | none => Except.error (Err.new "Cert secret is not well-formed, missing ca.crt")
  | some caPem =>
    match mapLookup secret.Data caKeyName with
    | none => Except.error (Err.new "Cert secret is not well-formed, missing ca.key")
    | some keyPem =>
      match env.pem_Decode caPem with
      | none => Except.error (Err.new "bad CA cert")
      | some caDer =>
        match env.x509_ParseCertificate caDer.Bytes with
        | Except.error err => Except.error (Err.wrap err "while parsing CA cert")
        | Except.ok caCert =>
          match env.pem_Decode keyPem with
          | none => Except.error (Err.new "bad CA cert")
          | some keyDer =>
            match env.x509_ParsePKCS1PrivateKey keyDer.Bytes with
            | Except.error err => Except.error (Err.wrap err "while parsing CA key")
            | Except.ok key =>
              Except.ok { Cert := caCert, CertPEM := caPem, KeyPEM := keyPem, Key := key }

/-- Source: `writeSecret`. -/
def writeSecret {σ : Type} (env : Env σ) (cert key : Bytes) (caArtifacts : KeyPairArtifacts)
    (secret : Secret) (st : St σ) : Option Err × St σ :=
  clientUpdate env (populateSecret cert key caArtifacts secret) st

/-- Source: `refreshCerts`. -/
def refreshCerts {σ : Type} (env : Env σ) (cr : CertRotator) (refreshCA : Bool)
    (secret : Secret) (st : St σ) : Option Err × St σ :=
  let st0 := emit (Event.refreshCerts refreshCA) st
  let caArtifacts : Except Err KeyPairArtifacts × St σ :=
    if refreshCA then createCACert env cr st0 else (buildArtifactsFromSecret env secret, st0)
  match caArtifacts with
  | (Except.error err, st1) => (some err, st1)
  | (Except.ok ca, st1) =>
    match createCertPEM env cr ca st1 with
    | (Except.error err, st2) => (some err, st2)
    | (Except.ok (cert, key), st2) => writeSecret env cert key ca secret st2

/-- Source: `lookaheadTime`. -/
def lookaheadTime {σ : Type} (env : Env σ) (st : St σ) : Time × St σ :=
  let now := timeNow env st
  (now.1 + 90 * 24 * Hour, now.2)

/-- Source: `validCert`, returning the pair of Go results. -/
def validCert {σ : Type} (env : Env σ) (caCert cert key : Bytes) (dnsName : String)
    (atTime : Time) : Bool × Option Err :=
  if caCert.length = 0 ∨ cert.length = 0 ∨ key.length = 0 then
    (false, some (Err.new "empty cert"))
  else
    match env.pem_Decode caCert with
    | none => (false, some (Err.new "bad CA cert"))
    | some caDer =>
      match env.x509_ParseCertificate caDer.Bytes with
      | Except.error err => (false, some (Err.wrap err "parsing CA cert"))
      | Except.ok cac =>
        match env.tls_X509KeyPair cert key with
        | Except.error err => (false, some (Err.wrap err "building key pair"))
        | Except.ok _ =>
          match env.pem_Decode cert with
          | none => (false, some (Err.new "bad private key"))
          | some b =>
            match env.x509_ParseCertificate b.Bytes with
            | Except.error err => (false, some (Err.wrap err "parsing cert"))
            | Except.ok crt =>
              match env.x509_Verify crt
                  { DNSName := dnsName, Roots := [cac], CurrentTime := atTime } with
              | Except.error err => (false, some (Err.wrap err "verifying cert"))
              | Except.ok _ => (true, none)

/-- Source: `validServerCert`. -/
def validServerCert {σ : Type} (env : Env σ) (cr : CertRotator) (caCert cert key : Bytes)
    (st : St σ) : Bool × St σ :=
  let t := lookaheadTime env st
  match validCert env caCert cert key cr.DNSName t.1 with
  | (_, some _) => (false, t.2)
  | (valid, none) => (valid, t.2)

/-- Source: `validCACert`. -/
def validCACert {σ : Type} (env : Env σ) (cr : CertRotator) (cert key : Bytes)
    (st : St σ) : Bool × St σ :=
  let t := lookaheadTime env st
  match validCert env cert cert key cr.CAName t.1 with
  | (_, some _) => (false, t.2)
  | (valid, none) => (valid, t.2)

/-- What one run of the retried function yields: the pair of Go results, or the end of
the process in `os.Exit`. -/
inductive CondResult where
  | ret (done : Bool) (err : Option Err)
  | exit (code : Int)
  deriving DecidableEq

/-- How a call ends: it returns (with an error or nil) or the process exits in it. -/
inductive Outcome where
  | returned (err : Option Err)
  | exited (code : Int)
  deriving DecidableEq

def restartMessage : String :=
  "Secrets have been updated; exiting so pod can be restarted (omit --cert-restart-on-secret-refresh to wait instead of restarting"

/-- Source: the condition `secret.Data == nil || !cr.validCACert(...)` of `refreshFn`;
the validity check is not run on a nil map. -/
def needsCARefresh {σ : Type} (env : Env σ) (cr : CertRotator) (secret : Secret)
    (st : St σ) : Bool × St σ :=
  match secret.Data with
  | none => (true, st)
  | some _ =>
    let v := validCACert env cr (mapIndex secret.Data caCertName)
      (mapIndex secret.Data caKeyName) st
    (!v.1, v.2)

/-- Source: the closure `refreshFn` of `refreshCertIfNeeded`; the package variable
`restartOnSecretRefresh` is a parameter. -/
def refreshFn {σ : Type} (env : Env σ) (cr : CertRotator) (restartOnSecretRefresh : Bool)
    (st : St σ) : CondResult × St σ :=
  match clientGet env cr.SecretKey st with
  | (Except.error err, st1) =>
    (CondResult.ret false (some (Err.wrap err "acquiring secret to update certificates")), st1)
  | (Except.ok secret, st1) =>
    let caInvalid := needsCARefresh env cr secret st1
    if caInvalid.1 then
      match refreshCerts env cr true secret
          (emit (Event.info "refreshing CA and server certs") caInvalid.2) with
      | (some err, st2) =>
        (CondResult.ret false none,
          emit (Event.error err "could not refresh CA and server certs") st2)
      | (none, st2) =>
        let st3 := emit (Event.info "server certs refreshed") st2
        if restartOnSecretRefresh then
          (CondResult.exit 0, emit (Event.osExit 0) (emit (Event.info restartMessage) st3))
        else
          (CondResult.ret true none, st3)
    else
      let v := validServerCert env cr (mapIndex secret.Data caCertName)
        (mapIndex secret.Data certName) (mapIndex secret.Data keyName) caInvalid.2
      if !v.1 then
        match refreshCerts env cr false secret
            (emit (Event.info "refreshing server certs") v.2) with
        | (some err, st2) =>
          (CondResult.ret false none, emit (Event.error err "could not refresh server certs") st2)
        | (none, st2) =>
          let st3 := emit (Event.info "server certs refreshed") st2
          if restartOnSecretRefresh then
            (CondResult.exit 0, emit (Event.osExit 0) (emit (Event.info restartMessage) st3))
          else
            (CondResult.ret true none, st3)
      else
        (CondResult.ret true none, emit (Event.info "no cert refresh needed") v.2)

/-- The parameters of `wait.Backoff` set by the rotator (the two factors are whole
numbers at every call site). -/
structure Backoff where
  Duration : Duration
  Factor : Nat
  Jitter : Nat
  Steps : Nat
  deriving DecidableEq

/-- The error `wait.ErrWaitTimeout`. -/
def ErrWaitTimeout : Err := Err.new "timed out waiting for the condition"

/-- Modelled from the spec: the loop of `wait.ExponentialBackoff`
(k8s.io/apimachinery/pkg/util/wait, vendored but not among the sources).  The condition
is run up to `steps` times; a run that reports an error or completion ends the loop with
that error (nil on completion); after the last run without either, the result is
`ErrWaitTimeout`.  The sleeps between runs are not modelled. -/
def backoffLoop {σ : Type} (steps : Nat) (condition : St σ → CondResult × St σ)
    (st : St σ) : Outcome × St σ :=
  match steps with
  | 0 => (Outcome.returned (some ErrWaitTimeout), st)
  | n + 1 =>
    match condition st with
    | (CondResult.exit code, st1) => (Outcome.exited code, st1)
    | (CondResult.ret done err, st1) =>
      if err.isSome || done then (Outcome.returned err, st1)
      else backoffLoop n condition st1

/-- Modelled from the spec: `wait.ExponentialBackoff`, see `backoffLoop`. -/
def ExponentialBackoff {σ : Type} (backoff : Backoff)
    (condition : St σ → CondResult × St σ) (st : St σ) : Outcome × St σ :=
  backoffLoop backoff.Steps condition st

/-- The backoff of `refreshCertIfNeeded`. -/
def refreshBackoff : Backoff :=
  { Duration := 10 * Millisecond, Factor := 2, Jitter := 1, Steps := 10 }

/-- Source: `refreshCertIfNeeded` returns whether there is any error when refreshing the
certs if needed. -/
def refreshCertIfNeeded {σ : Type} (env : Env σ) (cr : CertRotator)
    (restartOnSecretRefresh : Bool) (st : St σ) : Outcome × St σ :=
  match ExponentialBackoff refreshBackoff (refreshFn env cr restartOnSecretRefresh) st with
  | (Outcome.returned (some err), st1) => (Outcome.returned (some err), st1)
  | (Outcome.returned none, st1) => (Outcome.returned none, st1)
  | (Outcome.exited code, st1) => (Outcome.exited code, st1)

/-- The case that the `select` of the ticker loop takes in one iteration. -/
inductive Signal where
  | tick
  | stop
  | certsNotMounted
  | caNotInjected
  deriving DecidableEq

/-- Source: the loop `tickerLoop` of `Start` with what follows it, run on the sequence of
cases its `select` takes.  The result is `none` while the loop waits for a further
signal.  The deferred log line is written on every return. -/
def tickerLoop {σ : Type} (env : Env σ) (cr : CertRotator) (restartOnSecretRefresh : Bool)
    (signals : List Signal) (st : St σ) : Option Outcome × St σ :=
  match signals with
  | [] => (none, st)
  | Signal.tick :: rest =>
    match refreshCertIfNeeded env cr restartOnSecretRefresh st with
    | (Outcome.returned (some err), st1) =>
      tickerLoop env cr restartOnSecretRefresh rest
        (emit (Event.error err "error rotating certs") st1)
    | (Outcome.returned none, st1) => tickerLoop env cr restartOnSecretRefresh rest st1
    | (Outcome.exited code, st1) => (some (Outcome.exited code), st1)
  | Signal.stop :: _ =>
    (some (Outcome.returned none),
      emit (Event.info "stopping cert rotator controller") (emit Event.tickerStop st))
  | Signal.certsNotMounted :: _ =>
    (some (Outcome.returned (some (Err.new "could not mount certs"))),
      emit (Event.info "stopping cert rotator controller") st)
  | Signal.caNotInjected :: _ =>
    (some (Outcome.returned (some (Err.new "could not inject certs to webhooks"))),
      emit (Event.info "stopping cert rotator controller") st)

/-- Source: `Start` starts the CertRotator runnable to rotate certs and ensure the certs
are ready.  The two goroutines it starts are recorded as `spawn` events; what they do
reaches the loop as signals. -/
def Start {σ : Type} (env : Env σ) (cr : CertRotator) (restartOnSecretRefresh : Bool)
    (signals : List Signal) (st : St σ) : Option Outcome × St σ :=
  match refreshCertIfNeeded env cr restartOnSecretRefresh
      (emit (Event.info "starting cert rotator controller") st) with
  | (Outcome.returned (some err), st1) =>
    (some (Outcome.returned (some err)),
      emit (Event.info "stopping cert rotator controller")
        (emit (Event.error err "could not refresh cert on startup") st1))
  | (Outcome.exited code, st1) => (some (Outcome.exited code), st1)
  | (Outcome.returned none, st1) =>
    tickerLoop env cr restartOnSecretRefresh signals
      (emit (Event.newTicker rotationCheckFrequency)
        (emit (Event.spawn "ensureReady") (emit (Event.spawn "ensureCertsMounted") st1)))

/-! ## Reading traces -/

/-- The `client.Update` calls of a trace, each with the secret passed and the result. -/
def updatesOf (tr : List Event) : List (Secret × Option Err) :=
  tr.filterMap (fun e =>
    match e with
    | Event.clientUpdate s r => some (s, r)
    | _ => none)

/-- The number of `client.Get` calls of a trace. -/
def getCount (tr : List Event) : Nat :=
  tr.countP (fun e =>
    match e with
    | Event.clientGet _ => true
    | _ => false)

/-- The number of keys and certificates generated in a trace. -/
def generatedCount (tr : List Event) : Nat :=
  tr.countP (fun e =>
    match e with
    | Event.generateKey => true
    | Event.createCertificate _ => true
    | _ => false)

/-- The flags of the `refreshCerts` calls of a trace. -/
def refreshCalls (tr : List Event) : List Bool :=
  tr.filterMap (fun e =>
    match e with
    | Event.refreshCerts b => some b
    | _ => none)

/-- The state before attempt number `i` (counted from 0) of a retried function, when no
earlier attempt ended the loop. -/
def attemptState {σ : Type} (condition : St σ → CondResult × St σ) (i : Nat) (st : St σ) :
    St σ :=
  match i with
  | 0 => st
  | n + 1 => attemptState condition n (condition st).2

/-! ## A simulated environment

A small executable environment on which the embedding can be run: an object store that
holds at most the one secret, a clock that stands at one instant, a counter as random
source, and
a toy certificate format.  Faults of the store are scripted by call number. -/

structure Sim where
  secret : Option Secret
  calls : Nat
  nextKey : Nat
  deriving DecidableEq

/-- The instant at which the simulated clock stands. -/
def simClock : Time := 10 * Hour

def simGet (getFault : Nat → Option Err) (key : NamespacedName) (w : Sim) :
    Except Err Secret × Sim :=
  match getFault w.calls with
  | some err => (Except.error err, { w with calls := w.calls + 1 })
  | none =>
    match w.secret with
    | none => (Except.error (Err.notFound key.Name), { w with calls := w.calls + 1 })
    | some s => (Except.ok s, { w with calls := w.calls + 1 })

def simUpdate (updateFault : Nat → Option Err) (s : Secret) (w : Sim) : Option Err × Sim :=
  match updateFault w.calls with
  | some err => (some err, { w with calls := w.calls + 1 })
  | none =>
    match w.secret with
    | none => (some (Err.notFound s.Key.Name), { w with calls := w.calls + 1 })
    | some _ => (none, { w with calls := w.calls + 1, secret := some s })

def simGenerateKey (_bits : Nat) (w : Sim) : Except Err PrivateKey × Sim :=
  (Except.ok { PublicKey := { N := w.nextKey }, D := w.nextKey + 1 },
    { w with nextKey := w.nextKey + 2 })

def encodeName (s : String) : Bytes := s.data.map Char.toNat

def decodeName (b : Bytes) : String := String.mk (b.map Char.ofNat)

/-- Toy encoding of a certificate: validity bounds in whole seconds, CA flag, subject key,
signing key, then the one DNS name. -/
def simCreateCertificate (template _parent : Certificate) (pub : PublicKey)
    (priv : PrivateKey) (w : Sim) : Except Err Bytes × Sim :=
  match template.DNSNames with
  | [d] =>
    if 0 ≤ template.NotBefore ∧ 0 ≤ template.NotAfter then
      (Except.ok ((floorSecond template.NotBefore).toNat ::
        (floorSecond template.NotAfter).toNat ::
        (if template.IsCA then 1 else 0) :: pub.N :: priv.PublicKey.N :: encodeName d), w)
    else (Except.error (Err.new "x509: negative time"), w)
  | _ => (Except.error (Err.new "x509: one DNS name expected"), w)

def simParseCertificate (der : Bytes) : Except Err Certificate :=
  match der with
  | nb :: na :: ca :: pub :: _ :: name =>
    Except.ok
      { SerialNumber := 0
        Subject := { CommonName := decodeName name, Organization := [] }
        DNSNames := [decodeName name]
        NotBefore := nb
        NotAfter := na
        KeyUsage := 0
        ExtKeyUsage := []
        BasicConstraintsValid := true
        IsCA := decide (ca ≠ 0)
        PublicKey := some { N := pub }
        Raw := der }
  | _ => Except.error (Err.new "x509: malformed certificate")

def simMarshalKey (k : PrivateKey) : Bytes := [k.PublicKey.N, k.D]

def simParseKey (b : Bytes) : Except Err PrivateKey :=
  match b with
  | [n, d] => Except.ok { PublicKey := { N := n }, D := d }
  | _ => Except.error (Err.new "x509: malformed key")

def simPemEncode (b : Block) : Except Err Bytes :=
  if b.Typ = "CERTIFICATE" then Except.ok (1 :: b.Bytes)
  else if b.Typ = "RSA PRIVATE KEY" then Except.ok (2 :: b.Bytes)
  else Except.error (Err.new "pem: unknown block type")

def simPemDecode (b : Bytes) : Option Block :=
  match b with
  | 1 :: rest => some { Typ := "CERTIFICATE", Bytes := rest }
  | 2 :: rest => some { Typ := "RSA PRIVATE KEY", Bytes := rest }
  | _ => none

def simKeyPair (certPEM keyPEM : Bytes) : Except Err Unit :=
  match simPemDecode certPEM, simPemDecode keyPEM with
  | some cb, some kb =>
    match simParseCertificate cb.Bytes, simParseKey kb.Bytes with
    | Except.ok c, Except.ok k =>
      if c.PublicKey = some k.PublicKey then Except.ok ()
      else Except.error (Err.new "tls: private key does not match public key")
    | _, _ => Except.error (Err.new "tls: failed to parse")
  | _, _ => Except.error (Err.new "tls: failed to find PEM data")

/-- The key that signed a toy certificate. -/
def simSigner (c : Certificate) : Nat := c.Raw.getD 4 0

def simInWindow (c : Certificate) (t : Time) : Bool :=
  decide (c.NotBefore ≤ t) && decide (t ≤ c.NotAfter)

def simVerify (c : Certificate) (opts : VerifyOptions) : Except Err Unit :=
  if simInWindow c opts.CurrentTime then
    if opts.DNSName = "" ∨ opts.DNSName ∈ c.DNSNames then
      if c ∈ opts.Roots ∨ opts.Roots.any (fun r =>
          decide (r.PublicKey = some { N := simSigner c }) && simInWindow r opts.CurrentTime
            && mayIssue r)
      then Except.ok ()
      else Except.error (Err.new "x509: certificate signed by unknown authority")
    else Except.error (Err.new "x509: certificate is not valid for the name")
  else Except.error (Err.new "x509: certificate has expired or is not yet valid")

def simEnv (getFault updateFault : Nat → Option Err) : Env Sim :=
  { client_Get := simGet getFault
    client_Update := simUpdate updateFault
    time_Now := fun w => (simClock, w)
    rsa_GenerateKey := simGenerateKey
    x509_CreateCertificate := simCreateCertificate
    x509_MarshalPKCS1PrivateKey := simMarshalKey
    x509_ParsePKCS1PrivateKey := simParseKey
    x509_ParseCertificate := simParseCertificate
    x509_Verify := simVerify
    tls_X509KeyPair := simKeyPair
    pem_Encode := simPemEncode
    pem_Decode := simPemDecode }

def noFault : Nat → Option Err := fun _ => none

/-- The environment without store faults. -/
def simOK : Env Sim := simEnv noFault noFault

def simRotator : CertRotator :=
  { SecretKey := { Namespace := "system", Name := "webhook-server-cert" }
    CertDir := "/certs"
    CAName := "ca"
    CAOrganization := "org"
    DNSName := "svc"
    Webhooks := [] }

/-- A secret that exists but holds no data yet. -/
def emptySecret : Secret := { Key := simRotator.SecretKey, Data := none }

def simStart (secret : Option Secret) : St Sim :=
  { ext := { secret := secret, calls := 0, nextKey := 100 }, trace := [] }

/-! ## Assumptions on the environment

The rotator does not implement PEM, X.509 or the object store; what a theorem needs
from them beyond the calls themselves is stated here and appears as a hypothesis. -/

/-- Contract of the PEM and X.509 encodings: a PEM block and a PKCS#1 key round-trip, a
created certificate parses and pairs with the key it was created for. -/
structure CryptoContract {σ : Type} (env : Env σ) : Prop where
  pem_roundtrip : ∀ (blk : Block) (b : Bytes),
    env.pem_Encode blk = Except.ok b → b ≠ [] ∧ env.pem_Decode b = some blk
  key_roundtrip : ∀ (k : PrivateKey),
    env.x509_ParsePKCS1PrivateKey (env.x509_MarshalPKCS1PrivateKey k) = Except.ok k
  created_parses : ∀ (t p : Certificate) (pub : PublicKey) (priv : PrivateKey) (w w1 : σ)
    (der : Bytes),
    env.x509_CreateCertificate t p pub priv w = (Except.ok der, w1) →
    ∃ c, env.x509_ParseCertificate der = Except.ok c
  created_pairs : ∀ (t p : Certificate) (k priv : PrivateKey) (w w1 : σ)
    (der certPEM keyPEM : Bytes),
    env.x509_CreateCertificate t p k.Public priv w = (Except.ok der, w1) →
    env.pem_Encode { Typ := "CERTIFICATE", Bytes := der } = Except.ok certPEM →
    env.pem_Encode { Typ := "RSA PRIVATE KEY", Bytes := env.x509_MarshalPKCS1PrivateKey k }
      = Except.ok keyPEM →
    env.tls_X509KeyPair certPEM keyPEM = Except.ok ()

/-- Contract of `Certificate.Verify` of crypto/x509, for server authentication (the
default key usage of `VerifyOptions`).  `hostOK` is the set of names that host name
verification matches with an equal entry of `DNSNames`; an IP literal is matched with the
IP addresses of a certificate and is not such a name.  `CurrentTime` is taken as given
(`Verify` reads the clock itself only for the zero `time.Time`, which the clock of the
rotator plus ninety days is taken never to be).
* `created_issuer`: a certificate made from a template that may issue may issue.
* `verify_self`: a certificate made from a self-signed template and given as its own root
  verifies from `NotBefore` of the template to `NotAfter` of the template in whole
  seconds, for the listed names of `hostOK`, when the extended key usage of the template
  is absent or has server authentication.
* `verify_issued`: the same for a certificate made with a parent whose matched key signed
  it, when the parent verifies as its own root at that instant and may issue.
* `rejects_outside`: a certificate made from a template does not verify at an instant
  before `NotBefore` or after `NotAfter` of the template, both in whole seconds. -/
structure VerifyContract {σ : Type} (env : Env σ) (hostOK : String → Prop) : Prop where
  created_issuer : ∀ (t p c : Certificate) (pub : PublicKey) (priv : PrivateKey) (w w1 : σ)
    (der : Bytes),
    env.x509_CreateCertificate t p pub priv w = (Except.ok der, w1) →
    env.x509_ParseCertificate der = Except.ok c →
    mayIssue t = true → mayIssue c = true
  verify_self : ∀ (t c : Certificate) (k : PrivateKey) (w w1 : σ) (der : Bytes)
    (d : String) (atTime : Time),
    env.x509_CreateCertificate t t k.Public k w = (Except.ok der, w1) →
    env.x509_ParseCertificate der = Except.ok c →
    t.NotBefore ≤ atTime → atTime ≤ floorSecond t.NotAfter →
    d ∈ t.DNSNames → hostOK d →
    (t.ExtKeyUsage = [] ∨ ExtKeyUsageServerAuth ∈ t.ExtKeyUsage) →
    env.x509_Verify c { DNSName := d, Roots := [c], CurrentTime := atTime } = Except.ok ()
  verify_issued : ∀ (t p c : Certificate) (pub : PublicKey) (pk : PrivateKey) (w w1 : σ)
    (der caPEM keyPEM : Bytes) (cb kb : Block) (n d : String) (atTime : Time),
    env.pem_Decode caPEM = some cb → env.x509_ParseCertificate cb.Bytes = Except.ok p →
    env.pem_Decode keyPEM = some kb → env.x509_ParsePKCS1PrivateKey kb.Bytes = Except.ok pk →
    env.tls_X509KeyPair caPEM keyPEM = Except.ok () →
    env.x509_Verify p { DNSName := n, Roots := [p], CurrentTime := atTime } = Except.ok () →
    mayIssue p = true →
    env.x509_CreateCertificate t p pub pk w = (Except.ok der, w1) →
    env.x509_ParseCertificate der = Except.ok c →
    t.NotBefore ≤ atTime → atTime ≤ floorSecond t.NotAfter →
    d ∈ t.DNSNames → hostOK d →
    (t.ExtKeyUsage = [] ∨ ExtKeyUsageServerAuth ∈ t.ExtKeyUsage) →
    env.x509_Verify c { DNSName := d, Roots := [p], CurrentTime := atTime } = Except.ok ()
  rejects_outside : ∀ (t p c : Certificate) (pub : PublicKey) (priv : PrivateKey)
    (w w1 : σ) (der : Bytes) (opts : VerifyOptions),
    env.x509_CreateCertificate t p pub priv w = (Except.ok der, w1) →
    env.x509_ParseCertificate der = Except.ok c →
    (opts.CurrentTime < floorSecond t.NotBefore ∨
      floorSecond t.NotAfter < opts.CurrentTime) →
    ∃ e, env.x509_Verify c opts = Except.error e

/-- The object store keeps the secret under `key` like a register with a single writer:
a read returns what the last successful update wrote, and reading changes nothing. -/
structure RegisterStore {σ : Type} (env : Env σ) (key : NamespacedName) : Prop where
  get_after_update : ∀ (s : Secret) (w w1 : σ),
    env.client_Update s w = (none, w1) → (env.client_Get key w1).1 = Except.ok s
  get_stable : ∀ (s : Secret) (w w1 : σ),
    env.client_Get key w = (Except.ok s, w1) → (env.client_Get key w1).1 = Except.ok s

/-- The clock stands at instant `now`: no time elapses. -/
def FrozenClock {σ : Type} (env : Env σ) (now : Time) : Prop :=
  ∀ w : σ, env.time_Now w = (now, w)

/-- The number of goroutines and tickers started in a trace. -/
def spawnCount (tr : List Event) : Nat :=
  tr.countP (fun e =>
    match e with
    | Event.spawn _ => true
    | Event.newTicker _ => true
    | _ => false)

/-- Source: one turn of the ticker case of `Start`: the periodic refresh, whose error is
logged and dropped. -/
def tickStep {σ : Type} (env : Env σ) (cr : CertRotator) (restartOnSecretRefresh : Bool)
    (st : St σ) : St σ :=
  match refreshCertIfNeeded env cr restartOnSecretRefresh st with
  | (Outcome.returned (some err), st1) => emit (Event.error err "error rotating certs") st1
  | (_, st1) => st1

/-- The state of the ticker loop after `n` turns of the ticker case. -/
def tickState {σ : Type} (env : Env σ) (cr : CertRotator) (restartOnSecretRefresh : Bool)
    (n : Nat) (st : St σ) : St σ :=
  match n with
  | 0 => st
  | k + 1 => tickState env cr restartOnSecretRefresh k (tickStep env cr restartOnSecretRefresh st)

/-- The successful `client.Update` calls of a trace: the secrets written. -/
def writesOf (tr : List Event) : List Secret :=
  tr.filterMap (fun e =>
    match e with
    | Event.clientUpdate s none => some s
    | _ => none)

/-- Both checks of the refresh function on a secret, at the lookahead instant of clock
time `now`: the CA check of `validCACert` and the leaf check of `validServerCert`. -/
def secretValid {σ : Type} (env : Env σ) (cr : CertRotator) (now : Time) (secret : Secret) :
    Bool :=
  (validCert env (mapIndex secret.Data caCertName) (mapIndex secret.Data caCertName)
      (mapIndex secret.Data caKeyName) cr.CAName (now + 90 * 24 * Hour)).1 &&
    (validCert env (mapIndex secret.Data caCertName) (mapIndex secret.Data certName)
      (mapIndex secret.Data keyName) cr.DNSName (now + 90 * 24 * Hour)).1

/-- The errors logged in a trace. -/
def errorsOf (tr : List Event) : List Err :=
  tr.filterMap (fun e =>
    match e with
    | Event.error err _ => some err
    | _ => none)

/-- A secret as the simulated rotator writes it at clock `10 * Hour`: CA and leaf are
valid until ten years later. -/
def validSecret : Secret :=
  { Key := simRotator.SecretKey
    Data := some [("tls.key", [2, 102, 103]),
      ("tls.crt", [1, 32400000000000, 315396000000000000, 0, 102, 100, 115, 118, 99]),
      ("ca.key", [2, 100, 101]),
      ("ca.crt", [1, 32400000000000, 315396000000000000, 1, 100, 100, 99, 97])] }

/-- A secret with the valid CA of `validSecret` and no leaf entries. -/
def caOnlySecret : Secret :=
  { Key := simRotator.SecretKey
    Data := some [("ca.key", [2, 100, 101]),
      ("ca.crt", [1, 32400000000000, 315396000000000000, 1, 100, 100, 99, 97])] }

/-- Store fault: the first call fails with status 500. -/
def failFirst : Nat → Option Err := fun n => if n = 0 then some (Err.status 500) else none

/-- Store fault: the calls numbered below 4 fail with status 500 (with one read before
each update, these are the updates of the first two attempts). -/
def failEarly : Nat → Option Err := fun n => if n < 4 then some (Err.status 500) else none

/-- Store fault: the third call (the read of the first periodic refresh after a bootstrap
of one read and one update) fails with status 500. -/
def failThird : Nat → Option Err := fun n => if n = 2 then some (Err.status 500) else none

/-- Store fault: every call fails with status 500. -/
def failAlways : Nat → Option Err := fun _ => some (Err.status 500)

/-! ## Unstructured objects

The reconciler patches webhook configurations and CRDs held as
`unstructured.Unstructured`, a tree of JSON values.  A Go `map[string]interface{}` is a
list of key-value pairs read by first match; deep copies are the identity. -/

/-- A JSON value as held under `Unstructured.Object`. -/
inductive Value where
  | null
  | bool (b : Bool)
  | num (n : Int)
  | str (s : String)
  | list (l : List Value)
  | map (m : List (String × Value))

/-- A Go `map[string]interface{}`. -/
abbrev JSONMap := List (String × Value)

/-- Map read with presence flag, `v, ok := m[k]`. -/
def objLookup (m : JSONMap) (k : String) : Option Value := m.lookup k

/-- Map write `m[k] = v`. -/
def objSet (m : JSONMap) (k : String) (v : Value) : JSONMap :=
  (k, v) :: m.filter (fun p => p.1 != k)

structure Unstructured where
  Object : JSONMap

/-- One step of a path into a JSON value: a map key or a list index. -/
inductive Seg where
  | key (k : String)
  | idx (i : Nat)
  deriving DecidableEq

/-- The value found in `v` at a path, if there is one. -/
def Value.at (v : Value) (path : List Seg) : Option Value :=
  match path with
  | [] => some v
  | Seg.key k :: rest =>
    match v with
    | Value.map m =>
      match objLookup m k with
      | none => none
      | some w => Value.at w rest
    | _ => none
  | Seg.idx i :: rest =>
    match v with
    | Value.list l =>
      match l.get? i with
      | none => none
      | some w => Value.at w rest
    | _ => none

/-- The three answers of the nested accessors: `(v, true, nil)`, `(nil, false, nil)` and
`(nil, false, err)`. -/
inductive Nested (α : Type) where
  | found (v : α)
  | missing
  | failed (err : Err)

/-- Modelled from the spec: the traversal of `unstructured.NestedFieldNoCopy`
(k8s.io/apimachinery, vendored but not among the sources), started at a value.  A missing
key or a nil value on the way answers not-found, any other value that is not a map
answers an error. -/
def nestedFrom (val : Value) (fields : List String) : Nested Value :=
  match fields with
  | [] => Nested.found val
  | field :: rest =>
    match val with
    | Value.null => Nested.missing
    | Value.map m =>
      match objLookup m field with
      | none => Nested.missing
      | some w => nestedFrom w rest
    | _ => Nested.failed (Err.new "accessor error: value is not a map")

/-- Modelled from the spec: `unstructured.NestedFieldNoCopy`, see `nestedFrom`. -/
def NestedFieldNoCopy (obj : JSONMap) (fields : List String) : Nested Value :=
  nestedFrom (Value.map obj) fields

/-- Modelled from the spec: `unstructured.NestedSlice` returns a copy of the list at a
nested field; a value found there that is not a list is an error. -/
def NestedSlice (obj : JSONMap) (fields : List String) : Nested (List Value) :=
  match NestedFieldNoCopy obj fields with
  | Nested.found (Value.list l) => Nested.found l
  | Nested.found _ => Nested.failed (Err.new "accessor error: value is not a list")
  | Nested.missing => Nested.missing
  | Nested.failed err => Nested.failed err

/-- Modelled from the spec: `unstructured.NestedMap` returns a copy of the map at a nested
field; a value found there that is not a map is an error. -/
def NestedMap (obj : JSONMap) (fields : List String) : Nested JSONMap :=
  match NestedFieldNoCopy obj fields with
  | Nested.found (Value.map m) => Nested.found m
  | Nested.found _ => Nested.failed (Err.new "accessor error: value is not a map")
  | Nested.missing => Nested.missing
  | Nested.failed err => Nested.failed err

/-- Modelled from the spec: `unstructured.SetNestedField` sets the value at a nested
field.  Maps missing on the way are created; a value on the way that is not a map is an
error, and then nothing has been changed.  The result is the map after the call. -/
def SetNestedField (obj : JSONMap) (value : Value) (fields : List String) :
    Except Err JSONMap :=
  match fields with
  | [] => Except.error (Err.new "no field given")
  | [field] => Except.ok (objSet obj field value)
  | field :: rest =>
    match objLookup obj field with
    | some (Value.map sub) =>
      match SetNestedField sub value rest with
      | Except.error err => Except.error err
      | Except.ok sub1 => Except.ok (objSet obj field (Value.map sub1))
    | some _ => Except.error (Err.new "value cannot be set because a field is not a map")
    | none =>
      match SetNestedField [] value rest with
      | Except.error err => Except.error err
      | Except.ok sub1 => Except.ok (objSet obj field (Value.map sub1))

/-- Modelled from the spec: `unstructured.SetNestedSlice` sets a list at a nested field. -/
def SetNestedSlice (obj : JSONMap) (value : List Value) (fields : List String) :
    Except Err JSONMap :=
  SetNestedField obj (Value.list value) fields

/-- Source: the loop of `injectCertToWebhook` over the copied list, from index `i` on: each
entry must be a map and gets `clientConfig.caBundle` set; the first failure ends it. -/
def injectHooks (caBundle : String) (i : Nat) (webhooks : List Value) :
    Except Err (List Value) :=
  match webhooks with
  | [] => Except.ok []
  | h :: rest =>
    match h with
    | Value.map hook =>
      match SetNestedField hook (Value.str caBundle) ["clientConfig", "caBundle"] with
      | Except.error err => Except.error err
      | Except.ok hook1 =>
        match injectHooks caBundle (i + 1) rest with
        | Except.error err => Except.error err
        | Except.ok rest1 => Except.ok (Value.map hook1 :: rest1)
    | _ => Except.error (Err.new ("webhook " ++ toString i ++ " is not well-formed"))

/-- Source: `injectCertToWebhook`; `encode` is `base64.StdEncoding.EncodeToString`.  The
second result is the object after the call. -/
def injectCertToWebhook (encode : Bytes → String) (wh : Unstructured) (certPem : Bytes) :
    Option Err × Unstructured :=
  match NestedSlice wh.Object ["webhooks"] with
  | Nested.failed err => (some err, wh)
  | Nested.missing =>
    (some (Err.new "`webhooks` field not found in ValidatingWebhookConfiguration"), wh)
  | Nested.found webhooks =>
    match injectHooks (encode certPem) 0 webhooks with
    | Except.error err => (some err, wh)
    | Except.ok webhooks1 =>
      match SetNestedSlice wh.Object webhooks1 ["webhooks"] with
      | Except.error err => (some err, wh)
      | Except.ok obj => (none, { Object := obj })

/-- Source: `injectCertToConversionWebhook`.  The second result is the object after the
call. -/
def injectCertToConversionWebhook (encode : Bytes → String) (crd : Unstructured)
    (certPem : Bytes) : Option Err × Unstructured :=
  match NestedMap crd.Object ["spec", "conversion", "webhookClientConfig"] with
  | Nested.failed err => (some err, crd)
  | Nested.missing =>
    (some (Err.new "`webhookClientConfig` field not found in CustomResourceDefinition"), crd)
  | Nested.found _ =>
    match SetNestedField crd.Object (Value.str (encode certPem))
        ["spec", "conversion", "webhookClientConfig", "caBundle"] with
    | Except.error err => (some err, crd)
    | Except.ok obj => (none, { Object := obj })

/-- Source: `injectCert`. -/
def injectCert (encode : Bytes → String) (updatedResource : Unstructured) (certPem : Bytes)
    (webhookType : WebhookType) : Option Err × Unstructured :=
  match webhookType with
  | WebhookType.Validating => injectCertToWebhook encode updatedResource certPem
  | WebhookType.Mutating => injectCertToWebhook encode updatedResource certPem
  | WebhookType.CRDConversion => injectCertToConversionWebhook encode updatedResource certPem

/-- The paths that injection writes for a webhook type: the trust bundle of every webhook
entry, or the one of the conversion webhook. -/
def caBundlePath (webhookType : WebhookType) (path : List Seg) : Prop :=
  match webhookType with
  | WebhookType.CRDConversion =>
    path = [Seg.key "spec", Seg.key "conversion", Seg.key "webhookClientConfig",
      Seg.key "caBundle"]
  | _ =>
    ∃ i, path = [Seg.key "webhooks", Seg.idx i, Seg.key "clientConfig", Seg.key "caBundle"]

/-! ## The reconciler -/

structure GroupVersionKind where
  Group : String
  Version : String
  Kind : String
  deriving DecidableEq

/-- Source: `WebhookInfo.gvk`. -/
def WebhookInfo.gvk (w : WebhookInfo) : GroupVersionKind :=
  match w.Typ with
  | WebhookType.Validating =>
    { Group := "admissionregistration.k8s.io", Version := "v1beta1",
      Kind := "ValidatingWebhookConfiguration" }
  | WebhookType.Mutating =>
    { Group := "admissionregistration.k8s.io", Version := "v1beta1",
      Kind := "MutatingWebhookConfiguration" }
  | WebhookType.CRDConversion =>
    { Group := "apiextensions.k8s.io", Version := "v1beta1",
      Kind := "CustomResourceDefinition" }

/-- What the reconciler calls outside of its file for the consumer resources: the client
on unstructured objects, the reading of the deletion timestamp of an object, and the
standard base64 encoding. -/
structure WHEnv (σ : Type) where
  client_Get : GroupVersionKind → NamespacedName → σ → Except Err Unstructured × σ
  client_Update : Unstructured → σ → Option Err × σ
  GetDeletionTimestamp : Unstructured → Option Time
  base64_EncodeToString : Bytes → String

/-- The zero `time.Time`, January 1 of year 1. -/
def zeroTime : Time := -62135596800 * Second

/-- Source: `metav1.Time.IsZero` on a pointer: nil or the zero time. -/
def IsZero (t : Option Time) : Bool :=
  match t with
  | none => true
  | some u => decide (u = zeroTime)

/-- Observable actions of the reconciler, in program order. -/
inductive WHEvent where
  | getSecret (key : NamespacedName)
  | get (gvk : GroupVersionKind) (key : NamespacedName)
  | update (obj : Unstructured) (result : Option Err)
  | storeInjected (v : Bool)
  | info (msg : String)
  | error (err : Err) (msg : String)

/-- The state of the reconciler: the external state, the trace and the shared flag
`wasCAInjected`. -/
structure RSt (σ : Type) where
  ext : σ
  trace : List WHEvent
  wasCAInjected : Bool

def remit {σ : Type} (e : WHEvent) (st : RSt σ) : RSt σ :=
  { st with trace := st.trace ++ [e] }

def secretGet {σ : Type} (env : Env σ) (key : NamespacedName) (st : RSt σ) :
    Except Err Secret × RSt σ :=
  let r := env.client_Get key st.ext
  (r.1, { st with ext := r.2, trace := st.trace ++ [WHEvent.getSecret key] })

def whGet {σ : Type} (wenv : WHEnv σ) (gvk : GroupVersionKind) (key : NamespacedName)
    (st : RSt σ) : Except Err Unstructured × RSt σ :=
  let r := wenv.client_Get gvk key st.ext
  (r.1, { st with ext := r.2, trace := st.trace ++ [WHEvent.get gvk key] })

def whUpdate {σ : Type} (wenv : WHEnv σ) (obj : Unstructured) (st : RSt σ) :
    Option Err × RSt σ :=
  let r := wenv.client_Update obj st.ext
  (r.1, { st with ext := r.2, trace := st.trace ++ [WHEvent.update obj r.1] })

/-- Source: `wasCAInjected.Store`. -/
def storeInjected {σ : Type} (v : Bool) (st : RSt σ) : RSt σ :=
  { st with wasCAInjected := v, trace := st.trace ++ [WHEvent.storeInjected v] }

/-- The configuration fields of `ReconcileWH`. -/
structure ReconcileWH where
  secretKey : NamespacedName
  webhooks : List WebhookInfo
  deriving DecidableEq

/-- Source: the body of the loop of `ensureCerts` for one webhook.  The first result is
the error that this turn assigns to `anyError`, `none` when it assigns nothing. -/
def ensureCertsStep {σ : Type} (wenv : WHEnv σ) (certPem : Bytes) (webhook : WebhookInfo)
    (st : RSt σ) : Option Err × RSt σ :=
  match whGet wenv webhook.gvk { Namespace := "", Name := webhook.Name } st with
  | (Except.error err, st1) =>
    if err.IsNotFound then
      (none, remit (WHEvent.error err "Webhook not found. Unable to update certificate.") st1)
    else
      (some err, remit (WHEvent.error err "Error getting webhook for certificate update.") st1)
  | (Except.ok updatedResource, st1) =>
    if !IsZero (wenv.GetDeletionTimestamp updatedResource) then
      (none, remit (WHEvent.info "Webhook is being deleted. Unable to update certificate") st1)
    else
      match injectCert wenv.base64_EncodeToString updatedResource certPem webhook.Typ with
      | (some err, _) =>
        (some err, remit (WHEvent.error err "Unable to inject cert to webhook.")
          (remit (WHEvent.info "Ensuring CA cert") st1))
      | (none, injected) =>
        match whUpdate wenv injected (remit (WHEvent.info "Ensuring CA cert") st1) with
        | (some err, st2) =>
          (some err, remit (WHEvent.error err "Error updating webhook with certificate") st2)
        | (none, st2) => (none, st2)

/-- Source: the loop of `ensureCerts` over the webhooks left, with the current value of
`anyError`. -/
def ensureCertsLoop {σ : Type} (wenv : WHEnv σ) (certPem : Bytes)
    (webhooks : List WebhookInfo) (anyError : Option Err) (st : RSt σ) :
    Option Err × RSt σ :=
  match webhooks with
  | [] => (anyError, st)
  | webhook :: rest =>
    match ensureCertsStep wenv certPem webhook st with
    | (some err, st1) => ensureCertsLoop wenv certPem rest (some err) st1
    | (none, st1) => ensureCertsLoop wenv certPem rest anyError st1

/-- Source: `ensureCerts` returns an arbitrary error if multiple errors are encountered,
while all the errors are logged. -/
def ensureCerts {σ : Type} (wenv : WHEnv σ) (r : ReconcileWH) (certPem : Bytes)
    (st : RSt σ) : Option Err × RSt σ :=
  ensureCertsLoop wenv certPem r.webhooks none st

/-- A `reconcile.Result`. -/
structure Result where
  Requeue : Bool
  deriving DecidableEq

/-- Source: `Reconcile` reads that state of the cluster for a
validatingwebhookconfiguration object and makes sure the most recent CA cert is
included. -/
def Reconcile {σ : Type} (env : Env σ) (wenv : WHEnv σ) (r : ReconcileWH)
    (request : NamespacedName) (st : RSt σ) : (Result × Option Err) × RSt σ :=
  if request ≠ r.secretKey then (({ Requeue := false }, none), st)
  else
    match secretGet env request st with
    | (Except.error err, st1) =>
      if err.IsNotFound then (({ Requeue := false }, none), st1)
      else (({ Requeue := true }, some err), st1)
    | (Except.ok secret, st1) =>
      if IsZero secret.DeletionTimestamp then
        match buildArtifactsFromSecret env secret with
        | Except.error err =>
          (({ Requeue := false }, none),
            remit (WHEvent.error err
              "secret is not well-formed, cannot update webhook configurations") st1)
        | Except.ok artifacts =>
          match ensureCerts wenv r artifacts.CertPEM st1 with
          | (some err, st2) => (({ Requeue := false }, some err), st2)
          | (none, st2) => (({ Requeue := false }, none), storeInjected true st2)
      else (({ Requeue := false }, none), st1)

/-- The state after the turns of the loop of `ensureCerts` for a list of webhooks. -/
def stateAfter {σ : Type} (wenv : WHEnv σ) (certPem : Bytes) (webhooks : List WebhookInfo)
    (st : RSt σ) : RSt σ :=
  match webhooks with
  | [] => st
  | webhook :: rest => stateAfter wenv certPem rest (ensureCertsStep wenv certPem webhook st).2

/-- The `client.Get` calls for consumer resources in a trace. -/
def whGets (tr : List WHEvent) : List (GroupVersionKind × NamespacedName) :=
  tr.filterMap (fun e =>
    match e with
    | WHEvent.get gvk key => some (gvk, key)
    | _ => none)

/-- The `client.Update` calls in a trace, each with the object passed and the result. -/
def whUpdates (tr : List WHEvent) : List (Unstructured × Option Err) :=
  tr.filterMap (fun e =>
    match e with
    | WHEvent.update obj r => some (obj, r)
    | _ => none)

/-- The values stored into `wasCAInjected` in a trace. -/
def whStores (tr : List WHEvent) : List Bool :=
  tr.filterMap (fun e =>
    match e with
    | WHEvent.storeInjected v => some v
    | _ => none)

/-! ## A simulated cluster for the reconciler

The simulated store of the rotator, extended by the consumer resources held by name.
Faults are scripted by call number as before; the call counter is shared by all calls of
the client. -/

structure WSim where
  base : Sim
  hooks : List (String × Unstructured)

/-- The environment of the rotator on the extended store. -/
def liftEnv (env : Env Sim) : Env WSim :=
  { client_Get := fun key w =>
      ((env.client_Get key w.base).1, { w with base := (env.client_Get key w.base).2 })
    client_Update := fun s w =>
      ((env.client_Update s w.base).1, { w with base := (env.client_Update s w.base).2 })
    time_Now := fun w => ((env.time_Now w.base).1, { w with base := (env.time_Now w.base).2 })
    rsa_GenerateKey := fun bits w =>
      ((env.rsa_GenerateKey bits w.base).1,
        { w with base := (env.rsa_GenerateKey bits w.base).2 })
    x509_CreateCertificate := fun template parent pub priv w =>
      ((env.x509_CreateCertificate template parent pub priv w.base).1,
        { w with base := (env.x509_CreateCertificate template parent pub priv w.base).2 })
    x509_MarshalPKCS1PrivateKey := env.x509_MarshalPKCS1PrivateKey
    x509_ParsePKCS1PrivateKey := env.x509_ParsePKCS1PrivateKey
    x509_ParseCertificate := env.x509_ParseCertificate
    x509_Verify := env.x509_Verify
    tls_X509KeyPair := env.tls_X509KeyPair
    pem_Encode := env.pem_Encode
    pem_Decode := env.pem_Decode }

/-- One more call of the client has been made. -/
def WSim.called (w : WSim) : WSim :=
  { w with base := { w.base with calls := w.base.calls + 1 } }

def simWHGet (getFault : Nat → Option Err) (_gvk : GroupVersionKind) (key : NamespacedName)
    (w : WSim) : Except Err Unstructured × WSim :=
  match getFault w.base.calls with
  | some err => (Except.error err, w.called)
  | none =>
    match w.hooks.lookup key.Name with
    | none => (Except.error (Err.notFound key.Name), w.called)
    | some obj => (Except.ok obj, w.called)

/-- The name of an object, read at `metadata.name`. -/
def objName (obj : Unstructured) : Option String :=
  match Value.at (Value.map obj.Object) [Seg.key "metadata", Seg.key "name"] with
  | some (Value.str n) => some n
  | _ => none

def simWHUpdate (updateFault : Nat → Option Err) (obj : Unstructured) (w : WSim) :
    Option Err × WSim :=
  match updateFault w.base.calls with
  | some err => (some err, w.called)
  | none =>
    match objName obj with
    | none => (some (Err.status 422), w.called)
    | some n =>
      match w.hooks.lookup n with
      | none => (some (Err.notFound n), w.called)
      | some _ =>
        (none, { w.called with hooks := (n, obj) :: w.hooks.filter (fun q => q.1 != n) })

/-- The deletion timestamp of an object, read at `metadata.deletionTimestamp`. -/
def simDeletion (obj : Unstructured) : Option Time :=
  match Value.at (Value.map obj.Object) [Seg.key "metadata", Seg.key "deletionTimestamp"] with
  | some (Value.num t) => some t
  | _ => none

/-- Toy stand-in for the base64 encoding: the bytes as characters after a mark. -/
def simEncode (b : Bytes) : String := "b64:" ++ decodeName b

def simWH (getFault updateFault : Nat → Option Err) : WHEnv WSim :=
  { client_Get := simWHGet getFault
    client_Update := simWHUpdate updateFault
    GetDeletionTimestamp := simDeletion
    base64_EncodeToString := simEncode }

/-- A validating webhook configuration with two entries: one with a `clientConfig` that
holds an old bundle, one without `clientConfig`. -/
def sampleVWC : Unstructured :=
  { Object :=
      [("kind", Value.str "ValidatingWebhookConfiguration"),
       ("metadata", Value.map [("name", Value.str "vwc")]),
       ("webhooks", Value.list
         [Value.map [("name", Value.str "a.example"),
            ("clientConfig", Value.map [("url", Value.str "https://a"),
              ("caBundle", Value.str "old")]),
            ("failurePolicy", Value.str "Fail")],
          Value.map [("name", Value.str "b.example"), ("timeoutSeconds", Value.num 5)]])] }

/-- A mutating webhook configuration with one entry. -/
def sampleMWC : Unstructured :=
  { Object :=
      [("kind", Value.str "MutatingWebhookConfiguration"),
       ("metadata", Value.map [("name", Value.str "mwc")]),
       ("webhooks", Value.list
         [Value.map [("name", Value.str "m.example"),
            ("clientConfig", Value.map [("service", Value.map [("name", Value.str "svc")])])]])] }

/-- A CRD with a conversion webhook. -/
def sampleCRD : Unstructured :=
  { Object :=
      [("kind", Value.str "CustomResourceDefinition"),
       ("metadata", Value.map [("name", Value.str "crd")]),
       ("spec", Value.map [("group", Value.str "example.com"),
         ("conversion", Value.map [("strategy", Value.str "Webhook"),
           ("webhookClientConfig", Value.map
             [("service", Value.map [("name", Value.str "svc")])])])])] }

/-- A CRD without conversion webhook. -/
def plainCRD : Unstructured :=
  { Object :=
      [("kind", Value.str "CustomResourceDefinition"),
       ("metadata", Value.map [("name", Value.str "crd")]),
       ("spec", Value.map [("group", Value.str "example.com")])] }

/-- A mutating webhook configuration that is being deleted. -/
def terminatingMWC : Unstructured :=
  { Object :=
      [("kind", Value.str "MutatingWebhookConfiguration"),
       ("metadata", Value.map [("name", Value.str "mwc"),
         ("deletionTimestamp", Value.num 5)]),
       ("webhooks", Value.list [Value.map [("name", Value.str "m.example")]])] }

/-- The reconciler of the simulated rotator with three consumers. -/
def simReconciler : ReconcileWH :=
  { secretKey := simRotator.SecretKey
    webhooks :=
      [{ Name := "vwc", Typ := WebhookType.Validating },
       { Name := "mwc", Typ := WebhookType.Mutating },
       { Name := "crd", Typ := WebhookType.CRDConversion }] }

/-- The three consumers of `simReconciler` in the store. -/
def sampleHooks : List (String × Unstructured) :=
  [("vwc", sampleVWC), ("mwc", sampleMWC), ("crd", sampleCRD)]

def simRStart (secret : Option Secret) (hooks : List (String × Unstructured)) : RSt WSim :=
  { ext := { base := { secret := secret, calls := 0, nextKey := 100 }, hooks := hooks }
    trace := []
    wasCAInjected := false }

/-- A webhook fails with `e` when it is visited by `ensureCerts` in the external state
`ext`: its `client.Get` fails with `e` and `e` is not a not-found; or the object read is
not being deleted and `injectCert` fails on it with `e`; or `injectCert` succeeds and the
`client.Update` of the injected object fails with `e`. -/
def failsWith {σ : Type} (wenv : WHEnv σ) (certPem : Bytes) (webhook : WebhookInfo) (ext : σ)
    (e : Err) : Prop :=
  ((wenv.client_Get webhook.gvk { Namespace := "", Name := webhook.Name } ext).1 =
      Except.error e ∧ e.IsNotFound = false) ∨
  (∃ obj obj1,
    (wenv.client_Get webhook.gvk { Namespace := "", Name := webhook.Name } ext).1 =
      Except.ok obj ∧
    IsZero (wenv.GetDeletionTimestamp obj) = true ∧
    injectCert wenv.base64_EncodeToString obj certPem webhook.Typ = (some e, obj1)) ∨
  (∃ obj obj1,
    (wenv.client_Get webhook.gvk { Namespace := "", Name := webhook.Name } ext).1 =
      Except.ok obj ∧
    IsZero (wenv.GetDeletionTimestamp obj) = true ∧
    injectCert wenv.base64_EncodeToString obj certPem webhook.Typ = (none, obj1) ∧
    (wenv.client_Update obj1
      (wenv.client_Get webhook.gvk { Namespace := "", Name := webhook.Name } ext).2).1 =
        some e)

/-- An object carries the trust bundle `caBundle` for a webhook type: every entry of its
`webhooks` list holds it at `clientConfig.caBundle` (admission kinds), or it stands at
`spec.conversion.webhookClientConfig.caBundle` (conversion kind). -/
def carriesCA (webhookType : WebhookType) (caBundle : String) (obj : Unstructured) : Prop :=
  match webhookType with
  | WebhookType.CRDConversion =>
    Value.at (Value.map obj.Object)
      [Seg.key "spec", Seg.key "conversion", Seg.key "webhookClientConfig",
        Seg.key "caBundle"] = some (Value.str caBundle)
  | _ =>
    ∃ hooks, objLookup obj.Object "webhooks" = some (Value.list hooks) ∧
      ∀ i, i < hooks.length →
        Value.at (Value.map obj.Object)
          [Seg.key "webhooks", Seg.idx i, Seg.key "clientConfig", Seg.key "caBundle"] =
            some (Value.str caBundle)

/-- The key under which `ensureCerts` reads a webhook: its name, no namespace. -/
def webhookKey (webhook : WebhookInfo) : GroupVersionKind × NamespacedName :=
  (webhook.gvk, { Namespace := "", Name := webhook.Name })

/-- A validating webhook configuration whose second entry is not a map. -/
def brokenVWC : Unstructured :=
  { Object :=
      [("kind", Value.str "ValidatingWebhookConfiguration"),
       ("metadata", Value.map [("name", Value.str "vwc")]),
       ("webhooks", Value.list
         [Value.map [("name", Value.str "a.example"),
            ("clientConfig", Value.map [("url", Value.str "https://a")])],
          Value.str "b.example"])] }

/-- An entry of a `webhooks` list that the loop of `injectCertToWebhook` rejects: it is not
a map, or its `clientConfig` is present and is not a map. -/
def badHook (h : Value) : Prop :=
  (∀ m, h ≠ Value.map m) ∨
    ∃ m c, h = Value.map m ∧ objLookup m "clientConfig" = some c ∧ ∀ cc, c ≠ Value.map cc

/-! ## Watches of the reconciler -/

/-- The metadata of a watched object that a mapper reads (`object.Meta`). -/
structure MapObject where
  Namespace : String
  Name : String
  deriving DecidableEq

/-- Source: `mapper`, the mapping from the events of one consumer to the secret. -/
structure mapper where
  secretKey : NamespacedName
  whKey : NamespacedName
  deriving DecidableEq

/-- Source: `mapper.Map`; a `reconcile.Request` is given by its `NamespacedName`. -/
def mapper.Map (m : mapper) (object : MapObject) : List NamespacedName :=
  if object.Namespace ≠ m.whKey.Namespace then []
  else if object.Name ≠ m.whKey.Name then []
  else [m.secretKey]

/-- A watch handed to the controller builder: the kind watched and the mapper of its
events. -/
structure Watch where
  gvk : GroupVersionKind
  ToRequests : mapper
  deriving DecidableEq

/-- Source: `addController`, as the watches it registers with the builder in the loop over
the declared webhooks (the controller is built `For` secrets; building it is the work of
controller-runtime). -/
def addController (r : ReconcileWH) : List Watch :=
  r.webhooks.map (fun webhook =>
    { gvk := webhook.gvk
      ToRequests :=
        { secretKey := r.secretKey
          whKey := { Namespace := "", Name := webhook.Name } } })

/-! ## Further simulated environments -/

/-- The simulated environment with a clock that reads half a second past the whole second
and advances by the validity duration less ninety days with every call of the store. -/
def simOffBeat : Env Sim :=
  { simOK with time_Now := fun w =>
      (simClock + 500 * Millisecond + w.calls * (certValidityDuration - 90 * 24 * Hour), w) }

/-- A secret whose CA entries hold a self-signed certificate without the CA flag, valid
for the simulated clock, and its key; there is no leaf. -/
def selfSignedSecret : Secret :=
  { Key := simRotator.SecretKey
    Data := some [("ca.crt", [1, 32400000000000, 315396000000000000, 0, 100, 100, 99, 97]),
      ("ca.key", [2, 100, 101])] }

/-! ## The pollers

`Start` spawns `ensureCertsMounted` and `ensureReady`.  They talk to the ticker loop and
to the owner of the rotator by closing channels. -/

/-- The channels of the rotator that its pollers close. -/
inductive Chan where
  | certsMounted
  | certsNotMounted
  | IsReady
  | caNotInjected
  deriving DecidableEq

/-- What the pollers call outside of the file: `os.Stat`, and the read of the flag
`wasCAInjected`, into which the reconciler stores at times of its own. -/
structure PollEnv (σ : Type) where
  os_Stat : String → σ → Option Err × σ
  wasCAInjected_Load : σ → Bool × σ

/-- Observable actions of the pollers, in program order. -/
inductive PEvent where
  | stat (file : String) (result : Option Err)
  | load (v : Bool)
  | recv (c : Chan)
  | close (c : Chan)
  | info (msg : String)
  | error (err : Err) (msg : String)
  deriving DecidableEq

structure PSt (σ : Type) where
  ext : σ
  trace : List PEvent

def pemit {σ : Type} (e : PEvent) (st : PSt σ) : PSt σ :=
  { st with trace := st.trace ++ [e] }

/-- Modelled from the spec: the loop of `wait.ExponentialBackoff` as in `backoffLoop`, for
a condition on the state of the pollers (such a condition never ends the process). -/
def pollLoop {σ : Type} (steps : Nat) (condition : PSt σ → (Bool × Option Err) × PSt σ)
    (st : PSt σ) : Option Err × PSt σ :=
  match steps with
  | 0 => (some ErrWaitTimeout, st)
  | n + 1 =>
    match condition st with
    | ((done, err), st1) =>
      if err.isSome || done then (err, st1)
      else pollLoop n condition st1

/-- The backoff of both pollers. -/
def pollBackoff : Backoff :=
  { Duration := 1 * Second, Factor := 2, Jitter := 1, Steps := 10 }

/-- Source: the closure `checkFn` of `ensureCertsMounted`. -/
def mountCheckFn {σ : Type} (env : PollEnv σ) (cr : CertRotator) (st : PSt σ) :
    (Bool × Option Err) × PSt σ :=
  let certFile := cr.CertDir ++ "/" ++ certName
  let r := env.os_Stat certFile st.ext
  match r.1 with
  | none => ((true, none), { ext := r.2, trace := st.trace ++ [PEvent.stat certFile none] })
  | some err =>
    ((false, none), { ext := r.2, trace := st.trace ++ [PEvent.stat certFile (some err)] })

/-- Source: `ensureCertsMounted` ensure the cert files exist. -/
def ensureCertsMounted {σ : Type} (env : PollEnv σ) (cr : CertRotator) (st : PSt σ) : PSt σ :=
  match pollLoop pollBackoff.Steps (mountCheckFn env cr) st with
  | (some err, st1) =>
    pemit (PEvent.close Chan.certsNotMounted)
      (pemit (PEvent.error err "max retries for checking certs existence") st1)
  | (none, st1) =>
    pemit (PEvent.close Chan.certsMounted)
      (pemit (PEvent.info ("certs are ready in " ++ cr.CertDir)) st1)

/-- Source: the closure `checkFn` of `ensureReady`. -/
def injectedCheckFn {σ : Type} (env : PollEnv σ) (st : PSt σ) :
    (Bool × Option Err) × PSt σ :=
  let r := env.wasCAInjected_Load st.ext
  ((r.1, none), { ext := r.2, trace := st.trace ++ [PEvent.load r.1] })

/-- Source: `ensureReady` ensure the cert files exist and the CAs are injected, from the
point at which its receive on `certsMounted` returns. -/
def ensureReady {σ : Type} (env : PollEnv σ) (_cr : CertRotator) (st : PSt σ) : PSt σ :=
  match pollLoop pollBackoff.Steps (injectedCheckFn env)
      (pemit (PEvent.recv Chan.certsMounted) st) with
  | (some err, st1) =>
    pemit (PEvent.close Chan.caNotInjected)
      (pemit (PEvent.error err "max retries for checking CA injection") st1)
  | (none, st1) =>
    pemit (PEvent.close Chan.IsReady)
      (pemit (PEvent.info "CA certs are injected to webhooks") st1)

/-- The channels closed in a trace, in order. -/
def closesOf (tr : List PEvent) : List Chan :=
  tr.filterMap (fun e =>
    match e with
    | PEvent.close c => some c
    | _ => none)

/-- The two pollers as `Start` spawns them.  The receive of `ensureReady` on `certsMounted`
returns only once that channel has been closed, which is the last action of
`ensureCertsMounted`; while it is not closed `ensureReady` stays blocked. -/
def runPollers {σ : Type} (env : PollEnv σ) (cr : CertRotator) (st : PSt σ) : PSt σ :=
  if Chan.certsMounted ∈ closesOf (ensureCertsMounted env cr st).trace then
    ensureReady env cr (ensureCertsMounted env cr st)
  else ensureCertsMounted env cr st

/-- The trace of the pollers run from external state `w`. -/
def pollTrace {σ : Type} (env : PollEnv σ) (cr : CertRotator) (w : σ) : List PEvent :=
  (runPollers env cr { ext := w, trace := [] }).trace

/-- A simulated disk and flag: the file appears at the stat call number `mountAt`, the
flag is read as true from the load call number `injectAt` on; the state counts the
calls. -/
def simPoll (mountAt injectAt : Nat) : PollEnv Nat :=
  { os_Stat := fun _ n =>
      (if mountAt ≤ n then none else some (Err.new "stat: no such file or directory"), n + 1)
    wasCAInjected_Load := fun n => (decide (injectAt ≤ n), n + 1) }

/-- The external state after `n` calls of `os.Stat` on the certificate file, from `w`. -/
def statExt {σ : Type} (env : PollEnv σ) (cr : CertRotator) (n : Nat) (w : σ) : σ :=
  Nat.iterate (fun s => (env.os_Stat (cr.CertDir ++ "/" ++ certName) s).2) n w

/-- The external state after `n` reads of the flag `wasCAInjected`, from `w`. -/
def loadExt {σ : Type} (env : PollEnv σ) (n : Nat) (w : σ) : σ :=
  Nat.iterate (fun s => (env.wasCAInjected_Load s).2) n w

/-! ## Metrics reporters

The reporters of `pkg/audit` and `pkg/controller/constrainttemplate` tag a context and
hand measurements to the metrics sink.  Tags and views belong to OpenCensus and the sink
to the metrics package; they are part of the environment. -/

/-- The tags of a context, `tag.Map`. -/
abbrev TagMap := List (String × String)

/-- A `tag.Mutator`; the reporters use `tag.Insert` only. -/
inductive Mutator where
  | insert (key value : String)
  deriving DecidableEq

/-- A `stats.Measurement` of an int64 measure: the name of the measure and the value. -/
structure Measurement where
  Measure : String
  Value : Int
  deriving DecidableEq

/-- What the reporters call outside of their files: `tag.New` on the tags of a context, and
`metrics.Record`. -/
structure MetricsEnv (σ : Type) where
  tag_New : TagMap → List Mutator → Except Err TagMap
  metrics_Record : TagMap → Measurement → σ → Option Err × σ

/-- Observable actions of the reporters, in program order: the measurements handed to
`metrics.Record` with its answer, the calls of `reportCtCount` with their result, and the
errors logged. -/
inductive MEvent where
  | record (ctx : TagMap) (m : Measurement) (result : Option Err)
  | reportCtCount (status : String) (count : Int) (result : Option Err)
  | error (err : Err) (msg : String)
  deriving DecidableEq

structure MSt (σ : Type) where
  ext : σ
  trace : List MEvent

def memit {σ : Type} (e : MEvent) (st : MSt σ) : MSt σ :=
  { st with trace := st.trace ++ [e] }

/-- Source: `reporter` of `pkg/audit`; of its context the tags matter. -/
structure audit.reporter where
  ctx : TagMap
  deriving DecidableEq

/-- Source: `reporter.report` of `pkg/audit`: the answer of `metrics.Record` is dropped. -/
def audit.report {σ : Type} (menv : MetricsEnv σ) (_r : audit.reporter) (ctx : TagMap)
    (m : Measurement) (st : MSt σ) : Option Err × MSt σ :=
  (none, { ext := (menv.metrics_Record ctx m st.ext).2,
           trace := st.trace ++ [MEvent.record ctx m (menv.metrics_Record ctx m st.ext).1] })

/-- What `tag.New` makes of a tag map on success: every inserted key that is absent is
bound to its value, in the order of the mutators. -/
def applyMutators (base : TagMap) (muts : List Mutator) : TagMap :=
  muts.foldl (fun m mu =>
    match mu with
    | Mutator.insert k v =>
      match m.lookup k with
      | some _ => m
      | none => m ++ [(k, v)]) base

/-- The validity of a tag value in OpenCensus: at most 255 bytes, all of them printable
ASCII. -/
def validTagValue (v : String) : Bool :=
  decide (v.length ≤ 255) && v.data.all (fun c => decide (32 ≤ c.toNat) && decide (c.toNat ≤ 126))

/-- Simulated `tag.New`: it rejects an invalid value like OpenCensus does. -/
def simTagNew (base : TagMap) (muts : List Mutator) : Except Err TagMap :=
  if muts.all (fun mu =>
      match mu with
      | Mutator.insert _ v => validTagValue v) then
    Except.ok (applyMutators base muts)
  else
    Except.error (Err.new "invalid value: exceeds max size or contains non-printable ASCII chars")

/-- A simulated metrics environment: the sink accepts every measurement, but the one handed
to it as call number `failAt`; the state counts the calls. -/
def simMetrics (failAt : Option Nat) : MetricsEnv Nat :=
  { tag_New := simTagNew
    metrics_Record := fun _ _ n =>
      (if failAt = some n then some (Err.new "record failed") else none, n + 1) }

/-! ## The registry of constraint templates -/

/-- Map write `m[k] = v` on a Go map held as a list of pairs read by first match. -/
def assocSet {α β : Type} [DecidableEq α] (m : List (α × β)) (k : α) (v : β) : List (α × β) :=
  (k, v) :: m.filter (fun p => p.1 != k)

/-- Map deletion `delete(m, k)`. -/
def assocErase {α β : Type} [DecidableEq α] (m : List (α × β)) (k : α) : List (α × β) :=
  m.filter (fun p => p.1 != k)

/-- Source: `ctStatus`, a string. -/
abbrev constrainttemplate.ctStatus := String

def constrainttemplate.statusActive : constrainttemplate.ctStatus := "active"

def constrainttemplate.statusError : constrainttemplate.ctStatus := "error"

def constrainttemplate.ctCount : String := "constraint_templates"

def constrainttemplate.statusKey : String := "status"

/-- Source: `ctRegistry`. -/
structure constrainttemplate.ctRegistry where
  cache : List (NamespacedName × constrainttemplate.ctStatus)
  dirty : Bool
  deriving DecidableEq

/-- Source: `reporter` of `pkg/controller/constrainttemplate`; of its context the tags
matter. -/
structure constrainttemplate.reporter where
  ctx : TagMap
  registry : constrainttemplate.ctRegistry
  deriving DecidableEq

/-- Source: `reporter.reportCtCount`.  The call and its result are recorded in the trace. -/
def constrainttemplate.reportCtCount {σ : Type} (menv : MetricsEnv σ)
    (r : constrainttemplate.reporter) (status : constrainttemplate.ctStatus) (count : Int)
    (st : MSt σ) : Option Err × MSt σ :=
  match menv.tag_New r.ctx [Mutator.insert constrainttemplate.statusKey status] with
  | Except.error err => (some err, memit (MEvent.reportCtCount status count (some err)) st)
  | Except.ok ctx =>
    ((menv.metrics_Record ctx { Measure := constrainttemplate.ctCount, Value := count }
        st.ext).1,
      { ext := (menv.metrics_Record ctx
          { Measure := constrainttemplate.ctCount, Value := count } st.ext).2,
        trace := st.trace ++
          [MEvent.record ctx { Measure := constrainttemplate.ctCount, Value := count }
              (menv.metrics_Record ctx
                { Measure := constrainttemplate.ctCount, Value := count } st.ext).1,
            MEvent.reportCtCount status count
              (menv.metrics_Record ctx
                { Measure := constrainttemplate.ctCount, Value := count } st.ext).1] })

/-- Source: `ctRegistry.add`. -/
def constrainttemplate.ctRegistry.add (r : constrainttemplate.ctRegistry)
    (key : NamespacedName) (status : constrainttemplate.ctStatus) :
    constrainttemplate.ctRegistry :=
  match r.cache.lookup key with
  | some v =>
    if v = status then r
    else { cache := assocSet r.cache key status, dirty := true }
  | none => { cache := assocSet r.cache key status, dirty := true }

/-- Source: `ctRegistry.remove`. -/
def constrainttemplate.ctRegistry.remove (r : constrainttemplate.ctRegistry)
    (key : NamespacedName) : constrainttemplate.ctRegistry :=
  match r.cache.lookup key with
  | none => r
  | some _ => { cache := assocErase r.cache key, dirty := true }

/-- Source: the statement `totals[status]++` of `ctRegistry.report`; a missing key reads
as zero.  The counts are bounded by the size of the cache and stay far below the range of
int64. -/
def constrainttemplate.increment (totals : List (constrainttemplate.ctStatus × Int))
    (status : constrainttemplate.ctStatus) : List (constrainttemplate.ctStatus × Int) :=
  match totals.lookup status with
  | some n => assocSet totals status (n + 1)
  | none => assocSet totals status (0 + 1)

/-- Source: the first loop of `ctRegistry.report`, over the entries of the cache; the map
it builds does not depend on the order of the iteration. -/
def constrainttemplate.countTotals
    (cache : List (NamespacedName × constrainttemplate.ctStatus))
    (totals : List (constrainttemplate.ctStatus × Int)) :
    List (constrainttemplate.ctStatus × Int) :=
  match cache with
  | [] => totals
  | (_, status) :: rest =>
    constrainttemplate.countTotals rest (constrainttemplate.increment totals status)

/-- Source: the second loop of `ctRegistry.report`, over the entries of `totals` in the
order of the iteration, with the current value of `hadErr`. -/
def constrainttemplate.reportTotals {σ : Type} (menv : MetricsEnv σ)
    (metrics : constrainttemplate.reporter)
    (entries : List (constrainttemplate.ctStatus × Int)) (hadErr : Bool) (st : MSt σ) :
    Bool × MSt σ :=
  match entries with
  | [] => (hadErr, st)
  | (status, count) :: rest =>
    match constrainttemplate.reportCtCount menv metrics status count st with
    | (some err, st1) =>
      constrainttemplate.reportTotals menv metrics rest true
        (memit (MEvent.error err "failed to report total constraint templates") st1)
    | (none, st1) => constrainttemplate.reportTotals menv metrics rest hadErr st1

/-- Source: `ctRegistry.report`.  The order in which Go iterates over the map `totals` is
not fixed; `order` is the order taken. -/
def constrainttemplate.ctRegistry.report {σ : Type} (menv : MetricsEnv σ)
    (order : List (constrainttemplate.ctStatus × Int) →
      List (constrainttemplate.ctStatus × Int))
    (r : constrainttemplate.ctRegistry) (metrics : constrainttemplate.reporter)
    (st : MSt σ) : constrainttemplate.ctRegistry × MSt σ :=
  if !r.dirty then (r, st)
  else
    match constrainttemplate.reportTotals menv metrics
        (order (constrainttemplate.countTotals r.cache
          [(constrainttemplate.statusError, 0), (constrainttemplate.statusActive, 0)]))
        false st with
    | (true, st1) => (r, st1)
    | (false, st1) => ({ r with dirty := false }, st1)

/-- The number of keys of a cache that hold a status. -/
def holding (cache : List (NamespacedName × constrainttemplate.ctStatus))
    (status : constrainttemplate.ctStatus) : Int :=
  (((cache.map Prod.fst).filter (fun k => decide (cache.lookup k = some status))).length : Nat)

/-- The calls of `reportCtCount` in a trace: status, count and result. -/
def ctCountCalls (tr : List MEvent) : List (String × Int × Option Err) :=
  tr.filterMap (fun e =>
    match e with
    | MEvent.reportCtCount status count result => some (status, count, result)
    | _ => none)

/-- A registry with three templates, two active and one in error, not yet reported. -/
def sampleRegistry : constrainttemplate.ctRegistry :=
  { cache := [({ Namespace := "", Name := "k8srequiredlabels" }, "active"),
              ({ Namespace := "", Name := "k8sallowedrepos" }, "error"),
              ({ Namespace := "", Name := "k8snoprivileged" }, "active")]
    dirty := true }

/-- The number of entries of a cache with a status. -/
def statusEntries (cache : List (NamespacedName × constrainttemplate.ctStatus))
    (status : constrainttemplate.ctStatus) : Nat :=
  (cache.filter (fun kv => decide (kv.2 = status))).length

/-! ## Lemmas on maps and traces -/

theorem mapLookup_populateSecret_caCert (cert key : Bytes) (ca : KeyPairArtifacts)
    (secret : Secret) :
    mapLookup (populateSecret cert key ca secret).Data caCertName = some ca.CertPEM := by
  rfl

theorem mapLookup_populateSecret_caKey (cert key : Bytes) (ca : KeyPairArtifacts)
    (secret : Secret) :
    mapLookup (populateSecret cert key ca secret).Data caKeyName = some ca.KeyPEM := by
  rfl

theorem mapLookup_populateSecret_cert (cert key : Bytes) (ca : KeyPairArtifacts)
    (secret : Secret) :
    mapLookup (populateSecret cert key ca secret).Data certName = some cert := by
  rfl

theorem mapLookup_populateSecret_key (cert key : Bytes) (ca : KeyPairArtifacts)
    (secret : Secret) :
    mapLookup (populateSecret cert key ca secret).Data keyName = some key := by
  rfl

theorem timeNow_trace {σ : Type} (env : Env σ) (st : St σ) :
    (timeNow env st).2.trace = st.trace := rfl

theorem lookaheadTime_trace {σ : Type} (env : Env σ) (st : St σ) :
    (lookaheadTime env st).2.trace = st.trace := rfl

theorem validCACert_trace {σ : Type} (env : Env σ) (cr : CertRotator) (cert key : Bytes)
    (st : St σ) : (validCACert env cr cert key st).2.trace = st.trace := by
  unfold validCACert
  dsimp only
  split <;> rfl

theorem validServerCert_trace {σ : Type} (env : Env σ) (cr : CertRotator)
    (caCert cert key : Bytes) (st : St σ) :
    (validServerCert env cr caCert cert key st).2.trace = st.trace := by
  unfold validServerCert
  dsimp only
  split <;> rfl

theorem validCACert_nil {σ : Type} (env : Env σ) (cr : CertRotator) (st : St σ) :
    (validCACert env cr (mapIndex none caCertName) (mapIndex none caKeyName) st).1 = false := by
  simp [validCACert, validCert, mapIndex, mapLookup]

/-- One run of the retried function on a secret whose CA and leaf are both valid. -/
theorem refreshFn_valid {σ : Type} (env : Env σ) (cr : CertRotator) (restart : Bool)
    (st st1 : St σ) (secret : Secret)
    (hget : clientGet env cr.SecretKey st = (Except.ok secret, st1))
    (hca : (validCACert env cr (mapIndex secret.Data caCertName)
      (mapIndex secret.Data caKeyName) st1).1 = true)
    (hleaf : (validServerCert env cr (mapIndex secret.Data caCertName)
      (mapIndex secret.Data certName) (mapIndex secret.Data keyName)
      (validCACert env cr (mapIndex secret.Data caCertName)
        (mapIndex secret.Data caKeyName) st1).2).1 = true) :
    refreshFn env cr restart st =
      (CondResult.ret true none,
        emit (Event.info "no cert refresh needed")
          (validServerCert env cr (mapIndex secret.Data caCertName)
            (mapIndex secret.Data certName) (mapIndex secret.Data keyName)
            (validCACert env cr (mapIndex secret.Data caCertName)
              (mapIndex secret.Data caKeyName) st1).2).2) := by
  cases hd : secret.Data with
  | none =>
    rw [hd] at hca
    rw [validCACert_nil] at hca
    exact absurd hca (by decide)
  | some m =>
    rw [hd] at hca hleaf
    simp [refreshFn, needsCARefresh, hget, hd, hca, hleaf]

/-- Claim C3. Rotation is a no-op when nothing is expiring: when the secret read has a CA
that passes `validCACert` and a leaf that passes `validServerCert`, the call of
`refreshCertIfNeeded` returns nil after a single attempt; all it does is the one
`client.Get` and the log line, so it calls `client.Update` zero times and generates no
key and no certificate. -/
theorem refreshCertIfNeeded_noop_when_valid {σ : Type} (env : Env σ) (cr : CertRotator)
    (restart : Bool) (st st1 : St σ) (secret : Secret)
    (hget : clientGet env cr.SecretKey st = (Except.ok secret, st1))
    (hca : (validCACert env cr (mapIndex secret.Data caCertName)
      (mapIndex secret.Data caKeyName) st1).1 = true)
    (hleaf : (validServerCert env cr (mapIndex secret.Data caCertName)
      (mapIndex secret.Data certName) (mapIndex secret.Data keyName)
      (validCACert env cr (mapIndex secret.Data caCertName)
        (mapIndex secret.Data caKeyName) st1).2).1 = true) :
    (refreshCertIfNeeded env cr restart st).1 = Outcome.returned none ∧
    (refreshCertIfNeeded env cr restart st).2.trace =
      st.trace ++ [Event.clientGet cr.SecretKey, Event.info "no cert refresh needed"] ∧
    updatesOf (refreshCertIfNeeded env cr restart st).2.trace = updatesOf st.trace ∧
    generatedCount (refreshCertIfNeeded env cr restart st).2.trace = generatedCount st.trace ∧
    getCount (refreshCertIfNeeded env cr restart st).2.trace = getCount st.trace + 1 := by
  have hfn := refreshFn_valid env cr restart st st1 secret hget hca hleaf
  have htr : st1.trace = st.trace ++ [Event.clientGet cr.SecretKey] := by
    have := congrArg (fun r => r.2.trace) hget
    simpa [clientGet] using this.symm
  have hrun : refreshCertIfNeeded env cr restart st =
      (Outcome.returned none,
        emit (Event.info "no cert refresh needed")
          (validServerCert env cr (mapIndex secret.Data caCertName)
            (mapIndex secret.Data certName) (mapIndex secret.Data keyName)
            (validCACert env cr (mapIndex secret.Data caCertName)
              (mapIndex secret.Data caKeyName) st1).2).2) := by
    simp [refreshCertIfNeeded, ExponentialBackoff, refreshBackoff, backoffLoop, hfn]
  rw [hrun]
  simp [emit, validServerCert_trace, validCACert_trace, htr, updatesOf, generatedCount,
    getCount]

theorem clientGet_trace {σ : Type} (env : Env σ) (key : NamespacedName) (st st1 : St σ)
    (r : Except Err Secret) (h : clientGet env key st = (r, st1)) :
    st1.trace = st.trace ++ [Event.clientGet key] := by
  have := congrArg (fun x => x.2.trace) h
  simpa [clientGet] using this.symm

theorem generateKey_trace {σ : Type} (env : Env σ) (bits : Nat) (st st1 : St σ)
    (r : Except Err PrivateKey) (h : generateKey env bits st = (r, st1)) :
    st1.trace = st.trace ++ [Event.generateKey] := by
  have := congrArg (fun x => x.2.trace) h
  simpa [generateKey] using this.symm

theorem createCertificate_trace {σ : Type} (env : Env σ) (t p : Certificate)
    (pub : PublicKey) (priv : PrivateKey) (st st1 : St σ) (r : Except Err Bytes)
    (h : createCertificate env t p pub priv st = (r, st1)) :
    st1.trace = st.trace ++ [Event.createCertificate t] := by
  have := congrArg (fun x => x.2.trace) h
  simpa [createCertificate] using this.symm

theorem clientUpdate_trace {σ : Type} (env : Env σ) (s : Secret) (st st1 : St σ)
    (r : Option Err) (h : clientUpdate env s st = (r, st1)) :
    st1.trace = st.trace ++ [Event.clientUpdate s r] := by
  have h1 := congrArg (fun x => x.2.trace) h
  have h2 := congrArg (fun x => x.1) h
  simp only [clientUpdate] at h1 h2
  rw [← h1, ← h2]

/-- Creating the leaf appends only generation events to the trace. -/
theorem createCertPEM_trace {σ : Type} (env : Env σ) (cr : CertRotator)
    (ca : KeyPairArtifacts) (st : St σ) :
    ∃ l, (createCertPEM env cr ca st).2.trace = st.trace ++ l ∧ updatesOf l = [] ∧
      getCount l = 0 ∧ refreshCalls l = [] ∧ spawnCount l = 0 := by
  unfold createCertPEM
  dsimp only
  rcases hk : generateKey env 2048 (timeNow env st).2 with ⟨rk, st1⟩
  have h1 := generateKey_trace env 2048 _ st1 rk hk
  rw [timeNow_trace] at h1
  cases rk with
  | error e => exact ⟨[Event.generateKey], h1, rfl, rfl, rfl, rfl⟩
  | ok key =>
    dsimp only
    rcases hc : createCertificate env (leafTemplate cr (timeNow env st).1) ca.Cert
      key.Public ca.Key st1 with ⟨rc, st2⟩
    have h2 := createCertificate_trace env _ _ _ _ st1 st2 rc hc
    have h3 : st2.trace = st.trace ++
        [Event.generateKey, Event.createCertificate (leafTemplate cr (timeNow env st).1)] := by
      rw [h2, h1]; simp
    cases rc with
    | error e => exact ⟨_, h3, rfl, rfl, rfl, rfl⟩
    | ok der =>
      dsimp only
      cases pemEncode env der key with
      | error e => exact ⟨_, h3, rfl, rfl, rfl, rfl⟩
      | ok pr => exact ⟨_, h3, rfl, rfl, rfl, rfl⟩

/-- Creating the CA appends only generation events to the trace. -/
theorem createCACert_trace {σ : Type} (env : Env σ) (cr : CertRotator) (st : St σ) :
    ∃ l, (createCACert env cr st).2.trace = st.trace ++ l ∧ updatesOf l = [] ∧
      getCount l = 0 ∧ refreshCalls l = [] ∧ spawnCount l = 0 := by
  unfold createCACert
  dsimp only
  rcases hk : generateKey env 2048 (timeNow env st).2 with ⟨rk, st1⟩
  have h1 := generateKey_trace env 2048 _ st1 rk hk
  rw [timeNow_trace] at h1
  cases rk with
  | error e => exact ⟨[Event.generateKey], h1, rfl, rfl, rfl, rfl⟩
  | ok key =>
    dsimp only
    rcases hc : createCertificate env (caTemplate cr (timeNow env st).1)
      (caTemplate cr (timeNow env st).1) key.Public key st1 with ⟨rc, st2⟩
    have h2 := createCertificate_trace env _ _ _ _ st1 st2 rc hc
    have h3 : st2.trace = st.trace ++
        [Event.generateKey, Event.createCertificate (caTemplate cr (timeNow env st).1)] := by
      rw [h2, h1]; simp
    cases rc with
    | error e => exact ⟨_, h3, rfl, rfl, rfl, rfl⟩
    | ok der =>
      dsimp only
      cases pemEncode env der key with
      | error e => exact ⟨_, h3, rfl, rfl, rfl, rfl⟩
      | ok pr =>
        dsimp only
        cases env.x509_ParseCertificate der with
        | error e => exact ⟨_, h3, rfl, rfl, rfl, rfl⟩
        | ok c => exact ⟨_, h3, rfl, rfl, rfl, rfl⟩

theorem updatesOf_append (a b : List Event) : updatesOf (a ++ b) = updatesOf a ++ updatesOf b := by
  simp [updatesOf, List.filterMap_append]

theorem getCount_append (a b : List Event) : getCount (a ++ b) = getCount a + getCount b := by
  simp [getCount, List.countP_append]

theorem refreshCalls_append (a b : List Event) :
    refreshCalls (a ++ b) = refreshCalls a ++ refreshCalls b := by
  simp [refreshCalls, List.filterMap_append]

/-- When the CA artifacts and the leaf are obtained, `refreshCerts` ends in the one
`client.Update` of the populated secret. -/
theorem refreshCerts_generated {σ : Type} (env : Env σ) (cr : CertRotator) (refreshCA : Bool)
    (secret : Secret) (st st1 st2 : St σ) (ca : KeyPairArtifacts) (cert key : Bytes)
    (hCA : (if refreshCA then createCACert env cr (emit (Event.refreshCerts refreshCA) st)
      else (buildArtifactsFromSecret env secret, emit (Event.refreshCerts refreshCA) st))
      = (Except.ok ca, st1))
    (hleaf : createCertPEM env cr ca st1 = (Except.ok (cert, key), st2)) :
    refreshCerts env cr refreshCA secret st =
      clientUpdate env (populateSecret cert key ca secret) st2 := by
  unfold refreshCerts
  simp only [hCA, hleaf, writeSecret]

/-- The trace of `refreshCerts`: its entry, then no `client.Get`, no nested entry, and at
most one `client.Update`, which carries the result of the call. -/
theorem refreshCerts_trace {σ : Type} (env : Env σ) (cr : CertRotator) (refreshCA : Bool)
    (secret : Secret) (st : St σ) :
    ∃ l, (refreshCerts env cr refreshCA secret st).2.trace =
        st.trace ++ Event.refreshCerts refreshCA :: l ∧
      getCount l = 0 ∧ refreshCalls l = [] ∧
      ((updatesOf l = [] ∧ (refreshCerts env cr refreshCA secret st).1 ≠ none) ∨
        ∃ s, updatesOf l = [(s, (refreshCerts env cr refreshCA secret st).1)]) ∧
      spawnCount l = 0 := by
  have hstep : ∀ (r : Except Err KeyPairArtifacts) (st1 : St σ) (l1 : List Event),
      st1.trace = st.trace ++ Event.refreshCerts refreshCA :: l1 →
      updatesOf l1 = [] → getCount l1 = 0 → refreshCalls l1 = [] → spawnCount l1 = 0 →
      ∃ l, (match (r, st1) with
          | (Except.error err, st1) => (some err, st1)
          | (Except.ok ca, st1) =>
            match createCertPEM env cr ca st1 with
            | (Except.error err, st2) => (some err, st2)
            | (Except.ok (cert, key), st2) => writeSecret env cert key ca secret st2).2.trace =
          st.trace ++ Event.refreshCerts refreshCA :: l ∧
        getCount l = 0 ∧ refreshCalls l = [] ∧
        ((updatesOf l = [] ∧ (match (r, st1) with
          | (Except.error err, st1) => (some err, st1)
          | (Except.ok ca, st1) =>
            match createCertPEM env cr ca st1 with
            | (Except.error err, st2) => (some err, st2)
            | (Except.ok (cert, key), st2) =>
              writeSecret env cert key ca secret st2).1 ≠ none) ∨
          ∃ s, updatesOf l = [(s, (match (r, st1) with
          | (Except.error err, st1) => (some err, st1)
          | (Except.ok ca, st1) =>
            match createCertPEM env cr ca st1 with
            | (Except.error err, st2) => (some err, st2)
            | (Except.ok (cert, key), st2) => writeSecret env cert key ca secret st2).1)]) ∧
        spawnCount l = 0 := by
    intro r st1 l1 h1 hu hg hr hs
    cases r with
    | error e => exact ⟨l1, h1, hg, hr, Or.inl ⟨hu, by simp⟩, hs⟩
    | ok ca =>
      dsimp only
      obtain ⟨l2, h2, hu2, hg2, hr2, hs2⟩ := createCertPEM_trace env cr ca st1
      rcases hc : createCertPEM env cr ca st1 with ⟨rc, st2⟩
      rw [hc] at h2
      simp only at h2
      have hs12 : spawnCount (l1 ++ l2) = 0 := by
        simp [spawnCount, List.countP_append] at hs hs2 ⊢
        exact ⟨hs, hs2⟩
      cases rc with
      | error e =>
        refine ⟨l1 ++ l2, ?_, ?_, ?_, Or.inl ⟨?_, by simp⟩, hs12⟩
        · simp [h2, h1]
        · simp [getCount_append, hg, hg2]
        · simp [refreshCalls_append, hr, hr2]
        · simp [updatesOf_append, hu, hu2]
      | ok pr =>
        obtain ⟨cert, key⟩ := pr
        dsimp only [writeSecret]
        rcases hw : clientUpdate env (populateSecret cert key ca secret) st2 with ⟨rw1, st3⟩
        have h3 := clientUpdate_trace env _ st2 st3 rw1 hw
        refine ⟨l1 ++ l2 ++ [Event.clientUpdate (populateSecret cert key ca secret) rw1],
          ?_, ?_, ?_, Or.inr ⟨populateSecret cert key ca secret, ?_⟩, ?_⟩
        · simp [h3, h2, h1]
        · simp [getCount_append, hg, hg2]; rfl
        · simp [refreshCalls_append, hr, hr2]; rfl
        · simp [updatesOf_append, hu, hu2]; rfl
        · unfold spawnCount at hs12 ⊢
          rw [List.countP_append, hs12]
          rfl
  unfold refreshCerts
  dsimp only
  cases refreshCA with
  | true =>
    obtain ⟨l1, h1, hu, hg, hr, hs⟩ :=
      createCACert_trace env cr (emit (Event.refreshCerts true) st)
    rcases hc : createCACert env cr (emit (Event.refreshCerts true) st) with ⟨r, st1⟩
    rw [hc] at h1
    simp only [emit, List.append_assoc, List.singleton_append] at h1
    simpa using hstep r st1 l1 h1 hu hg hr hs
  | false =>
    simpa using hstep (buildArtifactsFromSecret env secret)
      (emit (Event.refreshCerts false) st) [] (by simp [emit]) rfl rfl rfl rfl

theorem needsCARefresh_trace {σ : Type} (env : Env σ) (cr : CertRotator) (secret : Secret)
    (st : St σ) : (needsCARefresh env cr secret st).2.trace = st.trace := by
  unfold needsCARefresh
  cases secret.Data with
  | none => rfl
  | some m => exact validCACert_trace env cr _ _ st

theorem buildArtifactsFromSecret_pem {σ : Type} (env : Env σ) (secret : Secret)
    (ca : KeyPairArtifacts) (h : buildArtifactsFromSecret env secret = Except.ok ca) :
    mapLookup secret.Data caCertName = some ca.CertPEM ∧
    mapLookup secret.Data caKeyName = some ca.KeyPEM := by
  unfold buildArtifactsFromSecret at h
  split at h
  · cases h
  · split at h
    · cases h
    · split at h
      · cases h
      · split at h
        · cases h
        · split at h
          · cases h
          · split at h
            · cases h
            · cases h
              constructor <;> assumption

theorem needsCARefresh_some {σ : Type} (env : Env σ) (cr : CertRotator) (secret : Secret)
    (st : St σ) (h : secret.Data ≠ none) :
    needsCARefresh env cr secret st =
      (!(validCACert env cr (mapIndex secret.Data caCertName)
          (mapIndex secret.Data caKeyName) st).1,
        (validCACert env cr (mapIndex secret.Data caCertName)
          (mapIndex secret.Data caKeyName) st).2) := by
  unfold needsCARefresh
  cases hd : secret.Data with
  | none => exact absurd hd h
  | some m => rfl

theorem validCACert_data {σ : Type} (env : Env σ) (cr : CertRotator) (secret : Secret)
    (st : St σ)
    (h : (validCACert env cr (mapIndex secret.Data caCertName)
      (mapIndex secret.Data caKeyName) st).1 = true) : secret.Data ≠ none := by
  intro hd
  rw [hd, validCACert_nil] at h
  exact absurd h (by decide)

/-- The refresh function when the read fails. -/
theorem refreshFn_get_error {σ : Type} (env : Env σ) (cr : CertRotator) (restart : Bool)
    (st st1 : St σ) (err : Err)
    (hget : clientGet env cr.SecretKey st = (Except.error err, st1)) :
    refreshFn env cr restart st =
      (CondResult.ret false (some (Err.wrap err "acquiring secret to update certificates")),
        st1) := by
  simp [refreshFn, hget]

/-- The refresh function on the branch that renews the CA and the leaf, when
`refreshCerts` fails. -/
theorem refreshFn_full_error {σ : Type} (env : Env σ) (cr : CertRotator) (restart : Bool)
    (st st1 st2 : St σ) (secret : Secret) (err : Err)
    (hget : clientGet env cr.SecretKey st = (Except.ok secret, st1))
    (hneed : (needsCARefresh env cr secret st1).1 = true)
    (hrc : refreshCerts env cr true secret
      (emit (Event.info "refreshing CA and server certs")
        (needsCARefresh env cr secret st1).2) = (some err, st2)) :
    refreshFn env cr restart st =
      (CondResult.ret false none,
        emit (Event.error err "could not refresh CA and server certs") st2) := by
  simp [refreshFn, hget, hneed, hrc]

/-- The refresh function on the branch that renews the CA and the leaf, when
`refreshCerts` succeeds. -/
theorem refreshFn_full_ok {σ : Type} (env : Env σ) (cr : CertRotator) (restart : Bool)
    (st st1 st2 : St σ) (secret : Secret)
    (hget : clientGet env cr.SecretKey st = (Except.ok secret, st1))
    (hneed : (needsCARefresh env cr secret st1).1 = true)
    (hrc : refreshCerts env cr true secret
      (emit (Event.info "refreshing CA and server certs")
        (needsCARefresh env cr secret st1).2) = (none, st2)) :
    refreshFn env cr restart st =
      if restart then
        (CondResult.exit 0, emit (Event.osExit 0) (emit (Event.info restartMessage)
          (emit (Event.info "server certs refreshed") st2)))
      else (CondResult.ret true none, emit (Event.info "server certs refreshed") st2) := by
  simp [refreshFn, hget, hneed, hrc]

/-- The refresh function on the branch that renews the leaf only, when `refreshCerts`
fails. -/
theorem refreshFn_leaf_error {σ : Type} (env : Env σ) (cr : CertRotator) (restart : Bool)
    (st st1 st2 : St σ) (secret : Secret) (err : Err)
    (hget : clientGet env cr.SecretKey st = (Except.ok secret, st1))
    (hneed : (needsCARefresh env cr secret st1).1 = false)
    (hleaf : (validServerCert env cr (mapIndex secret.Data caCertName)
      (mapIndex secret.Data certName) (mapIndex secret.Data keyName)
      (needsCARefresh env cr secret st1).2).1 = false)
    (hrc : refreshCerts env cr false secret
      (emit (Event.info "refreshing server certs")
        (validServerCert env cr (mapIndex secret.Data caCertName)
          (mapIndex secret.Data certName) (mapIndex secret.Data keyName)
          (needsCARefresh env cr secret st1).2).2) = (some err, st2)) :
    refreshFn env cr restart st =
      (CondResult.ret false none,
        emit (Event.error err "could not refresh server certs") st2) := by
  simp [refreshFn, hget, hneed, hleaf, hrc]

/-- The refresh function on the branch that renews the leaf only, when `refreshCerts`
succeeds. -/
theorem refreshFn_leaf_ok {σ : Type} (env : Env σ) (cr : CertRotator) (restart : Bool)
    (st st1 st2 : St σ) (secret : Secret)
    (hget : clientGet env cr.SecretKey st = (Except.ok secret, st1))
    (hneed : (needsCARefresh env cr secret st1).1 = false)
    (hleaf : (validServerCert env cr (mapIndex secret.Data caCertName)
      (mapIndex secret.Data certName) (mapIndex secret.Data keyName)
      (needsCARefresh env cr secret st1).2).1 = false)
    (hrc : refreshCerts env cr false secret
      (emit (Event.info "refreshing server certs")
        (validServerCert env cr (mapIndex secret.Data caCertName)
          (mapIndex secret.Data certName) (mapIndex secret.Data keyName)
          (needsCARefresh env cr secret st1).2).2) = (none, st2)) :
    refreshFn env cr restart st =
      if restart then
        (CondResult.exit 0, emit (Event.osExit 0) (emit (Event.info restartMessage)
          (emit (Event.info "server certs refreshed") st2)))
      else (CondResult.ret true none, emit (Event.info "server certs refreshed") st2) := by
  simp [refreshFn, hget, hneed, hleaf, hrc]

/-- The refresh function on the branch that finds nothing to renew. -/
theorem refreshFn_none {σ : Type} (env : Env σ) (cr : CertRotator) (restart : Bool)
    (st st1 : St σ) (secret : Secret)
    (hget : clientGet env cr.SecretKey st = (Except.ok secret, st1))
    (hneed : (needsCARefresh env cr secret st1).1 = false)
    (hleaf : (validServerCert env cr (mapIndex secret.Data caCertName)
      (mapIndex secret.Data certName) (mapIndex secret.Data keyName)
      (needsCARefresh env cr secret st1).2).1 = true) :
    refreshFn env cr restart st =
      (CondResult.ret true none,
        emit (Event.info "no cert refresh needed")
          (validServerCert env cr (mapIndex secret.Data caCertName)
            (mapIndex secret.Data certName) (mapIndex secret.Data keyName)
            (needsCARefresh env cr secret st1).2).2) := by
  simp [refreshFn, hget, hneed, hleaf]

/-- Claim C1. Leaf-only rotation keeps the CA byte-identical: when the secret read has a CA
that passes `validCACert` and a leaf that fails `validServerCert`, a successful attempt
of the refresh function enters `refreshCerts` once, with `refreshCA = false`; the CA
artifacts are those that `buildArtifactsFromSecret` parses from the secret read, the leaf
is the one `createCertPEM` makes from these artifacts, and there is a single
`client.Update`, whose secret has `ca.crt` and `ca.key` equal to the entries read and
`tls.crt` and `tls.key` equal to the new leaf certificate and key. -/
theorem leaf_only_rotation_keeps_ca {σ : Type} (env : Env σ) (cr : CertRotator)
    (restart : Bool) (st st1 : St σ) (secret : Secret)
    (hget : clientGet env cr.SecretKey st = (Except.ok secret, st1))
    (hca : (validCACert env cr (mapIndex secret.Data caCertName)
      (mapIndex secret.Data caKeyName) st1).1 = true)
    (hleaf : (validServerCert env cr (mapIndex secret.Data caCertName)
      (mapIndex secret.Data certName) (mapIndex secret.Data keyName)
      (validCACert env cr (mapIndex secret.Data caCertName)
        (mapIndex secret.Data caKeyName) st1).2).1 = false)
    (hsucc : (refreshFn env cr restart st).1 ≠ CondResult.ret false none) :
    ∃ (ca : KeyPairArtifacts) (cert key : Bytes) (st2 : St σ),
      buildArtifactsFromSecret env secret = Except.ok ca ∧
      createCertPEM env cr ca
        (emit (Event.refreshCerts false) (emit (Event.info "refreshing server certs")
          (validServerCert env cr (mapIndex secret.Data caCertName)
            (mapIndex secret.Data certName) (mapIndex secret.Data keyName)
            (validCACert env cr (mapIndex secret.Data caCertName)
              (mapIndex secret.Data caKeyName) st1).2).2)) = (Except.ok (cert, key), st2) ∧
      refreshCalls (refreshFn env cr restart st).2.trace = refreshCalls st.trace ++ [false] ∧
      updatesOf (refreshFn env cr restart st).2.trace =
        updatesOf st.trace ++ [(populateSecret cert key ca secret, none)] ∧
      mapLookup (populateSecret cert key ca secret).Data caCertName =
        mapLookup secret.Data caCertName ∧
      mapLookup (populateSecret cert key ca secret).Data caKeyName =
        mapLookup secret.Data caKeyName ∧
      mapLookup (populateSecret cert key ca secret).Data certName = some cert ∧
      mapLookup (populateSecret cert key ca secret).Data keyName = some key := by
  have hn := needsCARefresh_some env cr secret st1 (validCACert_data env cr secret st1 hca)
  have hneed : (needsCARefresh env cr secret st1).1 = false := by rw [hn]; simp [hca]
  have hst : (needsCARefresh env cr secret st1).2 =
      (validCACert env cr (mapIndex secret.Data caCertName)
        (mapIndex secret.Data caKeyName) st1).2 := by rw [hn]
  rw [← hst] at hleaf ⊢
  have htr1 := clientGet_trace env _ st st1 _ hget
  generalize hstA : emit (Event.info "refreshing server certs")
    (validServerCert env cr (mapIndex secret.Data caCertName)
      (mapIndex secret.Data certName) (mapIndex secret.Data keyName)
      (needsCARefresh env cr secret st1).2).2 = stA
  have htrA : stA.trace =
      st.trace ++ [Event.clientGet cr.SecretKey, Event.info "refreshing server certs"] := by
    rw [← hstA]
    simp [emit, validServerCert_trace, needsCARefresh_trace, htr1]
  rcases hrc : refreshCerts env cr false secret stA with ⟨r, st3⟩
  cases r with
  | some err =>
    have hfn := refreshFn_leaf_error env cr restart st st1 st3 secret err hget hneed hleaf
      (by rw [hstA]; exact hrc)
    rw [hfn] at hsucc
    exact absurd rfl hsucc
  | none =>
    have hfn := refreshFn_leaf_ok env cr restart st st1 st3 secret hget hneed hleaf
      (by rw [hstA]; exact hrc)
    rcases hb : buildArtifactsFromSecret env secret with e | ca
    · simp [refreshCerts, hb] at hrc
    · obtain ⟨hpc, hpk⟩ := buildArtifactsFromSecret_pem env secret ca hb
      obtain ⟨l2, h2, hu2, hg2, hr2, hs2⟩ :=
        createCertPEM_trace env cr ca (emit (Event.refreshCerts false) stA)
      rcases hc : createCertPEM env cr ca (emit (Event.refreshCerts false) stA) with ⟨rc, st2⟩
      rw [hc] at h2
      cases rc with
      | error e => simp [refreshCerts, hb, hc] at hrc
      | ok pr =>
        obtain ⟨cert, key⟩ := pr
        have hgen := refreshCerts_generated env cr false secret stA
          (emit (Event.refreshCerts false) stA) st2 ca cert key (by simp [hb]) hc
        rw [hrc] at hgen
        have h3 := clientUpdate_trace env _ st2 st3 none hgen.symm
        have htr3 : st3.trace = st.trace ++
            [Event.clientGet cr.SecretKey, Event.info "refreshing server certs",
              Event.refreshCerts false] ++ l2 ++
            [Event.clientUpdate (populateSecret cert key ca secret) none] := by
          rw [h3, h2]; simp [emit, htrA]
        refine ⟨ca, cert, key, st2, rfl, hc, ?_, ?_, ?_, ?_, ?_, ?_⟩
        · rw [hfn]
          cases restart <;>
            simp only [emit, htr3, refreshCalls_append, hr2, Bool.false_eq_true, if_true,
              if_false] <;> simp [refreshCalls]
        · rw [hfn]
          cases restart <;>
            simp only [emit, htr3, updatesOf_append, hu2, Bool.false_eq_true, if_true,
              if_false] <;> simp [updatesOf]
        · rw [mapLookup_populateSecret_caCert, hpc]
        · rw [mapLookup_populateSecret_caKey, hpk]
        · exact mapLookup_populateSecret_cert _ _ _ _
        · exact mapLookup_populateSecret_key _ _ _ _

theorem needsCARefresh_of_invalid {σ : Type} (env : Env σ) (cr : CertRotator)
    (secret : Secret) (st : St σ)
    (h : secret.Data = none ∨ (validCACert env cr (mapIndex secret.Data caCertName)
      (mapIndex secret.Data caKeyName) st).1 = false) :
    (needsCARefresh env cr secret st).1 = true := by
  unfold needsCARefresh
  cases hd : secret.Data with
  | none => rfl
  | some m =>
    rw [hd] at h
    rcases h with h | h
    · cases h
    · simp [h]

/-- Claim C2. Full rotation: when the secret read has nil `Data` or a CA that fails
`validCACert`, an attempt in which `createCACert` yields a CA and `createCertPEM` yields a
leaf from that CA enters `refreshCerts` once, with `refreshCA = true`, and calls
`client.Update` exactly once; the secret passed holds the four entries, `ca.crt` and
`ca.key` equal to the `CertPEM` and `KeyPEM` of the new CA, `tls.crt` and `tls.key` equal
to the certificate and key PEM of the new leaf.  The attempt is successful when that
update is. -/
theorem full_rotation_writes_four_entries {σ : Type} (env : Env σ) (cr : CertRotator)
    (restart : Bool) (st st1 st2 st3 : St σ) (secret : Secret) (ca : KeyPairArtifacts)
    (cert key : Bytes)
    (hget : clientGet env cr.SecretKey st = (Except.ok secret, st1))
    (hinv : secret.Data = none ∨ (validCACert env cr (mapIndex secret.Data caCertName)
      (mapIndex secret.Data caKeyName) st1).1 = false)
    (hCA : createCACert env cr (emit (Event.refreshCerts true)
      (emit (Event.info "refreshing CA and server certs")
        (needsCARefresh env cr secret st1).2)) = (Except.ok ca, st2))
    (hleaf : createCertPEM env cr ca st2 = (Except.ok (cert, key), st3)) :
    refreshCalls (refreshFn env cr restart st).2.trace = refreshCalls st.trace ++ [true] ∧
    updatesOf (refreshFn env cr restart st).2.trace =
      updatesOf st.trace ++ [(populateSecret cert key ca secret,
        (clientUpdate env (populateSecret cert key ca secret) st3).1)] ∧
    mapLookup (populateSecret cert key ca secret).Data caCertName = some ca.CertPEM ∧
    mapLookup (populateSecret cert key ca secret).Data caKeyName = some ca.KeyPEM ∧
    mapLookup (populateSecret cert key ca secret).Data certName = some cert ∧
    mapLookup (populateSecret cert key ca secret).Data keyName = some key ∧
    ((clientUpdate env (populateSecret cert key ca secret) st3).1 = none →
      (refreshFn env cr restart st).1 =
        if restart then CondResult.exit 0 else CondResult.ret true none) := by
  have hneed := needsCARefresh_of_invalid env cr secret st1 hinv
  have htr1 := clientGet_trace env _ st st1 _ hget
  generalize hstA : emit (Event.info "refreshing CA and server certs")
    (needsCARefresh env cr secret st1).2 = stA at hCA
  have htrA : stA.trace = st.trace ++
      [Event.clientGet cr.SecretKey, Event.info "refreshing CA and server certs"] := by
    rw [← hstA]
    simp [emit, needsCARefresh_trace, htr1]
  obtain ⟨l1, h1, hu1, hg1, hr1, hs1⟩ := createCACert_trace env cr (emit (Event.refreshCerts true) stA)
  rw [hCA] at h1
  obtain ⟨l2, h2, hu2, hg2, hr2, hs2⟩ := createCertPEM_trace env cr ca st2
  rw [hleaf] at h2
  have hgen := refreshCerts_generated env cr true secret stA st2 st3 ca cert key
    (by simp [hCA]) hleaf
  rcases hw : clientUpdate env (populateSecret cert key ca secret) st3 with ⟨r, st4⟩
  have h3 := clientUpdate_trace env _ st3 st4 r hw
  rw [hw] at hgen
  have htr4 : st4.trace = st.trace ++
      [Event.clientGet cr.SecretKey, Event.info "refreshing CA and server certs",
        Event.refreshCerts true] ++ l1 ++ l2 ++
      [Event.clientUpdate (populateSecret cert key ca secret) r] := by
    rw [h3, h2, h1]; simp [emit, htrA]
  refine ⟨?_, ?_, mapLookup_populateSecret_caCert _ _ _ _,
    mapLookup_populateSecret_caKey _ _ _ _, mapLookup_populateSecret_cert _ _ _ _,
    mapLookup_populateSecret_key _ _ _ _, ?_⟩
  · cases r with
    | some err =>
      rw [refreshFn_full_error env cr restart st st1 st4 secret err hget hneed
        (by rw [hstA]; exact hgen)]
      simp only [emit, htr4, refreshCalls_append, hr1, hr2]
      simp [refreshCalls]
    | none =>
      rw [refreshFn_full_ok env cr restart st st1 st4 secret hget hneed
        (by rw [hstA]; exact hgen)]
      cases restart <;>
        simp only [emit, htr4, refreshCalls_append, hr1, hr2, Bool.false_eq_true, if_true,
          if_false] <;> simp [refreshCalls]
  · cases r with
    | some err =>
      rw [refreshFn_full_error env cr restart st st1 st4 secret err hget hneed
        (by rw [hstA]; exact hgen)]
      simp only [emit, htr4, updatesOf_append, hu1, hu2]
      simp [updatesOf]
    | none =>
      rw [refreshFn_full_ok env cr restart st st1 st4 secret hget hneed
        (by rw [hstA]; exact hgen)]
      cases restart <;>
        simp only [emit, htr4, updatesOf_append, hu1, hu2, Bool.false_eq_true, if_true,
          if_false] <;> simp [updatesOf]
  · intro hnone
    simp only at hnone
    subst hnone
    rw [refreshFn_full_ok env cr restart st st1 st4 secret hget hneed
      (by rw [hstA]; exact hgen)]
    cases restart <;> rfl

/-! ## The retry loop -/

theorem refreshCertIfNeeded_eq {σ : Type} (env : Env σ) (cr : CertRotator) (restart : Bool)
    (st : St σ) :
    refreshCertIfNeeded env cr restart st = backoffLoop 10 (refreshFn env cr restart) st := by
  unfold refreshCertIfNeeded ExponentialBackoff
  split <;> rename_i h <;> rw [← h] <;> rfl

theorem attemptState_succ {σ : Type} (condition : St σ → CondResult × St σ) (k : Nat)
    (st : St σ) :
    attemptState condition (k + 1) st = (condition (attemptState condition k st)).2 := by
  induction k generalizing st with
  | zero => rfl
  | succ k ih =>
    show attemptState condition (k + 1) (condition st).2 = _
    rw [ih]
    rfl

/-- Attempts that report neither an error nor completion are followed by the rest of the
loop. -/
theorem backoffLoop_failed_prefix {σ : Type} (condition : St σ → CondResult × St σ)
    (k n : Nat) (st : St σ)
    (h : ∀ i, i < k → (condition (attemptState condition i st)).1 = CondResult.ret false none) :
    backoffLoop (k + n) condition st = backoffLoop n condition (attemptState condition k st) := by
  induction k generalizing st with
  | zero => simp [attemptState]
  | succ k ih =>
    have h0 : (condition st).1 = CondResult.ret false none := h 0 (Nat.succ_pos k)
    have hk : backoffLoop (k + 1 + n) condition st =
        backoffLoop (k + n) condition (condition st).2 := by
      rw [show k + 1 + n = (k + n) + 1 by omega]
      rcases hc : condition st with ⟨r, st1⟩
      rw [hc] at h0
      simp only at h0
      subst h0
      simp [backoffLoop, hc]
    rw [hk, ih (condition st).2 (fun i hi => h (i + 1) (Nat.succ_lt_succ hi))]
    rfl

theorem backoffLoop_done {σ : Type} (condition : St σ → CondResult × St σ) (n : Nat)
    (st st1 : St σ) (h : condition st = (CondResult.ret true none, st1)) :
    backoffLoop (n + 1) condition st = (Outcome.returned none, st1) := by
  simp [backoffLoop, h]

theorem backoffLoop_error {σ : Type} (condition : St σ → CondResult × St σ) (n : Nat)
    (st st1 : St σ) (done : Bool) (err : Err)
    (h : condition st = (CondResult.ret done (some err), st1)) :
    backoffLoop (n + 1) condition st = (Outcome.returned (some err), st1) := by
  simp [backoffLoop, h]

/-- Every run of the refresh function makes exactly one `client.Get`. -/
theorem refreshFn_getCount {σ : Type} (env : Env σ) (cr : CertRotator) (restart : Bool)
    (st : St σ) :
    getCount (refreshFn env cr restart st).2.trace = getCount st.trace + 1 := by
  rcases hget : clientGet env cr.SecretKey st with ⟨r, st1⟩
  have htr1 := clientGet_trace env _ st st1 _ hget
  have hg1 : getCount st1.trace = getCount st.trace + 1 := by
    rw [htr1, getCount_append]; rfl
  cases r with
  | error e => rw [refreshFn_get_error env cr restart st st1 e hget]; exact hg1
  | ok secret =>
    cases hneed : (needsCARefresh env cr secret st1).1 with
    | true =>
      obtain ⟨l, hl, hg, -, -, -⟩ := refreshCerts_trace env cr true secret
        (emit (Event.info "refreshing CA and server certs")
          (needsCARefresh env cr secret st1).2)
      rcases hrc : refreshCerts env cr true secret
        (emit (Event.info "refreshing CA and server certs")
          (needsCARefresh env cr secret st1).2) with ⟨r2, st2⟩
      rw [hrc] at hl
      have hg2 : getCount st2.trace = getCount st.trace + 1 := by
        simp only [emit, needsCARefresh_trace] at hl
        rw [hl, getCount_append, getCount_append, hg1]
        have : getCount (Event.refreshCerts true :: l) = getCount l := by
          simp [getCount]
        rw [this, hg]
        rfl
      cases r2 with
      | some err =>
        rw [refreshFn_full_error env cr restart st st1 st2 secret err hget hneed hrc]
        simp only [emit, getCount_append, hg2]
        rfl
      | none =>
        rw [refreshFn_full_ok env cr restart st st1 st2 secret hget hneed hrc]
        cases restart <;>
          simp only [emit, getCount_append, hg2, Bool.false_eq_true, if_true, if_false] <;> rfl
    | false =>
      cases hleaf : (validServerCert env cr (mapIndex secret.Data caCertName)
        (mapIndex secret.Data certName) (mapIndex secret.Data keyName)
        (needsCARefresh env cr secret st1).2).1 with
      | true =>
        rw [refreshFn_none env cr restart st st1 secret hget hneed hleaf]
        simp only [emit, validServerCert_trace, needsCARefresh_trace, getCount_append, hg1]
        rfl
      | false =>
        obtain ⟨l, hl, hg, -, -, -⟩ := refreshCerts_trace env cr false secret
          (emit (Event.info "refreshing server certs")
            (validServerCert env cr (mapIndex secret.Data caCertName)
              (mapIndex secret.Data certName) (mapIndex secret.Data keyName)
              (needsCARefresh env cr secret st1).2).2)
        rcases hrc : refreshCerts env cr false secret
          (emit (Event.info "refreshing server certs")
            (validServerCert env cr (mapIndex secret.Data caCertName)
              (mapIndex secret.Data certName) (mapIndex secret.Data keyName)
              (needsCARefresh env cr secret st1).2).2) with ⟨r2, st2⟩
        rw [hrc] at hl
        have hg2 : getCount st2.trace = getCount st.trace + 1 := by
          simp only [emit, validServerCert_trace, needsCARefresh_trace] at hl
          rw [hl, getCount_append, getCount_append, hg1]
          have : getCount (Event.refreshCerts false :: l) = getCount l := by
            simp [getCount]
          rw [this, hg]
          rfl
        cases r2 with
        | some err =>
          rw [refreshFn_leaf_error env cr restart st st1 st2 secret err hget hneed hleaf hrc]
          simp only [emit, getCount_append, hg2]
          rfl
        | none =>
          rw [refreshFn_leaf_ok env cr restart st st1 st2 secret hget hneed hleaf hrc]
          cases restart <;>
            simp only [emit, getCount_append, hg2, Bool.false_eq_true, if_true, if_false] <;>
            rfl

theorem backoffLoop_getCount {σ : Type} (condition : St σ → CondResult × St σ)
    (hc : ∀ st, getCount (condition st).2.trace = getCount st.trace + 1) (n : Nat)
    (st : St σ) :
    getCount (backoffLoop n condition st).2.trace ≤ getCount st.trace + n := by
  induction n generalizing st with
  | zero => simp [backoffLoop]
  | succ n ih =>
    have h1 := hc st
    rcases hcs : condition st with ⟨r, st1⟩
    rw [hcs] at h1
    simp only at h1
    cases r with
    | exit code => simp [backoffLoop, hcs, h1]
    | ret done err =>
      by_cases hd : (err.isSome || done) = true
      · simp only [backoffLoop, hcs, hd, if_true]
        omega
      · simp only [backoffLoop, hcs, hd, if_false]
        have := ih st1
        simp only [Bool.false_eq_true, if_false] at this ⊢
        omega

theorem attemptState_getCount {σ : Type} (condition : St σ → CondResult × St σ)
    (hc : ∀ st, getCount (condition st).2.trace = getCount st.trace + 1) (k : Nat)
    (st : St σ) :
    getCount (attemptState condition k st).trace = getCount st.trace + k := by
  induction k with
  | zero => rfl
  | succ k ih => rw [attemptState_succ, hc, ih]; omega

/-! ## Retry behaviour of `refreshCertIfNeeded` -/

/-- With the restart flag off a run of the refresh function returns: it does not end the
process. -/
theorem refreshFn_returns {σ : Type} (env : Env σ) (cr : CertRotator) (s : St σ) :
    ∃ done err, (refreshFn env cr false s).1 = CondResult.ret done err := by
  rcases hget : clientGet env cr.SecretKey s with ⟨r, sg⟩
  cases r with
  | error e => exact ⟨_, _, by rw [refreshFn_get_error env cr false s sg e hget]⟩
  | ok secret =>
    cases hneed : (needsCARefresh env cr secret sg).1 with
    | true =>
      rcases hrc : refreshCerts env cr true secret
        (emit (Event.info "refreshing CA and server certs")
          (needsCARefresh env cr secret sg).2) with ⟨r2, s2⟩
      cases r2 with
      | some err =>
        exact ⟨_, _, by rw [refreshFn_full_error env cr false s sg s2 secret err hget hneed hrc]⟩
      | none =>
        exact ⟨true, none, by
          rw [refreshFn_full_ok env cr false s sg s2 secret hget hneed hrc]; rfl⟩
    | false =>
      cases hleaf : (validServerCert env cr (mapIndex secret.Data caCertName)
        (mapIndex secret.Data certName) (mapIndex secret.Data keyName)
        (needsCARefresh env cr secret sg).2).1 with
      | true => exact ⟨_, _, by rw [refreshFn_none env cr false s sg secret hget hneed hleaf]⟩
      | false =>
        rcases hrc : refreshCerts env cr false secret
          (emit (Event.info "refreshing server certs")
            (validServerCert env cr (mapIndex secret.Data caCertName)
              (mapIndex secret.Data certName) (mapIndex secret.Data keyName)
              (needsCARefresh env cr secret sg).2).2) with ⟨r2, s2⟩
        cases r2 with
        | some err =>
          exact ⟨_, _, by
            rw [refreshFn_leaf_error env cr false s sg s2 secret err hget hneed hleaf hrc]⟩
        | none =>
          exact ⟨true, none, by
            rw [refreshFn_leaf_ok env cr false s sg s2 secret hget hneed hleaf hrc]; rfl⟩

theorem backoffLoop_returns {σ : Type} (condition : St σ → CondResult × St σ)
    (hc : ∀ st, ∃ done err, (condition st).1 = CondResult.ret done err) (n : Nat)
    (st : St σ) : ∃ err, (backoffLoop n condition st).1 = Outcome.returned err := by
  induction n generalizing st with
  | zero => exact ⟨_, rfl⟩
  | succ n ih =>
    obtain ⟨done, err, h⟩ := hc st
    rcases hcs : condition st with ⟨r, st1⟩
    rw [hcs] at h
    simp only at h
    subst h
    by_cases hd : (err.isSome || done) = true
    · exact ⟨err, by simp only [backoffLoop, hcs, hd, if_true]⟩
    · obtain ⟨e, he⟩ := ih st1
      exact ⟨e, by simp only [backoffLoop, hcs, hd, if_false, Bool.false_eq_true]; exact he⟩

/-- Claim C8. Bounded retry of a failed refresh.  For every environment and state, one call
of `refreshCertIfNeeded` runs at most 10 attempts (each attempt makes exactly one
`client.Get`), and with the restart flag off it returns.  An attempt in which
`refreshCerts` fails, with or without renewal of the CA, yields `(false, nil)`: the error
is not surfaced.  And whenever the first `k < 10` attempts yield `(false, nil)` and the
next one yields `(true, nil)`, the call returns nil right after that attempt, having run
`k + 1` attempts. -/
theorem refreshCertIfNeeded_bounded_retry {σ : Type} (env : Env σ) (cr : CertRotator)
    (restart : Bool) (st : St σ) :
    (∀ s : St σ, getCount (refreshFn env cr restart s).2.trace = getCount s.trace + 1) ∧
    getCount (refreshCertIfNeeded env cr restart st).2.trace ≤ getCount st.trace + 10 ∧
    (∃ err, (refreshCertIfNeeded env cr false st).1 = Outcome.returned err) ∧
    (∀ (s s1 s2 : St σ) (secret : Secret) (err : Err),
      clientGet env cr.SecretKey s = (Except.ok secret, s1) →
      (needsCARefresh env cr secret s1).1 = true →
      refreshCerts env cr true secret (emit (Event.info "refreshing CA and server certs")
        (needsCARefresh env cr secret s1).2) = (some err, s2) →
      (refreshFn env cr restart s).1 = CondResult.ret false none) ∧
    (∀ (s s1 s2 : St σ) (secret : Secret) (err : Err),
      clientGet env cr.SecretKey s = (Except.ok secret, s1) →
      (needsCARefresh env cr secret s1).1 = false →
      (validServerCert env cr (mapIndex secret.Data caCertName)
        (mapIndex secret.Data certName) (mapIndex secret.Data keyName)
        (needsCARefresh env cr secret s1).2).1 = false →
      refreshCerts env cr false secret (emit (Event.info "refreshing server certs")
        (validServerCert env cr (mapIndex secret.Data caCertName)
          (mapIndex secret.Data certName) (mapIndex secret.Data keyName)
          (needsCARefresh env cr secret s1).2).2) = (some err, s2) →
      (refreshFn env cr restart s).1 = CondResult.ret false none) ∧
    (∀ k, k < 10 →
      (∀ i, i < k → (refreshFn env cr restart
        (attemptState (refreshFn env cr restart) i st)).1 = CondResult.ret false none) →
      (refreshFn env cr restart
        (attemptState (refreshFn env cr restart) k st)).1 = CondResult.ret true none →
      refreshCertIfNeeded env cr restart st =
        (Outcome.returned none, attemptState (refreshFn env cr restart) (k + 1) st) ∧
      getCount (refreshCertIfNeeded env cr restart st).2.trace = getCount st.trace + (k + 1)) := by
  refine ⟨refreshFn_getCount env cr restart, ?_, ?_, ?_, ?_, ?_⟩
  · rw [refreshCertIfNeeded_eq]
    exact backoffLoop_getCount _ (refreshFn_getCount env cr restart) 10 st
  · rw [refreshCertIfNeeded_eq]
    exact backoffLoop_returns _ (refreshFn_returns env cr) 10 st
  · intro s s1 s2 secret err hget hneed hrc
    rw [refreshFn_full_error env cr restart s s1 s2 secret err hget hneed hrc]
  · intro s s1 s2 secret err hget hneed hleaf hrc
    rw [refreshFn_leaf_error env cr restart s s1 s2 secret err hget hneed hleaf hrc]
  · intro k hk hfail hdone
    have hrun : refreshCertIfNeeded env cr restart st =
        (Outcome.returned none, attemptState (refreshFn env cr restart) (k + 1) st) := by
      rw [refreshCertIfNeeded_eq, show 10 = k + ((9 - k) + 1) by omega,
        backoffLoop_failed_prefix _ k _ st hfail, attemptState_succ]
      apply backoffLoop_done
      rw [← hdone]
    refine ⟨hrun, ?_⟩
    rw [hrun]
    exact attemptState_getCount _ (refreshFn_getCount env cr restart) (k + 1) st

/-- A run of the simulation for C8: the updates of the first two attempts fail, the
third attempt succeeds, and the call returns nil after three reads. -/
theorem refreshCertIfNeeded_bounded_retry_witness :
    (refreshCertIfNeeded (simEnv noFault failEarly) simRotator false
      (simStart (some emptySecret))).1 = Outcome.returned none ∧
    getCount (refreshCertIfNeeded (simEnv noFault failEarly) simRotator false
      (simStart (some emptySecret))).2.trace = 0 + (2 + 1) := by
  have h := (refreshCertIfNeeded_bounded_retry (simEnv noFault failEarly) simRotator false
    (simStart (some emptySecret))).2.2.2.2.2 2 (by decide)
    (by intro i hi; interval_cases i <;> rfl) (by rfl)
  exact ⟨by rw [h.1], h.2⟩

/-- Claim C9, as amended. Exhausted retries surface the timeout of the backoff: when each of
the 10 attempts yields `(false, nil)`, as every attempt with a failing `refreshCerts`
does, the call returns `wait.ErrWaitTimeout` after the tenth attempt; the errors of the
failed attempts have been logged and are not returned. -/
theorem exhausted_retries_return_timeout {σ : Type} (env : Env σ) (cr : CertRotator)
    (restart : Bool) (st : St σ)
    (h : ∀ i, i < 10 → (refreshFn env cr restart
      (attemptState (refreshFn env cr restart) i st)).1 = CondResult.ret false none) :
    refreshCertIfNeeded env cr restart st =
      (Outcome.returned (some ErrWaitTimeout),
        attemptState (refreshFn env cr restart) 10 st) := by
  rw [refreshCertIfNeeded_eq, show 10 = 10 + 0 by rfl,
    backoffLoop_failed_prefix _ 10 0 st h]
  rfl

/-- A run of the simulation for C9: every update fails. -/
theorem exhausted_retries_return_timeout_witness :
    (refreshCertIfNeeded (simEnv noFault failAlways) simRotator false
      (simStart (some emptySecret))).1 = Outcome.returned (some ErrWaitTimeout) := by
  rw [exhausted_retries_return_timeout (simEnv noFault failAlways) simRotator false
    (simStart (some emptySecret)) (by intro i hi; interval_cases i <;> rfl)]

/-- Counterexample to claim C9. In the simulation every `client.Update` fails with status 500,
so `refreshCerts` fails on each of the 10 attempts with that error; the call does not
return it, it returns `ErrWaitTimeout`. -/
theorem exhausted_retries_counterexample :
    errorsOf (refreshCertIfNeeded (simEnv noFault failAlways) simRotator false
      (simStart (some emptySecret))).2.trace = List.replicate 10 (Err.status 500) ∧
    (refreshCertIfNeeded (simEnv noFault failAlways) simRotator false
      (simStart (some emptySecret))).1 ≠ Outcome.returned (some (Err.status 500)) ∧
    (refreshCertIfNeeded (simEnv noFault failAlways) simRotator false
      (simStart (some emptySecret))).1 = Outcome.returned (some ErrWaitTimeout) := by
  refine ⟨by rfl, by decide, by rfl⟩

/-- Claim C7, as amended. A failed secret read is returned at once: when the attempts before
it yielded `(false, nil)` and `client.Get` fails on attempt number `k < 10` with any error,
`refreshCertIfNeeded` returns that error, wrapped, in the state right after this read; no
further attempt is made. -/
theorem failed_read_returns_at_once {σ : Type} (env : Env σ) (cr : CertRotator)
    (restart : Bool) (st s1 : St σ) (k : Nat) (err : Err) (hk : k < 10)
    (hfail : ∀ i, i < k → (refreshFn env cr restart
      (attemptState (refreshFn env cr restart) i st)).1 = CondResult.ret false none)
    (hget : clientGet env cr.SecretKey (attemptState (refreshFn env cr restart) k st) =
      (Except.error err, s1)) :
    refreshCertIfNeeded env cr restart st =
      (Outcome.returned (some (Err.wrap err "acquiring secret to update certificates")), s1) ∧
    getCount s1.trace = getCount st.trace + (k + 1) := by
  have hfn := refreshFn_get_error env cr restart _ s1 err hget
  refine ⟨?_, ?_⟩
  · rw [refreshCertIfNeeded_eq, show 10 = k + ((9 - k) + 1) by omega,
      backoffLoop_failed_prefix _ k _ st hfail]
    exact backoffLoop_error _ _ _ _ _ _ hfn
  · have h1 := clientGet_trace env _ _ s1 _ hget
    rw [h1, getCount_append, attemptState_getCount _ (refreshFn_getCount env cr restart) k st]
    rfl

/-- A run of the simulation for C7: the first read fails. -/
theorem failed_read_returns_at_once_witness :
    (refreshCertIfNeeded (simEnv failFirst noFault) simRotator false
      (simStart (some validSecret))).1 =
      Outcome.returned (some (Err.wrap (Err.status 500)
        "acquiring secret to update certificates")) := by
  rw [(failed_read_returns_at_once (simEnv failFirst noFault) simRotator false
    (simStart (some validSecret)) _ 0 (Err.status 500) (by decide)
    (by intro i hi; exact absurd hi (Nat.not_lt_zero i)) rfl).1]

/-- Counterexample to claim C7. In the simulation the first `client.Get` fails with status 500
and every later one would succeed on a valid secret.  The call returns the wrapped error
after that single read, although a further attempt would have returned `(true, nil)`. -/
theorem failed_read_counterexample :
    (refreshCertIfNeeded (simEnv failFirst noFault) simRotator false
      (simStart (some validSecret))).1 =
      Outcome.returned (some (Err.wrap (Err.status 500)
        "acquiring secret to update certificates")) ∧
    getCount (refreshCertIfNeeded (simEnv failFirst noFault) simRotator false
      (simStart (some validSecret))).2.trace = 1 ∧
    (refreshFn (simEnv failFirst noFault) simRotator false
      (refreshCertIfNeeded (simEnv failFirst noFault) simRotator false
        (simStart (some validSecret))).2).1 = CondResult.ret true none := by
  refine ⟨by rfl, by rfl, by rfl⟩

/-! ## Validation -/

/-- The two results of `validCert` agree: `(true, nil)` or `(false, err)`. -/
theorem validCert_result {σ : Type} (env : Env σ) (caCert cert key : Bytes) (dnsName : String)
    (atTime : Time) :
    validCert env caCert cert key dnsName atTime = (true, none) ∨
      ∃ err, validCert env caCert cert key dnsName atTime = (false, some err) := by
  unfold validCert
  split_ifs
  · exact Or.inr ⟨_, rfl⟩
  · repeat (first | exact Or.inl rfl | exact Or.inr ⟨_, rfl⟩ | split)

/-- When `validCert` accepts: all inputs are non-empty, the CA decodes and parses, the
pair loads, the certificate decodes, parses and verifies against the CA. -/
theorem validCert_true_iff {σ : Type} (env : Env σ) (caCert cert key : Bytes)
    (dnsName : String) (atTime : Time) :
    (validCert env caCert cert key dnsName atTime).1 = true ↔
      caCert ≠ [] ∧ cert ≠ [] ∧ key ≠ [] ∧
      ∃ caDer cac b crt, env.pem_Decode caCert = some caDer ∧
        env.x509_ParseCertificate caDer.Bytes = Except.ok cac ∧
        env.tls_X509KeyPair cert key = Except.ok () ∧
        env.pem_Decode cert = some b ∧
        env.x509_ParseCertificate b.Bytes = Except.ok crt ∧
        env.x509_Verify crt { DNSName := dnsName, Roots := [cac], CurrentTime := atTime }
          = Except.ok () := by
  unfold validCert
  by_cases hl : caCert.length = 0 ∨ cert.length = 0 ∨ key.length = 0
  · rw [if_pos hl]
    simp only [List.length_eq_zero] at hl
    constructor
    · intro h; cases h
    · rintro ⟨h1, h2, h3, -⟩
      rcases hl with h | h | h
      · exact absurd h h1
      · exact absurd h h2
      · exact absurd h h3
  · rw [if_neg hl]
    simp only [List.length_eq_zero, not_or] at hl
    obtain ⟨h1, h2, h3⟩ := hl
    cases hd1 : env.pem_Decode caCert with
    | none => simp
    | some caDer =>
      cases hp1 : env.x509_ParseCertificate caDer.Bytes with
      | error e => simp [hp1]
      | ok cac =>
        cases hk : env.tls_X509KeyPair cert key with
        | error e => simp [hp1]
        | ok u =>
          cases hd2 : env.pem_Decode cert with
          | none => simp [hp1]
          | some b =>
            cases hp2 : env.x509_ParseCertificate b.Bytes with
            | error e => simp [hp1, hp2]
            | ok crt =>
              cases hv : env.x509_Verify crt
                { DNSName := dnsName, Roots := [cac], CurrentTime := atTime } with
              | error e => simp [hp1, hp2, hv, h1, h2, h3]
              | ok u2 => simp [hp1, hp2, hv, h1, h2, h3]

theorem validCACert_fst {σ : Type} (env : Env σ) (cr : CertRotator) (cert key : Bytes)
    (st : St σ) :
    (validCACert env cr cert key st).1 =
      (validCert env cert cert key cr.CAName (lookaheadTime env st).1).1 := by
  unfold validCACert
  rcases validCert_result env cert cert key cr.CAName (lookaheadTime env st).1 with h | ⟨e, h⟩ <;>
    simp [h]

theorem validServerCert_fst {σ : Type} (env : Env σ) (cr : CertRotator)
    (caCert cert key : Bytes) (st : St σ) :
    (validServerCert env cr caCert cert key st).1 =
      (validCert env caCert cert key cr.DNSName (lookaheadTime env st).1).1 := by
  unfold validServerCert
  rcases validCert_result env caCert cert key cr.DNSName (lookaheadTime env st).1
    with h | ⟨e, h⟩ <;> simp [h]

/-- What makes `validCert` reject a certificate and key before verification. -/
theorem validCert_false_of_defect {σ : Type} (env : Env σ) (caCert cert key : Bytes)
    (dnsName : String) (atTime : Time)
    (h : cert = [] ∨ key = [] ∨ (∃ e, env.tls_X509KeyPair cert key = Except.error e) ∨
      env.pem_Decode cert = none ∨
      ∃ blk e, env.pem_Decode cert = some blk ∧
        env.x509_ParseCertificate blk.Bytes = Except.error e) :
    (validCert env caCert cert key dnsName atTime).1 = false := by
  cases hv : (validCert env caCert cert key dnsName atTime).1 with
  | false => rfl
  | true =>
    exfalso
    obtain ⟨-, h2, h3, caDer, cac, b, crt, -, -, hk, hd, hp, -⟩ :=
      (validCert_true_iff env caCert cert key dnsName atTime).1 hv
    rcases h with h | h | ⟨e, h⟩ | h | ⟨blk, e, hb, he⟩
    · exact h2 h
    · exact h3 h
    · rw [hk] at h; cases h
    · rw [hd] at h; cases h
    · rw [hd] at hb
      cases hb
      rw [hp] at he
      cases he

/-- An attempt on the branch that renews the CA enters `refreshCerts` once, with
`refreshCA = true`. -/
theorem refreshFn_refreshCalls_full {σ : Type} (env : Env σ) (cr : CertRotator)
    (restart : Bool) (st st1 : St σ) (secret : Secret)
    (hget : clientGet env cr.SecretKey st = (Except.ok secret, st1))
    (hneed : (needsCARefresh env cr secret st1).1 = true) :
    refreshCalls (refreshFn env cr restart st).2.trace = refreshCalls st.trace ++ [true] := by
  have htr1 := clientGet_trace env _ st st1 _ hget
  obtain ⟨l, hl, -, hr, -, -⟩ := refreshCerts_trace env cr true secret
    (emit (Event.info "refreshing CA and server certs") (needsCARefresh env cr secret st1).2)
  rcases hrc : refreshCerts env cr true secret
    (emit (Event.info "refreshing CA and server certs")
      (needsCARefresh env cr secret st1).2) with ⟨r2, st2⟩
  rw [hrc] at hl
  have h2 : refreshCalls st2.trace = refreshCalls st.trace ++ [true] := by
    simp only [emit, needsCARefresh_trace, htr1] at hl
    rw [hl, show Event.refreshCerts true :: l = [Event.refreshCerts true] ++ l by rfl]
    simp only [refreshCalls_append, hr]
    simp [refreshCalls]
  cases r2 with
  | some err =>
    rw [refreshFn_full_error env cr restart st st1 st2 secret err hget hneed hrc]
    simp only [emit, refreshCalls_append, h2]
    simp [refreshCalls]
  | none =>
    rw [refreshFn_full_ok env cr restart st st1 st2 secret hget hneed hrc]
    cases restart <;>
      simp only [emit, refreshCalls_append, h2, Bool.false_eq_true, if_true, if_false] <;>
      simp [refreshCalls]

/-- An attempt on the branch that renews the leaf only enters `refreshCerts` once, with
`refreshCA = false`. -/
theorem refreshFn_refreshCalls_leaf {σ : Type} (env : Env σ) (cr : CertRotator)
    (restart : Bool) (st st1 : St σ) (secret : Secret)
    (hget : clientGet env cr.SecretKey st = (Except.ok secret, st1))
    (hneed : (needsCARefresh env cr secret st1).1 = false)
    (hleaf : (validServerCert env cr (mapIndex secret.Data caCertName)
      (mapIndex secret.Data certName) (mapIndex secret.Data keyName)
      (needsCARefresh env cr secret st1).2).1 = false) :
    refreshCalls (refreshFn env cr restart st).2.trace = refreshCalls st.trace ++ [false] := by
  have htr1 := clientGet_trace env _ st st1 _ hget
  obtain ⟨l, hl, -, hr, -, -⟩ := refreshCerts_trace env cr false secret
    (emit (Event.info "refreshing server certs")
      (validServerCert env cr (mapIndex secret.Data caCertName)
        (mapIndex secret.Data certName) (mapIndex secret.Data keyName)
        (needsCARefresh env cr secret st1).2).2)
  rcases hrc : refreshCerts env cr false secret
    (emit (Event.info "refreshing server certs")
      (validServerCert env cr (mapIndex secret.Data caCertName)
        (mapIndex secret.Data certName) (mapIndex secret.Data keyName)
        (needsCARefresh env cr secret st1).2).2) with ⟨r2, st2⟩
  rw [hrc] at hl
  have h2 : refreshCalls st2.trace = refreshCalls st.trace ++ [false] := by
    simp only [emit, validServerCert_trace, needsCARefresh_trace, htr1] at hl
    rw [hl, show Event.refreshCerts false :: l = [Event.refreshCerts false] ++ l by rfl]
    simp only [refreshCalls_append, hr]
    simp [refreshCalls]
  cases r2 with
  | some err =>
    rw [refreshFn_leaf_error env cr restart st st1 st2 secret err hget hneed hleaf hrc]
    simp only [emit, refreshCalls_append, h2]
    simp [refreshCalls]
  | none =>
    rw [refreshFn_leaf_ok env cr restart st st1 st2 secret hget hneed hleaf hrc]
    cases restart <;>
      simp only [emit, refreshCalls_append, h2, Bool.false_eq_true, if_true, if_false] <;>
      simp [refreshCalls]

/-- An attempt on the branch of the full refresh that does not yield `(false, nil)` has made
a CA with `createCACert`, a leaf from that CA with `createCertPEM`, and one successful
`client.Update` whose secret holds the four entries of the new CA and the new leaf. -/
theorem refreshFn_full_written {σ : Type} (env : Env σ) (cr : CertRotator)
    (restart : Bool) (st st1 : St σ) (secret : Secret)
    (hget : clientGet env cr.SecretKey st = (Except.ok secret, st1))
    (hneed : (needsCARefresh env cr secret st1).1 = true)
    (hsucc : (refreshFn env cr restart st).1 ≠ CondResult.ret false none) :
    ∃ (ca : KeyPairArtifacts) (cert key : Bytes) (st2 st3 : St σ),
      createCACert env cr (emit (Event.refreshCerts true)
        (emit (Event.info "refreshing CA and server certs")
          (needsCARefresh env cr secret st1).2)) = (Except.ok ca, st2) ∧
      createCertPEM env cr ca st2 = (Except.ok (cert, key), st3) ∧
      updatesOf (refreshFn env cr restart st).2.trace =
        updatesOf st.trace ++ [(populateSecret cert key ca secret, none)] ∧
      mapLookup (populateSecret cert key ca secret).Data caCertName = some ca.CertPEM ∧
      mapLookup (populateSecret cert key ca secret).Data caKeyName = some ca.KeyPEM ∧
      mapLookup (populateSecret cert key ca secret).Data certName = some cert ∧
      mapLookup (populateSecret cert key ca secret).Data keyName = some key := by
  have htr1 := clientGet_trace env _ st st1 _ hget
  generalize hstA : emit (Event.info "refreshing CA and server certs")
    (needsCARefresh env cr secret st1).2 = stA
  have htrA : stA.trace = st.trace ++
      [Event.clientGet cr.SecretKey, Event.info "refreshing CA and server certs"] := by
    rw [← hstA]
    simp [emit, needsCARefresh_trace, htr1]
  rcases hrc : refreshCerts env cr true secret stA with ⟨r, st4⟩
  cases r with
  | some err =>
    have hfn := refreshFn_full_error env cr restart st st1 st4 secret err hget hneed
      (by rw [hstA]; exact hrc)
    rw [hfn] at hsucc
    exact absurd rfl hsucc
  | none =>
    have hfn := refreshFn_full_ok env cr restart st st1 st4 secret hget hneed
      (by rw [hstA]; exact hrc)
    rcases hCA : createCACert env cr (emit (Event.refreshCerts true) stA) with ⟨rca, st2⟩
    cases rca with
    | error e => simp [refreshCerts, hCA] at hrc
    | ok ca =>
      rcases hleaf : createCertPEM env cr ca st2 with ⟨rc, st3⟩
      cases rc with
      | error e => simp [refreshCerts, hCA, hleaf] at hrc
      | ok pr =>
        obtain ⟨cert, key⟩ := pr
        obtain ⟨l1, h1, hu1, -, -, -⟩ :=
          createCACert_trace env cr (emit (Event.refreshCerts true) stA)
        rw [hCA] at h1
        obtain ⟨l2, h2, hu2, -, -, -⟩ := createCertPEM_trace env cr ca st2
        rw [hleaf] at h2
        have hgen := refreshCerts_generated env cr true secret stA st2 st3 ca cert key
          (by simp [hCA]) hleaf
        rw [hrc] at hgen
        have h3 := clientUpdate_trace env _ st3 st4 none hgen.symm
        have htr4 : st4.trace = st.trace ++
            [Event.clientGet cr.SecretKey, Event.info "refreshing CA and server certs",
              Event.refreshCerts true] ++ l1 ++ l2 ++
            [Event.clientUpdate (populateSecret cert key ca secret) none] := by
          rw [h3, h2, h1]; simp [emit, htrA]
        refine ⟨ca, cert, key, st2, st3, rfl, hleaf, ?_,
          mapLookup_populateSecret_caCert _ _ _ _, mapLookup_populateSecret_caKey _ _ _ _,
          mapLookup_populateSecret_cert _ _ _ _, mapLookup_populateSecret_key _ _ _ _⟩
        rw [hfn]
        cases restart <;>
          simp only [emit, htr4, updatesOf_append, hu1, hu2, Bool.false_eq_true, if_true,
            if_false] <;> simp [updatesOf]

/-- An attempt on the branch that renews the leaf only and does not yield `(false, nil)`
has taken the CA from `buildArtifactsFromSecret`, made a leaf from it with
`createCertPEM`, and made one successful `client.Update` whose secret holds the CA
entries as read and the new leaf. -/
theorem refreshFn_leaf_written {σ : Type} (env : Env σ) (cr : CertRotator)
    (restart : Bool) (st st1 : St σ) (secret : Secret)
    (hget : clientGet env cr.SecretKey st = (Except.ok secret, st1))
    (hneed : (needsCARefresh env cr secret st1).1 = false)
    (hleaf : (validServerCert env cr (mapIndex secret.Data caCertName)
      (mapIndex secret.Data certName) (mapIndex secret.Data keyName)
      (needsCARefresh env cr secret st1).2).1 = false)
    (hsucc : (refreshFn env cr restart st).1 ≠ CondResult.ret false none) :
    ∃ (ca : KeyPairArtifacts) (cert key : Bytes) (st2 : St σ),
      buildArtifactsFromSecret env secret = Except.ok ca ∧
      createCertPEM env cr ca
        (emit (Event.refreshCerts false) (emit (Event.info "refreshing server certs")
          (validServerCert env cr (mapIndex secret.Data caCertName)
            (mapIndex secret.Data certName) (mapIndex secret.Data keyName)
            (needsCARefresh env cr secret st1).2).2)) = (Except.ok (cert, key), st2) ∧
      updatesOf (refreshFn env cr restart st).2.trace =
        updatesOf st.trace ++ [(populateSecret cert key ca secret, none)] ∧
      mapLookup (populateSecret cert key ca secret).Data caCertName =
        mapLookup secret.Data caCertName ∧
      mapLookup (populateSecret cert key ca secret).Data caKeyName =
        mapLookup secret.Data caKeyName ∧
      mapLookup (populateSecret cert key ca secret).Data certName = some cert ∧
      mapLookup (populateSecret cert key ca secret).Data keyName = some key := by
  have htr1 := clientGet_trace env _ st st1 _ hget
  generalize hstA : emit (Event.info "refreshing server certs")
    (validServerCert env cr (mapIndex secret.Data caCertName)
      (mapIndex secret.Data certName) (mapIndex secret.Data keyName)
      (needsCARefresh env cr secret st1).2).2 = stA
  have htrA : stA.trace =
      st.trace ++ [Event.clientGet cr.SecretKey, Event.info "refreshing server certs"] := by
    rw [← hstA]
    simp [emit, validServerCert_trace, needsCARefresh_trace, htr1]
  rcases hrc : refreshCerts env cr false secret stA with ⟨r, st3⟩
  cases r with
  | some err =>
    have hfn := refreshFn_leaf_error env cr restart st st1 st3 secret err hget hneed hleaf
      (by rw [hstA]; exact hrc)
    rw [hfn] at hsucc
    exact absurd rfl hsucc
  | none =>
    have hfn := refreshFn_leaf_ok env cr restart st st1 st3 secret hget hneed hleaf
      (by rw [hstA]; exact hrc)
    rcases hb : buildArtifactsFromSecret env secret with e | ca
    · simp [refreshCerts, hb] at hrc
    · obtain ⟨hpc, hpk⟩ := buildArtifactsFromSecret_pem env secret ca hb
      obtain ⟨l2, h2, hu2, -, -, -⟩ :=
        createCertPEM_trace env cr ca (emit (Event.refreshCerts false) stA)
      rcases hc : createCertPEM env cr ca (emit (Event.refreshCerts false) stA) with ⟨rc, st2⟩
      rw [hc] at h2
      cases rc with
      | error e => simp [refreshCerts, hb, hc] at hrc
      | ok pr =>
        obtain ⟨cert, key⟩ := pr
        have hgen := refreshCerts_generated env cr false secret stA
          (emit (Event.refreshCerts false) stA) st2 ca cert key (by simp [hb]) hc
        rw [hrc] at hgen
        have h3 := clientUpdate_trace env _ st2 st3 none hgen.symm
        have htr3 : st3.trace = st.trace ++
            [Event.clientGet cr.SecretKey, Event.info "refreshing server certs",
              Event.refreshCerts false] ++ l2 ++
            [Event.clientUpdate (populateSecret cert key ca secret) none] := by
          rw [h3, h2]; simp [emit, htrA]
        refine ⟨ca, cert, key, st2, rfl, hc, ?_, ?_, ?_,
          mapLookup_populateSecret_cert _ _ _ _, mapLookup_populateSecret_key _ _ _ _⟩
        · rw [hfn]
          cases restart <;>
            simp only [emit, htr3, updatesOf_append, hu2, Bool.false_eq_true, if_true,
              if_false] <;> simp [updatesOf]
        · rw [mapLookup_populateSecret_caCert, hpc]
        · rw [mapLookup_populateSecret_caKey, hpk]

/-- An attempt on the branch that renews the leaf only, on a secret whose CA entries
`buildArtifactsFromSecret` cannot parse, yields `(false, nil)` without a `client.Update`
and without generating a key or certificate. -/
theorem refreshFn_leaf_unparsed {σ : Type} (env : Env σ) (cr : CertRotator)
    (restart : Bool) (st st1 : St σ) (secret : Secret) (e : Err)
    (hget : clientGet env cr.SecretKey st = (Except.ok secret, st1))
    (hneed : (needsCARefresh env cr secret st1).1 = false)
    (hleaf : (validServerCert env cr (mapIndex secret.Data caCertName)
      (mapIndex secret.Data certName) (mapIndex secret.Data keyName)
      (needsCARefresh env cr secret st1).2).1 = false)
    (hb : buildArtifactsFromSecret env secret = Except.error e) :
    (refreshFn env cr restart st).1 = CondResult.ret false none ∧
    updatesOf (refreshFn env cr restart st).2.trace = updatesOf st.trace ∧
    generatedCount (refreshFn env cr restart st).2.trace = generatedCount st.trace := by
  have htr1 := clientGet_trace env _ st st1 _ hget
  have hrc : refreshCerts env cr false secret (emit (Event.info "refreshing server certs")
      (validServerCert env cr (mapIndex secret.Data caCertName)
        (mapIndex secret.Data certName) (mapIndex secret.Data keyName)
        (needsCARefresh env cr secret st1).2).2) =
      (some e, emit (Event.refreshCerts false) (emit (Event.info "refreshing server certs")
        (validServerCert env cr (mapIndex secret.Data caCertName)
          (mapIndex secret.Data certName) (mapIndex secret.Data keyName)
          (needsCARefresh env cr secret st1).2).2)) := by
    simp [refreshCerts, hb]
  rw [refreshFn_leaf_error env cr restart st st1 _ secret e hget hneed hleaf hrc]
  refine ⟨rfl, ?_, ?_⟩
  · simp only [emit, validServerCert_trace, needsCARefresh_trace, htr1, updatesOf_append]
    simp [updatesOf]
  · simp only [emit, validServerCert_trace, needsCARefresh_trace, htr1]
    simp [generatedCount, List.countP_append]

/-- Claim C5, amended. Which refresh a defective secret gets.  A secret whose `Data` is
nil, or whose `ca.crt` or `ca.key` is missing or empty, or whose `ca.crt` is not PEM or
holds an unparsable certificate, or whose CA pair does not load (as with a malformed
`ca.key`), gets the full refresh: the attempt enters `refreshCerts` with
`refreshCA = true`, and when it does not end in `(false, nil)` it has made a CA with
`createCACert`, a leaf from it with `createCertPEM`, and a single successful
`client.Update` with the four entries of the new CA and leaf.  A secret whose CA passes
`validCACert` and whose `tls.crt` or `tls.key` is missing or empty, is not PEM, holds an
unparsable certificate or does not load as a pair, gets the refresh of the leaf only: the
attempt enters `refreshCerts` with `refreshCA = false`; when `buildArtifactsFromSecret`
cannot parse the stored CA the attempt ends in `(false, nil)` with nothing generated and
nothing written; when the attempt does not end in `(false, nil)` it has taken the CA that
`buildArtifactsFromSecret` parses from the secret read, made a leaf from it with
`createCertPEM`, and made a single successful `client.Update` whose `ca.crt` and `ca.key`
are the entries read and whose `tls.crt` and `tls.key` are the new leaf. -/
theorem defective_secret_refresh_kind {σ : Type} (env : Env σ) (cr : CertRotator)
    (restart : Bool) (st st1 : St σ) (secret : Secret)
    (hget : clientGet env cr.SecretKey st = (Except.ok secret, st1)) :
    ((secret.Data = none ∨ mapIndex secret.Data caCertName = [] ∨
        mapIndex secret.Data caKeyName = [] ∨
        (∃ e, env.tls_X509KeyPair (mapIndex secret.Data caCertName)
          (mapIndex secret.Data caKeyName) = Except.error e) ∨
        env.pem_Decode (mapIndex secret.Data caCertName) = none ∨
        (∃ blk e, env.pem_Decode (mapIndex secret.Data caCertName) = some blk ∧
          env.x509_ParseCertificate blk.Bytes = Except.error e)) →
      refreshCalls (refreshFn env cr restart st).2.trace = refreshCalls st.trace ++ [true] ∧
      ((refreshFn env cr restart st).1 ≠ CondResult.ret false none →
        ∃ (ca : KeyPairArtifacts) (cert key : Bytes) (st2 st3 : St σ),
          createCACert env cr (emit (Event.refreshCerts true)
            (emit (Event.info "refreshing CA and server certs")
              (needsCARefresh env cr secret st1).2)) = (Except.ok ca, st2) ∧
          createCertPEM env cr ca st2 = (Except.ok (cert, key), st3) ∧
          updatesOf (refreshFn env cr restart st).2.trace =
            updatesOf st.trace ++ [(populateSecret cert key ca secret, none)] ∧
          mapLookup (populateSecret cert key ca secret).Data caCertName = some ca.CertPEM ∧
          mapLookup (populateSecret cert key ca secret).Data caKeyName = some ca.KeyPEM ∧
          mapLookup (populateSecret cert key ca secret).Data certName = some cert ∧
          mapLookup (populateSecret cert key ca secret).Data keyName = some key)) ∧
    ((validCACert env cr (mapIndex secret.Data caCertName)
        (mapIndex secret.Data caKeyName) st1).1 = true →
      (mapIndex secret.Data certName = [] ∨ mapIndex secret.Data keyName = [] ∨
        (∃ e, env.tls_X509KeyPair (mapIndex secret.Data certName)
          (mapIndex secret.Data keyName) = Except.error e) ∨
        env.pem_Decode (mapIndex secret.Data certName) = none ∨
        (∃ blk e, env.pem_Decode (mapIndex secret.Data certName) = some blk ∧
          env.x509_ParseCertificate blk.Bytes = Except.error e)) →
      refreshCalls (refreshFn env cr restart st).2.trace = refreshCalls st.trace ++ [false] ∧
      (∀ e, buildArtifactsFromSecret env secret = Except.error e →
        (refreshFn env cr restart st).1 = CondResult.ret false none ∧
        updatesOf (refreshFn env cr restart st).2.trace = updatesOf st.trace ∧
        generatedCount (refreshFn env cr restart st).2.trace = generatedCount st.trace) ∧
      ((refreshFn env cr restart st).1 ≠ CondResult.ret false none →
        ∃ (ca : KeyPairArtifacts) (cert key : Bytes) (st2 : St σ),
          buildArtifactsFromSecret env secret = Except.ok ca ∧
          createCertPEM env cr ca
            (emit (Event.refreshCerts false) (emit (Event.info "refreshing server certs")
              (validServerCert env cr (mapIndex secret.Data caCertName)
                (mapIndex secret.Data certName) (mapIndex secret.Data keyName)
                (needsCARefresh env cr secret st1).2).2)) = (Except.ok (cert, key), st2) ∧
          updatesOf (refreshFn env cr restart st).2.trace =
            updatesOf st.trace ++ [(populateSecret cert key ca secret, none)] ∧
          mapLookup (populateSecret cert key ca secret).Data caCertName =
            mapLookup secret.Data caCertName ∧
          mapLookup (populateSecret cert key ca secret).Data caKeyName =
            mapLookup secret.Data caKeyName ∧
          mapLookup (populateSecret cert key ca secret).Data certName = some cert ∧
          mapLookup (populateSecret cert key ca secret).Data keyName = some key)) := by
  constructor
  · intro h
    have hneed : (needsCARefresh env cr secret st1).1 = true := by
      apply needsCARefresh_of_invalid
      rcases h with h | h
      · exact Or.inl h
      · right
        rw [validCACert_fst]
        exact validCert_false_of_defect env _ _ _ _ _ h
    exact ⟨refreshFn_refreshCalls_full env cr restart st st1 secret hget hneed,
      refreshFn_full_written env cr restart st st1 secret hget hneed⟩
  · intro hca h
    have hn := needsCARefresh_some env cr secret st1 (validCACert_data env cr secret st1 hca)
    have hneed : (needsCARefresh env cr secret st1).1 = false := by rw [hn]; simp [hca]
    have hleaf : (validServerCert env cr (mapIndex secret.Data caCertName)
        (mapIndex secret.Data certName) (mapIndex secret.Data keyName)
        (needsCARefresh env cr secret st1).2).1 = false := by
      rw [validServerCert_fst]
      exact validCert_false_of_defect env _ _ _ _ _ h
    exact ⟨refreshFn_refreshCalls_leaf env cr restart st st1 secret hget hneed hleaf,
      fun e hb => refreshFn_leaf_unparsed env cr restart st st1 secret e hget hneed hleaf hb,
      refreshFn_leaf_written env cr restart st st1 secret hget hneed hleaf⟩

/-- A run of the simulation for C5: the CA is valid and the leaf entries are missing; the
leaf alone is renewed and the CA entries are written back as read. -/
theorem defective_secret_refresh_kind_witness :
    refreshCalls (refreshFn simOK simRotator false (simStart (some caOnlySecret))).2.trace =
      refreshCalls (simStart (some caOnlySecret)).trace ++ [false] ∧
    ∃ (ca : KeyPairArtifacts) (cert key : Bytes),
      buildArtifactsFromSecret simOK caOnlySecret = Except.ok ca ∧
      updatesOf (refreshFn simOK simRotator false (simStart (some caOnlySecret))).2.trace =
        [(populateSecret cert key ca caOnlySecret, none)] ∧
      mapLookup (populateSecret cert key ca caOnlySecret).Data caCertName =
        mapLookup caOnlySecret.Data caCertName := by
  have h := (defective_secret_refresh_kind simOK simRotator false
    (simStart (some caOnlySecret)) _ caOnlySecret rfl).2 (by rfl) (Or.inl rfl)
  obtain ⟨ca, cert, key, st2, hb, -, hu, h1, -⟩ := h.2.2 (by decide)
  exact ⟨h.1, ca, cert, key, hb, hu, h1⟩

/-- Counterexample to claim C5. In the simulation the stored secret has a valid CA and neither
`tls.crt` nor `tls.key`.  The call enters `refreshCerts` once, with `refreshCA = false`,
generates a single key and certificate (the leaf), writes back the CA entries it read, and
returns nil: the CA is not regenerated. -/
theorem missing_leaf_counterexample :
    mapLookup caOnlySecret.Data certName = none ∧
    mapLookup caOnlySecret.Data keyName = none ∧
    (refreshCertIfNeeded simOK simRotator false (simStart (some caOnlySecret))).1 =
      Outcome.returned none ∧
    refreshCalls (refreshCertIfNeeded simOK simRotator false
      (simStart (some caOnlySecret))).2.trace = [false] ∧
    generatedCount (refreshCertIfNeeded simOK simRotator false
      (simStart (some caOnlySecret))).2.trace = 2 ∧
    (updatesOf (refreshCertIfNeeded simOK simRotator false
      (simStart (some caOnlySecret))).2.trace).map
        (fun u => (mapLookup u.1.Data caCertName, mapLookup u.1.Data caKeyName)) =
      [(mapLookup caOnlySecret.Data caCertName, mapLookup caOnlySecret.Data caKeyName)] := by
  refine ⟨by rfl, by rfl, by rfl, by rfl, by rfl, by rfl⟩

/-! ## The control loop -/

theorem spawnCount_append (a b : List Event) :
    spawnCount (a ++ b) = spawnCount a + spawnCount b := by
  simp [spawnCount, List.countP_append]

/-- A run of the refresh function starts no goroutine and no ticker. -/
theorem refreshFn_spawnCount {σ : Type} (env : Env σ) (cr : CertRotator) (restart : Bool)
    (st : St σ) :
    spawnCount (refreshFn env cr restart st).2.trace = spawnCount st.trace := by
  rcases hget : clientGet env cr.SecretKey st with ⟨r, st1⟩
  have htr1 := clientGet_trace env _ st st1 _ hget
  have hg1 : spawnCount st1.trace = spawnCount st.trace := by
    rw [htr1, spawnCount_append]; rfl
  cases r with
  | error e => rw [refreshFn_get_error env cr restart st st1 e hget]; exact hg1
  | ok secret =>
    cases hneed : (needsCARefresh env cr secret st1).1 with
    | true =>
      obtain ⟨l, hl, -, -, -, hs⟩ := refreshCerts_trace env cr true secret
        (emit (Event.info "refreshing CA and server certs")
          (needsCARefresh env cr secret st1).2)
      rcases hrc : refreshCerts env cr true secret
        (emit (Event.info "refreshing CA and server certs")
          (needsCARefresh env cr secret st1).2) with ⟨r2, st2⟩
      rw [hrc] at hl
      have hg2 : spawnCount st2.trace = spawnCount st.trace := by
        simp only [emit, needsCARefresh_trace] at hl
        rw [hl, spawnCount_append, spawnCount_append, hg1]
        have : spawnCount (Event.refreshCerts true :: l) = spawnCount l := by
          simp [spawnCount]
        rw [this, hs]
        rfl
      cases r2 with
      | some err =>
        rw [refreshFn_full_error env cr restart st st1 st2 secret err hget hneed hrc]
        simp only [emit, spawnCount_append, hg2]
        rfl
      | none =>
        rw [refreshFn_full_ok env cr restart st st1 st2 secret hget hneed hrc]
        cases restart <;>
          simp only [emit, spawnCount_append, hg2, Bool.false_eq_true, if_true, if_false] <;>
          rfl
    | false =>
      cases hleaf : (validServerCert env cr (mapIndex secret.Data caCertName)
        (mapIndex secret.Data certName) (mapIndex secret.Data keyName)
        (needsCARefresh env cr secret st1).2).1 with
      | true =>
        rw [refreshFn_none env cr restart st st1 secret hget hneed hleaf]
        simp only [emit, validServerCert_trace, needsCARefresh_trace, spawnCount_append, hg1]
        rfl
      | false =>
        obtain ⟨l, hl, -, -, -, hs⟩ := refreshCerts_trace env cr false secret
          (emit (Event.info "refreshing server certs")
            (validServerCert env cr (mapIndex secret.Data caCertName)
              (mapIndex secret.Data certName) (mapIndex secret.Data keyName)
              (needsCARefresh env cr secret st1).2).2)
        rcases hrc : refreshCerts env cr false secret
          (emit (Event.info "refreshing server certs")
            (validServerCert env cr (mapIndex secret.Data caCertName)
              (mapIndex secret.Data certName) (mapIndex secret.Data keyName)
              (needsCARefresh env cr secret st1).2).2) with ⟨r2, st2⟩
        rw [hrc] at hl
        have hg2 : spawnCount st2.trace = spawnCount st.trace := by
          simp only [emit, validServerCert_trace, needsCARefresh_trace] at hl
          rw [hl, spawnCount_append, spawnCount_append, hg1]
          have : spawnCount (Event.refreshCerts false :: l) = spawnCount l := by
            simp [spawnCount]
          rw [this, hs]
          rfl
        cases r2 with
        | some err =>
          rw [refreshFn_leaf_error env cr restart st st1 st2 secret err hget hneed hleaf hrc]
          simp only [emit, spawnCount_append, hg2]
          rfl
        | none =>
          rw [refreshFn_leaf_ok env cr restart st st1 st2 secret hget hneed hleaf hrc]
          cases restart <;>
            simp only [emit, spawnCount_append, hg2, Bool.false_eq_true, if_true, if_false] <;>
            rfl

theorem backoffLoop_spawnCount {σ : Type} (condition : St σ → CondResult × St σ)
    (hc : ∀ st, spawnCount (condition st).2.trace = spawnCount st.trace) (n : Nat)
    (st : St σ) :
    spawnCount (backoffLoop n condition st).2.trace = spawnCount st.trace := by
  induction n generalizing st with
  | zero => simp [backoffLoop]
  | succ n ih =>
    have h1 := hc st
    rcases hcs : condition st with ⟨r, st1⟩
    rw [hcs] at h1
    simp only at h1
    cases r with
    | exit code => simp [backoffLoop, hcs, h1]
    | ret done err =>
      by_cases hd : (err.isSome || done) = true
      · simp only [backoffLoop, hcs, hd, if_true]
        exact h1
      · simp only [backoffLoop, hcs, hd, if_false]
        have := ih st1
        simp only [Bool.false_eq_true, if_false] at this ⊢
        rw [this, h1]

theorem refreshCertIfNeeded_spawnCount {σ : Type} (env : Env σ) (cr : CertRotator)
    (restart : Bool) (st : St σ) :
    spawnCount (refreshCertIfNeeded env cr restart st).2.trace = spawnCount st.trace := by
  rw [refreshCertIfNeeded_eq]
  exact backoffLoop_spawnCount _ (refreshFn_spawnCount env cr restart) 10 st

/-- Turns of the ticker case in which the refresh returns, with an error or without, leave
the loop running: the rest of the signals is handled in the state after these turns. -/
theorem tickerLoop_ticks {σ : Type} (env : Env σ) (cr : CertRotator) (restart : Bool)
    (n : Nat) (rest : List Signal) (st : St σ)
    (h : ∀ i, i < n → ∃ e, (refreshCertIfNeeded env cr restart
      (tickState env cr restart i st)).1 = Outcome.returned e) :
    tickerLoop env cr restart (List.replicate n Signal.tick ++ rest) st =
      tickerLoop env cr restart rest (tickState env cr restart n st) := by
  induction n generalizing st with
  | zero => rfl
  | succ n ih =>
    obtain ⟨e, he⟩ := h 0 (Nat.succ_pos n)
    have hstep : tickerLoop env cr restart
        (List.replicate (n + 1) Signal.tick ++ rest) st =
        tickerLoop env cr restart (List.replicate n Signal.tick ++ rest)
          (tickStep env cr restart st) := by
      rw [List.replicate_succ, List.cons_append]
      rcases hr : refreshCertIfNeeded env cr restart st with ⟨o, st1⟩
      have he1 : o = Outcome.returned e := by
        have : (refreshCertIfNeeded env cr restart (tickState env cr restart 0 st)).1 = o := by
          show (refreshCertIfNeeded env cr restart st).1 = o
          rw [hr]
        rw [← this, he]
      subst he1
      cases e with
      | none => simp [tickerLoop, tickStep, hr]
      | some err => simp [tickerLoop, tickStep, hr]
    rw [hstep, ih (tickStep env cr restart st) (fun i hi => h (i + 1) (Nat.succ_lt_succ hi))]
    rfl

/-- Claim C10. Outcome of the control loop.  When the initial `refreshCertIfNeeded` returns
an error, `Start` returns that error whatever the signals are, and starts neither
goroutine nor ticker.  When it returns nil, then after any number of ticker turns whose
refresh returned, with an error or without, `Start` returns nil on the stop signal, the
error "could not mount certs" when `certsNotMounted` is closed and the error "could not
inject certs to webhooks" when `caNotInjected` is closed; and after ticker turns alone it
is still running: an error returned by a periodic refresh does not end the loop. -/
theorem start_outcome {σ : Type} (env : Env σ) (cr : CertRotator) (restart : Bool)
    (st : St σ) :
    (∀ (err : Err) (st1 : St σ),
      refreshCertIfNeeded env cr restart
        (emit (Event.info "starting cert rotator controller") st)
        = (Outcome.returned (some err), st1) →
      ∀ signals : List Signal,
        Start env cr restart signals st =
          (some (Outcome.returned (some err)),
            emit (Event.info "stopping cert rotator controller")
              (emit (Event.error err "could not refresh cert on startup") st1)) ∧
        spawnCount (Start env cr restart signals st).2.trace = spawnCount st.trace) ∧
    (∀ (st1 : St σ),
      refreshCertIfNeeded env cr restart
        (emit (Event.info "starting cert rotator controller") st)
        = (Outcome.returned none, st1) →
      ∀ (n : Nat) (rest : List Signal),
        (∀ i, i < n → ∃ e, (refreshCertIfNeeded env cr restart
          (tickState env cr restart i
            (emit (Event.newTicker rotationCheckFrequency)
              (emit (Event.spawn "ensureReady")
                (emit (Event.spawn "ensureCertsMounted") st1))))).1 = Outcome.returned e) →
        (Start env cr restart (List.replicate n Signal.tick ++ Signal.stop :: rest) st).1 =
          some (Outcome.returned none) ∧
        (Start env cr restart
          (List.replicate n Signal.tick ++ Signal.certsNotMounted :: rest) st).1 =
          some (Outcome.returned (some (Err.new "could not mount certs"))) ∧
        (Start env cr restart
          (List.replicate n Signal.tick ++ Signal.caNotInjected :: rest) st).1 =
          some (Outcome.returned (some (Err.new "could not inject certs to webhooks"))) ∧
        (Start env cr restart (List.replicate n Signal.tick) st).1 = none) := by
  constructor
  · intro err st1 hboot signals
    have hs : Start env cr restart signals st =
        (some (Outcome.returned (some err)),
          emit (Event.info "stopping cert rotator controller")
            (emit (Event.error err "could not refresh cert on startup") st1)) := by
      simp [Start, hboot]
    refine ⟨hs, ?_⟩
    have h1 := refreshCertIfNeeded_spawnCount env cr restart
      (emit (Event.info "starting cert rotator controller") st)
    rw [hboot] at h1
    simp only [emit, spawnCount_append] at h1
    rw [hs]
    simp only [emit, spawnCount_append, h1]
    rfl
  · intro st1 hboot n rest hticks
    have hs : ∀ signals, Start env cr restart signals st =
        tickerLoop env cr restart signals
          (emit (Event.newTicker rotationCheckFrequency)
            (emit (Event.spawn "ensureReady")
              (emit (Event.spawn "ensureCertsMounted") st1))) := by
      intro signals
      simp [Start, hboot]
    refine ⟨?_, ?_, ?_, ?_⟩
    · rw [hs, tickerLoop_ticks env cr restart n _ _ hticks]
      rfl
    · rw [hs, tickerLoop_ticks env cr restart n _ _ hticks]
      rfl
    · rw [hs, tickerLoop_ticks env cr restart n _ _ hticks]
      rfl
    · have := tickerLoop_ticks env cr restart n [] _ hticks
      rw [List.append_nil] at this
      rw [hs, this]
      rfl

/-- A run of the simulation for C10: the bootstrap succeeds, the periodic refresh fails on
its read, and the stop signal then ends `Start` with nil. -/
theorem start_outcome_witness :
    (Start (simEnv failThird noFault) simRotator false [Signal.tick, Signal.stop]
      (simStart (some emptySecret))).1 = some (Outcome.returned none) ∧
    errorsOf (Start (simEnv failThird noFault) simRotator false [Signal.tick, Signal.stop]
      (simStart (some emptySecret))).2.trace =
      [Err.wrap (Err.status 500) "acquiring secret to update certificates"] :=
  ⟨((start_outcome (simEnv failThird noFault) simRotator false
      (simStart (some emptySecret))).2 _ rfl 1 []
      (by intro i hi; interval_cases i; exact ⟨_, rfl⟩)).1, by rfl⟩

/-! ## Idempotence of rotation -/

theorem writesOf_append (a b : List Event) : writesOf (a ++ b) = writesOf a ++ writesOf b := by
  simp [writesOf, List.filterMap_append]

theorem timeNow_frozen {σ : Type} (env : Env σ) (now : Time) (h : FrozenClock env now)
    (st : St σ) : timeNow env st = (now, st) := by
  unfold timeNow
  rw [h st.ext]

theorem validCACert_frozen {σ : Type} (env : Env σ) (now : Time) (h : FrozenClock env now)
    (cr : CertRotator) (cert key : Bytes) (st : St σ) :
    validCACert env cr cert key st =
      ((validCert env cert cert key cr.CAName (now + 90 * 24 * Hour)).1, st) := by
  have h1 : lookaheadTime env st = (now + 90 * 24 * Hour, st) := by
    unfold lookaheadTime
    rw [timeNow_frozen env now h]
  unfold validCACert
  rw [h1]
  dsimp only
  rcases validCert_result env cert cert key cr.CAName (now + 90 * 24 * Hour) with hv | ⟨e, hv⟩ <;>
    rw [hv]

theorem validServerCert_frozen {σ : Type} (env : Env σ) (now : Time)
    (h : FrozenClock env now) (cr : CertRotator) (caCert cert key : Bytes) (st : St σ) :
    validServerCert env cr caCert cert key st =
      ((validCert env caCert cert key cr.DNSName (now + 90 * 24 * Hour)).1, st) := by
  have h1 : lookaheadTime env st = (now + 90 * 24 * Hour, st) := by
    unfold lookaheadTime
    rw [timeNow_frozen env now h]
  unfold validServerCert
  rw [h1]
  dsimp only
  rcases validCert_result env caCert cert key cr.DNSName (now + 90 * 24 * Hour)
    with hv | ⟨e, hv⟩ <;> rw [hv]

theorem pemEncode_ok {σ : Type} (env : Env σ) (der : Bytes) (key : PrivateKey)
    (certPEM keyPEM : Bytes) (h : pemEncode env der key = Except.ok (certPEM, keyPEM)) :
    env.pem_Encode { Typ := "CERTIFICATE", Bytes := der } = Except.ok certPEM ∧
    env.pem_Encode { Typ := "RSA PRIVATE KEY", Bytes := env.x509_MarshalPKCS1PrivateKey key }
      = Except.ok keyPEM := by
  unfold pemEncode at h
  cases h1 : env.pem_Encode { Typ := "CERTIFICATE", Bytes := der } with
  | error e => rw [h1] at h; cases h
  | ok certBuf =>
    rw [h1] at h
    dsimp only at h
    cases h2 : env.pem_Encode
      { Typ := "RSA PRIVATE KEY", Bytes := env.x509_MarshalPKCS1PrivateKey key } with
    | error e => rw [h2] at h; cases h
    | ok keyBuf =>
      rw [h2] at h
      cases h
      exact ⟨rfl, rfl⟩

/-- What a successful `createCACert` has done. -/
theorem createCACert_ok {σ : Type} (env : Env σ) (cr : CertRotator) (st st1 : St σ)
    (ca : KeyPairArtifacts) (h : createCACert env cr st = (Except.ok ca, st1)) :
    ∃ (der : Bytes) (w w1 : σ),
      env.x509_CreateCertificate (caTemplate cr (timeNow env st).1)
        (caTemplate cr (timeNow env st).1) ca.Key.Public ca.Key w = (Except.ok der, w1) ∧
      env.pem_Encode { Typ := "CERTIFICATE", Bytes := der } = Except.ok ca.CertPEM ∧
      env.pem_Encode
        { Typ := "RSA PRIVATE KEY", Bytes := env.x509_MarshalPKCS1PrivateKey ca.Key }
        = Except.ok ca.KeyPEM ∧
      env.x509_ParseCertificate der = Except.ok ca.Cert := by
  unfold createCACert at h
  dsimp only at h
  rcases hk : generateKey env 2048 (timeNow env st).2 with ⟨rk, s1⟩
  rw [hk] at h
  cases rk with
  | error e => cases h
  | ok key =>
    dsimp only at h
    rcases hc : createCertificate env (caTemplate cr (timeNow env st).1)
      (caTemplate cr (timeNow env st).1) key.Public key s1 with ⟨rc, s2⟩
    rw [hc] at h
    cases rc with
    | error e => cases h
    | ok der =>
      dsimp only at h
      cases hp : pemEncode env der key with
      | error e => rw [hp] at h; cases h
      | ok pr =>
        obtain ⟨certPEM, keyPEM⟩ := pr
        rw [hp] at h
        dsimp only at h
        cases hx : env.x509_ParseCertificate der with
        | error e => rw [hx] at h; cases h
        | ok cert =>
          rw [hx] at h
          cases h
          obtain ⟨hp1, hp2⟩ := pemEncode_ok env der key certPEM keyPEM hp
          refine ⟨der, s1.ext, st1.ext, ?_, hp1, hp2, hx⟩
          have := congrArg (fun x => (x.1, x.2.ext)) hc
          simpa [createCertificate] using this

/-- What a successful `createCertPEM` has done. -/
theorem createCertPEM_ok {σ : Type} (env : Env σ) (cr : CertRotator) (ca : KeyPairArtifacts)
    (st st1 : St σ) (cert key : Bytes)
    (h : createCertPEM env cr ca st = (Except.ok (cert, key), st1)) :
    ∃ (k : PrivateKey) (der : Bytes) (w w1 : σ),
      env.x509_CreateCertificate (leafTemplate cr (timeNow env st).1) ca.Cert k.Public ca.Key w
        = (Except.ok der, w1) ∧
      env.pem_Encode { Typ := "CERTIFICATE", Bytes := der } = Except.ok cert ∧
      env.pem_Encode
        { Typ := "RSA PRIVATE KEY", Bytes := env.x509_MarshalPKCS1PrivateKey k }
        = Except.ok key := by
  unfold createCertPEM at h
  dsimp only at h
  rcases hk : generateKey env 2048 (timeNow env st).2 with ⟨rk, s1⟩
  rw [hk] at h
  cases rk with
  | error e => cases h
  | ok k =>
    dsimp only at h
    rcases hc : createCertificate env (leafTemplate cr (timeNow env st).1) ca.Cert
      k.Public ca.Key s1 with ⟨rc, s2⟩
    rw [hc] at h
    cases rc with
    | error e => cases h
    | ok der =>
      dsimp only at h
      cases hp : pemEncode env der k with
      | error e => rw [hp] at h; cases h
      | ok pr =>
        obtain ⟨certPEM, keyPEM⟩ := pr
        rw [hp] at h
        cases h
        obtain ⟨hp1, hp2⟩ := pemEncode_ok env der k cert key hp
        refine ⟨k, der, s1.ext, st1.ext, ?_, hp1, hp2⟩
        have := congrArg (fun x => (x.1, x.2.ext)) hc
        simpa [createCertificate] using this

/-- What a successful `buildArtifactsFromSecret` has read. -/
theorem buildArtifactsFromSecret_ok {σ : Type} (env : Env σ) (secret : Secret)
    (ca : KeyPairArtifacts) (h : buildArtifactsFromSecret env secret = Except.ok ca) :
    ∃ caDer keyDer, env.pem_Decode ca.CertPEM = some caDer ∧
      env.x509_ParseCertificate caDer.Bytes = Except.ok ca.Cert ∧
      env.pem_Decode ca.KeyPEM = some keyDer ∧
      env.x509_ParsePKCS1PrivateKey keyDer.Bytes = Except.ok ca.Key := by
  unfold buildArtifactsFromSecret at h
  cases h1 : mapLookup secret.Data caCertName with
  | none => rw [h1] at h; cases h
  | some caPem =>
    rw [h1] at h
    dsimp only at h
    cases h2 : mapLookup secret.Data caKeyName with
    | none => rw [h2] at h; cases h
    | some keyPem =>
      rw [h2] at h
      dsimp only at h
      cases h3 : env.pem_Decode caPem with
      | none => rw [h3] at h; cases h
      | some caDer =>
        rw [h3] at h
        dsimp only at h
        cases h4 : env.x509_ParseCertificate caDer.Bytes with
        | error e => rw [h4] at h; cases h
        | ok caCert =>
          rw [h4] at h
          dsimp only at h
          cases h5 : env.pem_Decode keyPem with
          | none => rw [h5] at h; cases h
          | some keyDer =>
            rw [h5] at h
            dsimp only at h
            cases h6 : env.x509_ParsePKCS1PrivateKey keyDer.Bytes with
            | error e => rw [h6] at h; cases h
            | ok key =>
              rw [h6] at h
              cases h
              exact ⟨caDer, keyDer, h3, h4, h5, h6⟩

/-- A successful `refreshCerts` obtained CA artifacts, made a leaf from them and updated
the populated secret with success. -/
theorem refreshCerts_ok {σ : Type} (env : Env σ) (cr : CertRotator) (refreshCA : Bool)
    (secret : Secret) (st st3 : St σ)
    (h : refreshCerts env cr refreshCA secret st = (none, st3)) :
    ∃ (ca : KeyPairArtifacts) (cert key : Bytes) (st1 st2 : St σ),
      (if refreshCA then createCACert env cr (emit (Event.refreshCerts refreshCA) st)
        else (buildArtifactsFromSecret env secret, emit (Event.refreshCerts refreshCA) st))
        = (Except.ok ca, st1) ∧
      createCertPEM env cr ca st1 = (Except.ok (cert, key), st2) ∧
      clientUpdate env (populateSecret cert key ca secret) st2 = (none, st3) := by
  unfold refreshCerts at h
  dsimp only at h
  rcases hA : (if refreshCA then createCACert env cr (emit (Event.refreshCerts refreshCA) st)
    else (buildArtifactsFromSecret env secret, emit (Event.refreshCerts refreshCA) st))
    with ⟨ra, st1⟩
  rw [hA] at h
  cases ra with
  | error e => cases h
  | ok ca =>
    dsimp only at h
    rcases hc : createCertPEM env cr ca st1 with ⟨rc, st2⟩
    rw [hc] at h
    cases rc with
    | error e => cases h
    | ok pr =>
      obtain ⟨cert, key⟩ := pr
      exact ⟨ca, cert, key, st1, st2, rfl, hc, h⟩

/-- The calls recorded by a `refreshCerts` that obtains its artifacts and its leaf: one
entry and one update, of the populated secret. -/
theorem refreshCerts_calls {σ : Type} (env : Env σ) (cr : CertRotator) (refreshCA : Bool)
    (secret : Secret) (st st1 st2 st3 : St σ) (ca : KeyPairArtifacts) (cert key : Bytes)
    (r : Option Err)
    (hCA : (if refreshCA then createCACert env cr (emit (Event.refreshCerts refreshCA) st)
      else (buildArtifactsFromSecret env secret, emit (Event.refreshCerts refreshCA) st))
      = (Except.ok ca, st1))
    (hleaf : createCertPEM env cr ca st1 = (Except.ok (cert, key), st2))
    (hw : clientUpdate env (populateSecret cert key ca secret) st2 = (r, st3)) :
    refreshCerts env cr refreshCA secret st = (r, st3) ∧
    updatesOf st3.trace = updatesOf st.trace ++ [(populateSecret cert key ca secret, r)] ∧
    refreshCalls st3.trace = refreshCalls st.trace ++ [refreshCA] := by
  have hgen := refreshCerts_generated env cr refreshCA secret st st1 st2 ca cert key hCA hleaf
  rw [hw] at hgen
  have h3 := clientUpdate_trace env _ st2 st3 r hw
  obtain ⟨l2, h2, hu2, -, hr2, -⟩ := createCertPEM_trace env cr ca st1
  rw [hleaf] at h2
  have h1 : ∃ l1, st1.trace = st.trace ++ [Event.refreshCerts refreshCA] ++ l1 ∧
      updatesOf l1 = [] ∧ refreshCalls l1 = [] := by
    cases refreshCA with
    | true =>
      obtain ⟨l1, h1, hu1, -, hr1, -⟩ :=
        createCACert_trace env cr (emit (Event.refreshCerts true) st)
      simp only [if_true] at hCA
      rw [hCA] at h1
      exact ⟨l1, h1, hu1, hr1⟩
    | false =>
      simp only [Bool.false_eq_true, if_false] at hCA
      have := congrArg (fun x => x.2.trace) hCA
      exact ⟨[], by simpa [emit] using this.symm, rfl, rfl⟩
  obtain ⟨l1, h1, hu1, hr1⟩ := h1
  refine ⟨hgen, ?_, ?_⟩
  · rw [h3, h2, h1]
    simp only [updatesOf_append, hu1, hu2]
    simp [updatesOf]
  · rw [h3, h2, h1]
    simp only [refreshCalls_append, hr1, hr2]
    simp [refreshCalls]

theorem writesOf_eq_updatesOf (tr : List Event) :
    writesOf tr = (updatesOf tr).filterMap (fun u =>
      match u.2 with
      | none => some u.1
      | some _ => none) := by
  induction tr with
  | nil => rfl
  | cons e tr ih =>
    cases e with
    | clientUpdate s r =>
      cases r with
      | none => simp [writesOf, updatesOf] at ih ⊢; exact ih
      | some err => simp [writesOf, updatesOf] at ih ⊢; exact ih
    | _ => simp [writesOf, updatesOf] at ih ⊢; exact ih

theorem lookahead_in_window (now : Time) :
    now + (-1) * Hour ≤ now + 90 * 24 * Hour ∧
      now + 90 * 24 * Hour ≤ now + certValidityDuration := by
  have h : (0 : Int) < Hour := by decide
  unfold certValidityDuration
  constructor <;> linarith

theorem Second_pos : (0 : Int) < Second := by decide

theorem floorSecond_le (t : Time) : floorSecond t ≤ t := by
  unfold floorSecond
  have := Int.emod_nonneg t (ne_of_gt Second_pos)
  linarith

theorem floorSecond_gt (t : Time) : t - Second < floorSecond t := by
  unfold floorSecond
  have := Int.emod_lt_of_pos t Second_pos
  linarith

theorem floorSecond_nonneg (t : Time) (h : 0 ≤ t) : 0 ≤ floorSecond t := by
  unfold floorSecond
  have h1 := Int.emod_add_ediv t Second
  have h2 : 0 ≤ Second * (t / Second) :=
    mul_nonneg (le_of_lt Second_pos) (Int.ediv_nonneg h (le_of_lt Second_pos))
  linarith

/-- The lookahead instant lies before the end of a validity that starts now, also when that
end is taken in whole seconds. -/
theorem lookahead_in_floor_window (now : Time) :
    now + 90 * 24 * Hour ≤ floorSecond (now + certValidityDuration) := by
  have h := floorSecond_gt (now + certValidityDuration)
  have hH : Hour = 3600 * Second := rfl
  have hS := Second_pos
  unfold certValidityDuration at h ⊢
  rw [hH] at h ⊢
  linarith

theorem caTemplate_mayIssue (cr : CertRotator) (now : Time) :
    mayIssue (caTemplate cr now) = true := by
  simp only [mayIssue, caTemplate]
  decide

theorem mapIndex_of_lookup (d : Option (List (String × Bytes))) (k : String) (v : Bytes)
    (h : mapLookup d k = some v) : mapIndex d k = v := by
  simp [mapIndex, h]

/-- Under the library contract a CA made by `createCACert` at instant `now`, for a CA name
that host name verification accepts, passes the check of `validCACert` at the lookahead
instant, and verifies as its own root there. -/
theorem generated_ca_valid {σ : Type} (env : Env σ) (hostOK : String → Prop)
    (hc : CryptoContract env) (hv : VerifyContract env hostOK)
    (cr : CertRotator) (hname : hostOK cr.CAName)
    (now : Time) (ca : KeyPairArtifacts) (der : Bytes) (w w1 : σ)
    (hcreate : env.x509_CreateCertificate (caTemplate cr now) (caTemplate cr now)
      ca.Key.Public ca.Key w = (Except.ok der, w1))
    (hpc : env.pem_Encode { Typ := "CERTIFICATE", Bytes := der } = Except.ok ca.CertPEM)
    (hpk : env.pem_Encode
      { Typ := "RSA PRIVATE KEY", Bytes := env.x509_MarshalPKCS1PrivateKey ca.Key }
      = Except.ok ca.KeyPEM)
    (hparse : env.x509_ParseCertificate der = Except.ok ca.Cert) :
    (validCert env ca.CertPEM ca.CertPEM ca.KeyPEM cr.CAName (now + 90 * 24 * Hour)).1 = true ∧
    env.x509_Verify ca.Cert
      { DNSName := cr.CAName, Roots := [ca.Cert], CurrentTime := now + 90 * 24 * Hour }
      = Except.ok () := by
  obtain ⟨hne1, hd1⟩ := hc.pem_roundtrip _ _ hpc
  obtain ⟨hne2, -⟩ := hc.pem_roundtrip _ _ hpk
  have hpair := hc.created_pairs _ _ _ _ _ _ _ _ _ hcreate hpc hpk
  obtain ⟨hw1, -⟩ := lookahead_in_window now
  have hver := hv.verify_self (caTemplate cr now) ca.Cert ca.Key w w1 der cr.CAName
    (now + 90 * 24 * Hour) hcreate hparse hw1 (lookahead_in_floor_window now)
    (by simp [caTemplate]) hname (Or.inl rfl)
  refine ⟨?_, hver⟩
  rw [validCert_true_iff]
  exact ⟨hne1, hne1, hne2, _, _, _, _, hd1, hparse, hpair, hd1, hparse, hver⟩

/-- Under the library contract a leaf made by `createCertPEM` at instant `now`, for a DNS
name that host name verification accepts, from an issuer whose PEM pair loads, who
verifies as its own root at the lookahead instant and who may issue, passes the check of
`validServerCert` at that instant. -/
theorem issued_leaf_valid {σ : Type} (env : Env σ) (hostOK : String → Prop)
    (hc : CryptoContract env) (hv : VerifyContract env hostOK)
    (cr : CertRotator) (hname : hostOK cr.DNSName)
    (now : Time) (p : Certificate) (hiss : mayIssue p = true) (pk k : PrivateKey)
    (caPEM keyPEM der cert key : Bytes) (cb kb : Block) (n : String) (w w1 : σ)
    (hne : caPEM ≠ [])
    (hd1 : env.pem_Decode caPEM = some cb)
    (hp1 : env.x509_ParseCertificate cb.Bytes = Except.ok p)
    (hd2 : env.pem_Decode keyPEM = some kb)
    (hp2 : env.x509_ParsePKCS1PrivateKey kb.Bytes = Except.ok pk)
    (hpair : env.tls_X509KeyPair caPEM keyPEM = Except.ok ())
    (hroot : env.x509_Verify p
      { DNSName := n, Roots := [p], CurrentTime := now + 90 * 24 * Hour } = Except.ok ())
    (hcreate : env.x509_CreateCertificate (leafTemplate cr now) p k.Public pk w
      = (Except.ok der, w1))
    (hpc : env.pem_Encode { Typ := "CERTIFICATE", Bytes := der } = Except.ok cert)
    (hpk : env.pem_Encode
      { Typ := "RSA PRIVATE KEY", Bytes := env.x509_MarshalPKCS1PrivateKey k }
      = Except.ok key) :
    (validCert env caPEM cert key cr.DNSName (now + 90 * 24 * Hour)).1 = true := by
  obtain ⟨hne1, hdc⟩ := hc.pem_roundtrip _ _ hpc
  obtain ⟨hne2, -⟩ := hc.pem_roundtrip _ _ hpk
  obtain ⟨c, hparse⟩ := hc.created_parses _ _ _ _ _ _ _ hcreate
  have hlpair := hc.created_pairs _ _ _ _ _ _ _ _ _ hcreate hpc hpk
  obtain ⟨hw1, -⟩ := lookahead_in_window now
  have hver := hv.verify_issued (leafTemplate cr now) p c k.Public pk w w1 der caPEM keyPEM
    cb kb n cr.DNSName (now + 90 * 24 * Hour) hd1 hp1 hd2 hp2 hpair hroot hiss hcreate
    hparse hw1 (lookahead_in_floor_window now) (by simp [leafTemplate]) hname
    (Or.inr (by simp [leafTemplate]))
  rw [validCert_true_iff]
  exact ⟨hne, hne1, hne2, _, _, _, _, hd1, hp1, hlpair, hdc, hparse, hver⟩

theorem needsCARefresh_frozen {σ : Type} (env : Env σ) (now : Time)
    (h : FrozenClock env now) (cr : CertRotator) (secret : Secret) (st : St σ) :
    (needsCARefresh env cr secret st).2 = st := by
  unfold needsCARefresh
  cases secret.Data with
  | none => rfl
  | some m =>
    dsimp only
    rw [validCACert_frozen env now h]

theorem needsCARefresh_false {σ : Type} (env : Env σ) (cr : CertRotator) (secret : Secret)
    (st : St σ) (h : (needsCARefresh env cr secret st).1 = false) :
    (validCACert env cr (mapIndex secret.Data caCertName)
      (mapIndex secret.Data caKeyName) st).1 = true := by
  unfold needsCARefresh at h
  cases hd : secret.Data with
  | none => rw [hd] at h; cases h
  | some m =>
    rw [hd] at h
    simpa using h

theorem clientGet_ext {σ : Type} (env : Env σ) (key : NamespacedName) (st st1 : St σ)
    (r : Except Err Secret) (h : clientGet env key st = (r, st1)) :
    env.client_Get key st.ext = (r, st1.ext) := by
  have := congrArg (fun x => (x.1, x.2.ext)) h
  simpa [clientGet] using this

theorem clientUpdate_ext {σ : Type} (env : Env σ) (secret : Secret) (st st1 : St σ)
    (r : Option Err) (h : clientUpdate env secret st = (r, st1)) :
    env.client_Update secret st.ext = (r, st1.ext) := by
  have := congrArg (fun x => (x.1, x.2.ext)) h
  simpa [clientUpdate] using this

theorem secretValid_populated {σ : Type} (env : Env σ) (cr : CertRotator) (now : Time)
    (cert key : Bytes) (ca : KeyPairArtifacts) (secret : Secret)
    (h1 : (validCert env ca.CertPEM ca.CertPEM ca.KeyPEM cr.CAName
      (now + 90 * 24 * Hour)).1 = true)
    (h2 : (validCert env ca.CertPEM cert key cr.DNSName (now + 90 * 24 * Hour)).1 = true) :
    secretValid env cr now (populateSecret cert key ca secret) = true := by
  unfold secretValid
  rw [mapIndex_of_lookup _ _ _ (mapLookup_populateSecret_caCert cert key ca secret),
    mapIndex_of_lookup _ _ _ (mapLookup_populateSecret_caKey cert key ca secret),
    mapIndex_of_lookup _ _ _ (mapLookup_populateSecret_cert cert key ca secret),
    mapIndex_of_lookup _ _ _ (mapLookup_populateSecret_key cert key ca secret), h1, h2]
  rfl

/-- The heart of idempotence.  Under the library contract, with names that host name
verification accepts, a stored CA that may issue, a register-like store and a clock that
stands still, a successful run of the refresh function leaves in the store a secret that
passes both checks; the run either found nothing to renew and only read, or it entered
`refreshCerts` once and made one `client.Update`, which succeeded. -/
theorem refreshFn_success {σ : Type} (env : Env σ) (cr : CertRotator) (restart : Bool)
    (now : Time) (hostOK : String → Prop) (hc : CryptoContract env)
    (hv : VerifyContract env hostOK) (hCAName : hostOK cr.CAName)
    (hDNSName : hostOK cr.DNSName) (hs : RegisterStore env cr.SecretKey)
    (ht : FrozenClock env now) (s s1 : St σ)
    (hiss : ∀ sec ca, (env.client_Get cr.SecretKey s.ext).1 = Except.ok sec →
      (validCACert env cr (mapIndex sec.Data caCertName)
        (mapIndex sec.Data caKeyName) s).1 = true →
      buildArtifactsFromSecret env sec = Except.ok ca → mayIssue ca.Cert = true)
    (h : refreshFn env cr restart s = (CondResult.ret true none, s1)) :
    (∃ sec, (env.client_Get cr.SecretKey s1.ext).1 = Except.ok sec ∧
      secretValid env cr now sec = true) ∧
    ((s1.trace = s.trace ++ [Event.clientGet cr.SecretKey,
        Event.info "no cert refresh needed"]) ∨
      ∃ b sec, refreshCalls s1.trace = refreshCalls s.trace ++ [b] ∧
        updatesOf s1.trace = updatesOf s.trace ++ [(sec, none)]) := by
  rcases hget : clientGet env cr.SecretKey s with ⟨r, sg⟩
  have htr1 := clientGet_trace env _ s sg _ hget
  have hext1 := clientGet_ext env _ s sg _ hget
  cases r with
  | error e =>
    rw [refreshFn_get_error env cr restart s sg e hget] at h
    cases h
  | ok secret =>
    have hfz := needsCARefresh_frozen env now ht cr secret sg
    cases hneed : (needsCARefresh env cr secret sg).1 with
    | true =>
      rcases hrc : refreshCerts env cr true secret
        (emit (Event.info "refreshing CA and server certs")
          (needsCARefresh env cr secret sg).2) with ⟨r2, s2⟩
      cases r2 with
      | some err =>
        rw [refreshFn_full_error env cr restart s sg s2 secret err hget hneed hrc] at h
        cases h
      | none =>
        rw [refreshFn_full_ok env cr restart s sg s2 secret hget hneed hrc] at h
        cases restart with
        | true => simp at h
        | false =>
          simp only [Bool.false_eq_true, if_false] at h
          cases h
          obtain ⟨ca, cert, key, st1, st2, hCA, hleaf, hw⟩ :=
            refreshCerts_ok env cr true secret _ s2 hrc
          obtain ⟨-, hu, hr⟩ := refreshCerts_calls env cr true secret _ st1 st2 s2 ca cert key
            none hCA hleaf hw
          simp only [if_true] at hCA
          have hgetnew := hs.get_after_update _ _ _ (clientUpdate_ext env _ st2 s2 none hw)
          obtain ⟨der, w, w1, hcr, hpc, hpk, hparse⟩ := createCACert_ok env cr _ st1 ca hCA
          rw [timeNow_frozen env now ht] at hcr
          obtain ⟨hcaValid, hroot⟩ :=
            generated_ca_valid env hostOK hc hv cr hCAName now ca der w w1 hcr hpc hpk hparse
          have hmay := hv.created_issuer _ _ _ _ _ _ _ _ hcr hparse
            (caTemplate_mayIssue cr now)
          obtain ⟨k, lder, lw, lw1, hlcr, hlpc, hlpk⟩ :=
            createCertPEM_ok env cr ca st1 st2 cert key hleaf
          rw [timeNow_frozen env now ht] at hlcr
          obtain ⟨hne1, hd1⟩ := hc.pem_roundtrip _ _ hpc
          obtain ⟨-, hd2⟩ := hc.pem_roundtrip _ _ hpk
          have hpair := hc.created_pairs _ _ _ _ _ _ _ _ _ hcr hpc hpk
          have hleafValid := issued_leaf_valid env hostOK hc hv cr hDNSName now ca.Cert hmay
            ca.Key k ca.CertPEM
            ca.KeyPEM lder cert key _ _ cr.CAName lw lw1 hne1 hd1 hparse hd2
            (hc.key_roundtrip ca.Key) hpair hroot hlcr hlpc hlpk
          refine ⟨⟨populateSecret cert key ca secret, hgetnew,
            secretValid_populated env cr now cert key ca secret hcaValid hleafValid⟩,
            Or.inr ⟨true, populateSecret cert key ca secret, ?_, ?_⟩⟩
          · simp only [emit, refreshCalls_append, hr, hfz, htr1]
            simp [refreshCalls]
          · simp only [emit, updatesOf_append, hu, hfz, htr1]
            simp [updatesOf]
    | false =>
      have hca := needsCARefresh_false env cr secret sg hneed
      rw [validCACert_frozen env now ht] at hca
      simp only at hca
      have hca0 := hca
      cases hleaf : (validServerCert env cr (mapIndex secret.Data caCertName)
        (mapIndex secret.Data certName) (mapIndex secret.Data keyName)
        (needsCARefresh env cr secret sg).2).1 with
      | true =>
        rw [refreshFn_none env cr restart s sg secret hget hneed hleaf] at h
        cases h
        have hl := hleaf
        rw [validServerCert_frozen env now ht] at hl
        simp only at hl
        refine ⟨⟨secret, ?_, ?_⟩, Or.inl ?_⟩
        · rw [validServerCert_frozen env now ht, hfz]
          exact hs.get_stable _ _ _ hext1
        · unfold secretValid
          rw [hca, hl]
          rfl
        · rw [validServerCert_frozen env now ht, hfz]
          simp [emit, htr1]
      | false =>
        rcases hrc : refreshCerts env cr false secret
          (emit (Event.info "refreshing server certs")
            (validServerCert env cr (mapIndex secret.Data caCertName)
              (mapIndex secret.Data certName) (mapIndex secret.Data keyName)
              (needsCARefresh env cr secret sg).2).2) with ⟨r2, s2⟩
        cases r2 with
        | some err =>
          rw [refreshFn_leaf_error env cr restart s sg s2 secret err hget hneed hleaf hrc] at h
          cases h
        | none =>
          rw [refreshFn_leaf_ok env cr restart s sg s2 secret hget hneed hleaf hrc] at h
          cases restart with
          | true => simp at h
          | false =>
            simp only [Bool.false_eq_true, if_false] at h
            cases h
            obtain ⟨ca, cert, key, st1, st2, hCA, hleafc, hw⟩ :=
              refreshCerts_ok env cr false secret _ s2 hrc
            obtain ⟨-, hu, hr⟩ := refreshCerts_calls env cr false secret _ st1 st2 s2 ca
              cert key none hCA hleafc hw
            simp only [Bool.false_eq_true, if_false] at hCA
            have hb : buildArtifactsFromSecret env secret = Except.ok ca :=
              congrArg Prod.fst hCA
            have hst1 := congrArg Prod.snd hCA
            simp only at hst1
            have hgetnew := hs.get_after_update _ _ _ (clientUpdate_ext env _ st2 s2 none hw)
            obtain ⟨hpc, hpk⟩ := buildArtifactsFromSecret_pem env secret ca hb
            obtain ⟨caDer, keyDer, hd1, hp1, hd2, hp2⟩ :=
              buildArtifactsFromSecret_ok env secret ca hb
            rw [mapIndex_of_lookup _ _ _ hpc, mapIndex_of_lookup _ _ _ hpk] at hca
            obtain ⟨hne1, -, -, caDer1, cac, b, crt, hd3, hp3, hpair, hd4, hp4, hroot⟩ :=
              (validCert_true_iff env _ _ _ _ _).1 hca
            rw [hd1] at hd3 hd4
            cases hd3
            cases hd4
            rw [hp1] at hp3 hp4
            cases hp3
            cases hp4
            obtain ⟨k, lder, lw, lw1, hlcr, hlpc, hlpk⟩ :=
              createCertPEM_ok env cr ca st1 st2 cert key hleafc
            rw [timeNow_frozen env now ht] at hlcr
            have hmay := hiss secret ca (by rw [hext1])
              (by rw [validCACert_frozen env now ht]; exact hca0) hb
            have hleafValid := issued_leaf_valid env hostOK hc hv cr hDNSName now ca.Cert
              hmay ca.Key k ca.CertPEM
              ca.KeyPEM lder cert key _ _ cr.CAName lw lw1 hne1 hd1 hp1 hd2 hp2 hpair hroot
              hlcr hlpc hlpk
            refine ⟨⟨populateSecret cert key ca secret, hgetnew,
              secretValid_populated env cr now cert key ca secret hca hleafValid⟩,
              Or.inr ⟨false, populateSecret cert key ca secret, ?_, ?_⟩⟩
            · simp only [emit, refreshCalls_append, hr, hfz, htr1,
                validServerCert_trace]
              simp [refreshCalls]
            · simp only [emit, updatesOf_append, hu, hfz, htr1, validServerCert_trace]
              simp [updatesOf]

/-- An attempt that yields `(false, nil)` made no successful `client.Update`. -/
theorem refreshFn_failed_writes {σ : Type} (env : Env σ) (cr : CertRotator) (restart : Bool)
    (s : St σ) (h : (refreshFn env cr restart s).1 = CondResult.ret false none) :
    writesOf (refreshFn env cr restart s).2.trace = writesOf s.trace := by
  have key : ∀ (b : Bool) (stA s2 : St σ) (secret : Secret) (err : Err) (msg : String),
      writesOf stA.trace = writesOf s.trace →
      refreshCerts env cr b secret stA = (some err, s2) →
      writesOf (emit (Event.error err msg) s2).trace = writesOf s.trace := by
    intro b stA s2 secret err msg hA hrc
    obtain ⟨l, hl, -, -, hu, -⟩ := refreshCerts_trace env cr b secret stA
    rw [hrc] at hl hu
    simp only at hl hu
    have hwl : writesOf l = [] := by
      rw [writesOf_eq_updatesOf]
      rcases hu with ⟨hu, -⟩ | ⟨sec, hu⟩ <;> rw [hu] <;> rfl
    simp only [emit, hl, writesOf_append, hA]
    rw [show Event.refreshCerts b :: l = [Event.refreshCerts b] ++ l by rfl, writesOf_append,
      hwl]
    simp [writesOf]
  rcases hget : clientGet env cr.SecretKey s with ⟨r, sg⟩
  have htr1 := clientGet_trace env _ s sg _ hget
  have hw1 : writesOf sg.trace = writesOf s.trace := by
    rw [htr1, writesOf_append]
    simp [writesOf]
  cases r with
  | error e =>
    rw [refreshFn_get_error env cr restart s sg e hget] at h
    cases h
  | ok secret =>
    cases hneed : (needsCARefresh env cr secret sg).1 with
    | true =>
      rcases hrc : refreshCerts env cr true secret
        (emit (Event.info "refreshing CA and server certs")
          (needsCARefresh env cr secret sg).2) with ⟨r2, s2⟩
      cases r2 with
      | some err =>
        rw [refreshFn_full_error env cr restart s sg s2 secret err hget hneed hrc]
        apply key true _ s2 secret err _ _ hrc
        simp only [emit, needsCARefresh_trace, writesOf_append, hw1]
        simp [writesOf]
      | none =>
        rw [refreshFn_full_ok env cr restart s sg s2 secret hget hneed hrc] at h
        cases restart <;> simp at h
    | false =>
      cases hleaf : (validServerCert env cr (mapIndex secret.Data caCertName)
        (mapIndex secret.Data certName) (mapIndex secret.Data keyName)
        (needsCARefresh env cr secret sg).2).1 with
      | true =>
        rw [refreshFn_none env cr restart s sg secret hget hneed hleaf] at h
        cases h
      | false =>
        rcases hrc : refreshCerts env cr false secret
          (emit (Event.info "refreshing server certs")
            (validServerCert env cr (mapIndex secret.Data caCertName)
              (mapIndex secret.Data certName) (mapIndex secret.Data keyName)
              (needsCARefresh env cr secret sg).2).2) with ⟨r2, s2⟩
        cases r2 with
        | some err =>
          rw [refreshFn_leaf_error env cr restart s sg s2 secret err hget hneed hleaf hrc]
          apply key false _ s2 secret err _ _ hrc
          simp only [emit, validServerCert_trace, needsCARefresh_trace, writesOf_append, hw1]
          simp [writesOf]
        | none =>
          rw [refreshFn_leaf_ok env cr restart s sg s2 secret hget hneed hleaf hrc] at h
          cases restart <;> simp at h

theorem attemptState_writes {σ : Type} (env : Env σ) (cr : CertRotator) (restart : Bool)
    (k : Nat) (st : St σ)
    (h : ∀ i, i < k → (refreshFn env cr restart
      (attemptState (refreshFn env cr restart) i st)).1 = CondResult.ret false none) :
    writesOf (attemptState (refreshFn env cr restart) k st).trace = writesOf st.trace := by
  induction k with
  | zero => rfl
  | succ k ih =>
    rw [attemptState_succ, refreshFn_failed_writes env cr restart _ (h k (Nat.lt_succ_self k))]
    exact ih (fun i hi => h i (Nat.lt_succ_of_lt hi))

/-- A loop that returns nil ran some attempts that yielded `(false, nil)` and then one that
yielded `(true, nil)`. -/
theorem backoffLoop_returned_nil {σ : Type} (condition : St σ → CondResult × St σ)
    (n : Nat) (st st1 : St σ)
    (h : backoffLoop n condition st = (Outcome.returned none, st1)) :
    ∃ k, k < n ∧
      (∀ i, i < k → (condition (attemptState condition i st)).1 = CondResult.ret false none) ∧
      condition (attemptState condition k st) = (CondResult.ret true none, st1) := by
  induction n generalizing st with
  | zero => simp [backoffLoop, ErrWaitTimeout] at h
  | succ n ih =>
    rcases hcs : condition st with ⟨r, s1⟩
    cases r with
    | exit code => simp [backoffLoop, hcs] at h
    | ret done err =>
      cases err with
      | some e => simp [backoffLoop, hcs] at h
      | none =>
        cases done with
        | true =>
          simp [backoffLoop, hcs] at h
          subst h
          exact ⟨0, Nat.succ_pos n, fun i hi => absurd hi (Nat.not_lt_zero i), hcs⟩
        | false =>
          simp [backoffLoop, hcs] at h
          obtain ⟨k, hk, hfail, hdone⟩ := ih s1 h
          refine ⟨k + 1, Nat.succ_lt_succ hk, ?_, ?_⟩
          · intro i hi
            cases i with
            | zero => show (condition st).1 = _; rw [hcs]
            | succ i =>
              show (condition (attemptState condition i (condition st).2)).1 = _
              rw [hcs]
              exact hfail i (Nat.lt_of_succ_lt_succ hi)
          · show condition (attemptState condition k (condition st).2) = _
            rw [hcs]
            exact hdone

/-- A call on a store whose secret passes both checks only reads: it returns nil after one
attempt. -/
theorem refreshCertIfNeeded_valid {σ : Type} (env : Env σ) (cr : CertRotator)
    (restart : Bool) (now : Time) (ht : FrozenClock env now) (s : St σ) (sec : Secret)
    (hget : (env.client_Get cr.SecretKey s.ext).1 = Except.ok sec)
    (hv : secretValid env cr now sec = true) :
    (refreshCertIfNeeded env cr restart s).1 = Outcome.returned none ∧
    (refreshCertIfNeeded env cr restart s).2.trace =
      s.trace ++ [Event.clientGet cr.SecretKey, Event.info "no cert refresh needed"] := by
  unfold secretValid at hv
  rw [Bool.and_eq_true] at hv
  obtain ⟨hv1, hv2⟩ := hv
  rcases hg : clientGet env cr.SecretKey s with ⟨r, sg⟩
  have hext := clientGet_ext env _ s sg _ hg
  rw [hext] at hget
  simp only at hget
  subst hget
  have htr1 := clientGet_trace env _ s sg _ hg
  have hfn := refreshFn_valid env cr restart s sg sec hg
    (by rw [validCACert_frozen env now ht]; exact hv1)
    (by rw [validServerCert_frozen env now ht]; exact hv2)
  rw [validCACert_frozen env now ht, validServerCert_frozen env now ht] at hfn
  rw [refreshCertIfNeeded_eq, backoffLoop_done _ 9 s _ hfn]
  simp [emit, htr1]

/-! ## The simulation meets the assumptions -/

theorem decodeName_encodeName (s : String) : decodeName (encodeName s) = s := by
  cases s with
  | mk l =>
    simp only [decodeName, encodeName, List.map_map]
    congr 1
    have : (Char.ofNat ∘ Char.toNat) = id := by
      funext c
      exact Char.ofNat_toNat c
    rw [this, List.map_id]

theorem simCreateCertificate_ok (t p : Certificate) (pub : PublicKey) (priv : PrivateKey)
    (w w1 : Sim) (der : Bytes)
    (h : simCreateCertificate t p pub priv w = (Except.ok der, w1)) :
    ∃ d, t.DNSNames = [d] ∧ 0 ≤ t.NotBefore ∧ 0 ≤ t.NotAfter ∧
      der = (floorSecond t.NotBefore).toNat :: (floorSecond t.NotAfter).toNat ::
        (if t.IsCA then 1 else 0) :: pub.N :: priv.PublicKey.N :: encodeName d := by
  unfold simCreateCertificate at h
  split at h
  · rename_i d hd
    by_cases hw : 0 ≤ t.NotBefore ∧ 0 ≤ t.NotAfter
    · rw [if_pos hw] at h
      cases h
      exact ⟨d, hd, hw.1, hw.2, rfl⟩
    · rw [if_neg hw] at h
      cases h
  · cases h

theorem simOK_contract : CryptoContract simOK where
  pem_roundtrip := by
    intro blk b h
    change simPemEncode blk = Except.ok b at h
    change b ≠ [] ∧ simPemDecode b = some blk
    unfold simPemEncode at h
    obtain ⟨ty, bytes⟩ := blk
    split_ifs at h with h1 h2
    · cases h
      simp only at h1
      subst h1
      exact ⟨by simp, rfl⟩
    · cases h
      simp only at h2
      subst h2
      exact ⟨by simp, rfl⟩
  key_roundtrip := by
    intro k
    rfl
  created_parses := by
    intro t p pub priv w w1 der h
    obtain ⟨d, -, -, -, hder⟩ := simCreateCertificate_ok t p pub priv w w1 der h
    subst hder
    exact ⟨_, rfl⟩
  created_pairs := by
    intro t p k priv w w1 der certPEM keyPEM h hpc hpk
    obtain ⟨d, -, -, -, hder⟩ := simCreateCertificate_ok t p k.Public priv w w1 der h
    subst hder
    simp only [simOK, simEnv] at hpc hpk ⊢
    simp [simPemEncode] at hpc hpk
    subst hpc
    subst hpk
    simp [simKeyPair, simPemDecode, simParseCertificate, simMarshalKey, simParseKey,
      PrivateKey.Public]

theorem mayIssue_iff (c : Certificate) :
    mayIssue c = true ↔ c.BasicConstraintsValid = true ∧ c.IsCA = true ∧
      (c.KeyUsage = 0 ∨ (c.KeyUsage &&& KeyUsageCertSign) ≠ 0) ∧
      c.PermittedDNSDomains = [] ∧ c.ExcludedDNSDomains = [] := by
  simp [mayIssue, List.isEmpty_iff, and_assoc]

theorem simOK_verify : VerifyContract simOK (fun _ => True) where
  created_issuer := by
    intro t p c pub priv w w1 der h hparse hmay
    obtain ⟨d0, -, -, -, hder⟩ := simCreateCertificate_ok t p pub priv w w1 der h
    subst hder
    simp only [simOK, simEnv] at hparse
    simp only [simParseCertificate] at hparse
    cases hparse
    have hca : t.IsCA = true := ((mayIssue_iff t).1 hmay).2.1
    simp [mayIssue, hca]
  verify_self := by
    intro t c k w w1 der d atTime h hparse hnb hna hd _ _
    obtain ⟨d0, hd0, h0, h1, hder⟩ := simCreateCertificate_ok t t k.Public k w w1 der h
    subst hder
    simp only [simOK, simEnv] at hparse ⊢
    simp only [simParseCertificate] at hparse
    cases hparse
    rw [hd0] at hd
    simp only [List.mem_singleton] at hd
    subst hd
    have hnb2 : floorSecond t.NotBefore ≤ atTime := le_trans (floorSecond_le _) hnb
    simp only [simVerify, simInWindow, decodeName_encodeName,
      Int.toNat_of_nonneg (floorSecond_nonneg _ h0),
      Int.toNat_of_nonneg (floorSecond_nonneg _ h1)]
    simp [hnb2, hna]
  verify_issued := by
    intro t p c pub pk w w1 der caPEM keyPEM cb kb n d atTime hd1 hp1 hd2 hp2 hpair hroot
      hmay h hparse hnb hna hd _ _
    obtain ⟨d0, hd0, h0, h1, hder⟩ := simCreateCertificate_ok t p pub pk w w1 der h
    subst hder
    simp only [simOK, simEnv] at hparse hp1 hd1 hd2 hp2 hpair hroot ⊢
    simp only [simParseCertificate] at hparse
    cases hparse
    rw [hd0] at hd
    simp only [List.mem_singleton] at hd
    subst hd
    have hkey : p.PublicKey = some pk.PublicKey := by
      simp only [simKeyPair, hd1, hd2, hp1, hp2] at hpair
      split_ifs at hpair with hk
      exact hk
    have hwin : simInWindow p atTime = true := by
      simp only [simVerify] at hroot
      split_ifs at hroot with hw
      exact hw
    have hwin2 : p.NotBefore ≤ atTime ∧ atTime ≤ p.NotAfter := by
      simpa [simInWindow] using hwin
    have hnb2 : floorSecond t.NotBefore ≤ atTime := le_trans (floorSecond_le _) hnb
    simp only [simVerify, simInWindow, decodeName_encodeName,
      Int.toNat_of_nonneg (floorSecond_nonneg _ h0),
      Int.toNat_of_nonneg (floorSecond_nonneg _ h1), simSigner]
    simp [hnb2, hna, hkey, hwin2, hmay]
  rejects_outside := by
    intro t p c pub priv w w1 der opts hcreate hparse hout
    obtain ⟨d, -, hnb, hna, hder⟩ := simCreateCertificate_ok t p pub priv w w1 der hcreate
    subst hder
    simp only [simOK, simEnv] at hparse ⊢
    simp only [simParseCertificate] at hparse
    cases hparse
    simp only [simVerify, simInWindow, Int.toNat_of_nonneg (floorSecond_nonneg _ hnb),
      Int.toNat_of_nonneg (floorSecond_nonneg _ hna)]
    rcases hout with h | h
    · have hn : ¬ floorSecond t.NotBefore ≤ opts.CurrentTime := not_le.2 h
      simp [hn]
    · have hn : ¬ opts.CurrentTime ≤ floorSecond t.NotAfter := not_le.2 h
      simp [hn]

theorem simOK_store : RegisterStore simOK simRotator.SecretKey where
  get_after_update := by
    intro s w w1 h
    change simUpdate noFault s w = (none, w1) at h
    change (simGet noFault _ w1).1 = Except.ok s
    simp only [simUpdate, noFault] at h
    cases hs : w.secret with
    | none => rw [hs] at h; cases h
    | some s0 =>
      rw [hs] at h
      cases h
      rfl
  get_stable := by
    intro s w w1 h
    change simGet noFault _ w = (Except.ok s, w1) at h
    change (simGet noFault _ w1).1 = Except.ok s
    simp only [simGet, noFault] at h
    cases hs : w.secret with
    | none => rw [hs] at h; cases h
    | some s0 =>
      rw [hs] at h
      cases h
      simp [simGet, noFault, hs]

theorem simOK_clock : FrozenClock simOK simClock := fun _ => rfl

/-! ## Running the refresh twice -/

/-- Claim C4, amended. Idempotence of rotation when the stored CA may issue.  Assume the
contract of the PEM and X.509 library, a CA name and a DNS name that host name
verification accepts, a store that keeps the secret like a register, and a clock that
stands still (both runs at the same instant).  Assume that the CA certificate which an
attempt reads from the secret, when it passes `validCACert` and
`buildArtifactsFromSecret` parses it, may issue (basic constraints with the CA flag, key
usage absent or with certificate signing, no DNS name constraint).  If a first call of `refreshCertIfNeeded` returns nil, then its attempts
before the last made no successful `client.Update`, and the last attempt either found
nothing to renew and wrote nothing, or entered `refreshCerts` once and made exactly one
successful update; the secret then in the store passes `validCACert` and
`validServerCert` for the CA name and DNS name of the rotator; and a second call right
after returns nil after one read, with no `client.Update` and nothing generated. -/
theorem refresh_twice_writes_once {σ : Type} (env : Env σ) (cr : CertRotator)
    (restart : Bool) (now : Time) (st : St σ) (hostOK : String → Prop)
    (hc : CryptoContract env) (hv : VerifyContract env hostOK)
    (hCAName : hostOK cr.CAName) (hDNSName : hostOK cr.DNSName)
    (hs : RegisterStore env cr.SecretKey)
    (ht : FrozenClock env now)
    (hiss : ∀ i sec ca, i < 10 →
      (env.client_Get cr.SecretKey
        (attemptState (refreshFn env cr restart) i st).ext).1 = Except.ok sec →
      (validCACert env cr (mapIndex sec.Data caCertName) (mapIndex sec.Data caKeyName)
        (attemptState (refreshFn env cr restart) i st)).1 = true →
      buildArtifactsFromSecret env sec = Except.ok ca → mayIssue ca.Cert = true)
    (h1 : (refreshCertIfNeeded env cr restart st).1 = Outcome.returned none) :
    (∃ k, k < 10 ∧
      (refreshCertIfNeeded env cr restart st).2 =
        attemptState (refreshFn env cr restart) (k + 1) st ∧
      writesOf (attemptState (refreshFn env cr restart) k st).trace = writesOf st.trace ∧
      ((refreshCalls (refreshCertIfNeeded env cr restart st).2.trace =
            refreshCalls (attemptState (refreshFn env cr restart) k st).trace ∧
          writesOf (refreshCertIfNeeded env cr restart st).2.trace = writesOf st.trace) ∨
        ∃ b sec,
          refreshCalls (refreshCertIfNeeded env cr restart st).2.trace =
            refreshCalls (attemptState (refreshFn env cr restart) k st).trace ++ [b] ∧
          writesOf (refreshCertIfNeeded env cr restart st).2.trace =
            writesOf st.trace ++ [sec])) ∧
    (∃ sec, (env.client_Get cr.SecretKey (refreshCertIfNeeded env cr restart st).2.ext).1 =
        Except.ok sec ∧
      ∀ sX : St σ,
        (validCACert env cr (mapIndex sec.Data caCertName)
          (mapIndex sec.Data caKeyName) sX).1 = true ∧
        (validServerCert env cr (mapIndex sec.Data caCertName)
          (mapIndex sec.Data certName) (mapIndex sec.Data keyName) sX).1 = true) ∧
    (refreshCertIfNeeded env cr restart (refreshCertIfNeeded env cr restart st).2).1 =
      Outcome.returned none ∧
    (refreshCertIfNeeded env cr restart (refreshCertIfNeeded env cr restart st).2).2.trace =
      (refreshCertIfNeeded env cr restart st).2.trace ++
        [Event.clientGet cr.SecretKey, Event.info "no cert refresh needed"] ∧
    updatesOf
        (refreshCertIfNeeded env cr restart (refreshCertIfNeeded env cr restart st).2).2.trace =
      updatesOf (refreshCertIfNeeded env cr restart st).2.trace ∧
    generatedCount
        (refreshCertIfNeeded env cr restart (refreshCertIfNeeded env cr restart st).2).2.trace =
      generatedCount (refreshCertIfNeeded env cr restart st).2.trace := by
  rcases hrun : refreshCertIfNeeded env cr restart st with ⟨o, s1⟩
  rw [hrun] at h1
  simp only at h1
  subst h1
  have hloop := hrun
  rw [refreshCertIfNeeded_eq] at hloop
  obtain ⟨k, hk, hfail, hdone⟩ := backoffLoop_returned_nil _ 10 st s1 hloop
  obtain ⟨⟨sec, hget, hvalid⟩, htrace⟩ :=
    refreshFn_success env cr restart now hostOK hc hv hCAName hDNSName hs ht _ s1
      (fun sec ca => hiss k sec ca hk) hdone
  have hwk := attemptState_writes env cr restart k st hfail
  obtain ⟨h2a, h2b⟩ := refreshCertIfNeeded_valid env cr restart now ht s1 sec hget hvalid
  have hv := hvalid
  unfold secretValid at hv
  rw [Bool.and_eq_true] at hv
  refine ⟨⟨k, hk, ?_, hwk, ?_⟩, ⟨sec, hget, ?_⟩, h2a, h2b, ?_, ?_⟩
  · rw [attemptState_succ, hdone]
  · rcases htrace with htr | ⟨b, w, hr, hu⟩
    · left
      constructor
      · rw [htr, refreshCalls_append]
        simp [refreshCalls]
      · rw [htr, writesOf_append, hwk]
        simp [writesOf]
    · right
      refine ⟨b, w, hr, ?_⟩
      rw [writesOf_eq_updatesOf, hu, List.filterMap_append, ← writesOf_eq_updatesOf, hwk]
      rfl
  · intro sX
    rw [validCACert_frozen env now ht, validServerCert_frozen env now ht]
    exact hv
  · rw [h2b, updatesOf_append]
    simp [updatesOf]
  · rw [h2b]
    simp [generatedCount, List.countP_append]

/-- A run of the simulation for C4: the store holds a valid CA that may issue and no leaf;
the first call renews the leaf with one write, the second call writes nothing. -/
theorem refresh_twice_writes_once_witness :
    (refreshCertIfNeeded simOK simRotator false (simStart (some caOnlySecret))).1 =
      Outcome.returned none ∧
    (writesOf (refreshCertIfNeeded simOK simRotator false
      (simStart (some caOnlySecret))).2.trace).length = 1 ∧
    (refreshCertIfNeeded simOK simRotator false
      (refreshCertIfNeeded simOK simRotator false (simStart (some caOnlySecret))).2).1 =
      Outcome.returned none ∧
    updatesOf (refreshCertIfNeeded simOK simRotator false
      (refreshCertIfNeeded simOK simRotator false (simStart (some caOnlySecret))).2).2.trace =
      updatesOf (refreshCertIfNeeded simOK simRotator false
        (simStart (some caOnlySecret))).2.trace :=
  have h := refresh_twice_writes_once simOK simRotator false simClock
    (simStart (some caOnlySecret)) (fun _ => True) simOK_contract simOK_verify trivial trivial
    simOK_store simOK_clock
    (by
      intro i sec ca hi hg _ hb
      interval_cases i
      all_goals
        cases hg
        cases hb
        rfl)
    rfl
  ⟨rfl, rfl, h.2.2.1, h.2.2.2.2.1⟩

/-- Counterexample to claim C4. The store holds a secret whose CA entries are a self-signed
certificate without the CA flag and its key, and no leaf.  The certificate passes
`validCACert`, so each call of `refreshCertIfNeeded` renews the leaf alone; the leaf
signed by it fails `validServerCert`, since the issuer may not issue.  Two calls in
succession at the same instant both return nil and both write, and neither secret
written passes the check of `validServerCert`. -/
theorem non_ca_issuer_counterexample :
    (validCACert simOK simRotator (mapIndex selfSignedSecret.Data caCertName)
      (mapIndex selfSignedSecret.Data caKeyName) (simStart (some selfSignedSecret))).1 = true ∧
    (refreshCertIfNeeded simOK simRotator false (simStart (some selfSignedSecret))).1 =
      Outcome.returned none ∧
    (writesOf (refreshCertIfNeeded simOK simRotator false
      (simStart (some selfSignedSecret))).2.trace).length = 1 ∧
    (refreshCertIfNeeded simOK simRotator false
      (refreshCertIfNeeded simOK simRotator false (simStart (some selfSignedSecret))).2).1 =
      Outcome.returned none ∧
    (writesOf (refreshCertIfNeeded simOK simRotator false
      (refreshCertIfNeeded simOK simRotator false
        (simStart (some selfSignedSecret))).2).2.trace).length = 2 ∧
    refreshCalls (refreshCertIfNeeded simOK simRotator false
      (refreshCertIfNeeded simOK simRotator false
        (simStart (some selfSignedSecret))).2).2.trace = [false, false] ∧
    (writesOf (refreshCertIfNeeded simOK simRotator false
      (refreshCertIfNeeded simOK simRotator false
        (simStart (some selfSignedSecret))).2).2.trace).map
        (fun sec => (validCert simOK (mapIndex sec.Data caCertName)
          (mapIndex sec.Data certName) (mapIndex sec.Data keyName) simRotator.DNSName
          (simClock + 90 * 24 * Hour)).1) = [false, false] :=
  ⟨rfl, rfl, rfl, rfl, rfl, rfl, rfl⟩

/-- A run of the simulation for C1: the CA is valid and the leaf entries are missing, so
the leaf alone is renewed. -/
theorem leaf_only_rotation_keeps_ca_witness :
    ∃ (ca : KeyPairArtifacts) (cert key : Bytes),
      buildArtifactsFromSecret simOK caOnlySecret = Except.ok ca ∧
      updatesOf (refreshFn simOK simRotator false (simStart (some caOnlySecret))).2.trace =
        [(populateSecret cert key ca caOnlySecret, none)] ∧
      mapLookup (populateSecret cert key ca caOnlySecret).Data caCertName =
        mapLookup caOnlySecret.Data caCertName ∧
      mapLookup (populateSecret cert key ca caOnlySecret).Data caKeyName =
        mapLookup caOnlySecret.Data caKeyName := by
  obtain ⟨ca, cert, key, st2, hb, -, -, hu, h1, h2, -, -⟩ :=
    leaf_only_rotation_keeps_ca simOK simRotator false (simStart (some caOnlySecret)) _
      caOnlySecret rfl (by rfl) (by rfl) (by decide)
  exact ⟨ca, cert, key, hb, hu, h1, h2⟩

/-- A run of the simulation for C2: a secret without data gets a new CA and a new leaf. -/
theorem full_rotation_writes_four_entries_witness :
    refreshCalls (refreshFn simOK simRotator false (simStart (some emptySecret))).2.trace =
      [true] ∧
    (refreshFn simOK simRotator false (simStart (some emptySecret))).1 =
      CondResult.ret true none :=
  ⟨(full_rotation_writes_four_entries simOK simRotator false (simStart (some emptySecret))
      _ _ _ emptySecret _ _ _ rfl (Or.inl rfl) rfl rfl).1,
    (full_rotation_writes_four_entries simOK simRotator false (simStart (some emptySecret))
      _ _ _ emptySecret _ _ _ rfl (Or.inl rfl) rfl rfl).2.2.2.2.2.2 rfl⟩

/-- A run of the simulation for C3: the stored secret is valid. -/
theorem refreshCertIfNeeded_noop_when_valid_witness :
    (refreshCertIfNeeded simOK simRotator false (simStart (some validSecret))).1 =
      Outcome.returned none ∧
    (refreshCertIfNeeded simOK simRotator false (simStart (some validSecret))).2.trace =
      [Event.clientGet simRotator.SecretKey, Event.info "no cert refresh needed"] :=
  ⟨(refreshCertIfNeeded_noop_when_valid simOK simRotator false (simStart (some validSecret))
      _ validSecret rfl (by rfl) (by rfl)).1,
    (refreshCertIfNeeded_noop_when_valid simOK simRotator false (simStart (some validSecret))
      _ validSecret rfl (by rfl) (by rfl)).2.1⟩

/-! ## Bootstrap -/

/-- Claim C6, as amended. Bootstrap fills a secret that exists and does not create one.
When the first `client.Get` fails, with not-found as with any other error, the call
returns that error, wrapped, after this one read: nothing is generated, created or
written.  When the secret exists with nil `Data`, the CA and the leaf are generated and
one `client.Update` is made with the four PEM entries, and the call returns nil when that
update succeeds (restart flag off). -/
theorem bootstrap_needs_existing_secret {σ : Type} (env : Env σ) (cr : CertRotator)
    (st st1 : St σ) :
    (∀ (restart : Bool) (err : Err),
      clientGet env cr.SecretKey st = (Except.error err, st1) →
      refreshCertIfNeeded env cr restart st =
        (Outcome.returned (some (Err.wrap err "acquiring secret to update certificates")),
          st1) ∧
      st1.trace = st.trace ++ [Event.clientGet cr.SecretKey]) ∧
    (∀ (secret : Secret) (ca : KeyPairArtifacts) (cert key : Bytes) (st2 st3 : St σ),
      clientGet env cr.SecretKey st = (Except.ok secret, st1) →
      secret.Data = none →
      createCACert env cr (emit (Event.refreshCerts true)
        (emit (Event.info "refreshing CA and server certs") st1)) = (Except.ok ca, st2) →
      createCertPEM env cr ca st2 = (Except.ok (cert, key), st3) →
      (clientUpdate env (populateSecret cert key ca secret) st3).1 = none →
      (refreshCertIfNeeded env cr false st).1 = Outcome.returned none ∧
      updatesOf (refreshCertIfNeeded env cr false st).2.trace =
        updatesOf st.trace ++ [(populateSecret cert key ca secret, none)] ∧
      mapLookup (populateSecret cert key ca secret).Data caCertName = some ca.CertPEM ∧
      mapLookup (populateSecret cert key ca secret).Data caKeyName = some ca.KeyPEM ∧
      mapLookup (populateSecret cert key ca secret).Data certName = some cert ∧
      mapLookup (populateSecret cert key ca secret).Data keyName = some key) := by
  constructor
  · intro restart err hget
    refine ⟨?_, clientGet_trace env _ st st1 _ hget⟩
    rw [refreshCertIfNeeded_eq]
    exact backoffLoop_error _ _ _ _ _ _ (refreshFn_get_error env cr restart st st1 err hget)
  · intro secret ca cert key st2 st3 hget hnil hCA hleaf hupd
    have hst : (needsCARefresh env cr secret st1).2 = st1 := by
      simp [needsCARefresh, hnil]
    have hneed := needsCARefresh_of_invalid env cr secret st1 (Or.inl hnil)
    have htr1 := clientGet_trace env _ st st1 _ hget
    rcases hw : clientUpdate env (populateSecret cert key ca secret) st3 with ⟨r, st4⟩
    rw [hw] at hupd
    simp only at hupd
    subst hupd
    obtain ⟨hrc, hu, -⟩ := refreshCerts_calls env cr true secret
      (emit (Event.info "refreshing CA and server certs") st1) st2 st3 st4 ca cert key none
      (by simpa using hCA) hleaf hw
    have hfn := refreshFn_full_ok env cr false st st1 st4 secret hget hneed
      (by rw [hst]; exact hrc)
    simp only [Bool.false_eq_true, if_false] at hfn
    have hrun : refreshCertIfNeeded env cr false st =
        (Outcome.returned none, emit (Event.info "server certs refreshed") st4) := by
      rw [refreshCertIfNeeded_eq]
      exact backoffLoop_done _ 9 _ _ hfn
    refine ⟨by rw [hrun], ?_, mapLookup_populateSecret_caCert _ _ _ _,
      mapLookup_populateSecret_caKey _ _ _ _, mapLookup_populateSecret_cert _ _ _ _,
      mapLookup_populateSecret_key _ _ _ _⟩
    rw [hrun]
    simp only [emit, updatesOf_append, hu, htr1]
    simp [updatesOf]

/-- Runs of the simulation for C6: an absent secret, and a secret without data. -/
theorem bootstrap_needs_existing_secret_witness :
    (refreshCertIfNeeded simOK simRotator false (simStart none)).1 =
      Outcome.returned (some (Err.wrap (Err.notFound "webhook-server-cert")
        "acquiring secret to update certificates")) ∧
    (refreshCertIfNeeded simOK simRotator false (simStart (some emptySecret))).1 =
      Outcome.returned none := by
  constructor
  · rw [((bootstrap_needs_existing_secret simOK simRotator (simStart none) _).1 false
      (Err.notFound "webhook-server-cert") rfl).1]
  · exact ((bootstrap_needs_existing_secret simOK simRotator (simStart (some emptySecret))
      _).2 emptySecret _ _ _ _ _ rfl rfl rfl rfl rfl).1

/-- Counterexample to claim C6. In the simulation the store holds no secret, so `client.Get`
answers not-found.  The bootstrap call returns that error after the one read; the store
still holds no secret and nothing was generated or written. -/
theorem bootstrap_absent_secret_counterexample :
    (refreshCertIfNeeded simOK simRotator false (simStart none)).1 =
      Outcome.returned (some (Err.wrap (Err.notFound "webhook-server-cert")
        "acquiring secret to update certificates")) ∧
    (refreshCertIfNeeded simOK simRotator false (simStart none)).2.trace =
      [Event.clientGet simRotator.SecretKey] ∧
    (refreshCertIfNeeded simOK simRotator false (simStart none)).2.ext.secret = none := by
  refine ⟨by rfl, by rfl, by rfl⟩

/-! ## Parsing and validation, in full -/

theorem buildArtifactsFromSecret_congr {σ : Type} (env : Env σ) (secret secret2 : Secret)
    (h1 : mapLookup secret2.Data caCertName = mapLookup secret.Data caCertName)
    (h2 : mapLookup secret2.Data caKeyName = mapLookup secret.Data caKeyName) :
    buildArtifactsFromSecret env secret2 = buildArtifactsFromSecret env secret := by
  unfold buildArtifactsFromSecret
  rw [h1, h2]

/-- Claim C19. Parsing stored CA artifacts.  `buildArtifactsFromSecret` returns an error,
and so no artifacts, whenever `ca.crt` or `ca.key` is missing from `secret.Data`, either
value does not PEM-decode, the certificate does not parse or the key does not parse as a
PKCS#1 key.  Whenever it succeeds, the returned `CertPEM` and `KeyPEM` are the values
stored under `ca.crt` and `ca.key`, and `Cert` and `Key` are what the library parses from
their PEM blocks.  Its result depends on these two entries only: secrets that agree on
`ca.crt` and `ca.key` get the same result, whatever they hold under `tls.crt`, `tls.key`
or any other key. -/
theorem buildArtifactsFromSecret_spec {σ : Type} (env : Env σ) (secret : Secret) :
    ((mapLookup secret.Data caCertName = none ∨ mapLookup secret.Data caKeyName = none ∨
        (∃ caPem, mapLookup secret.Data caCertName = some caPem ∧
          (env.pem_Decode caPem = none ∨
            ∃ blk e, env.pem_Decode caPem = some blk ∧
              env.x509_ParseCertificate blk.Bytes = Except.error e)) ∨
        (∃ keyPem, mapLookup secret.Data caKeyName = some keyPem ∧
          (env.pem_Decode keyPem = none ∨
            ∃ blk e, env.pem_Decode keyPem = some blk ∧
              env.x509_ParsePKCS1PrivateKey blk.Bytes = Except.error e))) →
      ∃ err, buildArtifactsFromSecret env secret = Except.error err) ∧
    (∀ ca, buildArtifactsFromSecret env secret = Except.ok ca →
      mapLookup secret.Data caCertName = some ca.CertPEM ∧
      mapLookup secret.Data caKeyName = some ca.KeyPEM ∧
      mapIndex secret.Data caCertName = ca.CertPEM ∧
      mapIndex secret.Data caKeyName = ca.KeyPEM ∧
      ∃ caDer keyDer, env.pem_Decode ca.CertPEM = some caDer ∧
        env.x509_ParseCertificate caDer.Bytes = Except.ok ca.Cert ∧
        env.pem_Decode ca.KeyPEM = some keyDer ∧
        env.x509_ParsePKCS1PrivateKey keyDer.Bytes = Except.ok ca.Key) ∧
    (∀ secret2 : Secret,
      mapLookup secret2.Data caCertName = mapLookup secret.Data caCertName →
      mapLookup secret2.Data caKeyName = mapLookup secret.Data caKeyName →
      buildArtifactsFromSecret env secret2 = buildArtifactsFromSecret env secret) := by
  refine ⟨?_, ?_, ?_⟩
  · intro h
    cases hb : buildArtifactsFromSecret env secret with
    | error err => exact ⟨err, rfl⟩
    | ok ca =>
      exfalso
      obtain ⟨hpc, hpk⟩ := buildArtifactsFromSecret_pem env secret ca hb
      obtain ⟨caDer, keyDer, hd1, hp1, hd2, hp2⟩ := buildArtifactsFromSecret_ok env secret ca hb
      rcases h with h | h | ⟨caPem, hl, h⟩ | ⟨keyPem, hl, h⟩
      · rw [hpc] at h; cases h
      · rw [hpk] at h; cases h
      · rw [hpc] at hl
        cases hl
        rcases h with h | ⟨blk, e, hb1, he⟩
        · rw [hd1] at h; cases h
        · rw [hd1] at hb1
          cases hb1
          rw [hp1] at he
          cases he
      · rw [hpk] at hl
        cases hl
        rcases h with h | ⟨blk, e, hb1, he⟩
        · rw [hd2] at h; cases h
        · rw [hd2] at hb1
          cases hb1
          rw [hp2] at he
          cases he
  · intro ca hb
    obtain ⟨hpc, hpk⟩ := buildArtifactsFromSecret_pem env secret ca hb
    exact ⟨hpc, hpk, mapIndex_of_lookup _ _ _ hpc, mapIndex_of_lookup _ _ _ hpk,
      buildArtifactsFromSecret_ok env secret ca hb⟩
  · intro secret2 h1 h2
    exact buildArtifactsFromSecret_congr env secret secret2 h1 h2

/-- Claim C20. Validation is total and conjunctive.  For all inputs `validCert` returns
`(true, nil)` exactly when the three byte strings are non-empty, the CA decodes and
parses, certificate and key load as a pair, the certificate decodes and parses, and it
verifies with the root pool holding only that CA, the given DNS name and the given
instant; in every other case it returns `(false, err)` with an error.  `validCACert` and
`validServerCert` return false whenever `validCert` returns an error. -/
theorem validCert_total_conjunctive {σ : Type} (env : Env σ) (caCert cert key : Bytes)
    (dnsName : String) (atTime : Time) :
    (validCert env caCert cert key dnsName atTime = (true, none) ↔
      caCert ≠ [] ∧ cert ≠ [] ∧ key ≠ [] ∧
      ∃ caDer cac b crt, env.pem_Decode caCert = some caDer ∧
        env.x509_ParseCertificate caDer.Bytes = Except.ok cac ∧
        env.tls_X509KeyPair cert key = Except.ok () ∧
        env.pem_Decode cert = some b ∧
        env.x509_ParseCertificate b.Bytes = Except.ok crt ∧
        env.x509_Verify crt { DNSName := dnsName, Roots := [cac], CurrentTime := atTime }
          = Except.ok ()) ∧
    (validCert env caCert cert key dnsName atTime ≠ (true, none) →
      ∃ err, validCert env caCert cert key dnsName atTime = (false, some err)) ∧
    (∀ (cr : CertRotator) (st : St σ) (valid : Bool) (err : Err),
      validCert env cert cert key cr.CAName (lookaheadTime env st).1 = (valid, some err) →
      (validCACert env cr cert key st).1 = false) ∧
    (∀ (cr : CertRotator) (st : St σ) (valid : Bool) (err : Err),
      validCert env caCert cert key cr.DNSName (lookaheadTime env st).1 = (valid, some err) →
      (validServerCert env cr caCert cert key st).1 = false) := by
  refine ⟨?_, ?_, ?_, ?_⟩
  · rw [← validCert_true_iff]
    constructor
    · intro h; rw [h]
    · intro h
      rcases validCert_result env caCert cert key dnsName atTime with hv | ⟨e, hv⟩
      · exact hv
      · rw [hv] at h; cases h
  · intro h
    rcases validCert_result env caCert cert key dnsName atTime with hv | ⟨e, hv⟩
    · exact absurd hv h
    · exact ⟨e, hv⟩
  · intro cr st valid err h
    unfold validCACert
    dsimp only
    rw [h]
  · intro cr st valid err h
    unfold validServerCert
    dsimp only
    rw [h]

/-! ## Lemmas on JSON maps and paths -/

theorem lookup_filter_ne (m : JSONMap) (k k1 : String) (h : k1 ≠ k) :
    List.lookup k1 (m.filter (fun p => p.1 != k)) = List.lookup k1 m := by
  induction m with
  | nil => rfl
  | cons a m ih =>
    obtain ⟨a1, a2⟩ := a
    by_cases ha : a1 = k
    · subst ha
      have hk : (k1 == a1) = false := by simpa using h
      simp [List.filter, List.lookup, hk, ih]
    · have hne : (a1 != k) = true := by simpa using ha
      simp only [List.filter, hne, List.lookup]
      rw [ih]

theorem objLookup_objSet_self (m : JSONMap) (k : String) (v : Value) :
    objLookup (objSet m k v) k = some v := by
  simp [objLookup, objSet, List.lookup]

theorem objLookup_objSet_ne (m : JSONMap) (k k1 : String) (v : Value) (h : k1 ≠ k) :
    objLookup (objSet m k v) k1 = objLookup m k1 := by
  have hk : (k1 == k) = false := by simpa using h
  simp only [objLookup, objSet, List.lookup, hk]
  exact lookup_filter_ne m k k1 h

theorem at_nil (v : Value) : Value.at v [] = some v := by
  unfold Value.at
  rfl

theorem at_map_key (m : JSONMap) (k : String) (rest : List Seg) :
    Value.at (Value.map m) (Seg.key k :: rest) =
      match objLookup m k with
      | none => none
      | some w => Value.at w rest := by
  rw [Value.at]

theorem at_map_idx (m : JSONMap) (i : Nat) (rest : List Seg) :
    Value.at (Value.map m) (Seg.idx i :: rest) = none := by
  rw [Value.at]
  intro l h
  cases h

theorem at_list_idx (l : List Value) (i : Nat) (rest : List Seg) :
    Value.at (Value.list l) (Seg.idx i :: rest) =
      match l.get? i with
      | none => none
      | some w => Value.at w rest := by
  rw [Value.at]

theorem at_list_key (l : List Value) (k : String) (rest : List Seg) :
    Value.at (Value.list l) (Seg.key k :: rest) = none := by
  rw [Value.at]
  intro m h
  cases h

theorem at_empty_map (seg : Seg) (rest : List Seg) :
    Value.at (Value.map []) (seg :: rest) = none := by
  cases seg with
  | key k => rw [at_map_key]; rfl
  | idx i => exact at_map_idx [] i rest

theorem SetNestedField_single (obj : JSONMap) (value : Value) (field : String) :
    SetNestedField obj value [field] = Except.ok (objSet obj field value) := by
  rw [SetNestedField]

theorem SetNestedField_cons (obj : JSONMap) (value : Value) (field g : String)
    (rest : List String) :
    SetNestedField obj value (field :: g :: rest) =
      match objLookup obj field with
      | some (Value.map sub) =>
        match SetNestedField sub value (g :: rest) with
        | Except.error err => Except.error err
        | Except.ok sub1 => Except.ok (objSet obj field (Value.map sub1))
      | some _ => Except.error (Err.new "value cannot be set because a field is not a map")
      | none =>
        match SetNestedField [] value (g :: rest) with
        | Except.error err => Except.error err
        | Except.ok sub1 => Except.ok (objSet obj field (Value.map sub1)) := by
  rw [SetNestedField]
  intro h
  cases h

/-- The step of `SetNestedField` below its first field: the map it descends into, and the
map it puts back. -/
theorem SetNestedField_cons_ok (obj obj1 : JSONMap) (value : Value) (field g : String)
    (rest : List String)
    (h : SetNestedField obj value (field :: g :: rest) = Except.ok obj1) :
    ∃ sub sub1, (objLookup obj field = some (Value.map sub) ∨
        (objLookup obj field = none ∧ sub = [])) ∧
      SetNestedField sub value (g :: rest) = Except.ok sub1 ∧
      obj1 = objSet obj field (Value.map sub1) := by
  rw [SetNestedField_cons] at h
  cases hl : objLookup obj field with
  | none =>
    rw [hl] at h
    dsimp only at h
    cases hs : SetNestedField [] value (g :: rest) with
    | error e => rw [hs] at h; cases h
    | ok sub1 =>
      rw [hs] at h
      cases h
      exact ⟨[], sub1, Or.inr ⟨rfl, rfl⟩, hs, rfl⟩
  | some w =>
    rw [hl] at h
    cases w with
    | map sub =>
      dsimp only at h
      cases hs : SetNestedField sub value (g :: rest) with
      | error e => rw [hs] at h; cases h
      | ok sub1 =>
        rw [hs] at h
        cases h
        exact ⟨sub, sub1, Or.inl rfl, hs, rfl⟩
    | null => cases h
    | bool b => cases h
    | num n => cases h
    | str t => cases h
    | list l => cases h

/-- After `SetNestedField` the value stands at the path of the fields. -/
theorem SetNestedField_at (fields : List String) :
    ∀ (obj obj1 : JSONMap) (value : Value),
      SetNestedField obj value fields = Except.ok obj1 →
      Value.at (Value.map obj1) (fields.map Seg.key) = some value := by
  induction fields with
  | nil =>
    intro obj obj1 value h
    rw [SetNestedField] at h
    cases h
  | cons field rest ih =>
    intro obj obj1 value h
    cases rest with
    | nil =>
      rw [SetNestedField_single] at h
      cases h
      simp only [List.map]
      rw [at_map_key, objLookup_objSet_self]
      exact at_nil value
    | cons g rest =>
      obtain ⟨sub, sub1, -, hs, ho⟩ := SetNestedField_cons_ok obj obj1 value field g rest h
      subst ho
      rw [List.map, at_map_key, objLookup_objSet_self]
      exact ih sub sub1 value hs

/-- The frame of `SetNestedField`: at every path that is neither an initial part of the
path of the fields nor goes through it, the map reads as before. -/
theorem SetNestedField_frame (fields : List String) :
    ∀ (obj obj1 : JSONMap) (value : Value) (p : List Seg),
      SetNestedField obj value fields = Except.ok obj1 →
      ¬ p <+: fields.map Seg.key → ¬ fields.map Seg.key <+: p →
      Value.at (Value.map obj1) p = Value.at (Value.map obj) p := by
  induction fields with
  | nil =>
    intro obj obj1 value p h
    rw [SetNestedField] at h
    cases h
  | cons field rest ih =>
    intro obj obj1 value p h hp1 hp2
    cases p with
    | nil => exact absurd List.nil_prefix hp1
    | cons seg prest =>
      cases seg with
      | idx i => rw [at_map_idx, at_map_idx]
      | key k =>
        by_cases hk : k = field
        · subst hk
          cases rest with
          | nil =>
            exfalso
            apply hp2
            simp only [List.map]
            exact List.prefix_iff_eq_append.mpr rfl
          | cons g rest =>
            obtain ⟨sub, sub1, hl, hs, ho⟩ :=
              SetNestedField_cons_ok obj obj1 value k g rest h
            subst ho
            have hq1 : ¬ prest <+: (g :: rest).map Seg.key := by
              intro hc
              apply hp1
              simp only [List.map] at hc ⊢
              exact (List.cons_prefix_cons).mpr ⟨rfl, hc⟩
            have hq2 : ¬ (g :: rest).map Seg.key <+: prest := by
              intro hc
              apply hp2
              simp only [List.map] at hc ⊢
              exact (List.cons_prefix_cons).mpr ⟨rfl, hc⟩
            have hih := ih sub sub1 value prest hs hq1 hq2
            rw [at_map_key, at_map_key, objLookup_objSet_self]
            rcases hl with hl | ⟨hl, hsub⟩
            · rw [hl]
              exact hih
            · rw [hl]
              subst hsub
              dsimp only
              rw [hih]
              cases prest with
              | nil => exact absurd List.nil_prefix hq1
              | cons seg2 prest2 => exact at_empty_map seg2 prest2
        · have hset : ∀ w, objLookup (objSet obj field w) k = objLookup obj k :=
            fun w => objLookup_objSet_ne obj field k w hk
          cases rest with
          | nil =>
            rw [SetNestedField_single] at h
            cases h
            rw [at_map_key, at_map_key, hset]
          | cons g rest =>
            obtain ⟨sub, sub1, -, -, ho⟩ := SetNestedField_cons_ok obj obj1 value field g rest h
            subst ho
            rw [at_map_key, at_map_key, hset]

/-- The nested accessor finds a value exactly when it stands at the path of the fields. -/
theorem nestedFrom_found_iff (fields : List String) :
    ∀ (w v : Value), nestedFrom w fields = Nested.found v ↔
      Value.at w (fields.map Seg.key) = some v := by
  induction fields with
  | nil =>
    intro w v
    rw [nestedFrom, List.map, at_nil]
    constructor
    · intro h; cases h; rfl
    · intro h; cases h; rfl
  | cons field rest ih =>
    intro w v
    cases w with
    | map m =>
      rw [nestedFrom, List.map, at_map_key]
      cases hl : objLookup m field with
      | none =>
        dsimp only
        constructor <;> intro h <;> cases h
      | some u => exact ih u v
    | null => simp [nestedFrom, Value.at]
    | bool b => simp [nestedFrom, Value.at]
    | num n => simp [nestedFrom, Value.at]
    | str t => simp [nestedFrom, Value.at]
    | list l => simp [nestedFrom, Value.at]

/-- `SetNestedField` succeeds below a path on which the accessor found a map. -/
theorem SetNestedField_of_found (value : Value) (field : String) (path : List String) :
    ∀ (sub m : JSONMap), nestedFrom (Value.map sub) path = Nested.found (Value.map m) →
      ∃ sub1, SetNestedField sub value (path ++ [field]) = Except.ok sub1 := by
  induction path with
  | nil =>
    intro sub m _
    exact ⟨_, SetNestedField_single sub value field⟩
  | cons g rest ih =>
    intro sub m h
    rw [nestedFrom] at h
    cases hl : objLookup sub g with
    | none => rw [hl] at h; cases h
    | some u =>
      rw [hl] at h
      dsimp only at h
      have hu : ∃ usub, u = Value.map usub := by
        cases rest with
        | nil =>
          rw [nestedFrom] at h
          cases h
          exact ⟨m, rfl⟩
        | cons g2 rest2 =>
          cases u with
          | map usub => exact ⟨usub, rfl⟩
          | null => simp [nestedFrom] at h
          | bool b => simp [nestedFrom] at h
          | num n => simp [nestedFrom] at h
          | str t => simp [nestedFrom] at h
          | list l => simp [nestedFrom] at h
      obtain ⟨usub, hu⟩ := hu
      subst hu
      obtain ⟨usub1, hs⟩ := ih usub m h
      have htail : ∃ g2 r2, rest ++ [field] = g2 :: r2 := by
        cases rest with
        | nil => exact ⟨field, [], rfl⟩
        | cons g2 rest2 => exact ⟨g2, rest2 ++ [field], rfl⟩
      obtain ⟨g2, r2, ht⟩ := htail
      rw [List.cons_append, ht, SetNestedField_cons, hl]
      dsimp only
      rw [← ht, hs]
      exact ⟨_, rfl⟩

/-- `SetNestedField` for the trust bundle of a webhook entry succeeds when `clientConfig`
is absent or a map. -/
theorem SetNestedField_clientConfig (hook : JSONMap) (value : Value)
    (h : objLookup hook "clientConfig" = none ∨
      ∃ cc, objLookup hook "clientConfig" = some (Value.map cc)) :
    ∃ hook1, SetNestedField hook value ["clientConfig", "caBundle"] = Except.ok hook1 := by
  rw [SetNestedField_cons]
  rcases h with h | ⟨cc, h⟩
  · rw [h]
    dsimp only
    rw [SetNestedField_single]
    exact ⟨_, rfl⟩
  · rw [h]
    dsimp only
    rw [SetNestedField_single]
    exact ⟨_, rfl⟩

/-- What a successful `injectHooks` returns: a list of the same length whose entry at each
index is the map entry of the input at that index after `SetNestedField`. -/
theorem injectHooks_ok (caBundle : String) (hooks : List Value) :
    ∀ (i : Nat) (hooks1 : List Value), injectHooks caBundle i hooks = Except.ok hooks1 →
      hooks1.length = hooks.length ∧
      ∀ (j : Nat) (h : Value), hooks.get? j = some h →
        ∃ m m1, h = Value.map m ∧
          SetNestedField m (Value.str caBundle) ["clientConfig", "caBundle"] = Except.ok m1 ∧
          hooks1.get? j = some (Value.map m1) := by
  induction hooks with
  | nil =>
    intro i hooks1 h
    rw [injectHooks] at h
    cases h
    exact ⟨rfl, fun j h hj => by simp at hj⟩
  | cons h0 rest ih =>
    intro i hooks1 h
    cases h0 with
    | map hook =>
      rw [injectHooks] at h
      cases hs : SetNestedField hook (Value.str caBundle) ["clientConfig", "caBundle"] with
      | error e => rw [hs] at h; cases h
      | ok hook1 =>
        rw [hs] at h
        dsimp only at h
        cases hr : injectHooks caBundle (i + 1) rest with
        | error e => rw [hr] at h; cases h
        | ok rest1 =>
          rw [hr] at h
          cases h
          obtain ⟨hlen, hall⟩ := ih (i + 1) rest1 hr
          refine ⟨by simp [hlen], ?_⟩
          intro j h hj
          cases j with
          | zero =>
            simp only [List.get?] at hj
            cases hj
            exact ⟨hook, hook1, rfl, hs, rfl⟩
          | succ j =>
            simp only [List.get?] at hj ⊢
            exact hall j h hj
    | null => simp [injectHooks] at h
    | bool b => simp [injectHooks] at h
    | num n => simp [injectHooks] at h
    | str t => simp [injectHooks] at h
    | list l => simp [injectHooks] at h

/-- `injectHooks` succeeds on a list of map entries whose `clientConfig` is absent or a
map. -/
theorem injectHooks_succeeds (caBundle : String) (hooks : List Value) :
    ∀ (i : Nat),
      (∀ h, h ∈ hooks → ∃ m, h = Value.map m ∧ (objLookup m "clientConfig" = none ∨
        ∃ cc, objLookup m "clientConfig" = some (Value.map cc))) →
      ∃ hooks1, injectHooks caBundle i hooks = Except.ok hooks1 := by
  induction hooks with
  | nil => intro i _; exact ⟨[], by rw [injectHooks]⟩
  | cons h0 rest ih =>
    intro i hall
    obtain ⟨m, hm, hcc⟩ := hall h0 (List.mem_cons_self h0 rest)
    obtain ⟨hook1, hs⟩ := SetNestedField_clientConfig m (Value.str caBundle) hcc
    obtain ⟨rest1, hr⟩ := ih (i + 1) (fun h hh => hall h (List.mem_cons_of_mem h0 hh))
    subst hm
    rw [injectHooks]
    rw [hs]
    dsimp only
    rw [hr]
    exact ⟨_, rfl⟩

theorem NestedSlice_webhooks (obj : JSONMap) :
    NestedSlice obj ["webhooks"] =
      match objLookup obj "webhooks" with
      | none => Nested.missing
      | some (Value.list l) => Nested.found l
      | some _ => Nested.failed (Err.new "accessor error: value is not a list") := by
  unfold NestedSlice NestedFieldNoCopy
  rw [nestedFrom]
  cases hl : objLookup obj "webhooks" with
  | none => rfl
  | some w =>
    dsimp only
    rw [nestedFrom]
    cases w <;> rfl

/-- A successful `injectCertToWebhook` has read a list under `webhooks`, patched it with
`injectHooks` and put it back. -/
theorem injectCertToWebhook_ok (encode : Bytes → String) (wh wh1 : Unstructured)
    (certPem : Bytes) (h : injectCertToWebhook encode wh certPem = (none, wh1)) :
    ∃ hooks hooks1, objLookup wh.Object "webhooks" = some (Value.list hooks) ∧
      injectHooks (encode certPem) 0 hooks = Except.ok hooks1 ∧
      wh1.Object = objSet wh.Object "webhooks" (Value.list hooks1) := by
  unfold injectCertToWebhook at h
  rw [NestedSlice_webhooks] at h
  cases hl : objLookup wh.Object "webhooks" with
  | none => rw [hl] at h; cases h
  | some w =>
    rw [hl] at h
    cases w with
    | list hooks =>
      dsimp only at h
      cases hi : injectHooks (encode certPem) 0 hooks with
      | error e => rw [hi] at h; cases h
      | ok hooks1 =>
        rw [hi] at h
        dsimp only [SetNestedSlice] at h
        rw [SetNestedField_single] at h
        cases h
        exact ⟨hooks, hooks1, rfl, hi, rfl⟩
    | null => cases h
    | bool b => cases h
    | num n => cases h
    | str t => cases h
    | map m => cases h

theorem injectCertToConversionWebhook_ok (encode : Bytes → String) (crd crd1 : Unstructured)
    (certPem : Bytes) (h : injectCertToConversionWebhook encode crd certPem = (none, crd1)) :
    SetNestedField crd.Object (Value.str (encode certPem))
      ["spec", "conversion", "webhookClientConfig", "caBundle"] = Except.ok crd1.Object := by
  unfold injectCertToConversionWebhook at h
  cases hn : NestedMap crd.Object ["spec", "conversion", "webhookClientConfig"] with
  | failed e => rw [hn] at h; cases h
  | missing => rw [hn] at h; cases h
  | found m =>
    rw [hn] at h
    dsimp only at h
    cases hs : SetNestedField crd.Object (Value.str (encode certPem))
        ["spec", "conversion", "webhookClientConfig", "caBundle"] with
    | error e => rw [hs] at h; cases h
    | ok obj =>
      rw [hs] at h
      cases h
      rfl

/-- Claim C18. CRD conversion injection: when `spec.conversion.webhookClientConfig` is absent
or is not a map, `injectCertToConversionWebhook` returns an error and the object is as it
was; when a map stands there, the call succeeds, the one field
`spec.conversion.webhookClientConfig.caBundle` of the result holds the base64 encoding of
`certPem`, and the result agrees with the input at every path that neither leads to that
field nor lies below it. -/
theorem injectCertToConversionWebhook_spec (encode : Bytes → String) (crd : Unstructured)
    (certPem : Bytes) :
    ((∀ m, Value.at (Value.map crd.Object)
        [Seg.key "spec", Seg.key "conversion", Seg.key "webhookClientConfig"] ≠
          some (Value.map m)) →
      ∃ err, injectCertToConversionWebhook encode crd certPem = (some err, crd)) ∧
    (∀ m, Value.at (Value.map crd.Object)
        [Seg.key "spec", Seg.key "conversion", Seg.key "webhookClientConfig"] =
          some (Value.map m) →
      ∃ crd1, injectCertToConversionWebhook encode crd certPem = (none, crd1) ∧
        Value.at (Value.map crd1.Object)
          [Seg.key "spec", Seg.key "conversion", Seg.key "webhookClientConfig",
            Seg.key "caBundle"] = some (Value.str (encode certPem)) ∧
        ∀ p : List Seg,
          ¬ p <+: [Seg.key "spec", Seg.key "conversion", Seg.key "webhookClientConfig",
            Seg.key "caBundle"] →
          ¬ [Seg.key "spec", Seg.key "conversion", Seg.key "webhookClientConfig",
            Seg.key "caBundle"] <+: p →
          Value.at (Value.map crd1.Object) p = Value.at (Value.map crd.Object) p) := by
  constructor
  · intro hno
    unfold injectCertToConversionWebhook NestedMap NestedFieldNoCopy
    cases hn : nestedFrom (Value.map crd.Object) ["spec", "conversion", "webhookClientConfig"] with
    | failed e => exact ⟨_, rfl⟩
    | missing => exact ⟨_, rfl⟩
    | found v =>
      cases v with
      | map m =>
        exact absurd ((nestedFrom_found_iff ["spec", "conversion", "webhookClientConfig"]
          (Value.map crd.Object) (Value.map m)).1 hn) (hno m)
      | null => exact ⟨_, rfl⟩
      | bool b => exact ⟨_, rfl⟩
      | num n => exact ⟨_, rfl⟩
      | str t => exact ⟨_, rfl⟩
      | list l => exact ⟨_, rfl⟩
  · intro m hm
    have hn : nestedFrom (Value.map crd.Object) ["spec", "conversion", "webhookClientConfig"] =
        Nested.found (Value.map m) :=
      (nestedFrom_found_iff ["spec", "conversion", "webhookClientConfig"]
        (Value.map crd.Object) (Value.map m)).2 hm
    obtain ⟨obj1, hs⟩ := SetNestedField_of_found (Value.str (encode certPem)) "caBundle"
      ["spec", "conversion", "webhookClientConfig"] crd.Object m hn
    have hs1 : SetNestedField crd.Object (Value.str (encode certPem))
        ["spec", "conversion", "webhookClientConfig", "caBundle"] = Except.ok obj1 := hs
    refine ⟨{ Object := obj1 }, ?_, ?_, ?_⟩
    · unfold injectCertToConversionWebhook NestedMap NestedFieldNoCopy
      rw [hn]
      dsimp only
      rw [hs1]
    · exact SetNestedField_at ["spec", "conversion", "webhookClientConfig", "caBundle"]
        crd.Object obj1 _ hs1
    · intro p hp1 hp2
      exact SetNestedField_frame ["spec", "conversion", "webhookClientConfig", "caBundle"]
        crd.Object obj1 _ p hs1 hp1 hp2

/-- Witness for C18 on a CRD with a conversion webhook. -/
theorem injectCertToConversionWebhook_spec_witness :
    ∃ crd1, injectCertToConversionWebhook simEncode sampleCRD [65, 66] = (none, crd1) ∧
      Value.at (Value.map crd1.Object)
        [Seg.key "spec", Seg.key "conversion", Seg.key "webhookClientConfig",
          Seg.key "caBundle"] = some (Value.str (simEncode [65, 66])) ∧
      ∀ p : List Seg,
        ¬ p <+: [Seg.key "spec", Seg.key "conversion", Seg.key "webhookClientConfig",
          Seg.key "caBundle"] →
        ¬ [Seg.key "spec", Seg.key "conversion", Seg.key "webhookClientConfig",
          Seg.key "caBundle"] <+: p →
        Value.at (Value.map crd1.Object) p = Value.at (Value.map sampleCRD.Object) p :=
  (injectCertToConversionWebhook_spec simEncode sampleCRD [65, 66]).2
    [("service", Value.map [("name", Value.str "svc")])] rfl

/-- Claim C16. Every webhook entry gets the CA: on a webhook configuration whose `webhooks`
field is a list of map entries, each with `clientConfig` absent or a map,
`injectCertToWebhook` succeeds; the `webhooks` list of the result has the same length, its
entry at every index `i` holds the base64 encoding of `certPem` at
`clientConfig.caBundle`, and agrees with the entry `i` of the input at every other key
(same order). -/
theorem injectCertToWebhook_all_entries (encode : Bytes → String) (wh : Unstructured)
    (certPem : Bytes) (hooks : List Value)
    (hlist : objLookup wh.Object "webhooks" = some (Value.list hooks))
    (hentries : ∀ h, h ∈ hooks → ∃ m, h = Value.map m ∧
      (objLookup m "clientConfig" = none ∨
        ∃ cc, objLookup m "clientConfig" = some (Value.map cc))) :
    ∃ wh1 hooks1, injectCertToWebhook encode wh certPem = (none, wh1) ∧
      objLookup wh1.Object "webhooks" = some (Value.list hooks1) ∧
      hooks1.length = hooks.length ∧
      ∀ i, i < hooks.length →
        Value.at (Value.map wh1.Object)
          [Seg.key "webhooks", Seg.idx i, Seg.key "clientConfig", Seg.key "caBundle"] =
            some (Value.str (encode certPem)) ∧
        ∀ k, k ≠ "clientConfig" →
          Value.at (Value.map wh1.Object) [Seg.key "webhooks", Seg.idx i, Seg.key k] =
            Value.at (Value.map wh.Object) [Seg.key "webhooks", Seg.idx i, Seg.key k] := by
  obtain ⟨hooks1, hi⟩ := injectHooks_succeeds (encode certPem) hooks 0 hentries
  obtain ⟨hlen, hall⟩ := injectHooks_ok (encode certPem) hooks 0 hooks1 hi
  refine ⟨{ Object := objSet wh.Object "webhooks" (Value.list hooks1) }, hooks1, ?_,
    objLookup_objSet_self _ _ _, hlen, ?_⟩
  · unfold injectCertToWebhook
    rw [NestedSlice_webhooks, hlist]
    dsimp only
    rw [hi]
    dsimp only [SetNestedSlice]
    rw [SetNestedField_single]
  · intro i hlt
    have hget : hooks.get? i = some (hooks.get ⟨i, hlt⟩) := List.get?_eq_get hlt
    obtain ⟨m, m1, hm, hs, hget1⟩ := hall i _ hget
    constructor
    · rw [at_map_key, objLookup_objSet_self]
      dsimp only
      rw [at_list_idx, hget1]
      exact SetNestedField_at ["clientConfig", "caBundle"] m m1 _ hs
    · intro k hk
      rw [at_map_key, objLookup_objSet_self, at_map_key, hlist]
      dsimp only
      rw [at_list_idx, hget1, at_list_idx, hget, hm]
      dsimp only
      refine SetNestedField_frame ["clientConfig", "caBundle"] m m1 _ [Seg.key k] hs ?_ ?_
      · intro hpre
        have h1 := (List.cons_prefix_cons.1 hpre).1
        exact hk (Seg.key.inj h1)
      · intro hpre
        have h2 := (List.cons_prefix_cons.1 hpre).2
        simp at h2

/-- Witness for C16 on a validating webhook configuration with two entries. -/
theorem injectCertToWebhook_all_entries_witness :
    ∃ wh1 hooks1, injectCertToWebhook simEncode sampleVWC [65, 66] = (none, wh1) ∧
      objLookup wh1.Object "webhooks" = some (Value.list hooks1) ∧
      hooks1.length = 2 ∧
      ∀ i, i < 2 →
        Value.at (Value.map wh1.Object)
          [Seg.key "webhooks", Seg.idx i, Seg.key "clientConfig", Seg.key "caBundle"] =
            some (Value.str (simEncode [65, 66])) ∧
        ∀ k, k ≠ "clientConfig" →
          Value.at (Value.map wh1.Object) [Seg.key "webhooks", Seg.idx i, Seg.key k] =
            Value.at (Value.map sampleVWC.Object) [Seg.key "webhooks", Seg.idx i, Seg.key k] :=
  injectCertToWebhook_all_entries simEncode sampleVWC [65, 66]
    [Value.map [("name", Value.str "a.example"),
        ("clientConfig", Value.map [("url", Value.str "https://a"),
          ("caBundle", Value.str "old")]),
        ("failurePolicy", Value.str "Fail")],
      Value.map [("name", Value.str "b.example"), ("timeoutSeconds", Value.num 5)]]
    rfl
    (by
      intro h hh
      simp only [List.mem_cons, List.mem_singleton, List.not_mem_nil, or_false] at hh
      rcases hh with hh | hh
      · exact ⟨_, hh, Or.inr ⟨_, rfl⟩⟩
      · exact ⟨_, hh, Or.inl rfl⟩)

/-- Claim C17. Injection is a structural patch: when `injectCert` succeeds, the resulting
object agrees with the input at every path that neither leads to a trust bundle path
(`webhooks[i].clientConfig.caBundle` for the admission kinds,
`spec.conversion.webhookClientConfig.caBundle` for the conversion kind) nor lies below
one; for the admission kinds the `webhooks` list keeps its length. -/
theorem injectCert_structural_patch (encode : Bytes → String) (obj obj1 : Unstructured)
    (certPem : Bytes) (webhookType : WebhookType)
    (h : injectCert encode obj certPem webhookType = (none, obj1)) :
    (∀ p : List Seg, (∀ q, caBundlePath webhookType q → ¬ p <+: q ∧ ¬ q <+: p) →
      Value.at (Value.map obj1.Object) p = Value.at (Value.map obj.Object) p) ∧
    (webhookType ≠ WebhookType.CRDConversion →
      ∃ hooks hooks1, objLookup obj.Object "webhooks" = some (Value.list hooks) ∧
        objLookup obj1.Object "webhooks" = some (Value.list hooks1) ∧
        hooks1.length = hooks.length) := by
  have hadm : injectCertToWebhook encode obj certPem = (none, obj1) →
      (∀ p : List Seg, (∀ q, (∃ i, q = [Seg.key "webhooks", Seg.idx i, Seg.key "clientConfig",
          Seg.key "caBundle"]) → ¬ p <+: q ∧ ¬ q <+: p) →
        Value.at (Value.map obj1.Object) p = Value.at (Value.map obj.Object) p) ∧
      ∃ hooks hooks1, objLookup obj.Object "webhooks" = some (Value.list hooks) ∧
        objLookup obj1.Object "webhooks" = some (Value.list hooks1) ∧
        hooks1.length = hooks.length := by
    intro hw
    obtain ⟨hooks, hooks1, hlist, hi, hobj⟩ := injectCertToWebhook_ok encode obj obj1 certPem hw
    obtain ⟨hlen, hall⟩ := injectHooks_ok (encode certPem) hooks 0 hooks1 hi
    refine ⟨?_, hooks, hooks1, hlist, by rw [hobj]; exact objLookup_objSet_self _ _ _, hlen⟩
    intro p hp
    rw [hobj]
    cases p with
    | nil => exact absurd (List.nil_prefix) (hp _ ⟨0, rfl⟩).1
    | cons s rest =>
      cases s with
      | idx j => rw [at_map_idx, at_map_idx]
      | key k =>
        by_cases hk : k = "webhooks"
        · subst hk
          rw [at_map_key, objLookup_objSet_self, at_map_key, hlist]
          dsimp only
          cases rest with
          | nil =>
            exact absurd (List.cons_prefix_cons.2 ⟨rfl, List.nil_prefix⟩) (hp _ ⟨0, rfl⟩).1
          | cons s2 rest2 =>
            cases s2 with
            | key k2 => rw [at_list_key, at_list_key]
            | idx j =>
              obtain ⟨hp1, hp2⟩ := hp _ ⟨j, rfl⟩
              rw [at_list_idx, at_list_idx]
              cases hget : hooks.get? j with
              | none =>
                have hlt : hooks.length ≤ j := List.get?_eq_none.1 hget
                have hget1 : hooks1.get? j = none := List.get?_eq_none.2 (by omega)
                rw [hget1]
              | some hk =>
                obtain ⟨m, m1, hm, hs, hget1⟩ := hall j hk hget
                rw [hget1, hm]
                dsimp only
                refine SetNestedField_frame ["clientConfig", "caBundle"] m m1 _ rest2 hs ?_ ?_
                · intro hpre
                  exact hp1 (List.cons_prefix_cons.2 ⟨rfl, List.cons_prefix_cons.2 ⟨rfl, hpre⟩⟩)
                · intro hpre
                  exact hp2 (List.cons_prefix_cons.2 ⟨rfl, List.cons_prefix_cons.2 ⟨rfl, hpre⟩⟩)
        · rw [at_map_key, objLookup_objSet_ne _ _ _ _ hk, at_map_key]
  cases webhookType with
  | Validating =>
    obtain ⟨h1, h2⟩ := hadm h
    exact ⟨fun p hp => h1 p hp, fun _ => h2⟩
  | Mutating =>
    obtain ⟨h1, h2⟩ := hadm h
    exact ⟨fun p hp => h1 p hp, fun _ => h2⟩
  | CRDConversion =>
    have hs := injectCertToConversionWebhook_ok encode obj obj1 certPem h
    refine ⟨?_, fun hne => absurd rfl hne⟩
    intro p hp
    obtain ⟨hp1, hp2⟩ := hp _ rfl
    exact SetNestedField_frame ["spec", "conversion", "webhookClientConfig", "caBundle"]
      obj.Object obj1.Object _ p hs hp1 hp2

/-- Witness for C17 on a validating webhook configuration with two entries: the other
fields of the first entry and of its `clientConfig` are as before. -/
theorem injectCert_structural_patch_witness :
    injectCert simEncode sampleVWC [65, 66] WebhookType.Validating =
        (none, (injectCert simEncode sampleVWC [65, 66] WebhookType.Validating).2) ∧
      Value.at (Value.map (injectCert simEncode sampleVWC [65, 66]
          WebhookType.Validating).2.Object)
        [Seg.key "webhooks", Seg.idx 0, Seg.key "clientConfig", Seg.key "url"] =
        Value.at (Value.map sampleVWC.Object)
          [Seg.key "webhooks", Seg.idx 0, Seg.key "clientConfig", Seg.key "url"] :=
  ⟨rfl, (injectCert_structural_patch simEncode sampleVWC
      (injectCert simEncode sampleVWC [65, 66] WebhookType.Validating).2 [65, 66]
      WebhookType.Validating rfl).1
    [Seg.key "webhooks", Seg.idx 0, Seg.key "clientConfig", Seg.key "url"]
    (by
      rintro q ⟨i, rfl⟩
      constructor
      · intro hpre
        have h1 := (List.cons_prefix_cons.1 hpre).2
        have h2 := (List.cons_prefix_cons.1 h1).2
        have h3 := (List.cons_prefix_cons.1 h2).2
        have h4 := (List.cons_prefix_cons.1 h3).1
        simp at h4
      · intro hpre
        have h1 := (List.cons_prefix_cons.1 hpre).2
        have h2 := (List.cons_prefix_cons.1 h1).2
        have h3 := (List.cons_prefix_cons.1 h2).2
        have h4 := (List.cons_prefix_cons.1 h3).1
        simp at h4)⟩

/-! ## Lemmas on the reconciler -/

/-- The state of the reconciler after the `client.Get` of a webhook. -/
theorem whGet_eq {σ : Type} (wenv : WHEnv σ) (gvk : GroupVersionKind) (key : NamespacedName)
    (st : RSt σ) :
    whGet wenv gvk key st =
      ((wenv.client_Get gvk key st.ext).1,
        { st with ext := (wenv.client_Get gvk key st.ext).2,
                  trace := st.trace ++ [WHEvent.get gvk key] }) := rfl

theorem ensureCertsStep_notFound {σ : Type} (wenv : WHEnv σ) (certPem : Bytes)
    (webhook : WebhookInfo) (st : RSt σ) (err : Err)
    (hg : (wenv.client_Get webhook.gvk { Namespace := "", Name := webhook.Name } st.ext).1 =
      Except.error err)
    (hnf : err.IsNotFound = true) :
    ensureCertsStep wenv certPem webhook st =
      (none, remit (WHEvent.error err "Webhook not found. Unable to update certificate.")
        (whGet wenv webhook.gvk { Namespace := "", Name := webhook.Name } st).2) := by
  unfold ensureCertsStep
  rw [whGet_eq]
  simp only [hg, hnf, if_true]

theorem ensureCertsStep_getError {σ : Type} (wenv : WHEnv σ) (certPem : Bytes)
    (webhook : WebhookInfo) (st : RSt σ) (err : Err)
    (hg : (wenv.client_Get webhook.gvk { Namespace := "", Name := webhook.Name } st.ext).1 =
      Except.error err)
    (hnf : err.IsNotFound = false) :
    ensureCertsStep wenv certPem webhook st =
      (some err, remit (WHEvent.error err "Error getting webhook for certificate update.")
        (whGet wenv webhook.gvk { Namespace := "", Name := webhook.Name } st).2) := by
  unfold ensureCertsStep
  rw [whGet_eq]
  simp [hg, hnf]

theorem ensureCertsStep_deleting {σ : Type} (wenv : WHEnv σ) (certPem : Bytes)
    (webhook : WebhookInfo) (st : RSt σ) (obj : Unstructured)
    (hg : (wenv.client_Get webhook.gvk { Namespace := "", Name := webhook.Name } st.ext).1 =
      Except.ok obj)
    (hz : IsZero (wenv.GetDeletionTimestamp obj) = false) :
    ensureCertsStep wenv certPem webhook st =
      (none, remit (WHEvent.info "Webhook is being deleted. Unable to update certificate")
        (whGet wenv webhook.gvk { Namespace := "", Name := webhook.Name } st).2) := by
  unfold ensureCertsStep
  rw [whGet_eq]
  simp [hg, hz]

theorem ensureCertsStep_injectError {σ : Type} (wenv : WHEnv σ) (certPem : Bytes)
    (webhook : WebhookInfo) (st : RSt σ) (obj obj1 : Unstructured) (err : Err)
    (hg : (wenv.client_Get webhook.gvk { Namespace := "", Name := webhook.Name } st.ext).1 =
      Except.ok obj)
    (hz : IsZero (wenv.GetDeletionTimestamp obj) = true)
    (hi : injectCert wenv.base64_EncodeToString obj certPem webhook.Typ = (some err, obj1)) :
    ensureCertsStep wenv certPem webhook st =
      (some err, remit (WHEvent.error err "Unable to inject cert to webhook.")
        (remit (WHEvent.info "Ensuring CA cert")
          (whGet wenv webhook.gvk { Namespace := "", Name := webhook.Name } st).2)) := by
  unfold ensureCertsStep
  rw [whGet_eq]
  simp [hg, hz, hi]

theorem ensureCertsStep_update {σ : Type} (wenv : WHEnv σ) (certPem : Bytes)
    (webhook : WebhookInfo) (st : RSt σ) (obj obj1 : Unstructured)
    (hg : (wenv.client_Get webhook.gvk { Namespace := "", Name := webhook.Name } st.ext).1 =
      Except.ok obj)
    (hz : IsZero (wenv.GetDeletionTimestamp obj) = true)
    (hi : injectCert wenv.base64_EncodeToString obj certPem webhook.Typ = (none, obj1)) :
    ensureCertsStep wenv certPem webhook st =
      match whUpdate wenv obj1 (remit (WHEvent.info "Ensuring CA cert")
          (whGet wenv webhook.gvk { Namespace := "", Name := webhook.Name } st).2) with
      | (some err, st2) =>
        (some err, remit (WHEvent.error err "Error updating webhook with certificate") st2)
      | (none, st2) => (none, st2) := by
  unfold ensureCertsStep
  rw [whGet_eq]
  simp [hg, hz, hi]

theorem whUpdate_eq {σ : Type} (wenv : WHEnv σ) (obj : Unstructured) (st : RSt σ) :
    whUpdate wenv obj st =
      ((wenv.client_Update obj st.ext).1,
        { st with ext := (wenv.client_Update obj st.ext).2,
                  trace := st.trace ++ [WHEvent.update obj (wenv.client_Update obj st.ext).1] }) :=
  rfl

theorem whGets_append (a b : List WHEvent) : whGets (a ++ b) = whGets a ++ whGets b := by
  simp [whGets, List.filterMap_append]

theorem whUpdates_append (a b : List WHEvent) :
    whUpdates (a ++ b) = whUpdates a ++ whUpdates b := by
  simp [whUpdates, List.filterMap_append]

theorem whStores_append (a b : List WHEvent) : whStores (a ++ b) = whStores a ++ whStores b := by
  simp [whStores, List.filterMap_append]

/-- What a turn of the loop of `ensureCerts` does in every case: one `client.Get`, the
external state after it is the one after the Get or after the one Update, no store into
the flag. -/
theorem ensureCertsStep_facts {σ : Type} (wenv : WHEnv σ) (certPem : Bytes)
    (webhook : WebhookInfo) (st : RSt σ) :
    whGets (ensureCertsStep wenv certPem webhook st).2.trace =
        whGets st.trace ++ [webhookKey webhook] ∧
      whStores (ensureCertsStep wenv certPem webhook st).2.trace = whStores st.trace ∧
      (ensureCertsStep wenv certPem webhook st).2.wasCAInjected = st.wasCAInjected ∧
      whUpdates st.trace <+: whUpdates (ensureCertsStep wenv certPem webhook st).2.trace := by
  cases hg : (wenv.client_Get webhook.gvk { Namespace := "", Name := webhook.Name } st.ext).1 with
  | error err =>
    cases hnf : err.IsNotFound with
    | true =>
      rw [ensureCertsStep_notFound wenv certPem webhook st err hg hnf, whGet_eq]
      simp [remit, whGets_append, whStores_append, whUpdates_append, whGets, whStores,
        whUpdates, webhookKey]
    | false =>
      rw [ensureCertsStep_getError wenv certPem webhook st err hg hnf, whGet_eq]
      simp [remit, whGets_append, whStores_append, whUpdates_append, whGets, whStores,
        whUpdates, webhookKey]
  | ok obj =>
    cases hz : IsZero (wenv.GetDeletionTimestamp obj) with
    | false =>
      rw [ensureCertsStep_deleting wenv certPem webhook st obj hg hz, whGet_eq]
      simp [remit, whGets_append, whStores_append, whUpdates_append, whGets, whStores,
        whUpdates, webhookKey]
    | true =>
      rcases hi : injectCert wenv.base64_EncodeToString obj certPem webhook.Typ with ⟨oe, obj1⟩
      cases oe with
      | some err =>
        rw [ensureCertsStep_injectError wenv certPem webhook st obj obj1 err hg hz hi, whGet_eq]
        simp [remit, whGets_append, whStores_append, whUpdates_append, whGets, whStores,
          whUpdates, webhookKey]
      | none =>
        rw [ensureCertsStep_update wenv certPem webhook st obj obj1 hg hz hi, whGet_eq,
          whUpdate_eq]
        cases hu : (wenv.client_Update obj1 (remit (WHEvent.info "Ensuring CA cert")
            { st with
              ext := (wenv.client_Get webhook.gvk
                { Namespace := "", Name := webhook.Name } st.ext).2,
              trace := st.trace ++
                [WHEvent.get webhook.gvk { Namespace := "", Name := webhook.Name }] }).ext).1 with
        | none =>
          simp [remit, whGets_append, whStores_append, whUpdates_append, whGets, whStores,
            whUpdates, webhookKey]
        | some err =>
          simp [remit, whGets_append, whStores_append, whUpdates_append, whGets, whStores,
            whUpdates, webhookKey]

/-- The turn of a webhook that is read, is not being deleted and takes the injection: one
`client.Update` with the injected object, whose result is the result of the turn. -/
theorem ensureCertsStep_updated {σ : Type} (wenv : WHEnv σ) (certPem : Bytes)
    (webhook : WebhookInfo) (st : RSt σ) (obj obj1 : Unstructured)
    (hg : (wenv.client_Get webhook.gvk { Namespace := "", Name := webhook.Name } st.ext).1 =
      Except.ok obj)
    (hz : IsZero (wenv.GetDeletionTimestamp obj) = true)
    (hi : injectCert wenv.base64_EncodeToString obj certPem webhook.Typ = (none, obj1)) :
    (ensureCertsStep wenv certPem webhook st).1 =
        (wenv.client_Update obj1
          (wenv.client_Get webhook.gvk { Namespace := "", Name := webhook.Name } st.ext).2).1 ∧
      whUpdates (ensureCertsStep wenv certPem webhook st).2.trace =
        whUpdates st.trace ++ [(obj1, (wenv.client_Update obj1
          (wenv.client_Get webhook.gvk
            { Namespace := "", Name := webhook.Name } st.ext).2).1)] := by
  rw [ensureCertsStep_update wenv certPem webhook st obj obj1 hg hz hi, whGet_eq, whUpdate_eq]
  cases hu : (wenv.client_Update obj1
      (wenv.client_Get webhook.gvk { Namespace := "", Name := webhook.Name } st.ext).2).1 with
  | none => simp [remit, hu, whUpdates_append, whUpdates]
  | some err => simp [remit, hu, whUpdates_append, whUpdates]

/-- The error a turn of the loop assigns to `anyError` is the error with which the webhook
fails. -/
theorem ensureCertsStep_fst_iff {σ : Type} (wenv : WHEnv σ) (certPem : Bytes)
    (webhook : WebhookInfo) (st : RSt σ) (e : Err) :
    (ensureCertsStep wenv certPem webhook st).1 = some e ↔
      failsWith wenv certPem webhook st.ext e := by
  unfold failsWith
  cases hg : (wenv.client_Get webhook.gvk { Namespace := "", Name := webhook.Name } st.ext).1 with
  | error err =>
    cases hnf : err.IsNotFound with
    | true =>
      rw [ensureCertsStep_notFound wenv certPem webhook st err hg hnf]
      constructor
      · intro h; cases h
      · intro h
        rcases h with ⟨h1, h2⟩ | ⟨obj, obj1, h1, _⟩ | ⟨obj, obj1, h1, _⟩
        · cases h1
          rw [hnf] at h2
          cases h2
        · cases h1
        · cases h1
    | false =>
      rw [ensureCertsStep_getError wenv certPem webhook st err hg hnf]
      constructor
      · intro h
        cases h
        exact Or.inl ⟨rfl, hnf⟩
      · intro h
        rcases h with ⟨h1, _⟩ | ⟨obj, obj1, h1, _⟩ | ⟨obj, obj1, h1, _⟩
        · cases h1
          rfl
        · cases h1
        · cases h1
  | ok obj =>
    cases hz : IsZero (wenv.GetDeletionTimestamp obj) with
    | false =>
      rw [ensureCertsStep_deleting wenv certPem webhook st obj hg hz]
      constructor
      · intro h; cases h
      · intro h
        rcases h with ⟨h1, _⟩ | ⟨obj2, obj1, h1, h2, _⟩ | ⟨obj2, obj1, h1, h2, _⟩
        · cases h1
        · cases h1
          rw [hz] at h2
          cases h2
        · cases h1
          rw [hz] at h2
          cases h2
    | true =>
      rcases hi : injectCert wenv.base64_EncodeToString obj certPem webhook.Typ with ⟨oe, obj1⟩
      cases oe with
      | some err =>
        rw [ensureCertsStep_injectError wenv certPem webhook st obj obj1 err hg hz hi]
        constructor
        · intro h
          cases h
          exact Or.inr (Or.inl ⟨obj, obj1, rfl, hz, hi⟩)
        · intro h
          rcases h with ⟨h1, _⟩ | ⟨obj2, obj3, h1, _, h3⟩ | ⟨obj2, obj3, h1, _, h3, _⟩
          · cases h1
          · cases h1
            rw [hi] at h3
            cases h3
            rfl
          · cases h1
            rw [hi] at h3
            cases h3
      | none =>
        rw [(ensureCertsStep_updated wenv certPem webhook st obj obj1 hg hz hi).1]
        constructor
        · intro h
          exact Or.inr (Or.inr ⟨obj, obj1, rfl, hz, hi, h⟩)
        · intro h
          rcases h with ⟨h1, _⟩ | ⟨obj2, obj3, h1, _, h3⟩ | ⟨obj2, obj3, h1, _, h3, h4⟩
          · cases h1
          · cases h1
            rw [hi] at h3
            cases h3
          · cases h1
            rw [hi] at h3
            cases h3
            exact h4

/-- The turn of a webhook that is not found or is being deleted: the Get and one log line,
nothing assigned to `anyError`. -/
theorem ensureCertsStep_skipped {σ : Type} (wenv : WHEnv σ) (certPem : Bytes)
    (webhook : WebhookInfo) (st : RSt σ)
    (h : (∃ err, (wenv.client_Get webhook.gvk
          { Namespace := "", Name := webhook.Name } st.ext).1 = Except.error err ∧
        err.IsNotFound = true) ∨
      (∃ obj, (wenv.client_Get webhook.gvk
          { Namespace := "", Name := webhook.Name } st.ext).1 = Except.ok obj ∧
        IsZero (wenv.GetDeletionTimestamp obj) = false)) :
    (ensureCertsStep wenv certPem webhook st).1 = none ∧
      (ensureCertsStep wenv certPem webhook st).2.ext =
        (wenv.client_Get webhook.gvk { Namespace := "", Name := webhook.Name } st.ext).2 ∧
      ∃ ev, (ensureCertsStep wenv certPem webhook st).2.trace =
          st.trace ++ [WHEvent.get webhook.gvk { Namespace := "", Name := webhook.Name }, ev] ∧
        (ev = WHEvent.info "Webhook is being deleted. Unable to update certificate" ∨
          ∃ err, ev = WHEvent.error err "Webhook not found. Unable to update certificate.") := by
  rcases h with ⟨err, hg, hnf⟩ | ⟨obj, hg, hz⟩
  · rw [ensureCertsStep_notFound wenv certPem webhook st err hg hnf, whGet_eq]
    exact ⟨rfl, rfl, _, by simp [remit], Or.inr ⟨err, rfl⟩⟩
  · rw [ensureCertsStep_deleting wenv certPem webhook st obj hg hz, whGet_eq]
    exact ⟨rfl, rfl, _, by simp [remit], Or.inl rfl⟩

theorem ensureCertsLoop_cons {σ : Type} (wenv : WHEnv σ) (certPem : Bytes)
    (webhook : WebhookInfo) (rest : List WebhookInfo) (anyError : Option Err) (st : RSt σ) :
    ensureCertsLoop wenv certPem (webhook :: rest) anyError st =
      ensureCertsLoop wenv certPem rest
        (match (ensureCertsStep wenv certPem webhook st).1 with
          | some err => some err
          | none => anyError)
        (ensureCertsStep wenv certPem webhook st).2 := by
  rw [ensureCertsLoop]
  rcases hs : ensureCertsStep wenv certPem webhook st with ⟨oe, st1⟩
  cases oe <;> rfl

theorem ensureCertsLoop_snd {σ : Type} (wenv : WHEnv σ) (certPem : Bytes)
    (webhooks : List WebhookInfo) :
    ∀ (anyError : Option Err) (st : RSt σ),
      (ensureCertsLoop wenv certPem webhooks anyError st).2 =
        stateAfter wenv certPem webhooks st := by
  induction webhooks with
  | nil => intro anyError st; rw [ensureCertsLoop, stateAfter]
  | cons w rest ih =>
    intro anyError st
    rw [ensureCertsLoop_cons, ih, stateAfter]

theorem stateAfter_append {σ : Type} (wenv : WHEnv σ) (certPem : Bytes)
    (pre post : List WebhookInfo) :
    ∀ (st : RSt σ), stateAfter wenv certPem (pre ++ post) st =
      stateAfter wenv certPem post (stateAfter wenv certPem pre st) := by
  induction pre with
  | nil => intro st; rw [List.nil_append, stateAfter]
  | cons w rest ih =>
    intro st
    rw [List.cons_append, stateAfter, ih, stateAfter]

theorem ensureCertsLoop_append {σ : Type} (wenv : WHEnv σ) (certPem : Bytes)
    (pre post : List WebhookInfo) :
    ∀ (anyError : Option Err) (st : RSt σ),
      ensureCertsLoop wenv certPem (pre ++ post) anyError st =
        ensureCertsLoop wenv certPem post (ensureCertsLoop wenv certPem pre anyError st).1
          (stateAfter wenv certPem pre st) := by
  induction pre with
  | nil => intro anyError st; rw [List.nil_append, ensureCertsLoop, stateAfter]
  | cons w rest ih =>
    intro anyError st
    rw [List.cons_append, ensureCertsLoop_cons, ih, ensureCertsLoop_cons, stateAfter]

/-- The facts of `ensureCertsStep_facts` over a list of turns. -/
theorem stateAfter_facts {σ : Type} (wenv : WHEnv σ) (certPem : Bytes)
    (webhooks : List WebhookInfo) :
    ∀ (st : RSt σ),
      whGets (stateAfter wenv certPem webhooks st).trace =
          whGets st.trace ++ webhooks.map webhookKey ∧
        whStores (stateAfter wenv certPem webhooks st).trace = whStores st.trace ∧
        (stateAfter wenv certPem webhooks st).wasCAInjected = st.wasCAInjected ∧
        whUpdates st.trace <+: whUpdates (stateAfter wenv certPem webhooks st).trace := by
  induction webhooks with
  | nil =>
    intro st
    rw [stateAfter]
    exact ⟨by simp, rfl, rfl, List.prefix_refl _⟩
  | cons w rest ih =>
    intro st
    rw [stateAfter]
    obtain ⟨h1, h2, h3, h4⟩ := ih (ensureCertsStep wenv certPem w st).2
    obtain ⟨g1, g2, g3, g4⟩ := ensureCertsStep_facts wenv certPem w st
    refine ⟨?_, ?_, ?_, ?_⟩
    · rw [h1, g1]
      simp
    · rw [h2, g2]
    · rw [h3, g3]
    · exact List.IsPrefix.trans g4 h4

theorem stateAfter_snoc {σ : Type} (wenv : WHEnv σ) (certPem : Bytes)
    (pre : List WebhookInfo) (w : WebhookInfo) (st : RSt σ) :
    stateAfter wenv certPem (pre ++ [w]) st =
      (ensureCertsStep wenv certPem w (stateAfter wenv certPem pre st)).2 := by
  rw [stateAfter_append, stateAfter, stateAfter]

/-- The loop hands back `anyError` as it was when no turn assigns to it. -/
theorem ensureCertsLoop_all_none {σ : Type} (wenv : WHEnv σ) (certPem : Bytes)
    (webhooks : List WebhookInfo) :
    ∀ (anyError : Option Err) (st : RSt σ),
      (∀ pre w post, webhooks = pre ++ w :: post →
        (ensureCertsStep wenv certPem w (stateAfter wenv certPem pre st)).1 = none) →
      (ensureCertsLoop wenv certPem webhooks anyError st).1 = anyError := by
  induction webhooks with
  | nil => intro anyError st _; rw [ensureCertsLoop]
  | cons w rest ih =>
    intro anyError st h
    have h0 : (ensureCertsStep wenv certPem w st).1 = none := by
      have := h [] w rest rfl
      rw [stateAfter] at this
      exact this
    rw [ensureCertsLoop_cons, h0]
    apply ih
    intro pre w2 post hrest
    have := h (w :: pre) w2 post (by rw [hrest]; rfl)
    rw [stateAfter] at this
    exact this

/-- Once `anyError` holds an error, the loop returns an error. -/
theorem ensureCertsLoop_some {σ : Type} (wenv : WHEnv σ) (certPem : Bytes)
    (webhooks : List WebhookInfo) :
    ∀ (e : Err) (st : RSt σ),
      ∃ e1, (ensureCertsLoop wenv certPem webhooks (some e) st).1 = some e1 := by
  induction webhooks with
  | nil => intro e st; exact ⟨e, by rw [ensureCertsLoop]⟩
  | cons w rest ih =>
    intro e st
    rw [ensureCertsLoop_cons]
    cases (ensureCertsStep wenv certPem w st).1 with
    | none => exact ih e _
    | some e2 => exact ih e2 _

theorem step_none_iff {σ : Type} (wenv : WHEnv σ) (certPem : Bytes) (w : WebhookInfo)
    (st : RSt σ) :
    (ensureCertsStep wenv certPem w st).1 = none ↔
      ∀ e, ¬ failsWith wenv certPem w st.ext e := by
  constructor
  · intro h e hf
    rw [← ensureCertsStep_fst_iff, h] at hf
    cases hf
  · intro h
    cases hs : (ensureCertsStep wenv certPem w st).1 with
    | none => rfl
    | some e => exact absurd ((ensureCertsStep_fst_iff wenv certPem w st e).1 hs) (h e)

/-- Injection that succeeds leaves the trust bundle in the object. -/
theorem injectCert_carries (encode : Bytes → String) (obj obj1 : Unstructured)
    (certPem : Bytes) (webhookType : WebhookType)
    (h : injectCert encode obj certPem webhookType = (none, obj1)) :
    carriesCA webhookType (encode certPem) obj1 := by
  have hadm : injectCertToWebhook encode obj certPem = (none, obj1) →
      ∃ hooks, objLookup obj1.Object "webhooks" = some (Value.list hooks) ∧
        ∀ i, i < hooks.length →
          Value.at (Value.map obj1.Object)
            [Seg.key "webhooks", Seg.idx i, Seg.key "clientConfig", Seg.key "caBundle"] =
              some (Value.str (encode certPem)) := by
    intro hw
    obtain ⟨hooks, hooks1, _, hi, hobj⟩ := injectCertToWebhook_ok encode obj obj1 certPem hw
    obtain ⟨hlen, hall⟩ := injectHooks_ok (encode certPem) hooks 0 hooks1 hi
    refine ⟨hooks1, by rw [hobj]; exact objLookup_objSet_self _ _ _, ?_⟩
    intro i hlt
    have hlt2 : i < hooks.length := by omega
    obtain ⟨m, m1, _, hs, hget1⟩ := hall i _ (List.get?_eq_get hlt2)
    rw [hobj, at_map_key, objLookup_objSet_self]
    dsimp only
    rw [at_list_idx, hget1]
    exact SetNestedField_at ["clientConfig", "caBundle"] m m1 _ hs
  cases webhookType with
  | Validating => exact hadm h
  | Mutating => exact hadm h
  | CRDConversion =>
    exact SetNestedField_at ["spec", "conversion", "webhookClientConfig", "caBundle"]
      obj.Object obj1.Object _ (injectCertToConversionWebhook_ok encode obj obj1 certPem h)

/-- Claim C11. Partial-failure isolation in the reconciler: `ensureCerts` issues one
`client.Get` per declared webhook, in list order, whatever fails; and every webhook whose
Get succeeds, that is not marked for deletion and on which `injectCert` succeeds, gets in
its turn one `client.Update` whose object carries the new CA, and that Update is part of
the Updates of the whole call, whatever happens to the webhooks before and after it. -/
theorem ensureCerts_partial_failure_isolation {σ : Type} (wenv : WHEnv σ) (r : ReconcileWH)
    (certPem : Bytes) (st : RSt σ) :
    whGets (ensureCerts wenv r certPem st).2.trace =
        whGets st.trace ++ r.webhooks.map webhookKey ∧
      ∀ pre w post obj obj1, r.webhooks = pre ++ w :: post →
        (wenv.client_Get w.gvk { Namespace := "", Name := w.Name }
          (stateAfter wenv certPem pre st).ext).1 = Except.ok obj →
        IsZero (wenv.GetDeletionTimestamp obj) = true →
        injectCert wenv.base64_EncodeToString obj certPem w.Typ = (none, obj1) →
        carriesCA w.Typ (wenv.base64_EncodeToString certPem) obj1 ∧
        ∃ res, whUpdates (stateAfter wenv certPem (pre ++ [w]) st).trace =
            whUpdates (stateAfter wenv certPem pre st).trace ++ [(obj1, res)] ∧
          whUpdates (stateAfter wenv certPem pre st).trace ++ [(obj1, res)] <+:
            whUpdates (ensureCerts wenv r certPem st).2.trace := by
  unfold ensureCerts
  rw [ensureCertsLoop_snd]
  refine ⟨(stateAfter_facts wenv certPem r.webhooks st).1, ?_⟩
  intro pre w post obj obj1 hw hg hz hi
  have hu := (ensureCertsStep_updated wenv certPem w (stateAfter wenv certPem pre st) obj obj1
    hg hz hi).2
  rw [← stateAfter_snoc] at hu
  refine ⟨injectCert_carries _ obj obj1 certPem w.Typ hi, _, hu, ?_⟩
  rw [← hu]
  have hsplit : r.webhooks = (pre ++ [w]) ++ post := by rw [hw]; simp
  rw [hsplit, stateAfter_append wenv certPem (pre ++ [w]) post]
  exact (stateAfter_facts wenv certPem post _).2.2.2

/-- Witness for C11: three consumers, the read of the second fails with status 500; the
first and the third are updated. -/
theorem ensureCerts_partial_failure_isolation_witness :
    whGets (ensureCerts (simWH failThird noFault) simReconciler [65, 66]
        (simRStart none sampleHooks)).2.trace =
      [] ++ simReconciler.webhooks.map webhookKey ∧
    (whUpdates (ensureCerts (simWH failThird noFault) simReconciler [65, 66]
        (simRStart none sampleHooks)).2.trace).map (fun u => (objName u.1, u.2)) =
      [(some "vwc", none), (some "crd", none)] ∧
    ∃ res, whUpdates (stateAfter (simWH failThird noFault) [65, 66]
          ([{ Name := "vwc", Typ := WebhookType.Validating },
            { Name := "mwc", Typ := WebhookType.Mutating }] ++
           [{ Name := "crd", Typ := WebhookType.CRDConversion }])
          (simRStart none sampleHooks)).trace =
        whUpdates (stateAfter (simWH failThird noFault) [65, 66]
          [{ Name := "vwc", Typ := WebhookType.Validating },
            { Name := "mwc", Typ := WebhookType.Mutating }]
          (simRStart none sampleHooks)).trace ++
          [((injectCert simEncode sampleCRD [65, 66] WebhookType.CRDConversion).2, res)] :=
  ⟨(ensureCerts_partial_failure_isolation (simWH failThird noFault) simReconciler [65, 66]
      (simRStart none sampleHooks)).1, by rfl,
    (((ensureCerts_partial_failure_isolation (simWH failThird noFault) simReconciler [65, 66]
      (simRStart none sampleHooks)).2
        [{ Name := "vwc", Typ := WebhookType.Validating },
          { Name := "mwc", Typ := WebhookType.Mutating }]
        { Name := "crd", Typ := WebhookType.CRDConversion } [] sampleCRD _ rfl rfl rfl rfl).2).imp
      (fun _ h => h.1)⟩

/-- Claim C12. Accumulated last error: `ensureCerts` returns nil if and only if no declared
webhook fails when it is visited (a Get error other than not-found, an `injectCert` error
or an Update error); and when a webhook fails with `e` and no webhook after it in the list
fails, `ensureCerts` returns exactly `e`. -/
theorem ensureCerts_last_error {σ : Type} (wenv : WHEnv σ) (r : ReconcileWH)
    (certPem : Bytes) (st : RSt σ) :
    ((ensureCerts wenv r certPem st).1 = none ↔
      ∀ pre w post, r.webhooks = pre ++ w :: post →
        ∀ e, ¬ failsWith wenv certPem w (stateAfter wenv certPem pre st).ext e) ∧
    (∀ pre w post e, r.webhooks = pre ++ w :: post →
      failsWith wenv certPem w (stateAfter wenv certPem pre st).ext e →
      (∀ mid w2 post2, post = mid ++ w2 :: post2 →
        ∀ e2, ¬ failsWith wenv certPem w2
          (stateAfter wenv certPem (pre ++ w :: mid) st).ext e2) →
      (ensureCerts wenv r certPem st).1 = some e) := by
  unfold ensureCerts
  have hsome : ∀ pre w post e, r.webhooks = pre ++ w :: post →
      failsWith wenv certPem w (stateAfter wenv certPem pre st).ext e →
      ensureCertsLoop wenv certPem r.webhooks none st =
        ensureCertsLoop wenv certPem post (some e)
          (ensureCertsStep wenv certPem w (stateAfter wenv certPem pre st)).2 := by
    intro pre w post e hw hf
    rw [hw, ensureCertsLoop_append, ensureCertsLoop_cons,
      (ensureCertsStep_fst_iff wenv certPem w _ e).2 hf]
  refine ⟨⟨?_, ?_⟩, ?_⟩
  · intro hnone pre w post hw e hf
    rw [hsome pre w post e hw hf] at hnone
    obtain ⟨e1, he1⟩ := ensureCertsLoop_some wenv certPem post e
      (ensureCertsStep wenv certPem w (stateAfter wenv certPem pre st)).2
    rw [he1] at hnone
    cases hnone
  · intro h
    apply ensureCertsLoop_all_none
    intro pre w post hw
    exact (step_none_iff wenv certPem w _).2 (h pre w post hw)
  · intro pre w post e hw hf hlater
    rw [hsome pre w post e hw hf]
    apply ensureCertsLoop_all_none
    intro mid w2 post2 hpost
    apply (step_none_iff wenv certPem w2 _).2
    have := hlater mid w2 post2 hpost
    rw [show pre ++ w :: mid = (pre ++ [w]) ++ mid by simp, stateAfter_append,
      stateAfter_snoc] at this
    exact this

/-- Witness for C12: the read of the second of three consumers fails with status 500, and
the call returns that error. -/
theorem ensureCerts_last_error_witness :
    (ensureCerts (simWH failThird noFault) simReconciler [65, 66]
      (simRStart none sampleHooks)).1 = some (Err.status 500) :=
  (ensureCerts_last_error (simWH failThird noFault) simReconciler [65, 66]
    (simRStart none sampleHooks)).2
    [{ Name := "vwc", Typ := WebhookType.Validating }]
    { Name := "mwc", Typ := WebhookType.Mutating }
    [{ Name := "crd", Typ := WebhookType.CRDConversion }] (Err.status 500) rfl
    (Or.inl ⟨rfl, rfl⟩)
    (by
      intro mid w2 post2 hpost
      have hmid : mid = [] ∧ w2 = { Name := "crd", Typ := WebhookType.CRDConversion } := by
        cases mid with
        | nil =>
          simp only [List.nil_append, List.cons.injEq] at hpost
          exact ⟨rfl, hpost.1.symm⟩
        | cons a mid2 =>
          simp only [List.cons_append, List.cons.injEq] at hpost
          have h2 := hpost.2
          cases mid2 <;> simp at h2
      obtain ⟨h1, h2⟩ := hmid
      subst h1
      subst h2
      exact (step_none_iff (simWH failThird noFault) [65, 66]
        { Name := "crd", Typ := WebhookType.CRDConversion }
        (stateAfter (simWH failThird noFault) [65, 66]
          [{ Name := "vwc", Typ := WebhookType.Validating },
            { Name := "mwc", Typ := WebhookType.Mutating }] (simRStart none sampleHooks))).1
        rfl)

/-- Claim C13. Missing or terminating consumers are skipped: when the Get of a declared
webhook answers not-found, or the object read has a non-zero deletion timestamp, the turn
of that webhook consists of the Get and one log line; it issues no `client.Update`, leaves
the store as the Get left it, the webhook does not fail, and the value of `anyError` after
the turn is the one before it, so that `ensureCerts` returns what the remaining webhooks
make of that value. -/
theorem ensureCerts_skips_missing_or_terminating {σ : Type} (wenv : WHEnv σ)
    (r : ReconcileWH) (certPem : Bytes) (st : RSt σ) (pre : List WebhookInfo)
    (w : WebhookInfo) (post : List WebhookInfo)
    (hw : r.webhooks = pre ++ w :: post)
    (h : (∃ err, (wenv.client_Get w.gvk { Namespace := "", Name := w.Name }
          (stateAfter wenv certPem pre st).ext).1 = Except.error err ∧
        err.IsNotFound = true) ∨
      (∃ obj, (wenv.client_Get w.gvk { Namespace := "", Name := w.Name }
          (stateAfter wenv certPem pre st).ext).1 = Except.ok obj ∧
        IsZero (wenv.GetDeletionTimestamp obj) = false)) :
    whUpdates (stateAfter wenv certPem (pre ++ [w]) st).trace =
        whUpdates (stateAfter wenv certPem pre st).trace ∧
      (stateAfter wenv certPem (pre ++ [w]) st).ext =
        (wenv.client_Get w.gvk { Namespace := "", Name := w.Name }
          (stateAfter wenv certPem pre st).ext).2 ∧
      (∃ ev, (stateAfter wenv certPem (pre ++ [w]) st).trace =
          (stateAfter wenv certPem pre st).trace ++
            [WHEvent.get w.gvk { Namespace := "", Name := w.Name }, ev] ∧
        (ev = WHEvent.info "Webhook is being deleted. Unable to update certificate" ∨
          ∃ err, ev = WHEvent.error err "Webhook not found. Unable to update certificate.")) ∧
      (∀ e, ¬ failsWith wenv certPem w (stateAfter wenv certPem pre st).ext e) ∧
      (ensureCertsLoop wenv certPem (pre ++ [w]) none st).1 =
        (ensureCertsLoop wenv certPem pre none st).1 ∧
      ensureCerts wenv r certPem st =
        ensureCertsLoop wenv certPem post (ensureCertsLoop wenv certPem pre none st).1
          (stateAfter wenv certPem (pre ++ [w]) st) := by
  obtain ⟨h1, h2, ev, h3, h4⟩ :=
    ensureCertsStep_skipped wenv certPem w (stateAfter wenv certPem pre st) h
  have hupd : whUpdates (stateAfter wenv certPem (pre ++ [w]) st).trace =
      whUpdates (stateAfter wenv certPem pre st).trace := by
    rw [stateAfter_snoc, h3, whUpdates_append]
    rcases h4 with h4 | ⟨err, h4⟩
    · rw [h4]
      simp [whUpdates]
    · rw [h4]
      simp [whUpdates]
  refine ⟨hupd, ?_, ⟨ev, ?_, h4⟩, (step_none_iff wenv certPem w _).1 h1, ?_, ?_⟩
  · rw [stateAfter_snoc, h2]
  · rw [stateAfter_snoc, h3]
  · rw [ensureCertsLoop_append, ensureCertsLoop_cons, h1, ensureCertsLoop]
  · unfold ensureCerts
    rw [hw, ensureCertsLoop_append, ensureCertsLoop_cons, h1, stateAfter_snoc]

/-- Witness for C13: the second of three consumers is being deleted and the third does not
exist; only the first is updated and the call returns nil. -/
theorem ensureCerts_skips_missing_or_terminating_witness :
    whUpdates (stateAfter (simWH noFault noFault) [65, 66]
        ([{ Name := "vwc", Typ := WebhookType.Validating }] ++
          [{ Name := "mwc", Typ := WebhookType.Mutating }])
        (simRStart none [("vwc", sampleVWC), ("mwc", terminatingMWC)])).trace =
      whUpdates (stateAfter (simWH noFault noFault) [65, 66]
        [{ Name := "vwc", Typ := WebhookType.Validating }]
        (simRStart none [("vwc", sampleVWC), ("mwc", terminatingMWC)])).trace ∧
    (ensureCerts (simWH noFault noFault) simReconciler [65, 66]
      (simRStart none [("vwc", sampleVWC), ("mwc", terminatingMWC)])).1 = none :=
  ⟨(ensureCerts_skips_missing_or_terminating (simWH noFault noFault) simReconciler [65, 66]
      (simRStart none [("vwc", sampleVWC), ("mwc", terminatingMWC)])
      [{ Name := "vwc", Typ := WebhookType.Validating }]
      { Name := "mwc", Typ := WebhookType.Mutating }
      [{ Name := "crd", Typ := WebhookType.CRDConversion }] rfl
      (Or.inr ⟨terminatingMWC, rfl, rfl⟩)).1, by rfl⟩

theorem secretGet_eq {σ : Type} (env : Env σ) (key : NamespacedName) (st : RSt σ) :
    secretGet env key st =
      ((env.client_Get key st.ext).1,
        { st with ext := (env.client_Get key st.ext).2,
                  trace := st.trace ++ [WHEvent.getSecret key] }) := rfl

theorem Reconcile_other {σ : Type} (env : Env σ) (wenv : WHEnv σ) (r : ReconcileWH)
    (request : NamespacedName) (st : RSt σ) (h : request ≠ r.secretKey) :
    Reconcile env wenv r request st = (({ Requeue := false }, none), st) := by
  unfold Reconcile
  rw [if_pos h]

theorem Reconcile_getError {σ : Type} (env : Env σ) (wenv : WHEnv σ) (r : ReconcileWH)
    (st : RSt σ) (err : Err)
    (hg : (env.client_Get r.secretKey st.ext).1 = Except.error err) :
    Reconcile env wenv r r.secretKey st =
      if err.IsNotFound then (({ Requeue := false }, none), (secretGet env r.secretKey st).2)
      else (({ Requeue := true }, some err), (secretGet env r.secretKey st).2) := by
  unfold Reconcile
  rw [if_neg (fun h => h rfl), secretGet_eq]
  simp only [hg]

theorem Reconcile_getOk {σ : Type} (env : Env σ) (wenv : WHEnv σ) (r : ReconcileWH)
    (st : RSt σ) (secret : Secret)
    (hg : (env.client_Get r.secretKey st.ext).1 = Except.ok secret) :
    Reconcile env wenv r r.secretKey st =
      if IsZero secret.DeletionTimestamp then
        match buildArtifactsFromSecret env secret with
        | Except.error err =>
          (({ Requeue := false }, none),
            remit (WHEvent.error err
              "secret is not well-formed, cannot update webhook configurations")
              (secretGet env r.secretKey st).2)
        | Except.ok artifacts =>
          match ensureCerts wenv r artifacts.CertPEM (secretGet env r.secretKey st).2 with
          | (some err, st2) => (({ Requeue := false }, some err), st2)
          | (none, st2) => (({ Requeue := false }, none), storeInjected true st2)
      else (({ Requeue := false }, none), (secretGet env r.secretKey st).2) := by
  unfold Reconcile
  rw [if_neg (fun h => h rfl), secretGet_eq]
  simp only [hg]

/-- The call of `ensureCerts` stores nothing into the flag. -/
theorem ensureCerts_facts {σ : Type} (wenv : WHEnv σ) (r : ReconcileWH) (certPem : Bytes)
    (st : RSt σ) :
    whStores (ensureCerts wenv r certPem st).2.trace = whStores st.trace ∧
      (ensureCerts wenv r certPem st).2.wasCAInjected = st.wasCAInjected := by
  unfold ensureCerts
  rw [ensureCertsLoop_snd]
  exact ⟨(stateAfter_facts wenv certPem r.webhooks st).2.1,
    (stateAfter_facts wenv certPem r.webhooks st).2.2.1⟩

/-- Claim C14. Absent or malformed secret is a reconciler no-op: for a request on the secret
key, when the Get of the secret answers not-found, or `buildArtifactsFromSecret` fails on
the secret read, `Reconcile` returns the empty result with a nil error; it issues no Get
and no Update of a consumer resource (the store is left as the Get of the secret left
it), stores nothing into `wasCAInjected` and leaves its value as it was. -/
theorem Reconcile_noop_on_absent_or_malformed {σ : Type} (env : Env σ) (wenv : WHEnv σ)
    (r : ReconcileWH) (st : RSt σ)
    (h : (∃ err, (env.client_Get r.secretKey st.ext).1 = Except.error err ∧
        err.IsNotFound = true) ∨
      (∃ secret err, (env.client_Get r.secretKey st.ext).1 = Except.ok secret ∧
        buildArtifactsFromSecret env secret = Except.error err)) :
    (Reconcile env wenv r r.secretKey st).1 = ({ Requeue := false }, none) ∧
      whGets (Reconcile env wenv r r.secretKey st).2.trace = whGets st.trace ∧
      whUpdates (Reconcile env wenv r r.secretKey st).2.trace = whUpdates st.trace ∧
      (Reconcile env wenv r r.secretKey st).2.ext = (env.client_Get r.secretKey st.ext).2 ∧
      whStores (Reconcile env wenv r r.secretKey st).2.trace = whStores st.trace ∧
      (Reconcile env wenv r r.secretKey st).2.wasCAInjected = st.wasCAInjected := by
  rcases h with ⟨err, hg, hnf⟩ | ⟨secret, err, hg, hb⟩
  · rw [Reconcile_getError env wenv r st err hg, hnf, if_pos rfl, secretGet_eq]
    simp [whGets_append, whUpdates_append, whStores_append, whGets, whUpdates, whStores]
  · rw [Reconcile_getOk env wenv r st secret hg, hb, secretGet_eq]
    cases hz : IsZero secret.DeletionTimestamp with
    | true =>
      simp [remit, whGets_append, whUpdates_append, whStores_append, whGets, whUpdates,
        whStores]
    | false =>
      simp [whGets_append, whUpdates_append, whStores_append, whGets, whUpdates, whStores]

/-- Witness for C14: the secret exists but holds no data, so it does not parse; the three
consumers are left alone. -/
theorem Reconcile_noop_on_absent_or_malformed_witness :
    (Reconcile (liftEnv simOK) (simWH noFault noFault) simReconciler simReconciler.secretKey
      (simRStart (some emptySecret) sampleHooks)).1 = ({ Requeue := false }, none) ∧
    whGets (Reconcile (liftEnv simOK) (simWH noFault noFault) simReconciler
      simReconciler.secretKey (simRStart (some emptySecret) sampleHooks)).2.trace = [] ∧
    (Reconcile (liftEnv simOK) (simWH noFault noFault) simReconciler simReconciler.secretKey
      (simRStart (some emptySecret) sampleHooks)).2.wasCAInjected = false :=
  ⟨(Reconcile_noop_on_absent_or_malformed (liftEnv simOK) (simWH noFault noFault)
      simReconciler (simRStart (some emptySecret) sampleHooks)
      (Or.inr ⟨emptySecret, _, rfl, rfl⟩)).1, by rfl, by rfl⟩

/-- The two ways of `Reconcile`: the pass without error, which ends in the store of
`true`, and every other pass, which stores nothing. -/
theorem Reconcile_cases {σ : Type} (env : Env σ) (wenv : WHEnv σ) (r : ReconcileWH)
    (request : NamespacedName) (st : RSt σ) :
    (request = r.secretKey ∧ ∃ secret artifacts,
        (env.client_Get request st.ext).1 = Except.ok secret ∧
        IsZero secret.DeletionTimestamp = true ∧
        buildArtifactsFromSecret env secret = Except.ok artifacts ∧
        (ensureCerts wenv r artifacts.CertPEM (secretGet env request st).2).1 = none ∧
        Reconcile env wenv r request st =
          (({ Requeue := false }, none), storeInjected true
            (ensureCerts wenv r artifacts.CertPEM (secretGet env request st).2).2)) ∨
    (¬ (request = r.secretKey ∧ ∃ secret artifacts,
        (env.client_Get request st.ext).1 = Except.ok secret ∧
        IsZero secret.DeletionTimestamp = true ∧
        buildArtifactsFromSecret env secret = Except.ok artifacts ∧
        (ensureCerts wenv r artifacts.CertPEM (secretGet env request st).2).1 = none) ∧
      whStores (Reconcile env wenv r request st).2.trace = whStores st.trace ∧
      (Reconcile env wenv r request st).2.wasCAInjected = st.wasCAInjected) := by
  by_cases hreq : request = r.secretKey
  · subst hreq
    cases hg : (env.client_Get r.secretKey st.ext).1 with
    | error err =>
      refine Or.inr ⟨?_, ?_⟩
      · rintro ⟨_, secret, artifacts, h1, _⟩
        cases h1
      · rw [Reconcile_getError env wenv r st err hg, secretGet_eq]
        cases err.IsNotFound <;> simp [whStores_append, whStores]
    | ok secret =>
      cases hz : IsZero secret.DeletionTimestamp with
      | false =>
        refine Or.inr ⟨?_, ?_⟩
        · rintro ⟨_, secret2, artifacts, h1, h2, _⟩
          cases h1
          rw [hz] at h2
          cases h2
        · rw [Reconcile_getOk env wenv r st secret hg, hz, secretGet_eq]
          simp [whStores_append, whStores]
      | true =>
        cases hb : buildArtifactsFromSecret env secret with
        | error err =>
          refine Or.inr ⟨?_, ?_⟩
          · rintro ⟨_, secret2, artifacts, h1, _, h3, _⟩
            cases h1
            rw [hb] at h3
            cases h3
          · rw [Reconcile_getOk env wenv r st secret hg, hz, hb, secretGet_eq]
            simp [remit, whStores_append, whStores]
        | ok artifacts =>
          obtain ⟨f1, f2⟩ := ensureCerts_facts wenv r artifacts.CertPEM
            (secretGet env r.secretKey st).2
          rcases he : ensureCerts wenv r artifacts.CertPEM (secretGet env r.secretKey st).2 with
            ⟨oe, st2⟩
          rw [he] at f1 f2
          cases oe with
          | some e =>
            refine Or.inr ⟨?_, ?_⟩
            · rintro ⟨_, secret2, artifacts2, h1, _, h3, h4⟩
              cases h1
              rw [hb] at h3
              cases h3
              rw [he] at h4
              cases h4
            · rw [Reconcile_getOk env wenv r st secret hg, hz, hb]
              simp only [↓reduceIte]
              rw [he]
              refine ⟨?_, ?_⟩
              · rw [f1, secretGet_eq]
                simp [whStores_append, whStores]
              · rw [f2, secretGet_eq]
          | none =>
            refine Or.inl ⟨rfl, secret, artifacts, rfl, hz, hb, ?_, ?_⟩
            · rw [he]
            · rw [Reconcile_getOk env wenv r st secret hg, hz, hb]
              simp only [↓reduceIte]
              rw [he]
  · refine Or.inr ⟨fun h => hreq h.1, ?_⟩
    rw [Reconcile_other env wenv r request st hreq]
    exact ⟨rfl, rfl⟩

/-- Claim C15. The injected flag is set exactly on an error-free pass: `Reconcile` stores
`true` into `wasCAInjected` if and only if the request is for the secret key, the secret is
read, is not marked for deletion, parses in `buildArtifactsFromSecret` and `ensureCerts`
returns nil; on every other pass nothing is stored and the flag keeps its value; and when
`ensureCerts` returns an error, `Reconcile` returns that error with the empty result and
the flag keeps its value. -/
theorem Reconcile_stores_flag_iff {σ : Type} (env : Env σ) (wenv : WHEnv σ)
    (r : ReconcileWH) (request : NamespacedName) (st : RSt σ) :
    (whStores (Reconcile env wenv r request st).2.trace = whStores st.trace ++ [true] ↔
      (request = r.secretKey ∧ ∃ secret artifacts,
        (env.client_Get request st.ext).1 = Except.ok secret ∧
        IsZero secret.DeletionTimestamp = true ∧
        buildArtifactsFromSecret env secret = Except.ok artifacts ∧
        (ensureCerts wenv r artifacts.CertPEM (secretGet env request st).2).1 = none)) ∧
    (whStores (Reconcile env wenv r request st).2.trace = whStores st.trace ++ [true] →
      (Reconcile env wenv r request st).2.wasCAInjected = true) ∧
    (whStores (Reconcile env wenv r request st).2.trace ≠ whStores st.trace ++ [true] →
      whStores (Reconcile env wenv r request st).2.trace = whStores st.trace ∧
      (Reconcile env wenv r request st).2.wasCAInjected = st.wasCAInjected) ∧
    (∀ secret artifacts e, request = r.secretKey →
      (env.client_Get request st.ext).1 = Except.ok secret →
      IsZero secret.DeletionTimestamp = true →
      buildArtifactsFromSecret env secret = Except.ok artifacts →
      (ensureCerts wenv r artifacts.CertPEM (secretGet env request st).2).1 = some e →
      (Reconcile env wenv r request st).1 = ({ Requeue := false }, some e) ∧
      whStores (Reconcile env wenv r request st).2.trace = whStores st.trace ∧
      (Reconcile env wenv r request st).2.wasCAInjected = st.wasCAInjected) := by
  have hne : ∀ l : List Bool, l ≠ l ++ [true] := by
    intro l h
    have := congrArg List.length h
    simp at this
  have hyes : ∀ (secret : Secret) (artifacts : KeyPairArtifacts),
      Reconcile env wenv r request st =
        (({ Requeue := false }, none), storeInjected true
          (ensureCerts wenv r artifacts.CertPEM (secretGet env request st).2).2) →
      (env.client_Get request st.ext).1 = Except.ok secret →
      whStores (Reconcile env wenv r request st).2.trace = whStores st.trace ++ [true] ∧
        (Reconcile env wenv r request st).2.wasCAInjected = true := by
    intro secret artifacts heq _
    rw [heq]
    refine ⟨?_, rfl⟩
    show whStores ((ensureCerts wenv r artifacts.CertPEM (secretGet env request st).2).2.trace ++
      [WHEvent.storeInjected true]) = _
    rw [whStores_append, (ensureCerts_facts wenv r artifacts.CertPEM _).1, secretGet_eq]
    simp [whStores_append, whStores]
  rcases Reconcile_cases env wenv r request st with
    ⟨hreq, secret, artifacts, hg, hz, hb, he, heq⟩ | ⟨hno, hs, hf⟩
  · obtain ⟨y1, y2⟩ := hyes secret artifacts heq hg
    refine ⟨⟨fun _ => ⟨hreq, secret, artifacts, hg, hz, hb, he⟩, fun _ => y1⟩, fun _ => y2,
      fun h => absurd y1 h, ?_⟩
    intro secret2 artifacts2 e _ hg2 _ hb2 he2
    rw [hg] at hg2
    cases hg2
    rw [hb] at hb2
    cases hb2
    rw [he] at he2
    cases he2
  · refine ⟨⟨fun h => ?_, fun h => absurd h hno⟩, fun h => ?_, fun _ => ⟨hs, hf⟩, ?_⟩
    · rw [hs] at h
      exact absurd h (hne _)
    · rw [hs] at h
      exact absurd h (hne _)
    · intro secret artifacts e hreq hg hz hb he
      subst hreq
      refine ⟨?_, hs, hf⟩
      rw [Reconcile_getOk env wenv r st secret hg, hz, hb]
      simp only [↓reduceIte]
      rcases he2 : ensureCerts wenv r artifacts.CertPEM (secretGet env r.secretKey st).2 with
        ⟨oe, st2⟩
      rw [he2] at he
      cases he
      rfl

/-- Witness for C15: with a secret that parses and three consumers that take the CA, the
pass stores `true`; when the update of one consumer fails, the error is returned and the
flag stays as it was. -/
theorem Reconcile_stores_flag_iff_witness :
    (Reconcile (liftEnv simOK) (simWH noFault noFault) simReconciler simReconciler.secretKey
      (simRStart (some validSecret) sampleHooks)).2.wasCAInjected = true ∧
    (Reconcile (liftEnv simOK) (simWH noFault failThird) simReconciler
      simReconciler.secretKey (simRStart (some validSecret) sampleHooks)).1 =
        ({ Requeue := false }, some (Err.status 500)) ∧
    (Reconcile (liftEnv simOK) (simWH noFault failThird) simReconciler
      simReconciler.secretKey (simRStart (some validSecret) sampleHooks)).2.wasCAInjected =
        false :=
  ⟨(Reconcile_stores_flag_iff (liftEnv simOK) (simWH noFault noFault) simReconciler
      simReconciler.secretKey (simRStart (some validSecret) sampleHooks)).2.1 (by rfl),
    ((Reconcile_stores_flag_iff (liftEnv simOK) (simWH noFault failThird) simReconciler
      simReconciler.secretKey (simRStart (some validSecret) sampleHooks)).2.2.2
        validSecret _ (Err.status 500) rfl rfl rfl rfl (by rfl)).1,
    by rfl⟩

/-! ## Runs of the simulation for the parsing and validation claims -/

/-- Witness for C19: a secret without data has no `ca.crt`, and does not parse. -/
theorem buildArtifactsFromSecret_spec_witness :
    ∃ err, buildArtifactsFromSecret simOK emptySecret = Except.error err :=
  (buildArtifactsFromSecret_spec simOK emptySecret).1 (Or.inl rfl)

/-- Witness for C20: empty inputs are answered with false and an error. -/
theorem validCert_total_conjunctive_witness :
    ∃ err, validCert simOK [] [] [] "svc" 0 = (false, some err) :=
  (validCert_total_conjunctive simOK [] [] [] "svc" 0).2.1 (by decide)

/-! ## Passes of the reconciler that inject nothing -/

/-- When every webhook of a list is skipped at its turn (not found, or being deleted), the
loop issues no `client.Update` and assigns nothing to `anyError`. -/
theorem stateAfter_all_skipped {σ : Type} (wenv : WHEnv σ) (certPem : Bytes)
    (webhooks : List WebhookInfo) :
    ∀ (st : RSt σ),
      (∀ pre w post, webhooks = pre ++ w :: post →
        (∃ err, (wenv.client_Get w.gvk { Namespace := "", Name := w.Name }
            (stateAfter wenv certPem pre st).ext).1 = Except.error err ∧
          err.IsNotFound = true) ∨
        (∃ obj, (wenv.client_Get w.gvk { Namespace := "", Name := w.Name }
            (stateAfter wenv certPem pre st).ext).1 = Except.ok obj ∧
          IsZero (wenv.GetDeletionTimestamp obj) = false)) →
      whUpdates (stateAfter wenv certPem webhooks st).trace = whUpdates st.trace ∧
        ∀ anyError, (ensureCertsLoop wenv certPem webhooks anyError st).1 = anyError := by
  induction webhooks with
  | nil =>
    intro st _
    exact ⟨by rw [stateAfter], fun anyError => by rw [ensureCertsLoop]⟩
  | cons w rest ih =>
    intro st h
    have h0 := h [] w rest rfl
    rw [stateAfter] at h0
    obtain ⟨s1, _, ev, s3, s4⟩ := ensureCertsStep_skipped wenv certPem w st h0
    have hrest := ih (ensureCertsStep wenv certPem w st).2 (by
      intro pre w2 post hw
      have := h (w :: pre) w2 post (by rw [hw]; rfl)
      rw [stateAfter] at this
      exact this)
    refine ⟨?_, ?_⟩
    · rw [stateAfter, hrest.1, s3, whUpdates_append]
      rcases s4 with s4 | ⟨err, s4⟩
      · rw [s4]
        simp [whUpdates]
      · rw [s4]
        simp [whUpdates]
    · intro anyError
      rw [ensureCertsLoop_cons, s1]
      exact hrest.2 anyError

/-- Claim C26. The injected flag can be set without any injection: for a request on the
secret key with a secret that is read, is not being deleted and parses, when every declared
webhook is not found or is being deleted at its turn (in particular when none is declared),
`Reconcile` issues no `client.Update`, returns the empty result with a nil error and
stores `true` into `wasCAInjected`. -/
theorem Reconcile_flag_without_injection {σ : Type} (env : Env σ) (wenv : WHEnv σ)
    (r : ReconcileWH) (st : RSt σ) (secret : Secret) (artifacts : KeyPairArtifacts)
    (hg : (env.client_Get r.secretKey st.ext).1 = Except.ok secret)
    (hz : IsZero secret.DeletionTimestamp = true)
    (hb : buildArtifactsFromSecret env secret = Except.ok artifacts)
    (hskip : ∀ pre w post, r.webhooks = pre ++ w :: post →
      (∃ err, (wenv.client_Get w.gvk { Namespace := "", Name := w.Name }
          (stateAfter wenv artifacts.CertPEM pre (secretGet env r.secretKey st).2).ext).1 =
            Except.error err ∧ err.IsNotFound = true) ∨
      (∃ obj, (wenv.client_Get w.gvk { Namespace := "", Name := w.Name }
          (stateAfter wenv artifacts.CertPEM pre (secretGet env r.secretKey st).2).ext).1 =
            Except.ok obj ∧ IsZero (wenv.GetDeletionTimestamp obj) = false)) :
    (Reconcile env wenv r r.secretKey st).1 = ({ Requeue := false }, none) ∧
      whUpdates (Reconcile env wenv r r.secretKey st).2.trace = whUpdates st.trace ∧
      whStores (Reconcile env wenv r r.secretKey st).2.trace = whStores st.trace ++ [true] ∧
      (Reconcile env wenv r r.secretKey st).2.wasCAInjected = true := by
  obtain ⟨hupd, hres⟩ := stateAfter_all_skipped wenv artifacts.CertPEM r.webhooks
    (secretGet env r.secretKey st).2 hskip
  have hst := (stateAfter_facts wenv artifacts.CertPEM r.webhooks
    (secretGet env r.secretKey st).2).2.1
  rw [Reconcile_getOk env wenv r st secret hg, hz, hb]
  simp only [↓reduceIte]
  rcases he : ensureCerts wenv r artifacts.CertPEM (secretGet env r.secretKey st).2 with
    ⟨oe, st2⟩
  have h1 : oe = none := by
    have := hres none
    unfold ensureCerts at he
    rw [he] at this
    exact this
  have h2 : st2 = stateAfter wenv artifacts.CertPEM r.webhooks
      (secretGet env r.secretKey st).2 := by
    have := ensureCertsLoop_snd wenv artifacts.CertPEM r.webhooks none
      (secretGet env r.secretKey st).2
    unfold ensureCerts at he
    rw [he] at this
    exact this
  subst h1
  refine ⟨rfl, ?_, ?_, rfl⟩
  · show whUpdates (st2.trace ++ [WHEvent.storeInjected true]) = _
    rw [whUpdates_append, h2, hupd, secretGet_eq]
    simp [whUpdates_append, whUpdates]
  · show whStores (st2.trace ++ [WHEvent.storeInjected true]) = _
    rw [whStores_append, h2, hst, secretGet_eq]
    simp [whStores_append, whStores]

/-- Witness for C26: the secret parses and the one declared consumer is being deleted;
nothing is updated and the flag is set. -/
theorem Reconcile_flag_without_injection_witness :
    (Reconcile (liftEnv simOK) (simWH noFault noFault)
      { secretKey := simRotator.SecretKey,
        webhooks := [{ Name := "mwc", Typ := WebhookType.Mutating }] }
      simRotator.SecretKey
      (simRStart (some validSecret) [("mwc", terminatingMWC)])).1 =
        ({ Requeue := false }, none) ∧
    whUpdates (Reconcile (liftEnv simOK) (simWH noFault noFault)
      { secretKey := simRotator.SecretKey,
        webhooks := [{ Name := "mwc", Typ := WebhookType.Mutating }] }
      simRotator.SecretKey
      (simRStart (some validSecret) [("mwc", terminatingMWC)])).2.trace = [] ∧
    (Reconcile (liftEnv simOK) (simWH noFault noFault)
      { secretKey := simRotator.SecretKey,
        webhooks := [{ Name := "mwc", Typ := WebhookType.Mutating }] }
      simRotator.SecretKey
      (simRStart (some validSecret) [("mwc", terminatingMWC)])).2.wasCAInjected = true :=
  have h := Reconcile_flag_without_injection (liftEnv simOK) (simWH noFault noFault)
    { secretKey := simRotator.SecretKey,
      webhooks := [{ Name := "mwc", Typ := WebhookType.Mutating }] }
    (simRStart (some validSecret) [("mwc", terminatingMWC)]) validSecret _ rfl rfl rfl
    (by
      intro pre w post hw
      cases pre with
      | nil =>
        simp only [List.nil_append, List.cons.injEq] at hw
        obtain ⟨hw1, _⟩ := hw
        subst hw1
        exact Or.inr ⟨terminatingMWC, rfl, rfl⟩
      | cons a pre2 =>
        simp only [List.cons_append, List.cons.injEq] at hw
        have h2 := hw.2
        cases pre2 <;> simp at h2)
  ⟨h.1, h.2.1, h.2.2.2⟩

/-- Claim C27. Only the owned secret key is reconciled: for a request whose key differs
from `secretKey` in namespace or in name, `Reconcile` returns the empty result with a nil
error and leaves the whole state as it was: no call of the client (no Get, no Update)
and no store into `wasCAInjected`. -/
theorem Reconcile_ignores_other_keys {σ : Type} (env : Env σ) (wenv : WHEnv σ)
    (r : ReconcileWH) (request : NamespacedName) (st : RSt σ)
    (h : request.Namespace ≠ r.secretKey.Namespace ∨ request.Name ≠ r.secretKey.Name) :
    (Reconcile env wenv r request st).1 = ({ Requeue := false }, none) ∧
      (Reconcile env wenv r request st).2.ext = st.ext ∧
      (Reconcile env wenv r request st).2.trace = st.trace ∧
      (Reconcile env wenv r request st).2.wasCAInjected = st.wasCAInjected := by
  have hne : request ≠ r.secretKey := by
    intro heq
    rcases h with h | h
    · exact h (congrArg NamespacedName.Namespace heq)
    · exact h (congrArg NamespacedName.Name heq)
  rw [Reconcile_other env wenv r request st hne]
  exact ⟨rfl, rfl, rfl, rfl⟩

/-- Witness for C27: a request for another secret of the same namespace. -/
theorem Reconcile_ignores_other_keys_witness :
    (Reconcile (liftEnv simOK) (simWH noFault noFault) simReconciler
      { Namespace := "system", Name := "other" }
      (simRStart (some validSecret) sampleHooks)).1 = ({ Requeue := false }, none) ∧
    (Reconcile (liftEnv simOK) (simWH noFault noFault) simReconciler
      { Namespace := "system", Name := "other" }
      (simRStart (some validSecret) sampleHooks)).2.trace = [] :=
  ⟨(Reconcile_ignores_other_keys (liftEnv simOK) (simWH noFault noFault) simReconciler
      { Namespace := "system", Name := "other" } (simRStart (some validSecret) sampleHooks)
      (Or.inr (by decide))).1,
    (Reconcile_ignores_other_keys (liftEnv simOK) (simWH noFault noFault) simReconciler
      { Namespace := "system", Name := "other" } (simRStart (some validSecret) sampleHooks)
      (Or.inr (by decide))).2.2.1⟩

/-! ## Injection that fails -/

theorem SetNestedField_clientConfig_error (hook : JSONMap) (value : Value) (c : Value)
    (h : objLookup hook "clientConfig" = some c) (hc : ∀ cc, c ≠ Value.map cc) :
    ∃ err, SetNestedField hook value ["clientConfig", "caBundle"] = Except.error err := by
  rw [SetNestedField_cons, h]
  cases c with
  | map cc => exact absurd rfl (hc cc)
  | null => exact ⟨_, rfl⟩
  | bool b => exact ⟨_, rfl⟩
  | num n => exact ⟨_, rfl⟩
  | str t => exact ⟨_, rfl⟩
  | list l => exact ⟨_, rfl⟩

/-- The loop over the working copy fails exactly when the list holds a bad entry. -/
theorem injectHooks_error_iff (caBundle : String) (hooks : List Value) (i : Nat) :
    (∃ err, injectHooks caBundle i hooks = Except.error err) ↔ ∃ h, h ∈ hooks ∧ badHook h := by
  constructor
  · rintro ⟨err, herr⟩
    by_contra hno
    have hgood : ∀ h, h ∈ hooks → ∃ m, h = Value.map m ∧
        (objLookup m "clientConfig" = none ∨
          ∃ cc, objLookup m "clientConfig" = some (Value.map cc)) := by
      intro h hh
      have hnb : ¬ badHook h := fun hb => hno ⟨h, hh, hb⟩
      unfold badHook at hnb
      push_neg at hnb
      obtain ⟨⟨m, hm⟩, hcc⟩ := hnb
      refine ⟨m, hm, ?_⟩
      cases hl : objLookup m "clientConfig" with
      | none => exact Or.inl rfl
      | some c =>
        obtain ⟨cc, hc⟩ := hcc m c hm hl
        exact Or.inr ⟨cc, by rw [hc]⟩
    obtain ⟨hooks1, hok⟩ := injectHooks_succeeds caBundle hooks i hgood
    rw [hok] at herr
    cases herr
  · rintro ⟨h, hh, hb⟩
    cases hr : injectHooks caBundle i hooks with
    | error err => exact ⟨err, rfl⟩
    | ok hooks1 =>
      exfalso
      obtain ⟨_, hall⟩ := injectHooks_ok caBundle hooks i hooks1 hr
      obtain ⟨j, hj⟩ := List.get?_of_mem hh
      obtain ⟨m, m1, hm, hs, _⟩ := hall j h hj
      rcases hb with hb | ⟨m2, c, hm2, hl, hc⟩
      · exact hb m hm
      · rw [hm] at hm2
        cases hm2
        obtain ⟨err, he⟩ := SetNestedField_clientConfig_error m (Value.str caBundle) c hl hc
        rw [he] at hs
        cases hs

/-- Claim C28. Webhook injection is atomic on error: whenever `injectCertToWebhook` returns
an error, the resource object is exactly as it was.  It returns an error exactly when the
`webhooks` field is missing, is not a list, or the list holds an entry that is not a map or
whose `clientConfig` is not a map; this is so also when the entries before the bad one
have been patched in the working copy. -/
theorem injectCertToWebhook_atomic_on_error (encode : Bytes → String) (wh : Unstructured)
    (certPem : Bytes) :
    (∀ err wh1, injectCertToWebhook encode wh certPem = (some err, wh1) → wh1 = wh) ∧
    ((∃ err, injectCertToWebhook encode wh certPem = (some err, wh)) ↔
      (objLookup wh.Object "webhooks" = none ∨
        (∃ v, objLookup wh.Object "webhooks" = some v ∧ ∀ l, v ≠ Value.list l) ∨
        ∃ hooks, objLookup wh.Object "webhooks" = some (Value.list hooks) ∧
          ∃ h, h ∈ hooks ∧ badHook h)) ∧
    (∀ pre pre1 bad post,
      objLookup wh.Object "webhooks" = some (Value.list (pre ++ bad :: post)) →
      injectHooks (encode certPem) 0 pre = Except.ok pre1 → badHook bad →
      ∃ err, injectCertToWebhook encode wh certPem = (some err, wh)) := by
  have hmain : (∃ err, injectCertToWebhook encode wh certPem = (some err, wh)) ↔
      (objLookup wh.Object "webhooks" = none ∨
        (∃ v, objLookup wh.Object "webhooks" = some v ∧ ∀ l, v ≠ Value.list l) ∨
        ∃ hooks, objLookup wh.Object "webhooks" = some (Value.list hooks) ∧
          ∃ h, h ∈ hooks ∧ badHook h) := by
    unfold injectCertToWebhook
    rw [NestedSlice_webhooks]
    cases hl : objLookup wh.Object "webhooks" with
    | none => exact ⟨fun _ => Or.inl rfl, fun _ => ⟨_, rfl⟩⟩
    | some w =>
      cases w with
      | list hooks =>
        dsimp only
        constructor
        · rintro ⟨err, herr⟩
          refine Or.inr (Or.inr ⟨hooks, rfl, ?_⟩)
          rw [← injectHooks_error_iff (encode certPem) hooks 0]
          cases hi : injectHooks (encode certPem) 0 hooks with
          | error e => exact ⟨e, rfl⟩
          | ok hooks1 =>
            rw [hi] at herr
            dsimp only [SetNestedSlice] at herr
            rw [SetNestedField_single] at herr
            cases herr
        · rintro (h | ⟨v, h, hv⟩ | ⟨hooks2, h, hbad⟩)
          · cases h
          · cases h
            exact absurd rfl (hv hooks)
          · cases h
            obtain ⟨err, herr⟩ := (injectHooks_error_iff (encode certPem) hooks 0).2 hbad
            rw [herr]
            exact ⟨err, rfl⟩
      | null =>
        exact ⟨fun _ => Or.inr (Or.inl ⟨_, rfl, fun l h => by cases h⟩), fun _ => ⟨_, rfl⟩⟩
      | bool b =>
        exact ⟨fun _ => Or.inr (Or.inl ⟨_, rfl, fun l h => by cases h⟩), fun _ => ⟨_, rfl⟩⟩
      | num n =>
        exact ⟨fun _ => Or.inr (Or.inl ⟨_, rfl, fun l h => by cases h⟩), fun _ => ⟨_, rfl⟩⟩
      | str t =>
        exact ⟨fun _ => Or.inr (Or.inl ⟨_, rfl, fun l h => by cases h⟩), fun _ => ⟨_, rfl⟩⟩
      | map m =>
        exact ⟨fun _ => Or.inr (Or.inl ⟨_, rfl, fun l h => by cases h⟩), fun _ => ⟨_, rfl⟩⟩
  refine ⟨?_, hmain, ?_⟩
  · intro err wh1 h
    unfold injectCertToWebhook at h
    cases hn : NestedSlice wh.Object ["webhooks"] with
    | failed e => rw [hn] at h; cases h; rfl
    | missing => rw [hn] at h; cases h; rfl
    | found hooks =>
      rw [hn] at h
      dsimp only at h
      cases hi : injectHooks (encode certPem) 0 hooks with
      | error e => rw [hi] at h; cases h; rfl
      | ok hooks1 =>
        rw [hi] at h
        dsimp only [SetNestedSlice] at h
        rw [SetNestedField_single] at h
        cases h
  · intro pre pre1 bad post hl _ hbad
    exact hmain.2 (Or.inr (Or.inr ⟨_, hl, bad, by simp, hbad⟩))

/-- Witness for C28: the first entry is patched in the working copy, the second entry is
not a map; the call fails and the object is as it was. -/
theorem injectCertToWebhook_atomic_on_error_witness :
    (injectHooks (simEncode [65, 66]) 0
        [Value.map [("name", Value.str "a.example"),
          ("clientConfig", Value.map [("url", Value.str "https://a")])]] =
      Except.ok [Value.map [("clientConfig", Value.map [("caBundle", Value.str "b64:AB"),
          ("url", Value.str "https://a")]), ("name", Value.str "a.example")]]) ∧
    ∃ err, injectCertToWebhook simEncode brokenVWC [65, 66] = (some err, brokenVWC) :=
  ⟨rfl, (injectCertToWebhook_atomic_on_error simEncode brokenVWC [65, 66]).2.2
    [Value.map [("name", Value.str "a.example"),
      ("clientConfig", Value.map [("url", Value.str "https://a")])]]
    _ (Value.str "b.example") [] rfl rfl (Or.inl (fun m h => by cases h))⟩

/-! ## The mappers of the watches -/

/-- Claim C24. Consumer changes trigger the reconciliation of the secret: `mapper.Map`
returns exactly the one request for `secretKey` when namespace and name of the object are
those of `whKey`, and no request otherwise; `addController` registers one watch per declared
webhook, in order, on the kind of the webhook and with a mapper for the empty namespace and
the name of the webhook, so that the declared consumer maps to the secret key and every
namespaced or differently named object maps to nothing. -/
theorem mapper_Map_spec (r : ReconcileWH) :
    (∀ (m : mapper) (object : MapObject),
      (object.Namespace = m.whKey.Namespace ∧ object.Name = m.whKey.Name →
        m.Map object = [m.secretKey]) ∧
      (¬ (object.Namespace = m.whKey.Namespace ∧ object.Name = m.whKey.Name) →
        m.Map object = [])) ∧
    (addController r).length = r.webhooks.length ∧
    (∀ (i : Nat) (webhook : WebhookInfo), r.webhooks.get? i = some webhook →
      ∃ watch, (addController r).get? i = some watch ∧ watch.gvk = webhook.gvk ∧
        watch.ToRequests.secretKey = r.secretKey ∧
        watch.ToRequests.whKey = { Namespace := "", Name := webhook.Name } ∧
        watch.ToRequests.Map { Namespace := "", Name := webhook.Name } = [r.secretKey] ∧
        ∀ object : MapObject, object.Namespace ≠ "" ∨ object.Name ≠ webhook.Name →
          watch.ToRequests.Map object = []) := by
  have hmap : ∀ (m : mapper) (object : MapObject),
      (object.Namespace = m.whKey.Namespace ∧ object.Name = m.whKey.Name →
        m.Map object = [m.secretKey]) ∧
      (¬ (object.Namespace = m.whKey.Namespace ∧ object.Name = m.whKey.Name) →
        m.Map object = []) := by
    intro m object
    unfold mapper.Map
    constructor
    · rintro ⟨h1, h2⟩
      rw [if_neg (fun h => h h1), if_neg (fun h => h h2)]
    · intro h
      by_cases h1 : object.Namespace = m.whKey.Namespace
      · have h2 : object.Name ≠ m.whKey.Name := fun h2 => h ⟨h1, h2⟩
        rw [if_neg (fun h => h h1), if_pos h2]
      · rw [if_pos h1]
  refine ⟨hmap, by simp [addController], ?_⟩
  intro i webhook hi
  refine ⟨{ gvk := webhook.gvk,
            ToRequests := { secretKey := r.secretKey,
                            whKey := { Namespace := "", Name := webhook.Name } } },
    ?_, rfl, rfl, rfl, ?_, ?_⟩
  · unfold addController
    rw [List.get?_eq_getElem?, List.getElem?_map, ← List.get?_eq_getElem?, hi]
    rfl
  · exact (hmap _ _).1 ⟨rfl, rfl⟩
  · intro object hne
    apply (hmap _ _).2
    rintro ⟨h1, h2⟩
    rcases hne with hne | hne
    · exact hne h1
    · exact hne h2

/-- Witness for C24: the watch of the second declared consumer maps that consumer to the
secret key and an object of that name in a namespace to nothing. -/
theorem mapper_Map_spec_witness :
    ∃ watch, (addController simReconciler).get? 1 = some watch ∧
      watch.ToRequests.Map { Namespace := "", Name := "mwc" } = [simRotator.SecretKey] ∧
      watch.ToRequests.Map { Namespace := "system", Name := "mwc" } = [] :=
  (((mapper_Map_spec simReconciler).2.2 1 { Name := "mwc", Typ := WebhookType.Mutating }
    rfl)).imp (fun _ h => ⟨h.1, h.2.2.2.2.1, h.2.2.2.2.2 _ (Or.inl (by decide))⟩)

/-! ## Generated CA: storage round trip and validity window -/

/-- Claim C22. Storage round trip of CA artifacts: under the library contract, for the
artifacts `ca` returned by `createCACert` and every leaf certificate and key,
`buildArtifactsFromSecret` on the secret filled by `populateSecret` succeeds and returns
`ca` itself: the same `CertPEM` and `KeyPEM`, and as parsed certificate and key `ca.Cert`
and `ca.Key`; so `validCert` answers on the parsed artifacts as on the original. -/
theorem stored_ca_round_trip {σ : Type} (env : Env σ) (hc : CryptoContract env)
    (cr : CertRotator) (st st1 : St σ) (ca : KeyPairArtifacts)
    (hca : createCACert env cr st = (Except.ok ca, st1)) (cert key : Bytes)
    (secret : Secret) :
    buildArtifactsFromSecret env (populateSecret cert key ca secret) = Except.ok ca ∧
    ∀ ca2, buildArtifactsFromSecret env (populateSecret cert key ca secret) = Except.ok ca2 →
      ca2.CertPEM = ca.CertPEM ∧ ca2.KeyPEM = ca.KeyPEM ∧ ca2.Cert = ca.Cert ∧
      ca2.Key = ca.Key ∧
      ∀ (caCert leaf leafKey : Bytes) (dnsName : String) (atTime : Time),
        validCert env ca2.CertPEM ca2.CertPEM ca2.KeyPEM dnsName atTime =
          validCert env ca.CertPEM ca.CertPEM ca.KeyPEM dnsName atTime ∧
        (caCert = ca2.CertPEM → validCert env caCert leaf leafKey dnsName atTime =
          validCert env ca.CertPEM leaf leafKey dnsName atTime) := by
  obtain ⟨der, w, w1, _, hpc, hpk, hparse⟩ := createCACert_ok env cr st st1 ca hca
  obtain ⟨_, hd1⟩ := hc.pem_roundtrip _ _ hpc
  obtain ⟨_, hd2⟩ := hc.pem_roundtrip _ _ hpk
  have hbuild : buildArtifactsFromSecret env (populateSecret cert key ca secret) =
      Except.ok ca := by
    unfold buildArtifactsFromSecret
    rw [mapLookup_populateSecret_caCert, mapLookup_populateSecret_caKey]
    dsimp only
    rw [hd1]
    dsimp only
    rw [hparse]
    dsimp only
    rw [hd2]
    dsimp only
    rw [hc.key_roundtrip]
  refine ⟨hbuild, ?_⟩
  intro ca2 h2
  rw [hbuild] at h2
  cases h2
  exact ⟨rfl, rfl, rfl, rfl, fun caCert leaf leafKey dnsName atTime =>
    ⟨rfl, fun h => by rw [h]⟩⟩

/-- Witness for C22: the CA that the simulated rotator generates is read back from the
secret it is stored in. -/
theorem stored_ca_round_trip_witness :
    ∃ ca st1, createCACert simOK simRotator (simStart (some emptySecret)) =
        (Except.ok ca, st1) ∧
      buildArtifactsFromSecret simOK (populateSecret [1, 9] [2, 8] ca emptySecret) =
        Except.ok ca :=
  ⟨_, _, rfl, (stored_ca_round_trip simOK simOK_contract simRotator
    (simStart (some emptySecret)) _ _ rfl [1, 9] [2, 8] emptySecret).1⟩

theorem certValidityDuration_hours : certValidityDuration = 87600 * Hour := by
  unfold certValidityDuration
  ring

theorem lookaheadTime_fst {σ : Type} (env : Env σ) (st : St σ) :
    (lookaheadTime env st).1 = (timeNow env st).1 + 90 * 24 * Hour := rfl

/-- Under the library contract a CA made by `createCACert` at instant `now`, for a CA name
that host name verification accepts, passes `validCert` at every instant from `NotBefore`
of its template to `NotAfter` of its template in whole seconds. -/
theorem generated_ca_valid_at {σ : Type} (env : Env σ) (hostOK : String → Prop)
    (hc : CryptoContract env) (hv : VerifyContract env hostOK)
    (cr : CertRotator) (hname : hostOK cr.CAName)
    (now atTime : Time) (ca : KeyPairArtifacts) (der : Bytes) (w w1 : σ)
    (hcreate : env.x509_CreateCertificate (caTemplate cr now) (caTemplate cr now)
      ca.Key.Public ca.Key w = (Except.ok der, w1))
    (hpc : env.pem_Encode { Typ := "CERTIFICATE", Bytes := der } = Except.ok ca.CertPEM)
    (hpk : env.pem_Encode
      { Typ := "RSA PRIVATE KEY", Bytes := env.x509_MarshalPKCS1PrivateKey ca.Key }
      = Except.ok ca.KeyPEM)
    (hparse : env.x509_ParseCertificate der = Except.ok ca.Cert)
    (h1 : now + (-1) * Hour ≤ atTime)
    (h2 : atTime ≤ floorSecond (now + certValidityDuration)) :
    (validCert env ca.CertPEM ca.CertPEM ca.KeyPEM cr.CAName atTime).1 = true := by
  obtain ⟨hne1, hd1⟩ := hc.pem_roundtrip _ _ hpc
  obtain ⟨hne2, -⟩ := hc.pem_roundtrip _ _ hpk
  have hpair := hc.created_pairs _ _ _ _ _ _ _ _ _ hcreate hpc hpk
  have hver := hv.verify_self (caTemplate cr now) ca.Cert ca.Key w w1 der cr.CAName
    atTime hcreate hparse h1 h2 (by simp [caTemplate]) hname (Or.inl rfl)
  rw [validCert_true_iff]
  exact ⟨hne1, hne1, hne2, _, _, _, _, hd1, hparse, hpair, hd1, hparse, hver⟩

/-- Under the library contract a CA made by `createCACert` at instant `now` fails
`validCert` at every instant after the end of its validity in whole seconds. -/
theorem generated_ca_expired {σ : Type} (env : Env σ) (hostOK : String → Prop)
    (hc : CryptoContract env) (hv : VerifyContract env hostOK)
    (cr : CertRotator) (now atTime : Time) (ca : KeyPairArtifacts) (der : Bytes) (w w1 : σ)
    (hcreate : env.x509_CreateCertificate (caTemplate cr now) (caTemplate cr now)
      ca.Key.Public ca.Key w = (Except.ok der, w1))
    (hpc : env.pem_Encode { Typ := "CERTIFICATE", Bytes := der } = Except.ok ca.CertPEM)
    (hparse : env.x509_ParseCertificate der = Except.ok ca.Cert)
    (h : floorSecond (now + certValidityDuration) < atTime) :
    (validCert env ca.CertPEM ca.CertPEM ca.KeyPEM cr.CAName atTime).1 = false := by
  obtain ⟨_, hd1⟩ := hc.pem_roundtrip _ _ hpc
  cases hvc : (validCert env ca.CertPEM ca.CertPEM ca.KeyPEM cr.CAName atTime).1 with
  | false => rfl
  | true =>
    exfalso
    obtain ⟨-, -, -, caDer, cac, b, crt, hd, hp, -, hd2, hp2, hver⟩ :=
      (validCert_true_iff env ca.CertPEM ca.CertPEM ca.KeyPEM cr.CAName atTime).1 hvc
    rw [hd1] at hd2
    cases hd2
    rw [hparse] at hp2
    cases hp2
    obtain ⟨e, he⟩ := hv.rejects_outside (caTemplate cr now) (caTemplate cr now) ca.Cert
      ca.Key.Public ca.Key
      w w1 der { DNSName := cr.CAName, Roots := [cac], CurrentTime := atTime } hcreate hparse
      (Or.inr h)
    rw [he] at hver
    cases hver

theorem simOffBeat_contract : CryptoContract simOffBeat where
  pem_roundtrip := simOK_contract.pem_roundtrip
  key_roundtrip := simOK_contract.key_roundtrip
  created_parses := simOK_contract.created_parses
  created_pairs := simOK_contract.created_pairs

theorem simOffBeat_verify : VerifyContract simOffBeat (fun _ => True) where
  created_issuer := simOK_verify.created_issuer
  verify_self := simOK_verify.verify_self
  verify_issued := simOK_verify.verify_issued
  rejects_outside := simOK_verify.rejects_outside

/-- Claim C21, amended. Validity window against the 90-day lookahead, in whole seconds:
under the library contract and for a CA name that host name verification accepts, a CA
generated by `createCACert` at instant `t0` is made from a template with
`NotBefore = t0 - 1h` and `NotAfter = t0 + 10*365*24h`; `validCACert` run at clock time
`t ≥ t0` checks it at the instant `t + 90*24h`, returns true when `t = t0` and whenever
`t + 90*24h` is not after `t0 + 87600h` cut to the whole second, and returns false
whenever `t + 90*24h` is after `t0 + 87600h` cut to the whole second. -/
theorem generated_ca_validity_window {σ : Type} (env : Env σ) (hostOK : String → Prop)
    (hc : CryptoContract env) (hv : VerifyContract env hostOK) (cr : CertRotator)
    (hname : hostOK cr.CAName) (st st1 : St σ) (ca : KeyPairArtifacts)
    (hca : createCACert env cr st = (Except.ok ca, st1)) :
    (∃ (der : Bytes) (w w1 : σ),
      env.x509_CreateCertificate (caTemplate cr (timeNow env st).1)
        (caTemplate cr (timeNow env st).1) ca.Key.Public ca.Key w = (Except.ok der, w1) ∧
      env.x509_ParseCertificate der = Except.ok ca.Cert) ∧
    (caTemplate cr (timeNow env st).1).NotBefore = (timeNow env st).1 - 1 * Hour ∧
    (caTemplate cr (timeNow env st).1).NotAfter = (timeNow env st).1 + 10 * 365 * 24 * Hour ∧
    ∀ st2 : St σ, (timeNow env st).1 ≤ (timeNow env st2).1 →
      (validCACert env cr ca.CertPEM ca.KeyPEM st2).1 =
        (validCert env ca.CertPEM ca.CertPEM ca.KeyPEM cr.CAName
          ((timeNow env st2).1 + 90 * 24 * Hour)).1 ∧
      ((timeNow env st2).1 = (timeNow env st).1 →
        (validCACert env cr ca.CertPEM ca.KeyPEM st2).1 = true) ∧
      ((timeNow env st2).1 + 90 * 24 * Hour ≤
          floorSecond ((timeNow env st).1 + 87600 * Hour) →
        (validCACert env cr ca.CertPEM ca.KeyPEM st2).1 = true) ∧
      (floorSecond ((timeNow env st).1 + 87600 * Hour) <
          (timeNow env st2).1 + 90 * 24 * Hour →
        (validCACert env cr ca.CertPEM ca.KeyPEM st2).1 = false) := by
  obtain ⟨der, w, w1, hcreate, hpc, hpk, hparse⟩ := createCACert_ok env cr st st1 ca hca
  have hHour : (0 : Int) < Hour := by decide
  refine ⟨⟨der, w, w1, hcreate, hparse⟩, ?_, ?_, ?_⟩
  · show (timeNow env st).1 + (-1) * Hour = (timeNow env st).1 - 1 * Hour
    ring
  · show (timeNow env st).1 + certValidityDuration = (timeNow env st).1 + 10 * 365 * 24 * Hour
    rfl
  · intro st2 hge
    have hfst := validCACert_fst env cr ca.CertPEM ca.KeyPEM st2
    rw [lookaheadTime_fst] at hfst
    have htrue : (timeNow env st2).1 + 90 * 24 * Hour ≤
          floorSecond ((timeNow env st).1 + 87600 * Hour) →
        (validCACert env cr ca.CertPEM ca.KeyPEM st2).1 = true := by
      intro hle
      rw [hfst]
      apply generated_ca_valid_at env hostOK hc hv cr hname (timeNow env st).1 _ ca der w w1
        hcreate hpc hpk hparse
      · linarith
      · rw [certValidityDuration_hours]
        exact hle
    refine ⟨hfst, ?_, htrue, ?_⟩
    · intro heq
      apply htrue
      rw [heq, ← certValidityDuration_hours]
      exact lookahead_in_floor_window _
    · intro hlt
      rw [hfst]
      apply generated_ca_expired env hostOK hc hv cr (timeNow env st).1 _ ca der w w1 hcreate
        hpc hparse
      rw [certValidityDuration_hours]
      exact hlt

/-- Witness for C21: in the simulation whose clock reads half a second past the whole
second, the generated CA is valid at once, and it is no longer valid when the lookahead
instant is the end of the validity of its template, half a second past the whole second
that the certificate holds. -/
theorem generated_ca_validity_window_witness :
    (validCACert simOffBeat simRotator
      [1, 32400000000000, 315396000000000000, 1, 100, 100, 99, 97] [2, 100, 101]
      (simStart (some emptySecret))).1 = true ∧
    (validCACert simOffBeat simRotator
      [1, 32400000000000, 315396000000000000, 1, 100, 100, 99, 97] [2, 100, 101]
      { ext := { secret := some emptySecret, calls := 1, nextKey := 102 }, trace := [] }).1 =
        false :=
  have h := generated_ca_validity_window simOffBeat (fun _ => True) simOffBeat_contract
    simOffBeat_verify simRotator trivial (simStart (some emptySecret)) _ _ rfl
  ⟨(h.2.2.2 (simStart (some emptySecret)) (le_refl _)).2.1 rfl,
    (h.2.2.2 { ext := { secret := some emptySecret, calls := 1, nextKey := 102 }, trace := [] }
      (by decide)).2.2.2 (by decide)⟩

/-- Counterexample to claim C21. The clock reads `t0`, half a second past a whole second,
when the CA is generated; the certificate holds the end of its validity in whole seconds,
half a second before `t0 + 87600h`.  At the clock time `t ≥ t0` with
`t + 90*24h = t0 + 87600h` the claim has `validCACert` return true; it returns false. -/
theorem subsecond_expiry_counterexample :
    ∃ ca st1,
      createCACert simOffBeat simRotator (simStart (some emptySecret)) =
        (Except.ok ca, st1) ∧
      (timeNow simOffBeat (simStart (some emptySecret))).1 ≤
        (timeNow simOffBeat
          { ext := { secret := some emptySecret, calls := 1, nextKey := 102 },
            trace := [] }).1 ∧
      (timeNow simOffBeat
          { ext := { secret := some emptySecret, calls := 1, nextKey := 102 },
            trace := [] }).1 + 90 * 24 * Hour ≤
        (timeNow simOffBeat (simStart (some emptySecret))).1 + 87600 * Hour ∧
      (validCACert simOffBeat simRotator ca.CertPEM ca.KeyPEM
          { ext := { secret := some emptySecret, calls := 1, nextKey := 102 },
            trace := [] }).1 = false :=
  ⟨_, _, rfl, by decide, by decide, rfl⟩

/-! ## The pollers -/

theorem closesOf_append (a b : List PEvent) : closesOf (a ++ b) = closesOf a ++ closesOf b := by
  simp [closesOf, List.filterMap_append]

theorem mem_closesOf (c : Chan) (tr : List PEvent) :
    c ∈ closesOf tr ↔ PEvent.close c ∈ tr := by
  unfold closesOf
  rw [List.mem_filterMap]
  constructor
  · rintro ⟨e, he, h⟩
    cases e <;> simp at h
    subst h
    exact he
  · intro h
    exact ⟨_, h, rfl⟩

/-- The runs of a condition that makes one call per run, closes no channel and reports no
error: the loop adds the events of these calls, closes nothing, and ends without error
only after the call that reports completion. -/
theorem pollLoop_trace {σ : Type} (condition : PSt σ → (Bool × Option Err) × PSt σ)
    (good : PEvent)
    (hcond : ∀ s, ∃ ev, (condition s).2.trace = s.trace ++ [ev] ∧ closesOf [ev] = [] ∧
      (condition s).1.2 = none ∧ ((condition s).1.1 = true → ev = good)) :
    ∀ (n : Nat) (st : PSt σ), ∃ evs,
      (pollLoop n condition st).2.trace = st.trace ++ evs ∧ closesOf evs = [] ∧
      ((pollLoop n condition st).1 = none → ∃ evs0, evs = evs0 ++ [good]) := by
  intro n
  induction n with
  | zero =>
    intro st
    refine ⟨[], ?_, rfl, ?_⟩
    · rw [pollLoop]
      simp
    · rw [pollLoop]
      intro h
      cases h
  | succ n ih =>
    intro st
    obtain ⟨ev, h1, h2, h3, h4⟩ := hcond st
    rw [pollLoop]
    rcases hc : condition st with ⟨⟨done, err⟩, st1⟩
    rw [hc] at h1 h3 h4
    dsimp only at h1 h3 h4 ⊢
    subst h3
    cases done with
    | true =>
      refine ⟨[ev], ?_, h2, ?_⟩
      · simp [h1]
      · intro _
        exact ⟨[], by rw [h4 rfl]; rfl⟩
    | false =>
      obtain ⟨evs, g1, g2, g3⟩ := ih st1
      refine ⟨ev :: evs, ?_, ?_, ?_⟩
      · simp [g1, h1]
      · have : closesOf (ev :: evs) = closesOf [ev] ++ closesOf evs := by
          rw [← closesOf_append]
          rfl
        rw [this, h2, g2]
        rfl
      · intro hn
        simp only [Option.isSome_none, Bool.or_false, Bool.false_eq_true, ↓reduceIte] at hn
        obtain ⟨evs0, he⟩ := g3 hn
        exact ⟨ev :: evs0, by rw [he]; rfl⟩

theorem mountCheckFn_cond {σ : Type} (env : PollEnv σ) (cr : CertRotator) (s : PSt σ) :
    ∃ ev, (mountCheckFn env cr s).2.trace = s.trace ++ [ev] ∧ closesOf [ev] = [] ∧
      (mountCheckFn env cr s).1.2 = none ∧
      ((mountCheckFn env cr s).1.1 = true → ev = PEvent.stat (cr.CertDir ++ "/" ++ certName) none) := by
  unfold mountCheckFn
  dsimp only
  cases (env.os_Stat (cr.CertDir ++ "/" ++ certName) s.ext).1 with
  | none => exact ⟨_, rfl, rfl, rfl, fun _ => rfl⟩
  | some err => exact ⟨_, rfl, rfl, rfl, fun h => by cases h⟩

theorem injectedCheckFn_cond {σ : Type} (env : PollEnv σ) (s : PSt σ) :
    ∃ ev, (injectedCheckFn env s).2.trace = s.trace ++ [ev] ∧ closesOf [ev] = [] ∧
      (injectedCheckFn env s).1.2 = none ∧
      ((injectedCheckFn env s).1.1 = true → ev = PEvent.load true) := by
  unfold injectedCheckFn
  dsimp only
  refine ⟨_, rfl, rfl, rfl, ?_⟩
  intro h
  rw [h]

/-- The two ways of `ensureCertsMounted`: the file is seen and `certsMounted` is closed, or
the polling runs out and `certsNotMounted` is closed; each as the last action. -/
theorem ensureCertsMounted_trace {σ : Type} (env : PollEnv σ) (cr : CertRotator)
    (st : PSt σ) :
    ((pollLoop pollBackoff.Steps (mountCheckFn env cr) st).1 = none ∧
      ∃ a, (ensureCertsMounted env cr st).trace =
          st.trace ++ (a ++ [PEvent.stat (cr.CertDir ++ "/" ++ certName) none,
            PEvent.info ("certs are ready in " ++ cr.CertDir),
            PEvent.close Chan.certsMounted]) ∧
        closesOf a = []) ∨
    (∃ err, (pollLoop pollBackoff.Steps (mountCheckFn env cr) st).1 = some err ∧
      ∃ a, (ensureCertsMounted env cr st).trace =
          st.trace ++ (a ++ [PEvent.error err "max retries for checking certs existence",
            PEvent.close Chan.certsNotMounted]) ∧
        closesOf a = []) := by
  obtain ⟨evs, h1, h2, h3⟩ := pollLoop_trace (mountCheckFn env cr)
    (PEvent.stat (cr.CertDir ++ "/" ++ certName) none) (mountCheckFn_cond env cr)
    pollBackoff.Steps st
  unfold ensureCertsMounted
  rcases hp : pollLoop pollBackoff.Steps (mountCheckFn env cr) st with ⟨res, st1⟩
  rw [hp] at h1 h3
  dsimp only at h1 h3
  cases res with
  | none =>
    obtain ⟨evs0, he⟩ := h3 rfl
    subst he
    refine Or.inl ⟨rfl, evs0, ?_, ?_⟩
    · simp [pemit, h1]
    · rw [closesOf_append] at h2
      exact (List.append_eq_nil.1 h2).1
  | some err =>
    refine Or.inr ⟨err, rfl, evs, ?_, h2⟩
    simp [pemit, h1]

/-- The two ways of `ensureReady` once its receive has returned: the flag is read as true
and `IsReady` is closed, or the polling runs out and `caNotInjected` is closed; each as
the last action. -/
theorem ensureReady_trace {σ : Type} (env : PollEnv σ) (cr : CertRotator) (st : PSt σ) :
    ((pollLoop pollBackoff.Steps (injectedCheckFn env)
        (pemit (PEvent.recv Chan.certsMounted) st)).1 = none ∧
      ∃ b, (ensureReady env cr st).trace =
        st.trace ++ (PEvent.recv Chan.certsMounted :: b ++ [PEvent.load true,
          PEvent.info "CA certs are injected to webhooks", PEvent.close Chan.IsReady]) ∧
      closesOf b = []) ∨
    (∃ err, (pollLoop pollBackoff.Steps (injectedCheckFn env)
        (pemit (PEvent.recv Chan.certsMounted) st)).1 = some err ∧
      ∃ b, (ensureReady env cr st).trace =
        st.trace ++ (PEvent.recv Chan.certsMounted :: b ++
          [PEvent.error err "max retries for checking CA injection",
            PEvent.close Chan.caNotInjected]) ∧
      closesOf b = []) := by
  obtain ⟨evs, h1, h2, h3⟩ := pollLoop_trace (injectedCheckFn env) (PEvent.load true)
    (injectedCheckFn_cond env) pollBackoff.Steps (pemit (PEvent.recv Chan.certsMounted) st)
  unfold ensureReady
  rcases hp : pollLoop pollBackoff.Steps (injectedCheckFn env)
    (pemit (PEvent.recv Chan.certsMounted) st) with ⟨res, st1⟩
  rw [hp] at h1 h3
  dsimp only at h1 h3
  cases res with
  | none =>
    obtain ⟨evs0, he⟩ := h3 rfl
    subst he
    refine Or.inl ⟨rfl, evs0, ?_, ?_⟩
    · simp [pemit, h1]
    · rw [closesOf_append] at h2
      exact (List.append_eq_nil.1 h2).1
  | some err =>
    refine Or.inr ⟨err, rfl, evs, ?_, h2⟩
    simp [pemit, h1]

/-- The loop of a condition that reports no error and whose answer and effect on the
external state are those of a probe: it ends without error at the first probe that
answers true, within the given number of steps, and with the timeout error when every
probe answers false. -/
theorem pollLoop_probe {σ : Type} (condition : PSt σ → (Bool × Option Err) × PSt σ)
    (probe : σ → Bool × σ)
    (hcond : ∀ s, (condition s).1 = ((probe s.ext).1, none) ∧
      (condition s).2.ext = (probe s.ext).2) :
    ∀ (n : Nat) (st : PSt σ),
      (∃ i, i < n ∧ (probe (Nat.iterate (fun w => (probe w).2) i st.ext)).1 = true ∧
        (∀ j, j < i → (probe (Nat.iterate (fun w => (probe w).2) j st.ext)).1 = false) ∧
        (pollLoop n condition st).1 = none ∧
        (pollLoop n condition st).2.ext =
          Nat.iterate (fun w => (probe w).2) (i + 1) st.ext) ∨
      ((∀ j, j < n → (probe (Nat.iterate (fun w => (probe w).2) j st.ext)).1 = false) ∧
        (pollLoop n condition st).1 = some ErrWaitTimeout) := by
  intro n
  induction n with
  | zero =>
    intro st
    right
    exact ⟨fun j hj => absurd hj (Nat.not_lt_zero j), by rw [pollLoop]⟩
  | succ n ih =>
    intro st
    obtain ⟨h1, h2⟩ := hcond st
    rw [pollLoop]
    rcases hc : condition st with ⟨⟨done, err⟩, st1⟩
    rw [hc] at h1 h2
    simp only [Prod.mk.injEq] at h1 h2
    obtain ⟨hd, he⟩ := h1
    subst he
    dsimp only
    cases hdone : done with
    | true =>
      left
      rw [hdone] at hd
      refine ⟨0, Nat.succ_pos n, hd.symm, fun j hj => absurd hj (Nat.not_lt_zero j), ?_, ?_⟩
      · simp
      · simpa using h2
    | false =>
      rw [hdone] at hd
      simp only [Option.isSome_none, Bool.or_false, Bool.false_eq_true, ↓reduceIte]
      rcases ih st1 with ⟨i, hi, hs, hf, hr, hx⟩ | ⟨hf, hr⟩
      · left
        rw [h2] at hs hf hx
        refine ⟨i + 1, Nat.succ_lt_succ hi, hs, ?_, hr, hx⟩
        intro j hj
        cases j with
        | zero => exact hd.symm
        | succ j => exact hf j (Nat.lt_of_succ_lt_succ hj)
      · right
        rw [h2] at hf
        refine ⟨?_, hr⟩
        intro j hj
        cases j with
        | zero => exact hd.symm
        | succ j => exact hf j (Nat.lt_of_succ_lt_succ hj)

/-- The polling of `ensureCertsMounted` in terms of the answers of `os.Stat`: it ends
without error at the first call that finds the file, among ten calls, and with an error
when ten calls in a row fail. -/
theorem mountPoll_spec {σ : Type} (env : PollEnv σ) (cr : CertRotator) (st : PSt σ) :
    (∃ i, i < 10 ∧
      (env.os_Stat (cr.CertDir ++ "/" ++ certName) (statExt env cr i st.ext)).1 = none ∧
      (∀ j, j < i →
        (env.os_Stat (cr.CertDir ++ "/" ++ certName) (statExt env cr j st.ext)).1 ≠ none) ∧
      (pollLoop pollBackoff.Steps (mountCheckFn env cr) st).1 = none ∧
      (pollLoop pollBackoff.Steps (mountCheckFn env cr) st).2.ext =
        statExt env cr (i + 1) st.ext) ∨
    ((∀ j, j < 10 →
        (env.os_Stat (cr.CertDir ++ "/" ++ certName) (statExt env cr j st.ext)).1 ≠ none) ∧
      (pollLoop pollBackoff.Steps (mountCheckFn env cr) st).1 = some ErrWaitTimeout) := by
  have hcond : ∀ s : PSt σ, (mountCheckFn env cr s).1 =
        (((env.os_Stat (cr.CertDir ++ "/" ++ certName) s.ext).1.isNone,
          (env.os_Stat (cr.CertDir ++ "/" ++ certName) s.ext).2).1, none) ∧
      (mountCheckFn env cr s).2.ext =
        ((env.os_Stat (cr.CertDir ++ "/" ++ certName) s.ext).1.isNone,
          (env.os_Stat (cr.CertDir ++ "/" ++ certName) s.ext).2).2 := by
    intro s
    unfold mountCheckFn
    dsimp only
    cases (env.os_Stat (cr.CertDir ++ "/" ++ certName) s.ext).1 <;> exact ⟨rfl, rfl⟩
  have key := pollLoop_probe (mountCheckFn env cr)
    (fun w => ((env.os_Stat (cr.CertDir ++ "/" ++ certName) w).1.isNone,
      (env.os_Stat (cr.CertDir ++ "/" ++ certName) w).2)) hcond 10 st
  have hnone : ∀ o : Option Err, o.isNone = true ↔ o = none := by
    intro o; cases o <;> simp
  have hsome : ∀ o : Option Err, o.isNone = false ↔ o ≠ none := by
    intro o; cases o <;> simp
  rcases key with ⟨i, hi, hs, hf, hr, hx⟩ | ⟨hf, hr⟩
  · exact Or.inl ⟨i, hi, (hnone _).1 hs, fun j hj => (hsome _).1 (hf j hj), hr, hx⟩
  · exact Or.inr ⟨fun j hj => (hsome _).1 (hf j hj), hr⟩

/-- The polling of `ensureReady` in terms of the answers of the flag: it ends without error
at the first read that answers true, among ten reads, and with an error when ten reads in
a row answer false. -/
theorem injectedPoll_spec {σ : Type} (env : PollEnv σ) (st : PSt σ) :
    (∃ j, j < 10 ∧ (env.wasCAInjected_Load (loadExt env j st.ext)).1 = true ∧
      (pollLoop pollBackoff.Steps (injectedCheckFn env) st).1 = none) ∨
    ((∀ j, j < 10 → (env.wasCAInjected_Load (loadExt env j st.ext)).1 = false) ∧
      (pollLoop pollBackoff.Steps (injectedCheckFn env) st).1 = some ErrWaitTimeout) := by
  have key := pollLoop_probe (injectedCheckFn env) env.wasCAInjected_Load
    (fun s => ⟨rfl, rfl⟩) 10 st
  rcases key with ⟨i, hi, hs, -, hr, -⟩ | ⟨hf, hr⟩
  · exact Or.inl ⟨i, hi, hs, hr⟩
  · exact Or.inr ⟨hf, hr⟩

theorem ensureCertsMounted_ext {σ : Type} (env : PollEnv σ) (cr : CertRotator) (st : PSt σ) :
    (ensureCertsMounted env cr st).ext =
      (pollLoop pollBackoff.Steps (mountCheckFn env cr) st).2.ext := by
  unfold ensureCertsMounted
  rcases pollLoop pollBackoff.Steps (mountCheckFn env cr) st with ⟨res, st1⟩
  cases res <;> rfl

/-- The channels that a run of the pollers closes, by the results of the two pollings. -/
theorem pollTrace_closes {σ : Type} (env : PollEnv σ) (cr : CertRotator) (w : σ) :
    ((pollLoop pollBackoff.Steps (mountCheckFn env cr) { ext := w, trace := [] }).1 ≠ none ∧
      closesOf (pollTrace env cr w) = [Chan.certsNotMounted]) ∨
    ((pollLoop pollBackoff.Steps (mountCheckFn env cr) { ext := w, trace := [] }).1 = none ∧
      (pollLoop pollBackoff.Steps (injectedCheckFn env)
        (pemit (PEvent.recv Chan.certsMounted)
          (ensureCertsMounted env cr { ext := w, trace := [] }))).1 ≠ none ∧
      closesOf (pollTrace env cr w) = [Chan.certsMounted, Chan.caNotInjected]) ∨
    ((pollLoop pollBackoff.Steps (mountCheckFn env cr) { ext := w, trace := [] }).1 = none ∧
      (pollLoop pollBackoff.Steps (injectedCheckFn env)
        (pemit (PEvent.recv Chan.certsMounted)
          (ensureCertsMounted env cr { ext := w, trace := [] }))).1 = none ∧
      ∃ a b c, pollTrace env cr w =
          a ++ PEvent.close Chan.certsMounted ::
            (b ++ PEvent.load true :: (c ++ [PEvent.close Chan.IsReady])) ∧
        PEvent.stat (cr.CertDir ++ "/" ++ certName) none ∈ a ∧
        closesOf a = [] ∧ closesOf b = [] ∧ closesOf c = []) := by
  unfold pollTrace runPollers
  rcases ensureCertsMounted_trace env cr { ext := w, trace := [] } with
    ⟨hres, a, ha, hca⟩ | ⟨err, hres, a, ha, hca⟩
  · have hmem : Chan.certsMounted ∈
        closesOf (ensureCertsMounted env cr { ext := w, trace := [] }).trace := by
      rw [ha]
      simp [closesOf_append, hca, closesOf]
    rw [if_pos hmem]
    rcases ensureReady_trace env cr (ensureCertsMounted env cr { ext := w, trace := [] })
      with ⟨hq, b, hb, hcb⟩ | ⟨err, hq, b, hb, hcb⟩
    · refine Or.inr (Or.inr ⟨hres, hq,
        a ++ [PEvent.stat (cr.CertDir ++ "/" ++ certName) none,
        PEvent.info ("certs are ready in " ++ cr.CertDir)],
        PEvent.recv Chan.certsMounted :: b,
        [PEvent.info "CA certs are injected to webhooks"], ?_, ?_, ?_, ?_, rfl⟩)
      · rw [hb, ha]
        simp
      · simp
      · rw [closesOf_append, hca]
        rfl
      · have : closesOf (PEvent.recv Chan.certsMounted :: b) =
            closesOf [PEvent.recv Chan.certsMounted] ++ closesOf b := by
          rw [← closesOf_append]
          rfl
        rw [this, hcb]
        rfl
    · have hqn : (pollLoop pollBackoff.Steps (injectedCheckFn env)
          (pemit (PEvent.recv Chan.certsMounted)
            (ensureCertsMounted env cr { ext := w, trace := [] }))).1 ≠ none := by
        rw [hq]
        exact fun h => by cases h
      refine Or.inr (Or.inl ⟨hres, hqn, ?_⟩)
      have hsplit : PEvent.recv Chan.certsMounted :: b =
          [PEvent.recv Chan.certsMounted] ++ b := rfl
      rw [hb, ha, hsplit]
      simp only [closesOf_append, hca, hcb]
      rfl
  · have hcl : closesOf (ensureCertsMounted env cr { ext := w, trace := [] }).trace =
        [Chan.certsNotMounted] := by
      rw [ha]
      simp only [closesOf_append, hca, List.nil_append]
      rfl
    have hnot : Chan.certsMounted ∉
        closesOf (ensureCertsMounted env cr { ext := w, trace := [] }).trace := by
      rw [hcl]
      decide
    rw [if_neg hnot]
    have hne : (pollLoop pollBackoff.Steps (mountCheckFn env cr)
        { ext := w, trace := [] }).1 ≠ none := by
      rw [hres]
      exact fun h => by cases h
    exact Or.inl ⟨hne, hcl⟩

/-- Claim C23. Readiness is never signalled early: in every run of the two pollers the
channels closed are `certsNotMounted` alone, or `certsMounted` and then `IsReady`, or
`certsMounted` and then `caNotInjected`.  When `IsReady` is closed, this is the last
action of the run, after the certificate file has been seen on disk, `certsMounted` has
been closed and `wasCAInjected` has then been read as true.  When the polling for the
mount runs out, `certsNotMounted` is closed and `IsReady` never is.  So `IsReady` is closed
at most once, exactly one of `certsMounted` and `certsNotMounted` is closed, and at most
one of `IsReady` and `caNotInjected`.  In terms of the answers of the environment:
`certsMounted` is closed exactly when one of the ten calls of `os.Stat` on the certificate
file finds it, `certsNotMounted` exactly when all ten fail; `IsReady` is closed exactly
when a call of `os.Stat` finds the file and one of the ten reads of `wasCAInjected` made
after that call answers true, `caNotInjected` exactly when a call finds the file and all
ten reads after it answer false. -/
theorem readiness_never_early {σ : Type} (env : PollEnv σ) (cr : CertRotator) (w : σ) :
    (closesOf (pollTrace env cr w) = [Chan.certsNotMounted] ∨
      closesOf (pollTrace env cr w) = [Chan.certsMounted, Chan.IsReady] ∨
      closesOf (pollTrace env cr w) = [Chan.certsMounted, Chan.caNotInjected]) ∧
    (PEvent.close Chan.IsReady ∈ pollTrace env cr w →
      ∃ a b c, pollTrace env cr w =
          a ++ PEvent.close Chan.certsMounted ::
            (b ++ PEvent.load true :: (c ++ [PEvent.close Chan.IsReady])) ∧
        PEvent.stat (cr.CertDir ++ "/" ++ certName) none ∈ a ∧
        closesOf a = [] ∧ closesOf b = [] ∧ closesOf c = []) ∧
    ((pollLoop pollBackoff.Steps (mountCheckFn env cr) { ext := w, trace := [] }).1 ≠ none →
      closesOf (pollTrace env cr w) = [Chan.certsNotMounted] ∧
      PEvent.close Chan.IsReady ∉ pollTrace env cr w) ∧
    (closesOf (pollTrace env cr w)).count Chan.IsReady ≤ 1 ∧
    (closesOf (pollTrace env cr w)).count Chan.certsMounted +
      (closesOf (pollTrace env cr w)).count Chan.certsNotMounted = 1 ∧
    (closesOf (pollTrace env cr w)).count Chan.IsReady +
      (closesOf (pollTrace env cr w)).count Chan.caNotInjected ≤ 1 ∧
    (PEvent.close Chan.certsMounted ∈ pollTrace env cr w ↔
      ∃ i, i < 10 ∧
        (env.os_Stat (cr.CertDir ++ "/" ++ certName) (statExt env cr i w)).1 = none) ∧
    (PEvent.close Chan.certsNotMounted ∈ pollTrace env cr w ↔
      ∀ i, i < 10 →
        (env.os_Stat (cr.CertDir ++ "/" ++ certName) (statExt env cr i w)).1 ≠ none) ∧
    (PEvent.close Chan.IsReady ∈ pollTrace env cr w ↔
      ∃ i, i < 10 ∧
        (env.os_Stat (cr.CertDir ++ "/" ++ certName) (statExt env cr i w)).1 = none ∧
        (∀ k, k < i →
          (env.os_Stat (cr.CertDir ++ "/" ++ certName) (statExt env cr k w)).1 ≠ none) ∧
        ∃ j, j < 10 ∧
          (env.wasCAInjected_Load (loadExt env j (statExt env cr (i + 1) w))).1 = true) ∧
    (PEvent.close Chan.caNotInjected ∈ pollTrace env cr w ↔
      ∃ i, i < 10 ∧
        (env.os_Stat (cr.CertDir ++ "/" ++ certName) (statExt env cr i w)).1 = none ∧
        (∀ k, k < i →
          (env.os_Stat (cr.CertDir ++ "/" ++ certName) (statExt env cr k w)).1 ≠ none) ∧
        ∀ j, j < 10 →
          (env.wasCAInjected_Load (loadExt env j (statExt env cr (i + 1) w))).1 = false) := by
  have hready : ∀ a b c, pollTrace env cr w =
        a ++ PEvent.close Chan.certsMounted ::
          (b ++ PEvent.load true :: (c ++ [PEvent.close Chan.IsReady])) →
      closesOf a = [] → closesOf b = [] → closesOf c = [] →
      closesOf (pollTrace env cr w) = [Chan.certsMounted, Chan.IsReady] := by
    intro a b c h ha hb hc
    have hsplit : a ++ PEvent.close Chan.certsMounted ::
        (b ++ PEvent.load true :: (c ++ [PEvent.close Chan.IsReady])) =
        a ++ ([PEvent.close Chan.certsMounted] ++ (b ++ ([PEvent.load true] ++
          (c ++ [PEvent.close Chan.IsReady])))) := rfl
    rw [h, hsplit]
    simp only [closesOf_append, ha, hb, hc]
    rfl
  -- the least index of a call that finds the file is unique
  have huniq : ∀ i i2 : Nat,
      (env.os_Stat (cr.CertDir ++ "/" ++ certName) (statExt env cr i w)).1 = none →
      (∀ k, k < i →
        (env.os_Stat (cr.CertDir ++ "/" ++ certName) (statExt env cr k w)).1 ≠ none) →
      (env.os_Stat (cr.CertDir ++ "/" ++ certName) (statExt env cr i2 w)).1 = none →
      (∀ k, k < i2 →
        (env.os_Stat (cr.CertDir ++ "/" ++ certName) (statExt env cr k w)).1 ≠ none) →
      i = i2 := by
    intro i i2 h1 h2 h3 h4
    rcases Nat.lt_trichotomy i i2 with h | h | h
    · exact absurd h1 (h4 i h)
    · exact h
    · exact absurd h3 (h2 i2 h)
  have hmount := mountPoll_spec env cr { ext := w, trace := [] }
  have hinj := injectedPoll_spec env (pemit (PEvent.recv Chan.certsMounted)
    (ensureCertsMounted env cr { ext := w, trace := [] }))
  have hext : (pemit (PEvent.recv Chan.certsMounted)
      (ensureCertsMounted env cr { ext := w, trace := [] })).ext =
      (pollLoop pollBackoff.Steps (mountCheckFn env cr) { ext := w, trace := [] }).2.ext :=
    ensureCertsMounted_ext env cr { ext := w, trace := [] }
  rw [hext] at hinj
  simp only [← mem_closesOf]
  rcases pollTrace_closes env cr w with
    ⟨hres, hcl⟩ | ⟨hres, hq, hcl⟩ | ⟨hres, hq, a, b, c, htr, hst, ha, hb, hc⟩
  · -- the mount polling ran out
    have hall : ∀ i, i < 10 →
        (env.os_Stat (cr.CertDir ++ "/" ++ certName) (statExt env cr i w)).1 ≠ none := by
      rcases hmount with ⟨i, -, -, -, hr, -⟩ | ⟨hf, -⟩
      · exact absurd hr hres
      · exact hf
    have hnr : Chan.IsReady ∉ closesOf (pollTrace env cr w) := by
      rw [hcl]
      decide
    refine ⟨Or.inl hcl, fun h => absurd h hnr, fun _ => ⟨hcl, hnr⟩, ?_, ?_, ?_, ?_, ?_, ?_,
      ?_⟩
    · rw [hcl]; decide
    · rw [hcl]; decide
    · rw [hcl]; decide
    · rw [hcl]
      constructor
      · intro h
        exact absurd h (by decide)
      · rintro ⟨i, hi, hs⟩
        exact absurd hs (hall i hi)
    · rw [hcl]
      exact ⟨fun _ => hall, fun _ => by decide⟩
    · rw [hcl]
      constructor
      · intro h
        exact absurd h (by decide)
      · rintro ⟨i, hi, hs, -⟩
        exact absurd hs (hall i hi)
    · rw [hcl]
      constructor
      · intro h
        exact absurd h (by decide)
      · rintro ⟨i, hi, hs, -⟩
        exact absurd hs (hall i hi)
  · -- the file was found and the polling for the flag ran out
    obtain ⟨i, hi, hs, hf, hx⟩ : ∃ i, i < 10 ∧
        (env.os_Stat (cr.CertDir ++ "/" ++ certName) (statExt env cr i w)).1 = none ∧
        (∀ k, k < i →
          (env.os_Stat (cr.CertDir ++ "/" ++ certName) (statExt env cr k w)).1 ≠ none) ∧
        (pollLoop pollBackoff.Steps (mountCheckFn env cr) { ext := w, trace := [] }).2.ext =
          statExt env cr (i + 1) w := by
      rcases hmount with ⟨i, hi, hs, hf, -, hx⟩ | ⟨-, hr⟩
      · exact ⟨i, hi, hs, hf, hx⟩
      · rw [hres] at hr
        cases hr
    rw [hx] at hinj
    have hallq : ∀ j, j < 10 →
        (env.wasCAInjected_Load (loadExt env j (statExt env cr (i + 1) w))).1 = false := by
      rcases hinj with ⟨j, -, -, hr⟩ | ⟨hfq, -⟩
      · exact absurd hr hq
      · exact hfq
    have hnr : Chan.IsReady ∉ closesOf (pollTrace env cr w) := by
      rw [hcl]
      decide
    refine ⟨Or.inr (Or.inr hcl), fun h => absurd h hnr, fun h => absurd hres h, ?_, ?_, ?_,
      ?_, ?_, ?_, ?_⟩
    · rw [hcl]; decide
    · rw [hcl]; decide
    · rw [hcl]; decide
    · rw [hcl]
      exact ⟨fun _ => ⟨i, hi, hs⟩, fun _ => by decide⟩
    · rw [hcl]
      constructor
      · intro h
        exact absurd h (by decide)
      · intro h
        exact absurd hs (h i hi)
    · rw [hcl]
      constructor
      · intro h
        exact absurd h (by decide)
      · rintro ⟨i2, hi2, hs2, hf2, j, hj, hl⟩
        have := huniq i i2 hs hf hs2 hf2
        subst this
        rw [hallq j hj] at hl
        cases hl
    · rw [hcl]
      exact ⟨fun _ => ⟨i, hi, hs, hf, hallq⟩, fun _ => by decide⟩
  · -- the file was found and the flag was read as true
    have hcl := hready a b c htr ha hb hc
    obtain ⟨i, hi, hs, hf, hx⟩ : ∃ i, i < 10 ∧
        (env.os_Stat (cr.CertDir ++ "/" ++ certName) (statExt env cr i w)).1 = none ∧
        (∀ k, k < i →
          (env.os_Stat (cr.CertDir ++ "/" ++ certName) (statExt env cr k w)).1 ≠ none) ∧
        (pollLoop pollBackoff.Steps (mountCheckFn env cr) { ext := w, trace := [] }).2.ext =
          statExt env cr (i + 1) w := by
      rcases hmount with ⟨i, hi, hs, hf, -, hx⟩ | ⟨-, hr⟩
      · exact ⟨i, hi, hs, hf, hx⟩
      · rw [hres] at hr
        cases hr
    rw [hx] at hinj
    obtain ⟨j, hj, hl⟩ : ∃ j, j < 10 ∧
        (env.wasCAInjected_Load (loadExt env j (statExt env cr (i + 1) w))).1 = true := by
      rcases hinj with ⟨j, hj, hl, -⟩ | ⟨-, hr⟩
      · exact ⟨j, hj, hl⟩
      · rw [hq] at hr
        cases hr
    refine ⟨Or.inr (Or.inl hcl), fun _ => ⟨a, b, c, htr, hst, ha, hb, hc⟩,
      fun h => absurd hres h, ?_, ?_, ?_, ?_, ?_, ?_, ?_⟩
    · rw [hcl]; decide
    · rw [hcl]; decide
    · rw [hcl]; decide
    · rw [hcl]
      exact ⟨fun _ => ⟨i, hi, hs⟩, fun _ => by decide⟩
    · rw [hcl]
      constructor
      · intro h
        exact absurd h (by decide)
      · intro h
        exact absurd hs (h i hi)
    · rw [hcl]
      exact ⟨fun _ => ⟨i, hi, hs, hf, j, hj, hl⟩, fun _ => by decide⟩
    · rw [hcl]
      constructor
      · intro h
        exact absurd h (by decide)
      · rintro ⟨i2, hi2, hs2, hf2, hall⟩
        have := huniq i i2 hs hf hs2 hf2
        subst this
        rw [hall j hj] at hl
        cases hl

/-- Witness for C23: the file appears at the third stat and the flag is set from the
seventh call on; the run closes `certsMounted` and then `IsReady`.  When the file never
appears the run closes `certsNotMounted`; when the flag is never set it does not close
`IsReady`. -/
theorem readiness_never_early_witness :
    closesOf (pollTrace (simPoll 2 6) simRotator 0) = [Chan.certsMounted, Chan.IsReady] ∧
    closesOf (pollTrace (simPoll 20 0) simRotator 0) = [Chan.certsNotMounted] ∧
    (closesOf (pollTrace (simPoll 2 6) simRotator 0)).count Chan.IsReady ≤ 1 ∧
    PEvent.close Chan.IsReady ∈ pollTrace (simPoll 2 6) simRotator 0 ∧
    PEvent.close Chan.IsReady ∉ pollTrace (simPoll 2 100) simRotator 0 :=
  ⟨by rfl, ((readiness_never_early (simPoll 20 0) simRotator 0).2.2.1 (by decide)).1,
    (readiness_never_early (simPoll 2 6) simRotator 0).2.2.2.1,
    (readiness_never_early (simPoll 2 6) simRotator 0).2.2.2.2.2.2.2.2.1.2
      ⟨2, by decide, by rfl, by decide, 3, by decide, by rfl⟩,
    fun h => by
      obtain ⟨i, hi, hs, hf, j, hj, hl⟩ :=
        (readiness_never_early (simPoll 2 100) simRotator 0).2.2.2.2.2.2.2.2.1.1 h
      have hl2 : decide (100 ≤ loadExt (simPoll 2 100) j
        (statExt (simPoll 2 100) simRotator (i + 1) 0)) = true := hl
      have hsx : ∀ n m : Nat, statExt (simPoll 2 100) simRotator n m = m + n := by
        intro n
        induction n with
        | zero => intro m; rfl
        | succ n ih => intro m; show statExt (simPoll 2 100) simRotator n (m + 1) = _; rw [ih]; omega
      have hlx : ∀ n m : Nat, loadExt (simPoll 2 100) n m = m + n := by
        intro n
        induction n with
        | zero => intro m; rfl
        | succ n ih => intro m; show loadExt (simPoll 2 100) n (m + 1) = _; rw [ih]; omega
      rw [hlx, hsx] at hl2
      have := of_decide_eq_true hl2
      omega⟩

/-! ## The audit reporter -/

theorem lookup_filter_bne {α β : Type} [DecidableEq α] (m : List (α × β)) (k k1 : α)
    (h : k1 ≠ k) :
    List.lookup k1 (m.filter (fun p => p.1 != k)) = List.lookup k1 m := by
  induction m with
  | nil => rfl
  | cons a m ih =>
    obtain ⟨a1, a2⟩ := a
    by_cases ha : a1 = k
    · subst ha
      have h1 : (k1 == a1) = false := by simpa using h
      simp [List.filter, List.lookup, h1, ih]
    · have h2 : (a1 != k) = true := by simpa using ha
      simp only [List.filter, h2, List.lookup]
      rw [ih]

theorem lookup_filter_bne_self {α β : Type} [DecidableEq α] (m : List (α × β)) (k : α) :
    List.lookup k (m.filter (fun p => p.1 != k)) = none := by
  induction m with
  | nil => rfl
  | cons a m ih =>
    obtain ⟨a1, a2⟩ := a
    by_cases ha : a1 = k
    · subst ha
      simp [List.filter, ih]
    · have h2 : (a1 != k) = true := by simpa using ha
      have h1 : (k == a1) = false := by simpa using fun h : k = a1 => ha h.symm
      simp only [List.filter, h2, List.lookup, h1]
      exact ih

theorem lookup_assocSet_self {α β : Type} [DecidableEq α] (m : List (α × β)) (k : α) (v : β) :
    List.lookup k (assocSet m k v) = some v := by
  simp [assocSet, List.lookup]

theorem lookup_assocSet_ne {α β : Type} [DecidableEq α] (m : List (α × β)) (k k1 : α) (v : β)
    (h : k1 ≠ k) : List.lookup k1 (assocSet m k v) = List.lookup k1 m := by
  have hk : (k1 == k) = false := by simpa using h
  simp only [assocSet, List.lookup, hk]
  exact lookup_filter_bne m k k1 h

theorem keys_filter_bne {α β : Type} [DecidableEq α] (m : List (α × β)) (k : α) :
    (m.filter (fun p => p.1 != k)).map Prod.fst = (m.map Prod.fst).filter (fun a => a != k) := by
  induction m with
  | nil => rfl
  | cons a m ih =>
    by_cases ha : a.1 = k
    · simp [List.filter, ha, ih]
    · have h2 : (a.1 != k) = true := by simpa using ha
      simp [List.filter, h2, ih]

theorem nodup_assocErase {α β : Type} [DecidableEq α] (m : List (α × β)) (k : α)
    (h : (m.map Prod.fst).Nodup) : ((assocErase m k).map Prod.fst).Nodup := by
  unfold assocErase
  rw [keys_filter_bne]
  exact h.filter _

theorem nodup_assocSet {α β : Type} [DecidableEq α] (m : List (α × β)) (k : α) (v : β)
    (h : (m.map Prod.fst).Nodup) : ((assocSet m k v).map Prod.fst).Nodup := by
  unfold assocSet
  rw [List.map_cons, keys_filter_bne, List.nodup_cons]
  refine ⟨?_, h.filter _⟩
  intro hmem
  have := (List.mem_filter.1 hmem).2
  simp at this

theorem mem_of_lookup {α β : Type} [DecidableEq α] (m : List (α × β)) (k : α) (v : β)
    (h : List.lookup k m = some v) : (k, v) ∈ m := by
  induction m with
  | nil => cases h
  | cons a m ih =>
    obtain ⟨a1, a2⟩ := a
    by_cases ha : k = a1
    · subst ha
      simp [List.lookup] at h
      subst h
      exact List.mem_cons_self _ _
    · have h1 : (k == a1) = false := by simpa using ha
      simp only [List.lookup, h1] at h
      exact List.mem_cons_of_mem _ (ih h)

theorem lookup_of_mem_nodup {α β : Type} [DecidableEq α] (m : List (α × β)) (k : α) (v : β)
    (hn : (m.map Prod.fst).Nodup) (h : (k, v) ∈ m) : List.lookup k m = some v := by
  induction m with
  | nil => cases h
  | cons a m ih =>
    obtain ⟨a1, a2⟩ := a
    rw [List.map_cons, List.nodup_cons] at hn
    rcases List.mem_cons.1 h with h0 | hm
    · cases h0
      simp [List.lookup]
    · have hkm : k ∈ m.map Prod.fst := List.mem_map_of_mem Prod.fst hm
      have hne : k ≠ a1 := by
        intro heq
        rw [heq] at hkm
        exact hn.1 hkm
      have h1 : (k == a1) = false := by simpa using hne
      simp only [List.lookup, h1]
      exact ih hn.2 hm

/-! ## The registry of constraint templates -/

theorem statusEntries_cons (k : NamespacedName) (st : constrainttemplate.ctStatus)
    (rest : List (NamespacedName × constrainttemplate.ctStatus))
    (s : constrainttemplate.ctStatus) :
    statusEntries ((k, st) :: rest) s =
      if st = s then statusEntries rest s + 1 else statusEntries rest s := by
  unfold statusEntries
  by_cases h : st = s
  · simp [List.filter, h]
  · simp [List.filter, h]

/-- In a map, the keys holding a status are as many as the entries with that status. -/
theorem holding_eq (cache : List (NamespacedName × constrainttemplate.ctStatus))
    (s : constrainttemplate.ctStatus) (hn : (cache.map Prod.fst).Nodup) :
    holding cache s = (statusEntries cache s : Int) := by
  unfold holding statusEntries
  rw [List.filter_map, List.length_map]
  congr 2
  apply List.filter_congr
  intro kv hkv
  have hl : List.lookup kv.1 cache = some kv.2 := lookup_of_mem_nodup cache kv.1 kv.2 hn hkv
  simp [hl]

theorem increment_lookup_ne (t : List (constrainttemplate.ctStatus × Int))
    (st s : constrainttemplate.ctStatus) (h : s ≠ st) :
    List.lookup s (constrainttemplate.increment t st) = List.lookup s t := by
  unfold constrainttemplate.increment
  cases List.lookup st t with
  | none => exact lookup_assocSet_ne t st s _ h
  | some n => exact lookup_assocSet_ne t st s _ h

theorem increment_lookup_self (t : List (constrainttemplate.ctStatus × Int))
    (st : constrainttemplate.ctStatus) (n : Int) (h : List.lookup st t = some n) :
    List.lookup st (constrainttemplate.increment t st) = some (n + 1) := by
  unfold constrainttemplate.increment
  rw [h]
  exact lookup_assocSet_self t st _

theorem increment_nodup (t : List (constrainttemplate.ctStatus × Int))
    (st : constrainttemplate.ctStatus) (h : (t.map Prod.fst).Nodup) :
    ((constrainttemplate.increment t st).map Prod.fst).Nodup := by
  unfold constrainttemplate.increment
  cases List.lookup st t with
  | none => exact nodup_assocSet t st _ h
  | some n => exact nodup_assocSet t st _ h

theorem countTotals_nodup (cache : List (NamespacedName × constrainttemplate.ctStatus)) :
    ∀ t : List (constrainttemplate.ctStatus × Int), (t.map Prod.fst).Nodup →
      ((constrainttemplate.countTotals cache t).map Prod.fst).Nodup := by
  induction cache with
  | nil => intro t h; rw [constrainttemplate.countTotals]; exact h
  | cons a rest ih =>
    intro t h
    obtain ⟨k, st⟩ := a
    rw [constrainttemplate.countTotals]
    exact ih _ (increment_nodup t st h)

/-- The first loop adds to the total of a status the number of entries with it. -/
theorem countTotals_lookup (cache : List (NamespacedName × constrainttemplate.ctStatus)) :
    ∀ (t : List (constrainttemplate.ctStatus × Int)) (s : constrainttemplate.ctStatus)
      (n : Int), List.lookup s t = some n →
      List.lookup s (constrainttemplate.countTotals cache t) =
        some (n + (statusEntries cache s : Int)) := by
  induction cache with
  | nil =>
    intro t s n h
    rw [constrainttemplate.countTotals, h]
    simp [statusEntries]
  | cons a rest ih =>
    intro t s n h
    obtain ⟨k, st⟩ := a
    rw [constrainttemplate.countTotals, statusEntries_cons]
    by_cases hs : st = s
    · subst hs
      rw [ih _ st (n + 1) (increment_lookup_self t st n h), if_pos rfl]
      congr 1
      push_cast
      ring
    · rw [ih _ s n (by rw [increment_lookup_ne t st s (fun h2 => hs h2.symm)]; exact h),
        if_neg hs]

theorem reportCtCount_calls {σ : Type} (menv : MetricsEnv σ)
    (metrics : constrainttemplate.reporter) (status : constrainttemplate.ctStatus)
    (count : Int) (st : MSt σ) :
    ctCountCalls (constrainttemplate.reportCtCount menv metrics status count st).2.trace =
      ctCountCalls st.trace ++
        [(status, count, (constrainttemplate.reportCtCount menv metrics status count st).1)] := by
  unfold constrainttemplate.reportCtCount
  cases menv.tag_New metrics.ctx [Mutator.insert constrainttemplate.statusKey status] with
  | error err => simp [memit, ctCountCalls, List.filterMap_append]
  | ok ctx => simp [ctCountCalls, List.filterMap_append]

/-- The second loop calls `reportCtCount` once for every entry, in order, and leaves
`hadErr` false exactly when it was false and no call failed. -/
theorem reportTotals_calls {σ : Type} (menv : MetricsEnv σ)
    (metrics : constrainttemplate.reporter)
    (entries : List (constrainttemplate.ctStatus × Int)) :
    ∀ (hadErr : Bool) (st : MSt σ), ∃ calls : List (String × Int × Option Err),
      ctCountCalls (constrainttemplate.reportTotals menv metrics entries hadErr st).2.trace =
        ctCountCalls st.trace ++ calls ∧
      calls.map (fun c => (c.1, c.2.1)) = entries ∧
      ((constrainttemplate.reportTotals menv metrics entries hadErr st).1 = false ↔
        hadErr = false ∧ ∀ c, c ∈ calls → c.2.2 = none) := by
  induction entries with
  | nil =>
    intro hadErr st
    refine ⟨[], ?_, rfl, ?_⟩
    · rw [constrainttemplate.reportTotals]
      simp
    · rw [constrainttemplate.reportTotals]
      simp
  | cons e rest ih =>
    intro hadErr st
    obtain ⟨status, count⟩ := e
    have hcalls := reportCtCount_calls menv metrics status count st
    rw [constrainttemplate.reportTotals]
    rcases hrc : constrainttemplate.reportCtCount menv metrics status count st with ⟨res, st1⟩
    rw [hrc] at hcalls
    dsimp only at hcalls ⊢
    cases res with
    | some err =>
      obtain ⟨calls, h1, h2, h3⟩ := ih true
        (memit (MEvent.error err "failed to report total constraint templates") st1)
      have hlog : ctCountCalls
          (memit (MEvent.error err "failed to report total constraint templates") st1).trace =
          ctCountCalls st1.trace := by
        simp [memit, ctCountCalls, List.filterMap_append]
      refine ⟨(status, count, some err) :: calls, ?_, by simp [h2], ?_⟩
      · rw [h1, hlog, hcalls]
        simp
      · rw [h3]
        constructor
        · rintro ⟨h, _⟩
          cases h
        · rintro ⟨_, h⟩
          have := h (status, count, some err) (List.mem_cons_self _ _)
          cases this
    | none =>
      obtain ⟨calls, h1, h2, h3⟩ := ih hadErr st1
      refine ⟨(status, count, none) :: calls, ?_, by simp [h2], ?_⟩
      · rw [h1, hcalls]
        simp
      · rw [h3]
        constructor
        · rintro ⟨h, hall⟩
          refine ⟨h, ?_⟩
          intro c hc
          rcases List.mem_cons.1 hc with hc | hc
          · rw [hc]
          · exact hall c hc
        · rintro ⟨h, hall⟩
          exact ⟨h, fun c hc => hall c (List.mem_cons_of_mem _ hc)⟩

/-- The totals that `report` builds: one entry per status, and for `active` and `error`
the number of keys of the cache that hold it. -/
theorem countTotals_init (cache : List (NamespacedName × constrainttemplate.ctStatus))
    (hn : (cache.map Prod.fst).Nodup) (s : constrainttemplate.ctStatus)
    (hs : s = constrainttemplate.statusActive ∨ s = constrainttemplate.statusError) :
    ((constrainttemplate.countTotals cache
        [(constrainttemplate.statusError, 0), (constrainttemplate.statusActive, 0)]).map
          Prod.fst).Nodup ∧
      List.lookup s (constrainttemplate.countTotals cache
        [(constrainttemplate.statusError, 0), (constrainttemplate.statusActive, 0)]) =
          some (holding cache s) := by
  refine ⟨countTotals_nodup cache _ (by decide), ?_⟩
  rw [holding_eq cache s hn]
  have h0 : List.lookup s
      [(constrainttemplate.statusError, (0 : Int)), (constrainttemplate.statusActive, 0)] =
        some 0 := by
    rcases hs with hs | hs <;> subst hs <;> rfl
  rw [countTotals_lookup cache _ s 0 h0]
  simp

/-- Claim C29. Constraint-template registry reporting: `report` does nothing when `dirty`
is false; when `dirty` is true it calls `reportCtCount` exactly once for each of the
statuses `active` and `error`, with the number of cache keys holding that status (0 when
there is none), it clears `dirty` if and only if every call of `reportCtCount` succeeded,
and it leaves the cache as it was.  `add` of a key already holding the status and `remove`
of an absent key change nothing; every other `add` and `remove` changes the cache at that
key only and sets `dirty`. -/
theorem ctRegistry_report_add_remove {σ : Type} (menv : MetricsEnv σ)
    (order : List (constrainttemplate.ctStatus × Int) →
      List (constrainttemplate.ctStatus × Int))
    (horder : ∀ l, (order l).Perm l)
    (r : constrainttemplate.ctRegistry) (hmap : (r.cache.map Prod.fst).Nodup)
    (metrics : constrainttemplate.reporter) (st : MSt σ) :
    (r.dirty = false → r.report menv order metrics st = (r, st)) ∧
    (r.dirty = true →
      ∃ calls : List (String × Int × Option Err),
        ctCountCalls (r.report menv order metrics st).2.trace =
          ctCountCalls st.trace ++ calls ∧
        (∀ s, s = constrainttemplate.statusActive ∨ s = constrainttemplate.statusError →
          (calls.map (fun c => c.1)).count s = 1 ∧
          ∀ c, c ∈ calls → c.1 = s → c.2.1 = holding r.cache s) ∧
        ((r.report menv order metrics st).1.dirty = false ↔
          ∀ c, c ∈ calls → c.2.2 = none) ∧
        (r.report menv order metrics st).1.cache = r.cache) ∧
    (∀ (key : NamespacedName) (status : constrainttemplate.ctStatus),
      (r.cache.lookup key = some status → r.add key status = r) ∧
      (r.cache.lookup key ≠ some status →
        (r.add key status).dirty = true ∧
        (r.add key status).cache.lookup key = some status ∧
        (∀ k, k ≠ key → (r.add key status).cache.lookup k = r.cache.lookup k) ∧
        ((r.add key status).cache.map Prod.fst).Nodup)) ∧
    (∀ key : NamespacedName,
      (r.cache.lookup key = none → r.remove key = r) ∧
      (r.cache.lookup key ≠ none →
        (r.remove key).dirty = true ∧
        (r.remove key).cache.lookup key = none ∧
        (∀ k, k ≠ key → (r.remove key).cache.lookup k = r.cache.lookup k) ∧
        ((r.remove key).cache.map Prod.fst).Nodup)) := by
  refine ⟨?_, ?_, ?_, ?_⟩
  · intro hd
    unfold constrainttemplate.ctRegistry.report
    rw [hd]
    rfl
  · intro hd
    obtain ⟨calls, h1, h2, h3⟩ := reportTotals_calls menv metrics
      (order (constrainttemplate.countTotals r.cache
        [(constrainttemplate.statusError, 0), (constrainttemplate.statusActive, 0)]))
      false st
    have hrun : r.report menv order metrics st =
        match constrainttemplate.reportTotals menv metrics
          (order (constrainttemplate.countTotals r.cache
            [(constrainttemplate.statusError, 0), (constrainttemplate.statusActive, 0)]))
          false st with
        | (true, st1) => (r, st1)
        | (false, st1) => ({ r with dirty := false }, st1) := by
      unfold constrainttemplate.ctRegistry.report
      rw [hd]
      rfl
    refine ⟨calls, ?_, ?_, ?_, ?_⟩
    · rw [hrun]
      rcases hrt : constrainttemplate.reportTotals menv metrics
        (order (constrainttemplate.countTotals r.cache
          [(constrainttemplate.statusError, 0), (constrainttemplate.statusActive, 0)]))
        false st with ⟨b, st1⟩
      rw [hrt] at h1
      cases b <;> exact h1
    · intro s hs
      obtain ⟨hnd, hl⟩ := countTotals_init r.cache hmap s hs
      have hperm := horder (constrainttemplate.countTotals r.cache
        [(constrainttemplate.statusError, 0), (constrainttemplate.statusActive, 0)])
      have hkeys : calls.map (fun c => c.1) =
          (order (constrainttemplate.countTotals r.cache
            [(constrainttemplate.statusError, 0),
              (constrainttemplate.statusActive, 0)])).map Prod.fst := by
        rw [← h2, List.map_map]
        rfl
      constructor
      · rw [hkeys, (hperm.map Prod.fst).count_eq]
        exact List.count_eq_one_of_mem hnd
          (List.mem_map_of_mem Prod.fst (mem_of_lookup _ _ _ hl))
      · intro c hc hcs
        have hmem : (c.1, c.2.1) ∈ order (constrainttemplate.countTotals r.cache
            [(constrainttemplate.statusError, 0), (constrainttemplate.statusActive, 0)]) := by
          rw [← h2]
          exact List.mem_map_of_mem (fun c => (c.1, c.2.1)) hc
        have hmem2 := hperm.mem_iff.1 hmem
        have hl2 := lookup_of_mem_nodup _ _ _ hnd hmem2
        rw [hcs, hl] at hl2
        exact (Option.some.inj hl2).symm
    · rw [hrun]
      rcases hrt : constrainttemplate.reportTotals menv metrics
        (order (constrainttemplate.countTotals r.cache
          [(constrainttemplate.statusError, 0), (constrainttemplate.statusActive, 0)]))
        false st with ⟨b, st1⟩
      rw [hrt] at h3
      cases b with
      | true =>
        dsimp only
        rw [hd]
        constructor
        · intro h; cases h
        · intro h
          have := h3.2 ⟨rfl, h⟩
          cases this
      | false =>
        dsimp only
        exact ⟨fun _ => (h3.1 rfl).2, fun _ => rfl⟩
    · rw [hrun]
      rcases hrt : constrainttemplate.reportTotals menv metrics
        (order (constrainttemplate.countTotals r.cache
          [(constrainttemplate.statusError, 0), (constrainttemplate.statusActive, 0)]))
        false st with ⟨b, st1⟩
      cases b <;> rfl
  · intro key status
    constructor
    · intro h
      unfold constrainttemplate.ctRegistry.add
      rw [h]
      simp
    · intro h
      have hadd : r.add key status =
          { cache := assocSet r.cache key status, dirty := true } := by
        unfold constrainttemplate.ctRegistry.add
        cases hl : List.lookup key r.cache with
        | none => rfl
        | some v =>
          have hv : v ≠ status := by
            intro hv
            rw [hl, hv] at h
            exact h rfl
          simp [hv]
      rw [hadd]
      exact ⟨rfl, lookup_assocSet_self _ _ _, fun k hk => lookup_assocSet_ne _ _ _ _ hk,
        nodup_assocSet _ _ _ hmap⟩
  · intro key
    constructor
    · intro h
      unfold constrainttemplate.ctRegistry.remove
      rw [h]
    · intro h
      have hrem : r.remove key = { cache := assocErase r.cache key, dirty := true } := by
        unfold constrainttemplate.ctRegistry.remove
        cases hl : List.lookup key r.cache with
        | none => exact absurd hl h
        | some v => rfl
      rw [hrem]
      exact ⟨rfl, lookup_filter_bne_self _ _, fun k hk => lookup_filter_bne _ _ _ hk,
        nodup_assocErase _ _ hmap⟩

/-- Witness for C29: a dirty registry with two active templates and one in error, the
totals taken in reverse order, the sink accepting everything. -/
theorem ctRegistry_report_add_remove_witness :
    ctCountCalls (sampleRegistry.report (simMetrics none) List.reverse
      { ctx := [], registry := sampleRegistry } { ext := 0, trace := [] }).2.trace =
        [("error", 1, none), ("active", 2, none)] ∧
    (sampleRegistry.report (simMetrics none) List.reverse
      { ctx := [], registry := sampleRegistry } { ext := 0, trace := [] }).1.cache =
        sampleRegistry.cache ∧
    (sampleRegistry.report (simMetrics none) List.reverse
      { ctx := [], registry := sampleRegistry } { ext := 0, trace := [] }).1.dirty = false :=
  ⟨by rfl,
    ((ctRegistry_report_add_remove (simMetrics none) List.reverse
      (fun l => List.reverse_perm l) sampleRegistry (by decide)
      { ctx := [], registry := sampleRegistry } { ext := 0, trace := [] }).2.1 rfl).choose_spec.2.2.2,
    by rfl⟩

end Rotator
